import Mathlib

/-!
# Font atlas build-and-cache subsystem (`src/renderercommon/tr_font.cpp`)

A shallow embedding of the font registration code of the renderer: the glyph
packer `RE_ConstructGlyphInfo`, the page-building loops and the cache decoder of
`RE_RegisterFont` / `RE_RegisterNewFont`, the bounded registry and
`RE_GaussianKernel`, followed by the properties proved about them.

Conventions of the embedding.

* C `int` values are `Int`; where an `int` expression of the code can leave
  the 32-bit range (the sizes and indices of `RE_GaussianKernel` and
  `WriteTGA`) it is wrapped to 32 bits (`wrapInt`). The cache file and the
  canvas hold bytes as `Nat` (every value below 256).
* A `char[N]` field is represented by its C-string content (the bytes before
  the first NUL); the remainder of such a field is zero filled in every record
  the code builds (`Com_Memset` followed by `Q_strncpyz`).
* `float` is a type parameter `F` with the operations the code applies to it
  (`FloatOps`): the builder needs conversion from `int`, `+`, `*`, `/`; the
  codec needs the 32-bit object representation, which is IEEE 754 binary32
  (`ieeeRepr`) wherever a concrete file is decoded. Where rounding matters (the
  texture coordinates, the normalization of a page) the instance `binary32Ops`
  rounds every operation to 24 significant bits.
* External collaborators (FreeType, the filesystem, shader registration) are
  fields of `World`; effects are recorded in a ghost trace `Event`.
-/

namespace TrFont

/-! ## Constants -/

/-- Side of the square canvas: `#define CANVAS_SIZE 1024`. -/
def CANVAS_SIZE : Int := 1024

/-- Rasterisation resolution: `#define DPI 72*2`. -/
def DPI : Int := 72 * 2

/-- Capacity of the registry: `#define MAX_FONTS 9`. -/
def MAX_FONTS : Nat := 9

/-- Size of the local buffer `char name[1024]` of both registration functions. -/
def NAME_BUF : Nat := 1024

/-- Modelled from the spec: the constants of `tr_types.h` / `q_shared.h`, which
`tr_font.cpp` uses and the sources at hand do not declare: the glyph index
range `[GLYPH_START, GLYPH_END]`, the number of glyph slots of a record, the
number of shadow levels, and the widths of the two fixed-width strings
(`name`, `shaderName`). -/
structure Layout where
  GLYPH_START : Nat
  GLYPH_END : Nat
  GLYPHS_PER_FONT : Nat
  FONT_MAXSHADOW : Nat
  MAX_QPATH : Nat
  SHADERNAME_LEN : Nat
  deriving DecidableEq, Repr

/-! ## Floats -/

/-- The arithmetic the code performs on `float` values: the all-zero value
left by `Com_Memset`, the conversion `(float)i`, `+`, `*`, `/`, and
`(int)ceil(x)`. -/
structure FloatOps (F : Type) where
  zero : F
  ofInt : Int → F
  add : F → F → F
  mul : F → F → F
  div : F → F → F
  ceil : F → Int

/-- The 32-bit object representation of a `float`, which the union `poor` of
`readFloat` and the raw record dump of `FS_WriteFile` go through. -/
structure FloatRepr (F : Type) where
  ofBits : Nat → F
  toBits : F → Nat

/-- Exact arithmetic on rationals: the arithmetic of `float` without its
rounding. The packer forms `k / 1024` and sums of two such values; while the
cell is less than `2^24` pixels wide binary32 represents all of them exactly and
the packer computes the same in `binary32Ops` (`construct_binary32`); the
property of the texture coordinates is stated over `binary32Ops`. -/
def exactOps : FloatOps ℚ :=
  { zero := 0, ofInt := fun i => (i : ℚ), add := fun a b => a + b, mul := fun a b => a * b,
    div := fun a b => a / b, ceil := fun a => Int.ceil a }

/-- A `float` taken as its 32-bit pattern. -/
def wordRepr : FloatRepr (Fin 4294967296) :=
  { ofBits := fun n => Fin.ofNat n, toBits := fun x => x.val }

/-- The value of the IEEE 754 binary32 pattern `n` (sign bit, 8 exponent bits
`e`, 23 fraction bits `m`), as a rational: `± m * 2^-149` for `e = 0` and
`± (2^23 + m) * 2^(e - 150)` otherwise. The patterns with exponent field 255
(infinities and NaN) are given the value the formula of the normal numbers
yields, so that every pattern has a value; `-0` has the value 0. -/
def ieeeValue (n : Nat) : ℚ :=
  let sign : ℚ := if n / 2147483648 % 2 = 1 then -1 else 1
  let e := n / 8388608 % 256
  let m := n % 8388608
  if e = 0 then sign * (m : ℚ) / 2 ^ 149
  else sign * (((8388608 + m) * 2 ^ (e - 1) : Nat) : ℚ) / 2 ^ 149

/-- The binary32 pattern of a rational that is a binary32 value: the inverse of
`ieeeValue`, with the pattern 0 for the value 0. For a rational between two
binary32 values the fraction is cut off, and a rational beyond the range gets
the largest pattern of its sign. -/
def ieeeBits (x : ℚ) : Nat :=
  if x = 0 then 0
  else
    let sign : Nat := if x < 0 then 2147483648 else 0
    let e := Int.log 2 |x|
    if e < -126 then sign + ⌊|x| * 2 ^ 149⌋.toNat
    else if 128 < e then sign + 2147483647
    else sign + (e + 127).toNat * 8388608 + (⌊|x| * (2 : ℚ) ^ (23 - e)⌋.toNat - 8388608)

/-- The object representation of a `float` on the hosts of the engine: IEEE 754
binary32, with the value of a `float` taken as a rational. -/
def ieeeRepr : FloatRepr ℚ := { ofBits := ieeeValue, toBits := ieeeBits }

/-! ## Records -/

/-- Per-glyph record `glyphInfo_t`, in the field order the decoder reads. -/
structure glyphInfo_t (F : Type) where
  height : Int
  top : Int
  bottom : Int
  pitch : Int
  xSkip : Int
  imageWidth : Int
  imageHeight : Int
  s : F
  t : F
  s2 : F
  t2 : F
  glyph : Int
  shaderName : List Nat
  deriving DecidableEq

/-- Legacy record `fontInfo_t`. -/
structure fontInfo_t (F : Type) where
  glyphs : List (glyphInfo_t F)
  glyphScale : F
  name : List Nat
  deriving DecidableEq

/-- One shadow level of `newFontInfo_t` (`font->shadows[l]`). The flag
`available` is only ever assigned `1` or the outcome of a comparison, and a
cleared record holds 0, so it is a Boolean. -/
structure shadowInfo_t (F : Type) where
  glyphs : List (glyphInfo_t F)
  margin : Int
  available : Bool
  deriving DecidableEq

/-- Multi-shadow record `newFontInfo_t`; its first three fields are laid out as
`fontInfo_t`, which is what lets `RE_RegisterFont` copy a `fontInfo_t` over the
start of a registry slot. -/
structure newFontInfo_t (F : Type) where
  glyphs : List (glyphInfo_t F)
  glyphScale : F
  name : List Nat
  shadows : List (shadowInfo_t F)
  deriving DecidableEq

/-- The glyph record after `Com_Memset(&glyph, 0, sizeof(glyphInfo_t))`. -/
def zeroGlyph {F : Type} (ops : FloatOps F) : glyphInfo_t F :=
  { height := 0, top := 0, bottom := 0, pitch := 0, xSkip := 0,
    imageWidth := 0, imageHeight := 0,
    s := ops.zero, t := ops.zero, s2 := ops.zero, t2 := ops.zero,
    glyph := 0, shaderName := [] }

/-- A shadow level after `Com_Memset`. -/
def zeroShadow {F : Type} (ops : FloatOps F) (L : Layout) : shadowInfo_t F :=
  { glyphs := List.replicate L.GLYPHS_PER_FONT (zeroGlyph ops), margin := 0, available := false }

/-- The record after `Com_Memset(font, 0, sizeof(fontInfo_t))`. -/
def zeroFont {F : Type} (ops : FloatOps F) (L : Layout) : fontInfo_t F :=
  { glyphs := List.replicate L.GLYPHS_PER_FONT (zeroGlyph ops), glyphScale := ops.zero, name := [] }

/-- The record after `Com_Memset(font, 0, sizeof(newFontInfo_t))`. -/
def zeroNewFont {F : Type} (ops : FloatOps F) (L : Layout) : newFontInfo_t F :=
  { glyphs := List.replicate L.GLYPHS_PER_FONT (zeroGlyph ops), glyphScale := ops.zero, name := [],
    shadows := List.replicate L.FONT_MAXSHADOW (zeroShadow ops L) }

/-- The eleven metric fields of a glyph (everything but the shader handle and
the shader name). -/
def glyphInfo_t.metrics {F : Type} (g : glyphInfo_t F) :
    Int × Int × Int × Int × Int × Int × Int × F × F × F × F :=
  (g.height, g.top, g.bottom, g.pitch, g.xSkip, g.imageWidth, g.imageHeight, g.s, g.t, g.s2, g.t2)

/-! ## Strings -/

/-- Bytes of a string literal. -/
def str (s : String) : List Nat := s.toList.map Char.toNat

/-- Decimal rendering of an `int` as `%i` prints it. -/
def fmtInt (n : Int) : List Nat := str (toString n)

/-- Modelled from the spec: `Q_strncpyz` of `q_shared.c` (not among the
sources): a bounded copy that stops at the first NUL, keeps at most
`destsize - 1` characters and zero fills the rest of the destination. -/
def Q_strncpyz (src : List Nat) (destsize : Nat) : List Nat :=
  (src.takeWhile (fun b => b != 0)).take (destsize - 1)

/-- Upper-casing of one character as `Q_stricmp` does it. -/
def upperChar (c : Nat) : Nat := if 97 ≤ c ∧ c ≤ 122 then c - 32 else c

/-- Modelled from the spec: `Q_stricmp` of `q_shared.c` (not among the
sources): case-insensitive string comparison; `true` stands for the result 0. -/
def Q_stricmp_eq (a b : List Nat) : Bool := a.map upperChar == b.map upperChar

/-- Modelled from the spec: `Com_sprintf(name, sizeof(name), ...)`: the
formatted text, cut to the buffer. -/
def Com_sprintf (size : Nat) (text : List Nat) : List Nat := text.take (size - 1)

/-! ## Cache decoder -/

/-- Conversion `unsigned int` to `int` of a 32-bit word. -/
def toInt32 (u : Nat) : Int := if u % 4294967296 < 2147483648 then (u % 4294967296 : Nat) else (u % 4294967296 : Nat) - 4294967296

/-- The value of an `int` expression whose mathematical result is `n`: the
32-bit two's-complement value. -/
def wrapInt (n : Int) : Int := toInt32 (n % 4294967296).toNat

/-- Byte `fdFile[off]`. -/
def byteAt (fdFile : List Nat) (off : Nat) : Nat := fdFile.getD off 0

/-- The 32-bit word assembled from four bytes, least significant first. -/
def word32 (fdFile : List Nat) (off : Nat) : Nat :=
  byteAt fdFile off ||| (byteAt fdFile (off + 1) <<< 8) ||| (byteAt fdFile (off + 2) <<< 16)
    ||| (byteAt fdFile (off + 3) <<< 24)

/-- Decoder `readInt`: returns the value and the advanced `fdOffset`. -/
def readInt (fdFile : List Nat) (fdOffset : Nat) : Int × Nat :=
  (toInt32 (word32 fdFile fdOffset), fdOffset + 4)

/-- Decoder `readFloat` (the `Q3_LITTLE_ENDIAN` branch): the four bytes are
copied in order into the union and read back as a float. -/
def readFloat {F : Type} (ops : FloatRepr F) (fdFile : List Nat) (fdOffset : Nat) : F × Nat :=
  (ops.ofBits (word32 fdFile fdOffset), fdOffset + 4)

/-- One iteration of the glyph-reading loop (lines 391-404, 696-709, 725-738). -/
def readGlyph {F : Type} (ops : FloatRepr F) (L : Layout) (fdFile : List Nat) (o0 : Nat) :
    glyphInfo_t F × Nat :=
  let (height, o1) := readInt fdFile o0
  let (top, o2) := readInt fdFile o1
  let (bottom, o3) := readInt fdFile o2
  let (pitch, o4) := readInt fdFile o3
  let (xSkip, o5) := readInt fdFile o4
  let (imageWidth, o6) := readInt fdFile o5
  let (imageHeight, o7) := readInt fdFile o6
  let (s, o8) := readFloat ops fdFile o7
  let (t, o9) := readFloat ops fdFile o8
  let (s2, o10) := readFloat ops fdFile o9
  let (t2, o11) := readFloat ops fdFile o10
  let (glyph, o12) := readInt fdFile o11
  let shaderName := Q_strncpyz (fdFile.drop o12) L.SHADERNAME_LEN
  ({ height := height, top := top, bottom := bottom, pitch := pitch, xSkip := xSkip,
     imageWidth := imageWidth, imageHeight := imageHeight, s := s, t := t, s2 := s2, t2 := t2,
     glyph := glyph, shaderName := shaderName }, o12 + L.SHADERNAME_LEN)

/-- The loop `for (i = 0; i < GLYPHS_PER_FONT; i++)` over `readGlyph`. -/
def readGlyphs {F : Type} (ops : FloatRepr F) (L : Layout) (fdFile : List Nat) :
    Nat → Nat → List (glyphInfo_t F) × Nat
  | 0, off => ([], off)
  | n + 1, off =>
    let (g, off1) := readGlyph ops L fdFile off
    let (gs, off2) := readGlyphs ops L fdFile n off1
    (g :: gs, off2)

/-- One iteration of the shadow-reading loop (lines 721-748). -/
def readShadow {F : Type} (ops : FloatRepr F) (L : Layout) (fdFile : List Nat) (off : Nat) :
    shadowInfo_t F × Nat :=
  let (gs, o1) := readGlyphs ops L fdFile L.GLYPHS_PER_FONT off
  let (margin, o2) := readInt fdFile o1
  let (avail, o3) := readInt fdFile o2
  ({ glyphs := gs, margin := margin, available := decide (avail = 1) }, o3)

/-- The loop `for (i = 0; i < FONT_MAXSHADOW; i++)` over `readShadow`. -/
def readShadows {F : Type} (ops : FloatRepr F) (L : Layout) (fdFile : List Nat) :
    Nat → Nat → List (shadowInfo_t F) × Nat
  | 0, off => ([], off)
  | n + 1, off =>
    let (sh, off1) := readShadow ops L fdFile off
    let (shs, off2) := readShadows ops L fdFile n off1
    (sh :: shs, off2)

/-- Apply `f` to the entries with index in `[a, b)`; `k` is the index of the
head of the list. This is the shape of every `for (j = a; j < b; j++)` loop
that writes `glyphs[j]`. -/
def updateRange {α : Type} (f : α → α) (a b : Nat) : Nat → List α → List α
  | _, [] => []
  | k, x :: xs => (if a ≤ k ∧ k < b then f x else x) :: updateRange f a b (k + 1) xs

/-- The loop `for (i = GLYPH_START; i <= GLYPH_END; i++)
glyphs[i].glyph = RE_RegisterShaderNoMip(glyphs[i].shaderName)`. -/
def registerGlyphShaders {F : Type} (L : Layout) (noMip : List Nat → Int)
    (gs : List (glyphInfo_t F)) : List (glyphInfo_t F) :=
  updateRange (fun g => { g with glyph := noMip g.shaderName }) L.GLYPH_START (L.GLYPH_END + 1) 0 gs

/-- Size in bytes of one `glyphInfo_t`: twelve 4-byte fields and the shader name. -/
def glyphSize (L : Layout) : Nat := 48 + L.SHADERNAME_LEN

/-- Value of `sizeof(fontInfo_t)`. -/
def fontInfoSize (L : Layout) : Nat := L.GLYPHS_PER_FONT * glyphSize L + 4 + L.MAX_QPATH

/-- Size of one shadow level: its glyphs, `margin` and `available`. -/
def shadowSize (L : Layout) : Nat := L.GLYPHS_PER_FONT * glyphSize L + 8

/-- Value of `sizeof(newFontInfo_t)`. -/
def newFontInfoSize (L : Layout) : Nat := fontInfoSize L + L.FONT_MAXSHADOW * shadowSize L

/-- The cache-hit decoder of `RE_RegisterFont` (lines 387-413): `name` is the
cache key; the name stored in the file is copied and then overwritten. -/
def decodeFont {F : Type} (ops : FloatRepr F) (L : Layout) (noMip : List Nat → Int)
    (name : List Nat) (fdFile : List Nat) : fontInfo_t F :=
  let (gs, o1) := readGlyphs ops L fdFile L.GLYPHS_PER_FONT 0
  let (scale, _) := readFloat ops fdFile o1
  { glyphs := registerGlyphShaders L noMip gs, glyphScale := scale,
    name := Q_strncpyz name L.MAX_QPATH }

/-- The cache-hit decoder of `RE_RegisterNewFont` (lines 690-759). -/
def decodeNewFont {F : Type} (ops : FloatRepr F) (L : Layout) (noMip : List Nat → Int)
    (name : List Nat) (fdFile : List Nat) : newFontInfo_t F :=
  let (gs, o1) := readGlyphs ops L fdFile L.GLYPHS_PER_FONT 0
  let (scale, o2) := readFloat ops fdFile o1
  let o3 := o2 + L.MAX_QPATH
  let (shs, _) := readShadows ops L fdFile L.FONT_MAXSHADOW o3
  { glyphs := registerGlyphShaders L noMip gs, glyphScale := scale,
    name := Q_strncpyz name L.MAX_QPATH,
    shadows := shs.map (fun sh =>
      if sh.available then { sh with glyphs := registerGlyphShaders L noMip sh.glyphs } else sh) }

/-! ## Record dump (what `FS_WriteFile(..., font, sizeof(newFontInfo_t))` writes) -/

/-- Memory image of an `int` on a little-endian host. -/
def dumpInt (n : Int) : List Nat :=
  let u := (n % 4294967296).toNat
  [u % 256, u / 256 % 256, u / 65536 % 256, u / 16777216 % 256]

/-- Memory image of a `float`: its 32-bit object representation, little-endian. -/
def dumpFloat {F : Type} (ops : FloatRepr F) (x : F) : List Nat :=
  let u := ops.toBits x % 4294967296
  [u % 256, u / 256 % 256, u / 65536 % 256, u / 16777216 % 256]

/-- Memory image of a zero-filled `char[w]` holding the C string `s`. -/
def dumpStr (w : Nat) (s : List Nat) : List Nat := (s ++ List.replicate w 0).take w

/-- Memory image of a `glyphInfo_t`. -/
def dumpGlyph {F : Type} (ops : FloatRepr F) (L : Layout) (g : glyphInfo_t F) : List Nat :=
  dumpInt g.height ++ dumpInt g.top ++ dumpInt g.bottom ++ dumpInt g.pitch ++ dumpInt g.xSkip
    ++ dumpInt g.imageWidth ++ dumpInt g.imageHeight
    ++ dumpFloat ops g.s ++ dumpFloat ops g.t ++ dumpFloat ops g.s2 ++ dumpFloat ops g.t2
    ++ dumpInt g.glyph ++ dumpStr L.SHADERNAME_LEN g.shaderName

/-- Memory image of a glyph array. -/
def dumpGlyphs {F : Type} (ops : FloatRepr F) (L : Layout) : List (glyphInfo_t F) → List Nat
  | [] => []
  | g :: gs => dumpGlyph ops L g ++ dumpGlyphs ops L gs

/-- Memory image of one shadow level. -/
def dumpShadow {F : Type} (ops : FloatRepr F) (L : Layout) (sh : shadowInfo_t F) : List Nat :=
  dumpGlyphs ops L sh.glyphs ++ dumpInt sh.margin ++ dumpInt (if sh.available then 1 else 0)

/-- Memory image of the shadow array. -/
def dumpShadows {F : Type} (ops : FloatRepr F) (L : Layout) : List (shadowInfo_t F) → List Nat
  | [] => []
  | sh :: shs => dumpShadow ops L sh ++ dumpShadows ops L shs

/-- Modelled from the spec: the flat record that
`ri.FS_WriteFile(va("fonts/%s_%i.dat", ...), font, sizeof(newFontInfo_t))`
writes. The declaration of `newFontInfo_t` is not among the sources; the
layout is the one of the Binary Codec section: the glyphs in per-glyph field
order, the scale factor, the name, then per shadow level its glyphs, its
margin and its availability flag, each scalar a 4-byte little-endian word
without padding. -/
def dumpNewFont {F : Type} (ops : FloatRepr F) (L : Layout) (r : newFontInfo_t F) : List Nat :=
  dumpGlyphs ops L r.glyphs ++ dumpFloat ops r.glyphScale ++ dumpStr L.MAX_QPATH r.name
    ++ dumpShadows ops L r.shadows

/-- Modelled from the spec: the flat record of a legacy `fontInfo_t`. -/
def dumpFont {F : Type} (ops : FloatRepr F) (L : Layout) (r : fontInfo_t F) : List Nat :=
  dumpGlyphs ops L r.glyphs ++ dumpFloat ops r.glyphScale ++ dumpStr L.MAX_QPATH r.name

/-- An `int` field holds a 32-bit two's-complement value. -/
def isInt32 (n : Int) : Prop := -2147483648 ≤ n ∧ n < 2147483648

instance (n : Int) : Decidable (isInt32 n) := by unfold isInt32; infer_instance

/-- The integer fields of a glyph are C `int`s. -/
def glyphInt32 {F : Type} (g : glyphInfo_t F) : Prop :=
  isInt32 g.height ∧ isInt32 g.top ∧ isInt32 g.bottom ∧ isInt32 g.pitch ∧ isInt32 g.xSkip
    ∧ isInt32 g.imageWidth ∧ isInt32 g.imageHeight ∧ isInt32 g.glyph

/-- Well-formedness of a multi-shadow record for the layout `L`: the arrays
have their declared sizes and every integer field is a C `int`. -/
def newFontWF {F : Type} (L : Layout) (r : newFontInfo_t F) : Prop :=
  r.glyphs.length = L.GLYPHS_PER_FONT ∧ (∀ g ∈ r.glyphs, glyphInt32 g)
    ∧ r.shadows.length = L.FONT_MAXSHADOW
    ∧ ∀ sh ∈ r.shadows, sh.glyphs.length = L.GLYPHS_PER_FONT ∧ (∀ g ∈ sh.glyphs, glyphInt32 g)
        ∧ isInt32 sh.margin

/-- What is compared of a shadow level: the metrics of its glyphs, its margin
and its availability flag. -/
def shadowInfo_t.summary {F : Type} (sh : shadowInfo_t F) :
    List (Int × Int × Int × Int × Int × Int × Int × F × F × F × F) × Int × Bool :=
  (sh.glyphs.map glyphInfo_t.metrics, sh.margin, sh.available)

/-- A small layout for evaluating scenarios: glyph indices 0..2 of which
`[1, 2]` is the rendered range, one shadow level, names of the engine's widths. -/
def tinyLayout : Layout :=
  { GLYPH_START := 1, GLYPH_END := 2, GLYPHS_PER_FONT := 3, FONT_MAXSHADOW := 1,
    MAX_QPATH := 64, SHADERNAME_LEN := 32 }

/-- As `tinyLayout`, for a record without shadow levels. -/
def flatLayout : Layout :=
  { GLYPH_START := 1, GLYPH_END := 2, GLYPHS_PER_FONT := 3, FONT_MAXSHADOW := 0,
    MAX_QPATH := 64, SHADERNAME_LEN := 32 }

/-- The layout of the engine headers: 256 glyph slots, all of them rendered,
64-byte names (`MAX_QPATH`) and 32-byte shader names; `shadows` levels. -/
def engineLayout (shadows : Nat) : Layout :=
  { GLYPH_START := 0, GLYPH_END := 255, GLYPHS_PER_FONT := 256, FONT_MAXSHADOW := shadows,
    MAX_QPATH := 64, SHADERNAME_LEN := 32 }

/-- A sample glyph over bit-pattern floats. -/
def sampleGlyph (h : Int) : glyphInfo_t (Fin 4294967296) :=
  { height := h, top := h + 1, bottom := -3, pitch := 8, xSkip := 9, imageWidth := 8,
    imageHeight := h, s := 1056964608, t := 0, s2 := 1065353216, t2 := 1048576000,
    glyph := 5, shaderName := str "f_0.tga" }

/-- A sample multi-shadow record for `tinyLayout`. -/
def sampleRecord : newFontInfo_t (Fin 4294967296) :=
  { glyphs := [sampleGlyph 0, sampleGlyph 7, sampleGlyph (-2)], glyphScale := 1073741824,
    name := str "f_12.da",
    shadows := [{ glyphs := [sampleGlyph 1, sampleGlyph 2, sampleGlyph 3], margin := 6,
                  available := true }] }

/-! ## FreeType side -/

/-- `_FLOOR(x)`, that is `(x) & -64`: round down to a multiple of 64 (two's
complement clears the six low bits). -/
def _FLOOR (x : Int) : Int := x / 64 * 64

/-- `_CEIL(x)`, that is `((x)+63) & -64`: round up to a multiple of 64. -/
def _CEIL (x : Int) : Int := (x + 63) / 64 * 64

/-- `_TRUNC(x)`, that is `(x) >> 6` (arithmetic shift: division by 64 rounding down). -/
def _TRUNC (x : Int) : Int := x / 64

/-- What the code reads of `face->glyph` after `FT_Load_Glyph`: the format
tag, the metrics in 26.6 fixed point, and `coverage`, the bytes that
`FT_Outline_Get_Bitmap` leaves in the zeroed bitmap buffer. -/
structure GlyphSlot where
  outline : Bool
  horiBearingX : Int
  horiBearingY : Int
  width : Int
  height : Int
  horiAdvance : Int
  coverage : Nat → Nat

/-- A sized face: the glyph slot that loading character `c` produces. -/
def Face : Type := Nat → GlyphSlot

/-- Pixel format of a bitmap (`ft_pixel_mode_grays` / `ft_pixel_mode_mono`). -/
inductive PixelMode
  | grays
  | mono
  deriving DecidableEq

/-- The fields of `FT_Bitmap` that `R_RenderGlyph` fills. -/
structure FT_Bitmap where
  width : Int
  rows : Int
  pitch : Int
  pixel_mode : PixelMode
  buffer : Nat → Nat

/-- Output parameters of `R_GetGlyphInfo`. -/
structure GlyphBox where
  left : Int
  right : Int
  width : Int
  top : Int
  bottom : Int
  height : Int
  pitch : Int

/-- Function `R_GetGlyphInfo`; the pitch is `(width+3) & -4`. -/
def R_GetGlyphInfo (glyph : GlyphSlot) : GlyphBox :=
  let left := _FLOOR glyph.horiBearingX
  let right := _CEIL (glyph.horiBearingX + glyph.width)
  let width := _TRUNC (right - left)
  let top := _CEIL glyph.horiBearingY
  let bottom := _FLOOR (glyph.horiBearingY - glyph.height)
  let height := _TRUNC (top - bottom)
  let pitch := (width + 3) / 4 * 4
  { left := left, right := right, width := width, top := top, bottom := bottom,
    height := height, pitch := pitch }

/-- Function `R_RenderGlyph`: for an outline glyph the bitmap and `glyphOut`
with `height`, `pitch`, `top`, `bottom` set; otherwise no bitmap (`NULL`) and
`glyphOut` untouched. -/
def R_RenderGlyph {F : Type} (glyph : GlyphSlot) (glyphOut : glyphInfo_t F) :
    Option FT_Bitmap × glyphInfo_t F :=
  let b := R_GetGlyphInfo glyph
  if glyph.outline then
    (some { width := b.width, rows := b.height, pitch := b.pitch, pixel_mode := PixelMode.grays,
            buffer := glyph.coverage },
     { glyphOut with height := b.height, pitch := b.pitch,
                     top := glyph.horiBearingY / 64 + 1, bottom := b.bottom })
  else (none, glyphOut)

/-! ## The packer -/

/-- The canvas `imageOut`: the byte at each index. Indices are `Int` so that
every address the code computes has a meaning; the allocated canvas is
`[0, CANVAS_SIZE * CANVAS_SIZE)`. -/
def Canvas : Type := Int → Nat

/-- A canvas of zeros, as `Com_Memset(out, 0, CANVAS_SIZE*CANVAS_SIZE)` makes
the freshly allocated one. -/
def zeroCanvas : Canvas := fun _ => 0

/-- Row copy `Com_Memcpy(dst, src, n)` from the bitmap buffer at `srcOff`. -/
def copyRow (canvas : Canvas) (dst : Int) (buffer : Nat → Nat) (srcOff : Int) (n : Int) : Canvas :=
  fun k => if dst ≤ k ∧ k < dst + n then buffer (srcOff + (k - dst)).toNat else canvas k

/-- One row of the 1-bit branch (lines 260-278): pixel `j` is set to `0xff`
when bit `7 - j % 8` of source byte `j / 8` is set, and left alone otherwise. -/
def monoRow (canvas : Canvas) (dst : Int) (buffer : Nat → Nat) (srcOff : Int) (n : Int) : Canvas :=
  fun k =>
    if dst ≤ k ∧ k < dst + n then
      if (buffer (srcOff + (k - dst) / 8).toNat / 2 ^ (7 - ((k - dst) % 8).toNat)) % 2 = 1 then 255
      else canvas k
    else canvas k

/-- The copy loops of lines 255-289: row `i` of the bitmap goes to
`dst + i * CANVAS_SIZE`. -/
def blit (canvas : Canvas) (dst : Int) (bitmap : FT_Bitmap) (height pitch : Int) : Canvas :=
  (List.range height.toNat).foldl
    (fun cv i =>
      match bitmap.pixel_mode with
      | PixelMode.mono => monoRow cv (dst + i * CANVAS_SIZE) bitmap.buffer (i * pitch) pitch
      | PixelMode.grays => copyRow cv (dst + i * CANVAS_SIZE) bitmap.buffer (i * pitch) pitch)
    canvas

/-- The in/out parameters of `RE_ConstructGlyphInfo`: the canvas, the cursor
and `maxHeight`. -/
structure PackState where
  imageOut : Canvas
  xOut : Int
  yOut : Int
  maxHeight : Int

/-- Function `RE_ConstructGlyphInfo`: returns the static `glyph` and the
updated in/out parameters. `face = none` stands for a `NULL` face. -/
def RE_ConstructGlyphInfo {F : Type} (ops : FloatOps F) (st : PackState) (face : Option Face)
    (c : Nat) (calcHeight : Bool) (margin : Int) : glyphInfo_t F × PackState :=
  let glyph0 : glyphInfo_t F := zeroGlyph ops
  match face with
  | none => (glyph0, st)
  | some f =>
    let slot := f c
    match R_RenderGlyph slot glyph0 with
    | (none, g) => (g, st)
    | (some bitmap, g) =>
      let glyph1 := { g with xSkip := slot.horiAdvance / 64 + 1 }
      let maxHeight := if glyph1.height > st.maxHeight then glyph1.height else st.maxHeight
      if calcHeight then (glyph1, { st with maxHeight := maxHeight })
      else
        let margedMaxHeight := maxHeight + margin * 2
        let scaled_width := glyph1.pitch + margin * 2
        let scaled_height := glyph1.height + margin * 2
        let x1 := if st.xOut + scaled_width + 1 ≥ CANVAS_SIZE - 1 then 0 else st.xOut
        let y1 := if st.xOut + scaled_width + 1 ≥ CANVAS_SIZE - 1 then st.yOut + margedMaxHeight + 1
                  else st.yOut
        if y1 + margedMaxHeight + 1 ≥ CANVAS_SIZE - 1 then
          (glyph1, { st with xOut := -1, yOut := -1, maxHeight := maxHeight })
        else
          let dst := (y1 + margin) * CANVAS_SIZE + (x1 + margin)
          let canvas := blit st.imageOut dst bitmap glyph1.height glyph1.pitch
          let s := ops.div (ops.ofInt x1) (ops.ofInt CANVAS_SIZE)
          let t := ops.div (ops.ofInt y1) (ops.ofInt CANVAS_SIZE)
          ({ glyph1 with imageHeight := scaled_height, imageWidth := scaled_width, s := s, t := t,
                         s2 := ops.add s (ops.div (ops.ofInt scaled_width) (ops.ofInt CANVAS_SIZE)),
                         t2 := ops.add t (ops.div (ops.ofInt scaled_height) (ops.ofInt CANVAS_SIZE)) },
           { imageOut := canvas, xOut := x1 + scaled_width + 1, yOut := y1, maxHeight := maxHeight })

/-! ## External world, registry state and trace -/

/-- Ghost trace of the externally visible steps of a registration call. -/
inductive Event
  /-- A message sent through `ri.Printf`. -/
  | print (msg : String)
  /-- A call `ri.FS_ReadFile(name, NULL)`, which only asks for the length. -/
  | fsLength (name : List Nat)
  /-- A call `ri.FS_ReadFile(name, &buffer)`, which reads the content. -/
  | fsRead (name : List Nat)
  /-- A call `ri.FS_WriteFile(name, ...)` (directly or through `WriteTGA`). -/
  | fsWrite (name : List Nat)
  /-- A call of the rasterizer (`FT_Load_Glyph` and `R_RenderGlyph`) for
  character `c`, in the dry-run pass when `calcHeight` holds. -/
  | loadGlyph (c : Nat) (calcHeight : Bool)
  /-- The real-pass call for glyph index `i` came back with the page-full
  sentinel (`xOut == -1 || yOut == -1`). -/
  | pageFull (i : Nat)
  /-- The copy `Com_Memcpy(&glyphs[i], glyph, ...)` of a placed glyph. -/
  | placed (i : Nat)
  /-- A page finalized: `R_CreateImage` and `RE_RegisterShaderFromImage` under
  `name` returned `handle`, and the glyphs `[first, last)` were stamped. -/
  | page (name : List Nat) (handle : Int) (first last : Nat)
  /-- A call `RE_RegisterShaderNoMip(name)`. -/
  | shaderNoMip (name : List Nat)
  deriving DecidableEq

/-- The external collaborators. The page image pipeline (intensity
normalisation, the blur of a shadow level given as `(margin, sigma)`,
`R_CreateImage`, `RE_RegisterShaderFromImage`, `WriteTGA`) enters through
`shaderFromImage` and `tga`. -/
structure World (F : Type) where
  ops : FloatOps F
  repr : FloatRepr F
  BUILD_FREETYPE : Bool
  r_saveFontData : Bool
  FT_Init_FreeType : Bool
  FT_New_Memory_Face : List Nat → Option (Int → Option Face)
  RE_RegisterShaderNoMip : List Nat → Int
  shaderFromImage : List Nat → Canvas → Option (Int × F) → Int
  tga : Canvas → Option (Int × F) → List Nat

/-- The filesystem: the content of each named file, if it exists. -/
def Files : Type := List Nat → Option (List Nat)

/-- Effect of `ri.FS_WriteFile(name, data, len)`. -/
def Files.write (fs : Files) (name : List Nat) (data : List Nat) : Files :=
  fun n => if n = name then some data else fs n

/-- The process-wide state: the registry (`registeredFontCount`,
`registeredFont[MAX_FONTS]`), `ftLibrary != NULL`, the files, and the trace. -/
structure State (F : Type) where
  registeredFontCount : Nat
  registeredFont : List (newFontInfo_t F)
  ftLibrary : Bool
  files : Files
  trace : List Event

/-- The registry scan `for (i = 0; i < registeredFontCount; i++) if
(Q_stricmp(name, registeredFont[i].name) == 0)`: the first match. -/
def findRegistered {F : Type} (st : State F) (name : List Nat) : Option (newFontInfo_t F) :=
  (st.registeredFont.take st.registeredFontCount).find? (fun e => Q_stricmp_eq name e.name)

/-! ## The page-building loop -/

/-- What distinguishes the three page-building loops (lines 470-530, 817-877,
890-952): the margin, the page name for an image number, and the blur. -/
structure PageCfg (F : Type) where
  margin : Int
  pageName : Nat → List Nat
  blur : Option (Int × F)

/-- The variables of a page-building loop. -/
structure LoopState (F : Type) where
  i : Nat
  lastStart : Nat
  imageNumber : Nat
  pack : PackState
  glyphs : List (glyphInfo_t F)
  files : Files
  trace : List Event

/-- The canvas after `Com_Memset(out, 0, CANVAS_SIZE*CANVAS_SIZE)`. -/
def clearCanvas (canvas : Canvas) : Canvas :=
  fun k => if 0 ≤ k ∧ k < CANVAS_SIZE * CANVAS_SIZE then 0 else canvas k

/-- The branch `if (xOut == -1 || yOut == -1)` of the loop body: finalize
the page, stamp the glyphs `[lastStart, i)`, clear the canvas and reset the
cursor; `pack` is the packer state the branch is entered with. -/
def finalizePage {F : Type} (w : World F) (L : Layout) (cfg : PageCfg F) (s : LoopState F)
    (pack : PackState) : LoopState F :=
  let name := cfg.pageName s.imageNumber
  let h := w.shaderFromImage name pack.imageOut cfg.blur
  { i := if s.i = L.GLYPH_END + 1 then s.i + 1 else s.i
    lastStart := s.i
    imageNumber := s.imageNumber + 1
    pack := { imageOut := clearCanvas pack.imageOut, xOut := 0, yOut := 0,
              maxHeight := pack.maxHeight }
    glyphs := updateRange
      (fun g => { g with glyph := h, shaderName := Q_strncpyz name L.SHADERNAME_LEN })
      s.lastStart s.i 0 s.glyphs
    files := if w.r_saveFontData then s.files.write name (w.tga pack.imageOut cfg.blur) else s.files
    trace := s.trace ++ (if w.r_saveFontData then [Event.fsWrite name] else [])
      ++ [Event.page name h s.lastStart s.i] }

/-- One iteration of `while ( i <= GLYPH_END + 1 )`. -/
def pageStep {F : Type} (w : World F) (L : Layout) (cfg : PageCfg F) (face : Face)
    (s : LoopState F) : LoopState F :=
  if s.i = L.GLYPH_END + 1 then
    finalizePage w L cfg s { s.pack with xOut := -1, yOut := -1 }
  else
    let r := RE_ConstructGlyphInfo w.ops s.pack (some face) (s.i % 256) false cfg.margin
    let s1 := { s with trace := s.trace ++ [Event.loadGlyph (s.i % 256) false] }
    if r.2.xOut = -1 ∨ r.2.yOut = -1 then
      finalizePage w L cfg { s1 with trace := s1.trace ++ [Event.pageFull s.i] } r.2
    else
      { s1 with i := s.i + 1, pack := r.2, glyphs := s.glyphs.set s.i r.1,
                trace := s1.trace ++ [Event.placed s.i] }

/-- The loop `while ( i <= GLYPH_END + 1 )`, run for at most `fuel`
iterations; `none` when the loop has not ended by then. -/
def pageLoop {F : Type} (w : World F) (L : Layout) (cfg : PageCfg F) (face : Face) :
    Nat → LoopState F → Option (LoopState F)
  | 0, s => if s.i ≤ L.GLYPH_END + 1 then none else some s
  | fuel + 1, s =>
    if s.i ≤ L.GLYPH_END + 1 then pageLoop w L cfg face fuel (pageStep w L cfg face s) else some s

/-- The dry-run pass `for (i = GLYPH_START; i <= GLYPH_END; i++)
RE_ConstructGlyphInfo(..., qtrue, 0)` over the indices `is`. -/
def dryRun {F : Type} (ops : FloatOps F) (face : Face) (is : List Nat) (pack : PackState) :
    PackState :=
  is.foldl (fun p i => (RE_ConstructGlyphInfo ops p (some face) (i % 256) true 0).2) pack

/-- The glyph indices `GLYPH_START .. GLYPH_END`. -/
def glyphRange (L : Layout) : List Nat :=
  List.range' L.GLYPH_START (L.GLYPH_END + 1 - L.GLYPH_START)

/-- The state a page-building loop starts in (`xOut = 0; yOut = 0;
i = GLYPH_START; lastStart = i; imageNumber = 0;`). -/
def loopStart {F : Type} (L : Layout) (canvas : Canvas) (maxHeight : Int)
    (glyphs : List (glyphInfo_t F)) (files : Files) (trace : List Event) : LoopState F :=
  { i := L.GLYPH_START, lastStart := L.GLYPH_START, imageNumber := 0,
    pack := { imageOut := canvas, xOut := 0, yOut := 0, maxHeight := maxHeight },
    glyphs := glyphs, files := files, trace := trace }

/-! ## Cells of placed glyphs -/

/-- A rectangle `[x, x + w) × [y, y + h)` of the canvas grid. -/
structure Cell where
  x : Int
  y : Int
  w : Int
  h : Int
  deriving DecidableEq

/-- Membership of the pixel `(u, v)` in a cell. -/
def Cell.contains (c : Cell) (u v : Int) : Prop :=
  c.x ≤ u ∧ u < c.x + c.w ∧ c.y ≤ v ∧ v < c.y + c.h

/-- The cell of the glyph a call of `RE_ConstructGlyphInfo` has just placed,
read off what the call returns: the glyph carries the cell size, and the
cursor is left at `(x + imageWidth + 1, y)` for the cursor `(x, y)` the glyph
was placed at (line 301). -/
def cellOf {F : Type} (r : glyphInfo_t F × PackState) : Cell :=
  { x := r.2.xOut - r.1.imageWidth - 1, y := r.2.yOut, w := r.1.imageWidth, h := r.1.imageHeight }

/-- Successive real-pass calls of `RE_ConstructGlyphInfo` for the characters
`cs`, each entered with the state the previous one left. -/
def packRun {F : Type} (ops : FloatOps F) (face : Face) (margin : Int) :
    List Nat → PackState → List (glyphInfo_t F × PackState)
  | [], _ => []
  | c :: cs, st =>
    let r := RE_ConstructGlyphInfo ops st (some face) c false margin
    r :: packRun ops face margin cs r.2

/-- A glyph slot of an outline glyph with a bitmap of `w` by `h` pixels
(bearing 0, advance `w`), covered at full intensity. -/
def boxSlot (w h : Int) : GlyphSlot :=
  { outline := true, horiBearingX := 0, horiBearingY := h * 64, width := w * 64, height := h * 64,
    horiAdvance := w * 64, coverage := fun _ => 255 }

/-- A glyph slot in a non-outline format. -/
def bitmapSlot : GlyphSlot :=
  { outline := false, horiBearingX := 0, horiBearingY := 0, width := 0, height := 0,
    horiAdvance := 0, coverage := fun _ => 0 }

/-- A packer state with an empty canvas. -/
def packAt (x y maxHeight : Int) : PackState :=
  { imageOut := zeroCanvas, xOut := x, yOut := y, maxHeight := maxHeight }

/-! ## Registration -/

/-- Append a trace event. -/
def State.log {F : Type} (st : State F) (e : Event) : State F :=
  { st with trace := st.trace ++ [e] }

/-- The first `sizeof(fontInfo_t)` bytes of a registry slot, as a `fontInfo_t`. -/
def newFontInfo_t.legacy {F : Type} (e : newFontInfo_t F) : fontInfo_t F :=
  { glyphs := e.glyphs, glyphScale := e.glyphScale, name := e.name }

/-- Effect of `Com_Memcpy(slot, font, sizeof(fontInfo_t))` on a registry slot:
the shadow levels of the slot are not touched. -/
def newFontInfo_t.overlay {F : Type} (e : newFontInfo_t F) (font : fontInfo_t F) :
    newFontInfo_t F :=
  { e with glyphs := font.glyphs, glyphScale := font.glyphScale, name := font.name }

/-- Length test `len == size` on the result of `ri.FS_ReadFile(name, NULL)`;
a missing file has no length that matches. -/
def lengthIs (fs : Files) (name : List Nat) (size : Nat) : Bool :=
  match fs name with
  | some d => d.length == size
  | none => false

/-- The scale `glyphScale = 72.0f / dpi; glyphScale *= 48.0f / pointSize;`. -/
def glyphScaleOf {F : Type} (ops : FloatOps F) (pointSize : Int) : F :=
  ops.mul (ops.div (ops.ofInt 72) (ops.ofInt DPI)) (ops.div (ops.ofInt 48) (ops.ofInt pointSize))

/-- Page name of the legacy loop: `"fonts/fontImage_%i_%i.tga"`. -/
def legacyPageName (pointSize : Int) (imageNumber : Nat) : List Nat :=
  Com_sprintf NAME_BUF
    (str "fonts/fontImage_" ++ fmtInt imageNumber ++ str "_" ++ fmtInt pointSize ++ str ".tga")

/-- Page name of the base loop of `RE_RegisterNewFont`: `"fonts/%s_%i_%i.tga"`. -/
def basePageName (simpleName : List Nat) (pointSize : Int) (imageNumber : Nat) : List Nat :=
  Com_sprintf NAME_BUF
    (str "fonts/" ++ simpleName ++ str "_" ++ fmtInt imageNumber ++ str "_" ++ fmtInt pointSize
      ++ str ".tga")

/-- Page name of shadow level `l`: `"fonts/%s_shad%i_%i_%i.tga"`. -/
def shadowPageName (simpleName : List Nat) (pointSize : Int) (l : Nat) (imageNumber : Nat) :
    List Nat :=
  Com_sprintf NAME_BUF
    (str "fonts/" ++ simpleName ++ str "_shad" ++ fmtInt l ++ str "_" ++ fmtInt imageNumber
      ++ str "_" ++ fmtInt pointSize ++ str ".tga")

/-- Cache key of `RE_RegisterFont`: `"fonts/fontImage_%i.dat"`. -/
def legacyKey (pointSize : Int) : List Nat :=
  Com_sprintf NAME_BUF (str "fonts/fontImage_" ++ fmtInt pointSize ++ str ".dat")

/-- Cache key of `RE_RegisterNewFont`: `"fonts/%s_%i.dat"`. -/
def newKey (simpleName : List Nat) (pointSize : Int) : List Nat :=
  Com_sprintf NAME_BUF (str "fonts/" ++ simpleName ++ str "_" ++ fmtInt pointSize ++ str ".dat")

/-- The dry-run pass with its trace (lines 458-462, 805-809). -/
def dryRunTrace (L : Layout) : List Event :=
  (glyphRange L).map (fun i => Event.loadGlyph (i % 256) true)

/-- Lines 451-548 of `RE_RegisterFont`: the full build, entered with the sized
face and the cleared record `font`. -/
def buildFont {F : Type} (w : World F) (L : Layout) (fuel : Nat) (st : State F) (face : Face)
    (pointSize : Int) (font : fontInfo_t F) : Option (State F × fontInfo_t F) :=
  let pack := dryRun w.ops face (glyphRange L)
    { imageOut := zeroCanvas, xOut := 0, yOut := 0, maxHeight := 0 }
  let cfg : PageCfg F := { margin := 0, pageName := legacyPageName pointSize, blur := none }
  match pageLoop w L cfg face fuel
      (loopStart L pack.imageOut pack.maxHeight font.glyphs st.files
        (st.trace ++ dryRunTrace L)) with
  | none => none
  | some s =>
    let font1 : fontInfo_t F := { font with glyphs := s.glyphs, glyphScale := glyphScaleOf w.ops pointSize }
    let slot := (st.registeredFont.getD st.registeredFontCount (zeroNewFont w.ops L)).overlay font1
    let key := str "fonts/fontImage_" ++ fmtInt pointSize ++ str ".dat"
    some ({ st with
              registeredFontCount := st.registeredFontCount + 1
              registeredFont := st.registeredFont.set st.registeredFontCount slot
              files := if w.r_saveFontData then s.files.write key (dumpFont w.repr L font1)
                       else s.files
              trace := s.trace ++ (if w.r_saveFontData then [Event.fsWrite key] else []) },
          font1)

/-- Lines 420-549 of `RE_RegisterFont`: what follows the cache test when the
cache file is not accepted, entered with the cleared record `font`. -/
def rebuildFont {F : Type} (w : World F) (L : Layout) (fuel : Nat) (st : State F)
    (fontName : List Nat) (pointSize : Int) (font : fontInfo_t F) :
    Option (State F × fontInfo_t F) :=
  if !w.BUILD_FREETYPE then
    some (st.log (Event.print "RE_RegisterFont: FreeType code not available"), font)
  else if !st.ftLibrary then
    some (st.log (Event.print "RE_RegisterFont: FreeType not initialized."), font)
  else
    let st := st.log (Event.fsRead fontName)
    match st.files fontName with
    | none => some (st.log (Event.print "RE_RegisterFont: Unable to read font file"), font)
    | some [] => some (st.log (Event.print "RE_RegisterFont: Unable to read font file"), font)
    | some (b :: bs) =>
      match w.FT_New_Memory_Face (b :: bs) with
      | none =>
        some (st.log (Event.print "RE_RegisterFont: FreeType, unable to allocate new face."), font)
      | some sized =>
        match sized (pointSize * 64) with
        | none =>
          some (st.log (Event.print "RE_RegisterFont: FreeType, unable to set face char size."),
            font)
        | some face => buildFont w L fuel st face pointSize font

/-- Function `RE_RegisterFont`. `fontName = none` stands for a `NULL` pointer,
`font` for the content of the caller's record on entry; the result is the new
state and the content of the caller's record on return, or `none` when a
page-building loop has not ended within `fuel` iterations. -/
def RE_RegisterFont {F : Type} (w : World F) (L : Layout) (fuel : Nat) (st : State F)
    (fontName : Option (List Nat)) (pointSize : Int) (font : fontInfo_t F) :
    Option (State F × fontInfo_t F) :=
  match fontName with
  | none => some (st.log (Event.print "RE_RegisterFont: called with empty name"), font)
  | some [] => some (st.log (Event.print "RE_RegisterFont: called with empty name"), font)
  | some (ch :: rest) =>
    let pointSize := if pointSize ≤ 0 then 12 else pointSize
    let name := legacyKey pointSize
    match findRegistered st name with
    | some e => some (st, e.legacy)
    | none =>
      if st.registeredFontCount ≥ MAX_FONTS then
        some (st.log (Event.print "RE_RegisterFont: Too many fonts registered already"), font)
      else
        let font := zeroFont w.ops L
        let st := st.log (Event.fsLength name)
        if lengthIs st.files name (fontInfoSize L) then
          let fdFile := (st.files name).getD []
          let font := decodeFont w.repr L w.RE_RegisterShaderNoMip name fdFile
          let slot := (zeroNewFont w.ops L).overlay font
          some ({ st with
                    registeredFontCount := st.registeredFontCount + 1
                    registeredFont := st.registeredFont.set st.registeredFontCount slot
                    trace := st.trace ++ [Event.fsRead name]
                      ++ ((font.glyphs.drop L.GLYPH_START).take (L.GLYPH_END + 1 - L.GLYPH_START)).map
                          (fun g => Event.shaderNoMip g.shaderName) },
                font)
        else rebuildFont w L fuel st (ch :: rest) pointSize font

/-- The blur parameters of shadow level `l` (lines 885-887): `elevation = l + 1`,
`sigma = elevation*dpi/pointSize/4`, `margin = (int)ceil(sigma*2)`. -/
def shadowBlur {F : Type} (ops : FloatOps F) (pointSize : Int) (l : Nat) : Int × F :=
  let elevation : Int := l + 1
  let sigma := ops.div (ops.div (ops.mul (ops.ofInt elevation) (ops.ofInt DPI)) (ops.ofInt pointSize))
    (ops.ofInt 4)
  (ops.ceil (ops.mul sigma (ops.ofInt 2)), sigma)

/-- What the build of `RE_RegisterNewFont` carries from one page-building
loop to the next: the record, the canvas with `maxHeight`, the files and the
trace. -/
structure BuildState (F : Type) where
  font : newFontInfo_t F
  imageOut : Canvas
  maxHeight : Int
  files : Files
  trace : List Event

/-- The loop `for (l = 0; l < FONT_MAXSHADOW; l++)` of lines 879-956, for the
levels `l, l+1, ...` (`n` of them). -/
def shadowLoops {F : Type} (w : World F) (L : Layout) (fuel : Nat) (face : Face)
    (simpleName : List Nat) (pointSize : Int) : Nat → Nat → BuildState F → Option (BuildState F)
  | 0, _, b => some b
  | n + 1, l, b =>
    let blur := shadowBlur w.ops pointSize l
    let cfg : PageCfg F :=
      { margin := blur.1, pageName := shadowPageName simpleName pointSize l, blur := some blur }
    let level := b.font.shadows.getD l (zeroShadow w.ops L)
    match pageLoop w L cfg face fuel
        (loopStart L b.imageOut b.maxHeight level.glyphs b.files b.trace) with
    | none => none
    | some s =>
      let level1 : shadowInfo_t F := { glyphs := s.glyphs, margin := blur.1, available := true }
      shadowLoops w L fuel face simpleName pointSize n (l + 1)
        { font := { b.font with shadows := b.font.shadows.set l level1 },
          imageOut := s.pack.imageOut, maxHeight := s.pack.maxHeight, files := s.files,
          trace := s.trace }

/-- Lines 798-974 of `RE_RegisterNewFont`: the full build, entered with the
sized face and the cleared record `font`. -/
def buildNewFont {F : Type} (w : World F) (L : Layout) (fuel : Nat) (st : State F) (face : Face)
    (simpleName : List Nat) (pointSize : Int) (font : newFontInfo_t F) :
    Option (State F × newFontInfo_t F) :=
  let pack := dryRun w.ops face (glyphRange L)
    { imageOut := zeroCanvas, xOut := 0, yOut := 0, maxHeight := 0 }
  let cfg : PageCfg F := { margin := 0, pageName := basePageName simpleName pointSize, blur := none }
  match pageLoop w L cfg face fuel
      (loopStart L pack.imageOut pack.maxHeight font.glyphs st.files
        (st.trace ++ dryRunTrace L)) with
  | none => none
  | some s =>
    match shadowLoops w L fuel face simpleName pointSize L.FONT_MAXSHADOW 0
        { font := { font with glyphs := s.glyphs }, imageOut := s.pack.imageOut,
          maxHeight := s.pack.maxHeight, files := s.files, trace := s.trace } with
    | none => none
    | some b =>
      let font1 : newFontInfo_t F := { b.font with glyphScale := glyphScaleOf w.ops pointSize }
      let key := str "fonts/" ++ simpleName ++ str "_" ++ fmtInt pointSize ++ str ".dat"
      some ({ st with
                registeredFontCount := st.registeredFontCount + 1
                registeredFont := st.registeredFont.set st.registeredFontCount font1
                files := if w.r_saveFontData then b.files.write key (dumpNewFont w.repr L font1)
                         else b.files
                trace := b.trace ++ (if w.r_saveFontData then [Event.fsWrite key] else []) },
            font1)

/-- The trace of the shader registrations of a cache hit of
`RE_RegisterNewFont` (lines 752-759). -/
def noMipTrace {F : Type} (L : Layout) (font : newFontInfo_t F) : List Event :=
  let inRange := fun (gs : List (glyphInfo_t F)) =>
    ((gs.drop L.GLYPH_START).take (L.GLYPH_END + 1 - L.GLYPH_START)).map
      (fun g => Event.shaderNoMip g.shaderName)
  inRange font.glyphs
    ++ (font.shadows.filter (fun sh => sh.available)).flatMap (fun sh => inRange sh.glyphs)

/-- Lines 767-975 of `RE_RegisterNewFont`: what follows the cache test when
the cache file is not accepted, entered with the cleared record `font`. -/
def rebuildNewFont {F : Type} (w : World F) (L : Layout) (fuel : Nat) (st : State F)
    (fontName : List Nat) (simpleName : List Nat) (pointSize : Int) (font : newFontInfo_t F) :
    Option (State F × newFontInfo_t F) :=
  if !w.BUILD_FREETYPE then
    some (st.log (Event.print "RE_RegisterNewFont: FreeType code not available"), font)
  else if !st.ftLibrary then
    some (st.log (Event.print "RE_RegisterNewFont: FreeType not initialized."), font)
  else
    let st := st.log (Event.fsRead fontName)
    match st.files fontName with
    | none => some (st.log (Event.print "RE_RegisterNewFont: Unable to read font file"), font)
    | some [] => some (st.log (Event.print "RE_RegisterNewFont: Unable to read font file"), font)
    | some (b :: bs) =>
      match w.FT_New_Memory_Face (b :: bs) with
      | none =>
        some (st.log (Event.print "RE_RegisterNewFont: FreeType, unable to allocate new face."),
          font)
      | some sized =>
        match sized (pointSize * 64) with
        | none =>
          some (st.log
            (Event.print "RE_RegisterNewFont: FreeType, unable to set face char size."), font)
        | some face => buildNewFont w L fuel st face simpleName pointSize font

/-- Function `RE_RegisterNewFont`, with the conventions of `RE_RegisterFont`. -/
def RE_RegisterNewFont {F : Type} (w : World F) (L : Layout) (fuel : Nat) (st : State F)
    (fontName : Option (List Nat)) (simpleName : List Nat) (pointSize : Int)
    (font : newFontInfo_t F) : Option (State F × newFontInfo_t F) :=
  match fontName with
  | none => some (st.log (Event.print "RE_RegisterNewFont: called with empty name"), font)
  | some [] => some (st.log (Event.print "RE_RegisterNewFont: called with empty name"), font)
  | some (ch :: rest) =>
    let pointSize := if pointSize ≤ 0 then 12 else pointSize
    let name := newKey simpleName pointSize
    match findRegistered st name with
    | some e => some (st, e)
    | none =>
      if st.registeredFontCount ≥ MAX_FONTS then
        some (st.log (Event.print "RE_RegisterNewFont: Too many fonts registered already"), font)
      else
        let font := zeroNewFont w.ops L
        let st := st.log (Event.fsLength name)
        if lengthIs st.files name (newFontInfoSize L) then
          let fdFile := (st.files name).getD []
          let font := decodeNewFont w.repr L w.RE_RegisterShaderNoMip name fdFile
          some ({ st with
                    registeredFontCount := st.registeredFontCount + 1
                    registeredFont := st.registeredFont.set st.registeredFontCount font
                    trace := st.trace ++ [Event.fsRead name] ++ noMipTrace L font },
                font)
        else rebuildNewFont w L fuel st (ch :: rest) simpleName pointSize font

/-- Function `R_InitFreeType`. -/
def R_InitFreeType {F : Type} (w : World F) (st : State F) : State F :=
  if w.BUILD_FREETYPE then
    if w.FT_Init_FreeType then { st with ftLibrary := true, registeredFontCount := 0 }
    else { (st.log (Event.print "R_InitFreeType: Unable to initialize FreeType.")) with
             registeredFontCount := 0 }
  else { st with registeredFontCount := 0 }

/-- Function `R_DoneFreeType`. -/
def R_DoneFreeType {F : Type} (w : World F) (st : State F) : State F :=
  if w.BUILD_FREETYPE then { st with ftLibrary := false, registeredFontCount := 0 }
  else { st with registeredFontCount := 0 }

/-- The state of a freshly started process: an empty registry of `MAX_FONTS`
cleared slots, FreeType not initialised, the given files. -/
def initialState {F : Type} (w : World F) (L : Layout) (files : Files) : State F :=
  { registeredFontCount := 0, registeredFont := List.replicate MAX_FONTS (zeroNewFont w.ops L),
    ftLibrary := false, files := files, trace := [] }

/-! ## A concrete scenario -/

/-- A face whose character 1 is in a non-outline format and whose other
characters are outline glyphs of 8 by 10 pixels. -/
def demoFace : Face := fun c => if c = 1 then bitmapSlot else boxSlot 8 10

/-- A world in which FreeType works, every font file yields `demoFace`, every
page image gets the shader handle 7 and every named shader the handle 3. -/
def demoWorld (save : Bool) : World ℚ :=
  { ops := exactOps, repr := ieeeRepr, BUILD_FREETYPE := true, r_saveFontData := save,
    FT_Init_FreeType := true,
    FT_New_Memory_Face := fun _ => some (fun _ => some demoFace),
    RE_RegisterShaderNoMip := fun _ => 3,
    shaderFromImage := fun _ _ _ => 7,
    tga := fun _ _ => [] }

/-- A filesystem holding the font file `fonts/a.ttf` and nothing else. -/
def demoFiles : Files := fun n => if n = str "fonts/a.ttf" then some [0, 1, 0, 0] else none

/-- The state after `R_InitFreeType` in a fresh process of `demoWorld`. -/
def demoState (save : Bool) : State ℚ :=
  R_InitFreeType (demoWorld save) (initialState (demoWorld save) tinyLayout demoFiles)

/-- The same for records without shadow levels. -/
def flatState (save : Bool) : State ℚ :=
  R_InitFreeType (demoWorld save) (initialState (demoWorld save) flatLayout demoFiles)

/-- The configuration of the legacy loop at point size 12. -/
def demoCfg : PageCfg ℚ := { margin := 0, pageName := legacyPageName 12, blur := none }

/-- The state in which the legacy loop of the scenario starts (`maxHeight` is
10 after the dry run over `demoFace`). -/
def demoStart : LoopState ℚ :=
  loopStart tinyLayout zeroCanvas 10 (zeroFont exactOps tinyLayout).glyphs demoFiles []

/-- A face all of whose glyphs are 4 pixels wide and 1022 pixels tall. -/
def tallFace : Face := fun _ => boxSlot 4 1022

/-- The state in which a loop over `tallFace` starts (`maxHeight` is 1022
after the dry run). -/
def tallStart : LoopState ℚ :=
  loopStart tinyLayout zeroCanvas 1022 (zeroFont exactOps tinyLayout).glyphs demoFiles []

/-- The scenario state with all `MAX_FONTS` registry slots taken (by records
without a name). -/
def fullState : State ℚ := { demoState false with registeredFontCount := MAX_FONTS }

/-- A filesystem holding the font file and a legacy cache file for point size
12 of exactly `sizeof(fontInfo_t)` bytes (308 for `tinyLayout`). -/
def cacheFiles : Files := fun n =>
  if n = str "fonts/fontImage_12.dat" then some (List.replicate 308 65)
  else if n = str "fonts/a.ttf" then some [0, 1, 0, 0] else none

/-- The state after `R_InitFreeType` in a fresh process over `cacheFiles`. -/
def cacheState : State ℚ :=
  R_InitFreeType (demoWorld false) (initialState (demoWorld false) tinyLayout cacheFiles)

/-! ## Reading the trace of a page-building loop -/

/-- Whether an event is a page finalization. -/
def Event.isPage : Event → Bool
  | Event.page _ _ _ _ => true
  | _ => false

/-- Whether an event is a page-full signal. -/
def Event.isFull : Event → Bool
  | Event.pageFull _ => true
  | _ => false

/-- The page finalizations of a trace, in order. -/
def pagesOf (ev : List Event) : List Event := ev.filter Event.isPage

/-- The stamped index intervals `[first, last)` of the pages of a trace, in order. -/
def intervalsOf : List Event → List (Nat × Nat)
  | [] => []
  | Event.page _ _ a b :: ev => (a, b) :: intervalsOf ev
  | _ :: ev => intervalsOf ev

/-- The intervals follow one another without gap from `a` to `b`: the first
starts at `a`, each next one starts where the previous one ends, the last ends
at `b`. -/
def Consecutive : Nat → List (Nat × Nat) → Nat → Prop
  | a, [], b => a = b
  | a, (x, y) :: rest, b => x = a ∧ Consecutive y rest b

/-- In the trace `ev`, glyph `j` was placed and the page finalized first after
that is `page name h a b`. -/
def PlacedThenPage (ev : List Event) (j : Nat) (name : List Nat) (h : Int) (a b : Nat) : Prop :=
  ∃ l1 l2 l3, ev = l1 ++ Event.placed j :: (l2 ++ Event.page name h a b :: l3)
    ∧ ∀ e ∈ l2, e.isPage = false

/-- The invariant of the page-building loop that the stamping properties rest
on; `t0` is the trace the loop started with and `ev` what it has added. -/
structure StampInv {F : Type} (w : World F) (L : Layout) (cfg : PageCfg F) (t0 : List Event)
    (s : LoopState F) (ev : List Event) : Prop where
  trace_eq : s.trace = t0 ++ ev
  start_le : L.GLYPH_START ≤ s.lastStart
  last_le : s.lastStart ≤ s.i
  i_le : s.i ≤ L.GLYPH_END + 2
  last_end : s.i = L.GLYPH_END + 2 → s.lastStart = L.GLYPH_END + 1
  number : s.imageNumber = (pagesOf ev).length
  fulls : (pagesOf ev).length
    = (ev.filter Event.isFull).length + (if s.i = L.GLYPH_END + 2 then 1 else 0)
  pages : Consecutive L.GLYPH_START (intervalsOf ev) s.lastStart
  names : ∀ k name h a b, (pagesOf ev)[k]? = some (Event.page name h a b) →
    name = cfg.pageName k ∧ ∃ canvas, h = w.shaderFromImage name canvas cfg.blur
  pending : ∀ j, s.lastStart ≤ j → j < s.i → j ≤ L.GLYPH_END →
    ∃ l1 l2, ev = l1 ++ Event.placed j :: l2 ∧ ∀ e ∈ l2, e.isPage = false
  stamped : ∀ j, L.GLYPH_START ≤ j → j < s.lastStart →
    ∃ name h a b, PlacedThenPage ev j name h a b ∧ a ≤ j ∧ j < b
      ∧ ∀ g, s.glyphs[j]? = some g →
          g.glyph = h ∧ g.shaderName = Q_strncpyz name L.SHADERNAME_LEN
/-! ## Gaussian kernel -/

/-- The value the double loop of `RE_GaussianKernel` stores in cell `(x, y)`:
`exp(-0.5 * (pow((x-kernelOffset)/sigma, 2) + pow((y-kernelOffset)/sigma, 2)))
/ (2 * M_PI * pow(sigma, 2))`. The differences `x-kernelOffset` and
`y-kernelOffset` are `int` expressions; the arithmetic of `double` is taken in
a field `K` with its exponential `exp` and the constant `pi`. -/
def gaussCell {K : Type} [Field K] (exp : K → K) (pi : K) (kernelOffset : Int) (sigma : K)
    (x y : Nat) : K :=
  exp (-(1 / 2) * ((((wrapInt ((x : Int) - kernelOffset) : Int) : K) / sigma) ^ 2
      + (((wrapInt ((y : Int) - kernelOffset) : Int) : K) / sigma) ^ 2))
    / (2 * pi * sigma ^ 2)

/-- The array `kernel`, by its `int` index, and the accumulator `sum` of
`RE_GaussianKernel`. -/
structure KernelState (K : Type) where
  kernel : Int → K
  sum : K

/-- Body of the inner loop: store the cell at the `int` index
`kernelSize*y + x` and add it to `sum`. -/
def kernelCell {K : Type} [Field K] (exp : K → K) (pi : K) (kernelSize : Int) (kernelOffset : Int)
    (sigma : K) (x : Nat) (st : KernelState K) (y : Nat) : KernelState K :=
  let idx := wrapInt (wrapInt (kernelSize * y) + x)
  let kernel := Function.update st.kernel idx (gaussCell exp pi kernelOffset sigma x y)
  { kernel := kernel, sum := st.sum + kernel idx }

/-- The double loop `for (x ...) for (y ...)` of lines 569-578. -/
def fillKernel {K : Type} [Field K] (exp : K → K) (pi : K) (kernelSize : Int) (kernelOffset : Int)
    (sigma : K) : KernelState K :=
  (List.range kernelSize.toNat).foldl
    (fun st x =>
      (List.range kernelSize.toNat).foldl (kernelCell exp pi kernelSize kernelOffset sigma x) st)
    { kernel := fun _ => 0, sum := 0 }

/-- Function `RE_GaussianKernel`: the normalized kernel as the list of the
entries `kernel[i]` for `0 <= i < kernelSize*kernelSize`, the range of the
normalizing loop, or `none` when the allocation fails (`alloc = false`).
`kernelSize` and `kernelSize*kernelSize` are `int` expressions. -/
def RE_GaussianKernel {K : Type} [Field K] (exp : K → K) (pi : K) (alloc : Bool) (radius : Int)
    (sigma : K) : Option (List K) :=
  let kernelSize : Int := wrapInt (wrapInt (radius * 2) + 1)
  let kernelOffset : Int := radius
  if alloc then
    let st := fillKernel exp pi kernelSize kernelOffset sigma
    some ((List.range (wrapInt (kernelSize * kernelSize)).toNat).map
      (fun (i : Nat) => st.kernel (i : Int) / st.sum))
  else none

/-! ## Blur -/

/-- The clamp that `RE_ApplyBlur` applies to one sample coordinate (lines
615-622): `if (v < 0) v = 0; if (v > canvasSize) v = canvasSize;`. -/
def clampSample (canvasSize v : Int) : Int :=
  let v1 := if v < 0 then 0 else v
  if v1 > canvasSize then canvasSize else v1

/-- The index `(y2*canvasSize + x2) * 4 + channel` at which the innermost
statement of `RE_ApplyBlur` reads `buffCpy`, for the destination pixel `(x, y)`
and the kernel cell `(x1, y1)`. -/
def sampleIndex (canvasSize radius channel x y x1 y1 : Int) : Int :=
  let kernelOffset := radius
  let x2 := clampSample canvasSize (x + x1 - kernelOffset)
  let y2 := clampSample canvasSize (y + y1 - kernelOffset)
  (y2 * canvasSize + x2) * 4 + channel

/-- The indices of `buffCpy` read for one destination pixel, in the order of
the loops `for (x1 ...) for (y1 ...)`. -/
def blurReads (canvasSize radius channel x y : Int) : List Int :=
  let kernelSize : Int := radius * 2 + 1
  (List.range kernelSize.toNat).flatMap (fun x1 =>
    (List.range kernelSize.toNat).map (fun y1 =>
      sampleIndex canvasSize radius channel x y x1 y1))

/-- The value `pixelValue` accumulated for one destination pixel. The
arithmetic of `double` is taken in a field `K`. -/
def blurPixel {K : Type} [Field K] (canvasSize radius : Int) (kernel : List K)
    (buffCpy : Int → Nat) (channel x y : Int) : K :=
  let kernelSize : Int := radius * 2 + 1
  (List.range kernelSize.toNat).foldl (fun pixelValue x1 =>
    (List.range kernelSize.toNat).foldl (fun pixelValue y1 =>
      pixelValue + kernel.getD (y1 * kernelSize.toNat + x1) 0
        * ((buffCpy (sampleIndex canvasSize radius channel x y x1 y1) : Nat) : K))
      pixelValue) 0

/-- Function `RE_ApplyBlur` on a buffer given by its bytes; `toByte` is the
conversion `(unsigned char)pixelValue`, and `alloc = false` stands for a failed
allocation of the copy, in which case the buffer is left as it is. A read of
`buffCpy` at an index outside `[0, canvasSize*canvasSize*4)` is outside the
allocated copy; `blurReads` lists the indices. -/
def RE_ApplyBlur {K : Type} [Field K] (toByte : K → Nat) (alloc : Bool) (canvasSize radius : Int)
    (buff : Int → Nat) (kernel : List K) : Int → Nat :=
  if alloc then
    let buffCpy := buff
    (List.range 4).foldl (fun b channel =>
      (List.range canvasSize.toNat).foldl (fun b x =>
        (List.range canvasSize.toNat).foldl (fun b y =>
          Function.update b ((y * canvasSize + x) * 4 + channel)
            (toByte (blurPixel canvasSize radius kernel buffCpy channel x y)))
          b) b) buff
  else buff

/-! ## Sequences of registry calls -/

/-- A call of one of the four functions that touch the registry, with its
arguments. -/
inductive Call (F : Type)
  | registerFont (fontName : Option (List Nat)) (pointSize : Int) (font : fontInfo_t F)
  | registerNewFont (fontName : Option (List Nat)) (simpleName : List Nat) (pointSize : Int)
      (font : newFontInfo_t F)
  | initFreeType
  | doneFreeType

/-- The state after a call, or `none` when a page-building loop of the call
has not ended within `fuel` iterations. -/
def Call.run {F : Type} (w : World F) (L : Layout) (fuel : Nat) (st : State F) :
    Call F → Option (State F)
  | Call.registerFont fontName pointSize font =>
    (RE_RegisterFont w L fuel st fontName pointSize font).map (fun r => r.1)
  | Call.registerNewFont fontName simpleName pointSize font =>
    (RE_RegisterNewFont w L fuel st fontName simpleName pointSize font).map (fun r => r.1)
  | Call.initFreeType => some (R_InitFreeType w st)
  | Call.doneFreeType => some (R_DoneFreeType w st)

/-- The states reachable from a call of `R_InitFreeType` by calls of the four
functions. -/
inductive Reachable {F : Type} (w : World F) (L : Layout) : State F → Prop
  | init (st : State F) : Reachable w L (R_InitFreeType w st)
  | call (st st1 : State F) (fuel : Nat) (c : Call F) :
      Reachable w L st → c.run w L fuel st = some st1 → Reachable w L st1

/-- The scenario state with all `MAX_FONTS` slots in use: slot 1 holds a
record named `FONTS/FONTIMAGE_12.DAT`, slot 2 one named
`fonts/fontImage_12.dat`, slot 3 one named `Fonts/A_12.dat`, the other slots
records without a name. -/
def namedState : State ℚ :=
  { demoState false with
    registeredFontCount := MAX_FONTS
    registeredFont :=
      [zeroNewFont exactOps tinyLayout,
       { zeroNewFont exactOps tinyLayout with name := str "FONTS/FONTIMAGE_12.DAT", glyphScale := 1 },
       { zeroNewFont exactOps tinyLayout with name := str "fonts/fontImage_12.dat", glyphScale := 2 },
       { zeroNewFont exactOps tinyLayout with name := str "Fonts/A_12.dat", glyphScale := 3 }]
      ++ List.replicate 5 (zeroNewFont exactOps tinyLayout) }

/-- The state after `R_InitFreeType` and one call
`RE_RegisterFont("fonts/a.ttf", 12, &font)` that the cache file of
`cacheFiles` serves. -/
def cachedState : State ℚ :=
  ((Call.registerFont (some (str "fonts/a.ttf")) 12 (zeroFont exactOps tinyLayout)).run
    (demoWorld false) tinyLayout 10 cacheState).getD cacheState

/-! ## The copy loop, row by row -/

/-- The canvas after the first `n` iterations of the copy loop of lines
255-289; `blit` is `blitRows` at `n = height`. -/
def blitRows (canvas : Canvas) (dst : Int) (bitmap : FT_Bitmap) (pitch : Int) (n : Nat) : Canvas :=
  (List.range n).foldl
    (fun cv i =>
      match bitmap.pixel_mode with
      | PixelMode.mono => monoRow cv (dst + i * CANVAS_SIZE) bitmap.buffer (i * pitch) pitch
      | PixelMode.grays => copyRow cv (dst + i * CANVAS_SIZE) bitmap.buffer (i * pitch) pitch)
    canvas

/-! ## Page normalization -/

/-- The comparison and the conversion of `float` values that the finalization
of a page uses besides the arithmetic of `FloatOps`: `a < b`, and the
conversion `(unsigned char)x` of the assignment `imageBuff[left++] = ...`. -/
structure FloatConv (F : Type) where
  lt : F → F → Bool
  toByte : F → Nat

/-- The loop `max = 0; for (k = 0; k < scaledSize; k++) if (max < out[k]) max =
out[k];` of lines 486-491 (and 830-835, 906-911), with `max` a `float`. -/
def pageMax {F : Type} (ops : FloatOps F) (conv : FloatConv F) (out : Canvas) (scaledSize : Nat) :
    F :=
  (List.range scaledSize).foldl
    (fun max (k : Nat) =>
      if conv.lt max (ops.ofInt ((out (k : Int) : Nat) : Int)) then ops.ofInt ((out (k : Int) : Nat) : Int)
      else max)
    (ops.ofInt 0)

/-- The value of `max` after `if (max > 0) max = 255/max;` (lines 493-495). -/
def pageScale {F : Type} (ops : FloatOps F) (conv : FloatConv F) (out : Canvas) (scaledSize : Nat) :
    F :=
  let max := pageMax ops conv out scaledSize
  if conv.lt (ops.ofInt 0) max then ops.div (ops.ofInt 255) max else max

/-- The buffer `imageBuff` after the loop of lines 497-503: for every canvas
byte the four bytes `255, 255, 255, (float)out[k] * max`. -/
def pageImage {F : Type} (ops : FloatOps F) (conv : FloatConv F) (out : Canvas) (scaledSize : Nat) :
    List Nat :=
  let max := pageScale ops conv out scaledSize
  (List.range scaledSize).flatMap (fun (k : Nat) =>
    [255, 255, 255, conv.toByte (ops.mul (ops.ofInt ((out (k : Int) : Nat) : Int)) max)])

/-- Rounding of a rational to the nearest integer, ties to the even one. -/
def roundHalfEven (y : ℚ) : Int :=
  if y - ⌊y⌋ < 1 / 2 then ⌊y⌋
  else if 1 / 2 < y - ⌊y⌋ then ⌊y⌋ + 1
  else if ⌊y⌋ % 2 = 0 then ⌊y⌋ else ⌊y⌋ + 1

/-- Rounding to the nearest binary32 value (24 significant bits, ties to
even): with `2^e <= |q| < 2^(e+1)` the result is the multiple of `2^(e-23)`
nearest to `q`. The exponent is not bounded: overflow, subnormal numbers,
infinities and NaN are left out; the values formed at page finalization lie in
`[0, 256)` and their non-zero ones are at least `2^-8`. -/
def round32 (q : ℚ) : ℚ :=
  if q = 0 then 0
  else (roundHalfEven (q / (2 : ℚ) ^ (Int.log 2 |q| - 23)) : ℚ) * (2 : ℚ) ^ (Int.log 2 |q| - 23)

/-- The arithmetic of IEEE 754 binary32 with rounding to nearest, ties to
even: every operation is the exact one followed by `round32`. -/
def binary32Ops : FloatOps ℚ :=
  { zero := 0, ofInt := fun i => round32 i, add := fun a b => round32 (a + b),
    mul := fun a b => round32 (a * b), div := fun a b => round32 (a / b),
    ceil := fun a => Int.ceil a }

/-- Comparison of binary32 values, and the conversion to `unsigned char`,
which drops the fraction (for a value in `[0, 256)`). -/
def binary32Conv : FloatConv ℚ :=
  { lt := fun a b => decide (a < b), toByte := fun x => ⌊x⌋.toNat % 256 }

/-- A canvas whose byte 0 has the intensity 7 and whose other bytes are 0. -/
def dimCanvas : Canvas := fun k => if k = 0 then 7 else 0

/-! ## The layout of the cache record, field by field -/

/-- The glyph whose fields stand in the file at the offsets of the per-glyph
layout, starting at offset `o`: twelve 4-byte fields in the order height, top,
bottom, pitch, xSkip, imageWidth, imageHeight, s, t, s2, t2, glyph handle, and
then the shader name. This states the layout; `readGlyph` is the decoder. -/
def glyphAt {F : Type} (ops : FloatRepr F) (L : Layout) (fdFile : List Nat) (o : Nat) :
    glyphInfo_t F :=
  { height := (readInt fdFile o).1, top := (readInt fdFile (o + 4)).1,
    bottom := (readInt fdFile (o + 8)).1, pitch := (readInt fdFile (o + 12)).1,
    xSkip := (readInt fdFile (o + 16)).1, imageWidth := (readInt fdFile (o + 20)).1,
    imageHeight := (readInt fdFile (o + 24)).1, s := (readFloat ops fdFile (o + 28)).1,
    t := (readFloat ops fdFile (o + 32)).1, s2 := (readFloat ops fdFile (o + 36)).1,
    t2 := (readFloat ops fdFile (o + 40)).1, glyph := (readInt fdFile (o + 44)).1,
    shaderName := Q_strncpyz (fdFile.drop (o + 48)) L.SHADERNAME_LEN }

/-- The handle a decoded glyph of index `i` ends with: the one of
`RE_RegisterShaderNoMip` for the indices of the rendered range (when the
level is registered), the one read from the file otherwise. -/
def withHandle {F : Type} (L : Layout) (noMip : List Nat → Int) (registered : Bool) (i : Nat)
    (g : glyphInfo_t F) : glyphInfo_t F :=
  if registered = true ∧ L.GLYPH_START ≤ i ∧ i < L.GLYPH_END + 1 then
    { g with glyph := noMip g.shaderName }
  else g

/-- A file of `sizeof(newFontInfo_t)` bytes for `tinyLayout` (556 bytes): byte
`k` is `k % 251`. -/
def layoutFile : List Nat := (List.range 556).map (fun k => k % 251)

/-! ## The tutorial: keys shown for a binding (`cg_tutorial.c`)

The enumerations `tutorialMode_t` and `keyNum_t` are declared in headers that
are not part of the sources at hand; the values of their enumerators are taken
as parameters. A value of either type is the integer it holds. -/

/-- The enumerators of `tutorialMode_t` that `cg_tutorial.c` names. -/
structure TutorialModes where
  TUTO_DISABLED : Int
  TUTO_ALL : Int
  TUTO_MOUSE : Int
  TUTO_GAMEPAD : Int
  TUTO_AUTOMATIC : Int

/-- The enumerators of `keyNum_t` that `CG_GetAllowedKeys` names. -/
structure KeyCodes where
  K_NONE : Int
  K_FIRST_GAMEPAD_KEY : Int
  K_LAST_GAMEPAD_KEY : Int

/-- Function `CG_getTutorialMode` (lines 121-130); `cg_tutorial` and
`in_joystickCount` are the `integer` fields of the two cvars. -/
def CG_getTutorialMode (E : TutorialModes) (cg_tutorial in_joystickCount : Int) : Int :=
  let mode := cg_tutorial
  if mode = E.TUTO_AUTOMATIC then
    (if in_joystickCount ≠ 0 then E.TUTO_GAMEPAD else E.TUTO_MOUSE)
  else if mode > E.TUTO_AUTOMATIC ∨ mode < E.TUTO_DISABLED then E.TUTO_ALL
  else mode

/-- The condition under which the loop of `CG_GetAllowedKeys` stores a key
(lines 149-150). -/
def keyAllowed (E : TutorialModes) (K : KeyCodes) (mode key : Int) : Bool :=
  decide (mode = E.TUTO_ALL
    ∨ (mode = E.TUTO_GAMEPAD ∧ key ≥ K.K_FIRST_GAMEPAD_KEY ∧ key ≤ K.K_LAST_GAMEPAD_KEY)
    ∨ (mode = E.TUTO_MOUSE ∧ key < K.K_FIRST_GAMEPAD_KEY))

/-- The loop `for( j = 0; j < 3; j++ )` of `CG_GetAllowedKeys` from index `j`
with `n = 3 - j` iterations left; `bkeys` is `bindings[ i ].keys`, `keys` the
array the caller passes. The result is the final `k` and the array. -/
def allowedKeysLoop (E : TutorialModes) (K : KeyCodes) (mode : Int) (bkeys : List Int) :
    Nat → Nat → Nat → List Int → Nat × List Int
  | 0, _, k, keys => (k, keys)
  | n + 1, j, k, keys =>
    let key := bkeys.getD j K.K_NONE
    if key = K.K_NONE then (k, keys)
    else if keyAllowed E K mode key then
      allowedKeysLoop E K mode bkeys n (j + 1) (k + 1) (keys.set k key)
    else allowedKeysLoop E K mode bkeys n (j + 1) k keys

/-- The loop `while (k < 3) keys[k++] = -1;` with `n = 3 - k` iterations
left. -/
def padKeysLoop : Nat → Nat → List Int → List Int
  | 0, _, keys => keys
  | n + 1, k, keys => padKeysLoop n (k + 1) (keys.set k (-1))

/-- Function `CG_GetAllowedKeys` (lines 137-155): the array `keys` after the
call for the binding whose key array is `bkeys`. -/
def CG_GetAllowedKeys (E : TutorialModes) (K : KeyCodes) (cg_tutorial in_joystickCount : Int)
    (bkeys : List Int) (keys : List Int) : List Int :=
  let mode := CG_getTutorialMode E cg_tutorial in_joystickCount
  let (k, keys1) := allowedKeysLoop E K mode bkeys 3 0 0 keys
  padKeysLoop (3 - k) k keys1

/-- Enumerator values for the scenarios: the modes numbered 0..4 in the order
disabled, all, mouse, gamepad, automatic. -/
def demoModes : TutorialModes :=
  { TUTO_DISABLED := 0, TUTO_ALL := 1, TUTO_MOUSE := 2, TUTO_GAMEPAD := 3, TUTO_AUTOMATIC := 4 }

/-- Key codes for the scenarios: no key is -1, the gamepad keys are 200..250. -/
def demoKeys : KeyCodes :=
  { K_NONE := -1, K_FIRST_GAMEPAD_KEY := 200, K_LAST_GAMEPAD_KEY := 250 }

/-! ## Writing a page as a TGA file -/

/-- The value a `byte` holds after the assignment of the `int` value `v`. -/
def storeByte (v : Int) : Nat := (v % 256).toNat

/-- Modelled from the spec: `Com_Memcpy(dst + dstOff, src + srcOff, n)` for
regions that do not overlap: the destination memory after the copy. -/
def copyBytes (dst : Int → Nat) (dstOff : Int) (src : Int → Nat) (srcOff : Int) (n : Int) :
    Int → Nat :=
  fun p => if dstOff ≤ p ∧ p < dstOff + n then src (srcOff + (p - dstOff)) else dst p

/-- The header of `WriteTGA` (lines 157-163): `Com_Memset (buffer, 0, 18)` and
the six assignments; `mem` is the content of the allocated buffer. -/
def tgaHeader (mem : Int → Nat) (width height : Int) : Int → Nat :=
  let buffer : Int → Nat := fun p => if 0 ≤ p ∧ p < 18 then 0 else mem p
  let buffer := Function.update buffer 2 2
  let buffer := Function.update buffer 12 (storeByte (width % 256))
  let buffer := Function.update buffer 13 (storeByte (width / 256))
  let buffer := Function.update buffer 14 (storeByte (height % 256))
  let buffer := Function.update buffer 15 (storeByte (height / 256))
  Function.update buffer 16 32

/-- The loop `for (i=18 ; i<c ; i+=4)` of `WriteTGA` (lines 167-173); iteration
`k` has `i = 18 + 4 * k`. -/
def tgaSwap (data buffer : Int → Nat) (c : Int) : Int → Nat :=
  (List.range ((c - 18 + 3) / 4).toNat).foldl
    (fun b (k : Nat) =>
      let i : Int := 18 + 4 * (k : Int)
      let b := Function.update b i (data (i - 18 + 2))
      let b := Function.update b (i + 1) (data (i - 18 + 1))
      let b := Function.update b (i + 2) (data (i - 18 + 0))
      Function.update b (i + 3) (data (i - 18 + 3)))
    buffer

/-- One iteration of the loop that flips the image (lines 179-185): the rows
`row` and `height - row - 1` are exchanged through the buffer `flip`. -/
def tgaFlipRow (buffer : Int → Nat) (width height row : Int) : Int → Nat :=
  let src := 18 + wrapInt (wrapInt (row * 4) * width)
  let dst := 18 + wrapInt (wrapInt (wrapInt (wrapInt (height - row) - 1) * 4) * width)
  let n := wrapInt (width * 4)
  let flip := copyBytes (fun _ => 0) 0 buffer src n
  let buffer := copyBytes buffer src buffer dst n
  copyBytes buffer dst flip 0 n

/-- The loop `for(row = 0; row < height/2; row++)` of `WriteTGA`. -/
def tgaFlip (buffer : Int → Nat) (width height : Int) : Int → Nat :=
  (List.range (height / 2).toNat).foldl (fun b (row : Nat) => tgaFlipRow b width height row) buffer

/-- Function `WriteTGA` (lines 149-195): the bytes handed to `FS_WriteFile`,
which are the first `c` bytes of `buffer`. `mem` is the content of the buffer
as allocated, `data` the image. -/
def WriteTGA (mem data : Int → Nat) (width height : Int) : List Nat :=
  let buffer := tgaHeader mem width height
  let c := wrapInt (18 + wrapInt (wrapInt (width * height) * 4))
  let buffer := tgaSwap data buffer c
  let buffer := tgaFlip buffer width height
  (List.range c.toNat).map (fun (k : Nat) => buffer (k : Int))

/-- An image of 2 columns and 3 rows: byte `p` of `data` is `p + 100`. -/
def demoImage : Int → Nat := fun p => (p + 100).toNat

/-! ## The canvas indices a call writes -/

/-- The canvas indices the copy loops of lines 255-289 write to when they copy
`height` rows of `pitch` bytes to `dst`: index `dst + i * CANVAS_SIZE + j` for
row `i` and byte `j` of the row (the 1-bit branch writes to some of them
only). -/
def blitWrites (dst height pitch : Int) : List Int :=
  (List.range height.toNat).flatMap (fun (i : Nat) =>
    (List.range pitch.toNat).map (fun (j : Nat) => dst + (i : Int) * CANVAS_SIZE + (j : Int)))

/-- The canvas indices a call of `RE_ConstructGlyphInfo` writes to; the
branches are those of the function, and only the branch that reaches the copy
loops writes. -/
def constructWrites {F : Type} (ops : FloatOps F) (st : PackState) (face : Option Face)
    (c : Nat) (calcHeight : Bool) (margin : Int) : List Int :=
  let glyph0 : glyphInfo_t F := zeroGlyph ops
  match face with
  | none => []
  | some f =>
    let slot := f c
    match R_RenderGlyph slot glyph0 with
    | (none, _) => []
    | (some _, g) =>
      let glyph1 := { g with xSkip := slot.horiAdvance / 64 + 1 }
      let maxHeight := if glyph1.height > st.maxHeight then glyph1.height else st.maxHeight
      if calcHeight then []
      else
        let margedMaxHeight := maxHeight + margin * 2
        let scaled_width := glyph1.pitch + margin * 2
        let x1 := if st.xOut + scaled_width + 1 ≥ CANVAS_SIZE - 1 then 0 else st.xOut
        let y1 := if st.xOut + scaled_width + 1 ≥ CANVAS_SIZE - 1 then st.yOut + margedMaxHeight + 1
                  else st.yOut
        if y1 + margedMaxHeight + 1 ≥ CANVAS_SIZE - 1 then []
        else blitWrites ((y1 + margin) * CANVAS_SIZE + (x1 + margin)) glyph1.height glyph1.pitch

/-- A filesystem holding the font file, a cache file of `RE_RegisterNewFont`
for the font `a` at point size 12 and one for a font whose simple name has 60
characters, both of exactly `sizeof(newFontInfo_t)` bytes for `tinyLayout`. -/
def newCacheFiles : Files := fun n =>
  if n = newKey (str "a") 12 then some layoutFile
  else if n = newKey (List.replicate 60 97) 12 then some layoutFile
  else if n = str "fonts/a.ttf" then some [0, 1, 0, 0] else none

/-- The state after `R_InitFreeType` in a fresh process over `newCacheFiles`. -/
def newCacheState : State ℚ :=
  R_InitFreeType (demoWorld false) (initialState (demoWorld false) tinyLayout newCacheFiles)

/-- The scenario world with the arithmetic of binary32 in place of exact
arithmetic. -/
def roundWorld : World ℚ := { demoWorld false with ops := binary32Ops }

/-! ## Cache codec: decoding a dumped record -/

theorem word32_bytes (u : Nat) (h : u < 4294967296) :
    (u % 256 ||| (u / 256 % 256) <<< 8 ||| (u / 65536 % 256) <<< 16 ||| (u / 16777216 % 256) <<< 24) = u := by
  have e1 : u % 256 ||| (u / 256 % 256) <<< 8 = 2 ^ 8 * (u / 256 % 256) + u % 256 := by
    rw [Nat.shiftLeft_eq, Nat.lor_comm, Nat.mul_comm]
    exact (Nat.mul_add_lt_is_or (by omega) _).symm
  have e2 : (2 ^ 8 * (u / 256 % 256) + u % 256) ||| (u / 65536 % 256) <<< 16
      = 2 ^ 16 * (u / 65536 % 256) + (2 ^ 8 * (u / 256 % 256) + u % 256) := by
    rw [Nat.shiftLeft_eq, Nat.lor_comm, Nat.mul_comm]
    exact (Nat.mul_add_lt_is_or (by omega) _).symm
  have e3 : (2 ^ 16 * (u / 65536 % 256) + (2 ^ 8 * (u / 256 % 256) + u % 256)) ||| (u / 16777216 % 256) <<< 24
      = 2 ^ 24 * (u / 16777216 % 256) + (2 ^ 16 * (u / 65536 % 256) + (2 ^ 8 * (u / 256 % 256) + u % 256)) := by
    rw [Nat.shiftLeft_eq, Nat.lor_comm, Nat.mul_comm]
    exact (Nat.mul_add_lt_is_or (by omega) _).symm
  rw [e1, e2, e3]
  omega

theorem toInt32_dump (n : Int) (h : isInt32 n) : toInt32 ((n % 4294967296).toNat) = n := by
  unfold isInt32 at h
  unfold toInt32
  have h1 : (n % 4294967296).toNat < 4294967296 := by omega
  rw [Nat.mod_eq_of_lt h1]
  split_ifs with hc <;> omega

/-- An `int` expression whose result fits 32 bits has that result. -/
theorem wrapInt_eq (n : Int) (h : isInt32 n) : wrapInt n = n := toInt32_dump n h

theorem wrapInt_range (n : Int) : isInt32 (wrapInt n) := by
  unfold wrapInt toInt32 isInt32
  split_ifs <;> omega

theorem byteAt_append_add (pre l : List Nat) (k : Nat) :
    byteAt (pre ++ l) (pre.length + k) = byteAt l k := by
  unfold byteAt
  rw [List.getD_append_right _ _ _ _ (by omega)]
  simp

/-- Reading a word at offset `pre.length + k` of `pre ++ l` reads it at offset `k` of `l`. -/
theorem word32_append_add (pre l : List Nat) (k : Nat) :
    word32 (pre ++ l) (pre.length + k) = word32 l k := by
  unfold word32
  rw [Nat.add_assoc, Nat.add_assoc, Nat.add_assoc, byteAt_append_add, byteAt_append_add,
    byteAt_append_add, byteAt_append_add]

theorem word32_cons (x : Nat) (l : List Nat) (k : Nat) :
    word32 (x :: l) (k + 1) = word32 l k := rfl

theorem word32_dumpInt (n : Int) (rest : List Nat) :
    word32 (dumpInt n ++ rest) 0 = (n % 4294967296).toNat := by
  have h : (n % 4294967296).toNat < 4294967296 := by omega
  simpa [word32, byteAt, dumpInt] using word32_bytes _ h

theorem word32_dumpFloat {F : Type} (ops : FloatRepr F) (x : F) (rest : List Nat) :
    word32 (dumpFloat ops x ++ rest) 0 = ops.toBits x % 4294967296 := by
  have h : ops.toBits x % 4294967296 < 4294967296 := Nat.mod_lt _ (by norm_num)
  simpa [word32, byteAt, dumpFloat] using word32_bytes _ h

theorem dumpInt_length (n : Int) : (dumpInt n).length = 4 := rfl
theorem dumpFloat_length {F : Type} (ops : FloatRepr F) (x : F) : (dumpFloat ops x).length = 4 := rfl

/-- Reading an `int` back from its memory image. -/
theorem readInt_dump (pre rest : List Nat) (n : Int) (h : isInt32 n) :
    readInt (pre ++ (dumpInt n ++ rest)) pre.length = (n, (pre ++ dumpInt n).length) := by
  unfold readInt
  have := word32_append_add pre (dumpInt n ++ rest) 0
  rw [Nat.add_zero] at this
  rw [this, word32_dumpInt, toInt32_dump n h]
  simp [dumpInt_length]

/-- Reading a `float` back from its memory image. -/
theorem readFloat_dump {F : Type} (ops : FloatRepr F)
    (hF : ∀ x, ops.toBits x < 4294967296 ∧ ops.ofBits (ops.toBits x) = x)
    (pre rest : List Nat) (x : F) :
    readFloat ops (pre ++ (dumpFloat ops x ++ rest)) pre.length = (x, (pre ++ dumpFloat ops x).length) := by
  unfold readFloat
  have := word32_append_add pre (dumpFloat ops x ++ rest) 0
  rw [Nat.add_zero] at this
  rw [this, word32_dumpFloat, Nat.mod_eq_of_lt (hF x).1, (hF x).2]
  simp [dumpFloat_length]

theorem dumpStr_length (w : Nat) (s : List Nat) : (dumpStr w s).length = w := by
  simp [dumpStr]

theorem dumpGlyph_length {F : Type} (ops : FloatRepr F) (L : Layout) (g : glyphInfo_t F) :
    (dumpGlyph ops L g).length = glyphSize L := by
  simp only [dumpGlyph, List.length_append, dumpInt_length, dumpFloat_length, dumpStr_length, glyphSize]

/-- Decoding the memory image of a glyph gives back its metric fields and
its handle, and advances the offset by the size of a glyph. -/
theorem readGlyph_dump {F : Type} (ops : FloatRepr F) (L : Layout)
    (hF : ∀ x, ops.toBits x < 4294967296 ∧ ops.ofBits (ops.toBits x) = x)
    (pre rest : List Nat) (g : glyphInfo_t F) (hg : glyphInt32 g) :
    (readGlyph ops L (pre ++ (dumpGlyph ops L g ++ rest)) pre.length).1.metrics = g.metrics
      ∧ (readGlyph ops L (pre ++ (dumpGlyph ops L g ++ rest)) pre.length).2
          = pre.length + glyphSize L := by
  obtain ⟨h1, h2, h3, h4, h5, h6, h7, h8⟩ := hg
  unfold readGlyph dumpGlyph
  simp only [List.append_assoc]
  rw [readInt_dump pre _ _ h1]
  simp only []
  rw [← List.append_assoc pre, readInt_dump _ _ _ h2]
  simp only []
  rw [← List.append_assoc (pre ++ _), readInt_dump _ _ _ h3]
  simp only []
  rw [← List.append_assoc ((pre ++ _) ++ _), readInt_dump _ _ _ h4]
  simp only []
  rw [← List.append_assoc (((pre ++ _) ++ _) ++ _), readInt_dump _ _ _ h5]
  simp only []
  rw [← List.append_assoc ((((pre ++ _) ++ _) ++ _) ++ _), readInt_dump _ _ _ h6]
  simp only []
  rw [← List.append_assoc (((((pre ++ _) ++ _) ++ _) ++ _) ++ _), readInt_dump _ _ _ h7]
  simp only []
  rw [← List.append_assoc ((((((pre ++ _) ++ _) ++ _) ++ _) ++ _) ++ _), readFloat_dump ops hF]
  simp only []
  rw [← List.append_assoc (((((((pre ++ _) ++ _) ++ _) ++ _) ++ _) ++ _) ++ _), readFloat_dump ops hF]
  simp only []
  rw [← List.append_assoc ((((((((pre ++ _) ++ _) ++ _) ++ _) ++ _) ++ _) ++ _) ++ _), readFloat_dump ops hF]
  simp only []
  rw [← List.append_assoc (((((((((pre ++ _) ++ _) ++ _) ++ _) ++ _) ++ _) ++ _) ++ _) ++ _), readFloat_dump ops hF]
  simp only []
  rw [← List.append_assoc ((((((((((pre ++ _) ++ _) ++ _) ++ _) ++ _) ++ _) ++ _) ++ _) ++ _) ++ _), readInt_dump _ _ _ h8]
  simp only [glyphInfo_t.metrics, List.length_append, dumpInt_length, dumpFloat_length, glyphSize, true_and]
  omega

theorem dumpGlyphs_length {F : Type} (ops : FloatRepr F) (L : Layout) (gs : List (glyphInfo_t F)) :
    (dumpGlyphs ops L gs).length = gs.length * glyphSize L := by
  induction gs with
  | nil => simp [dumpGlyphs]
  | cons g gs ih =>
    simp only [dumpGlyphs, List.length_append, dumpGlyph_length, ih, List.length_cons]
    rw [Nat.add_mul, Nat.one_mul, Nat.add_comm]

/-- Decoding a dumped glyph array gives back the metrics of every glyph. -/
theorem readGlyphs_dump {F : Type} (ops : FloatRepr F) (L : Layout)
    (hF : ∀ x, ops.toBits x < 4294967296 ∧ ops.ofBits (ops.toBits x) = x)
    (gs : List (glyphInfo_t F)) (hg : ∀ g ∈ gs, glyphInt32 g) (pre rest : List Nat) :
    (readGlyphs ops L (pre ++ (dumpGlyphs ops L gs ++ rest)) gs.length pre.length).1.map
        glyphInfo_t.metrics = gs.map glyphInfo_t.metrics
      ∧ (readGlyphs ops L (pre ++ (dumpGlyphs ops L gs ++ rest)) gs.length pre.length).1.length
          = gs.length
      ∧ (readGlyphs ops L (pre ++ (dumpGlyphs ops L gs ++ rest)) gs.length pre.length).2
          = (pre ++ dumpGlyphs ops L gs).length := by
  induction gs generalizing pre with
  | nil => simp [readGlyphs, dumpGlyphs]
  | cons g gs ih =>
    have hg1 : glyphInt32 g := hg g (List.mem_cons_self _ _)
    have hg2 : ∀ x ∈ gs, glyphInt32 x := fun x hx => hg x (List.mem_cons_of_mem _ hx)
    obtain ⟨m1, m2⟩ := readGlyph_dump ops L hF pre (dumpGlyphs ops L gs ++ rest) g hg1
    have ih1 := ih hg2 (pre ++ dumpGlyph ops L g)
    simp only [List.append_assoc] at ih1
    simp only [dumpGlyphs, List.length_cons, readGlyphs, List.append_assoc]
    rw [m2]
    have e : pre.length + glyphSize L = (pre ++ dumpGlyph ops L g).length := by
      simp [dumpGlyph_length]
    rw [e]
    refine ⟨?_, ?_, ?_⟩
    · simp only [List.map_cons, m1, ih1.1]
    · simp only [List.length_cons, ih1.2.1]
    · rw [ih1.2.2]

theorem updateRange_map {α β : Type} (f : α → α) (p : α → β) (hp : ∀ x, p (f x) = p x)
    (a b k : Nat) (l : List α) : (updateRange f a b k l).map p = l.map p := by
  induction l generalizing k with
  | nil => rfl
  | cons x xs ih =>
    simp only [updateRange, List.map_cons, ih]
    split_ifs <;> simp [hp]

theorem updateRange_length {α : Type} (f : α → α) (a b k : Nat) (l : List α) :
    (updateRange f a b k l).length = l.length := by
  induction l generalizing k with
  | nil => rfl
  | cons x xs ih => simp [updateRange, ih]

theorem registerGlyphShaders_metrics {F : Type} (L : Layout) (noMip : List Nat → Int)
    (gs : List (glyphInfo_t F)) :
    (registerGlyphShaders L noMip gs).map glyphInfo_t.metrics = gs.map glyphInfo_t.metrics := by
  unfold registerGlyphShaders
  apply updateRange_map
  intro x
  rfl

theorem readShadow_dump {F : Type} (ops : FloatRepr F) (L : Layout)
    (hF : ∀ x, ops.toBits x < 4294967296 ∧ ops.ofBits (ops.toBits x) = x)
    (sh : shadowInfo_t F) (hlen : sh.glyphs.length = L.GLYPHS_PER_FONT)
    (hg : ∀ g ∈ sh.glyphs, glyphInt32 g) (hm : isInt32 sh.margin) (pre rest : List Nat) :
    (readShadow ops L (pre ++ (dumpShadow ops L sh ++ rest)) pre.length).1.summary = sh.summary
      ∧ (readShadow ops L (pre ++ (dumpShadow ops L sh ++ rest)) pre.length).2
          = (pre ++ dumpShadow ops L sh).length := by
  have hb : isInt32 (if sh.available then 1 else 0) := by
    unfold isInt32; split_ifs <;> omega
  unfold readShadow dumpShadow
  simp only [List.append_assoc]
  obtain ⟨g1, _, g3⟩ := readGlyphs_dump ops L hF sh.glyphs hg pre
    (dumpInt sh.margin ++ (dumpInt (if sh.available then 1 else 0) ++ rest))
  rw [hlen] at g1 g3
  rcases hp : readGlyphs ops L (pre ++ (dumpGlyphs ops L sh.glyphs ++ (dumpInt sh.margin
    ++ (dumpInt (if sh.available then 1 else 0) ++ rest)))) L.GLYPHS_PER_FONT pre.length
    with ⟨gs, o⟩
  rw [hp] at g1 g3
  simp only [] at g1 g3 ⊢
  rw [g3, ← List.append_assoc pre, readInt_dump _ _ _ hm]
  simp only []
  rw [← List.append_assoc (pre ++ _), readInt_dump _ _ _ hb]
  refine ⟨?_, ?_⟩
  · simp only [shadowInfo_t.summary, g1, Prod.mk.injEq, true_and]
    cases sh.available <;> simp
  · simp only [List.length_append, Nat.add_assoc]

theorem dumpShadow_length {F : Type} (ops : FloatRepr F) (L : Layout) (sh : shadowInfo_t F)
    (hlen : sh.glyphs.length = L.GLYPHS_PER_FONT) :
    (dumpShadow ops L sh).length = shadowSize L := by
  simp only [dumpShadow, List.length_append, dumpGlyphs_length, hlen, dumpInt_length, shadowSize]

theorem dumpShadows_length {F : Type} (ops : FloatRepr F) (L : Layout) (shs : List (shadowInfo_t F))
    (hlen : ∀ sh ∈ shs, sh.glyphs.length = L.GLYPHS_PER_FONT) :
    (dumpShadows ops L shs).length = shs.length * shadowSize L := by
  induction shs with
  | nil => simp [dumpShadows]
  | cons sh shs ih =>
    simp only [dumpShadows, List.length_append, List.length_cons,
      dumpShadow_length ops L sh (hlen sh (List.mem_cons_self _ _)),
      ih (fun x hx => hlen x (List.mem_cons_of_mem _ hx))]
    rw [Nat.add_mul, Nat.one_mul, Nat.add_comm]

theorem readShadows_dump {F : Type} (ops : FloatRepr F) (L : Layout)
    (hF : ∀ x, ops.toBits x < 4294967296 ∧ ops.ofBits (ops.toBits x) = x)
    (shs : List (shadowInfo_t F))
    (hsh : ∀ sh ∈ shs, sh.glyphs.length = L.GLYPHS_PER_FONT ∧ (∀ g ∈ sh.glyphs, glyphInt32 g)
        ∧ isInt32 sh.margin)
    (pre rest : List Nat) :
    (readShadows ops L (pre ++ (dumpShadows ops L shs ++ rest)) shs.length pre.length).1.map
        shadowInfo_t.summary = shs.map shadowInfo_t.summary := by
  induction shs generalizing pre with
  | nil => simp [readShadows, dumpShadows]
  | cons sh shs ih =>
    obtain ⟨h1, h2, h3⟩ := hsh sh (List.mem_cons_self _ _)
    have hsh2 := fun x hx => hsh x (List.mem_cons_of_mem sh hx)
    obtain ⟨m1, m2⟩ := readShadow_dump ops L hF sh h1 h2 h3 pre (dumpShadows ops L shs ++ rest)
    have ih1 := ih hsh2 (pre ++ dumpShadow ops L sh)
    simp only [List.append_assoc] at ih1
    simp only [dumpShadows, List.length_cons, readShadows, List.append_assoc]
    rcases hp : readShadow ops L (pre ++ (dumpShadow ops L sh ++ (dumpShadows ops L shs ++ rest)))
      pre.length with ⟨x, o⟩
    rw [hp] at m1 m2
    simp only [] at m1 m2 ⊢
    rw [m2]
    simp only [List.map_cons, m1, ih1]

theorem registerShadowShaders_summary {F : Type} (L : Layout) (noMip : List Nat → Int)
    (shs : List (shadowInfo_t F)) :
    (shs.map (fun sh =>
      if sh.available then { sh with glyphs := registerGlyphShaders L noMip sh.glyphs } else sh)).map
        shadowInfo_t.summary = shs.map shadowInfo_t.summary := by
  rw [List.map_map]
  apply List.map_congr_left
  intro sh _
  simp only [Function.comp]
  split_ifs
  · simp only [shadowInfo_t.summary, registerGlyphShaders_metrics]
  · rfl

theorem dumpNewFont_length {F : Type} (ops : FloatRepr F) (L : Layout) (r : newFontInfo_t F)
    (hr : newFontWF L r) : (dumpNewFont ops L r).length = newFontInfoSize L := by
  obtain ⟨h1, _, h3, h4⟩ := hr
  simp only [dumpNewFont, List.length_append, dumpGlyphs_length, h1, dumpFloat_length,
    dumpStr_length, dumpShadows_length ops L r.shadows (fun sh hs => (h4 sh hs).1), h3,
    newFontInfoSize, fontInfoSize]

/-- C1. Codec round trip: for every well-formed multi-shadow record `r`, the flat
record that `RE_RegisterNewFont` saves has the size the cache-hit decoder
accepts, and decoding it yields, for every glyph index and every shadow level,
the same eleven metric fields (height, top, bottom, pitch, xSkip, imageWidth,
imageHeight, s, t, s2, t2), the same shadow margin and availability flag, and
the same glyphScale. Floats are compared as the values the 4-byte object
representation denotes (`hF`: reading the representation back gives the float). -/
theorem codec_round_trip {F : Type} (ops : FloatRepr F) (L : Layout) (noMip : List Nat → Int)
    (name : List Nat) (r : newFontInfo_t F)
    (hF : ∀ x, ops.toBits x < 4294967296 ∧ ops.ofBits (ops.toBits x) = x)
    (hr : newFontWF L r) :
    (dumpNewFont ops L r).length = newFontInfoSize L
      ∧ (decodeNewFont ops L noMip name (dumpNewFont ops L r)).glyphs.map glyphInfo_t.metrics
          = r.glyphs.map glyphInfo_t.metrics
      ∧ (decodeNewFont ops L noMip name (dumpNewFont ops L r)).shadows.map shadowInfo_t.summary
          = r.shadows.map shadowInfo_t.summary
      ∧ (decodeNewFont ops L noMip name (dumpNewFont ops L r)).glyphScale = r.glyphScale := by
  refine ⟨dumpNewFont_length ops L r hr, ?_⟩
  obtain ⟨h1, h2, h3, h4⟩ := hr
  have g := readGlyphs_dump ops L hF r.glyphs h2 []
    (dumpFloat ops r.glyphScale ++ (dumpStr L.MAX_QPATH r.name ++ dumpShadows ops L r.shadows))
  rw [h1] at g
  simp only [List.nil_append, List.length_nil] at g
  obtain ⟨g1, _, g3⟩ := g
  have f := readFloat_dump ops hF (dumpGlyphs ops L r.glyphs)
    (dumpStr L.MAX_QPATH r.name ++ dumpShadows ops L r.shadows) r.glyphScale
  have s := readShadows_dump ops L hF r.shadows h4
    (dumpGlyphs ops L r.glyphs ++ (dumpFloat ops r.glyphScale ++ dumpStr L.MAX_QPATH r.name)) []
  rw [h3] at s
  simp only [List.append_assoc, List.append_nil] at s
  have e : (dumpGlyphs ops L r.glyphs ++ dumpFloat ops r.glyphScale).length + L.MAX_QPATH
      = (dumpGlyphs ops L r.glyphs ++ (dumpFloat ops r.glyphScale
          ++ dumpStr L.MAX_QPATH r.name)).length := by
    simp only [List.length_append, dumpStr_length, Nat.add_assoc]
  unfold decodeNewFont dumpNewFont
  simp only [List.append_assoc]
  rcases hp : readGlyphs ops L (dumpGlyphs ops L r.glyphs ++ (dumpFloat ops r.glyphScale
    ++ (dumpStr L.MAX_QPATH r.name ++ dumpShadows ops L r.shadows))) L.GLYPHS_PER_FONT 0
    with ⟨gs, o⟩
  rw [hp] at g1 g3
  simp only [] at g1 g3 ⊢
  rw [g3, f]
  simp only []
  rw [e]
  rcases hq : readShadows ops L (dumpGlyphs ops L r.glyphs ++ (dumpFloat ops r.glyphScale
    ++ (dumpStr L.MAX_QPATH r.name ++ dumpShadows ops L r.shadows))) L.FONT_MAXSHADOW
    (dumpGlyphs ops L r.glyphs ++ (dumpFloat ops r.glyphScale
          ++ dumpStr L.MAX_QPATH r.name)).length with ⟨shs, o2⟩
  rw [hq] at s
  simp only [] at s ⊢
  refine ⟨?_, ?_, trivial⟩
  · rw [registerGlyphShaders_metrics, g1]
  · rw [registerShadowShaders_summary, s]

theorem wordRepr_law (x : Fin 4294967296) :
    wordRepr.toBits x < 4294967296 ∧ wordRepr.ofBits (wordRepr.toBits x) = x := by
  refine ⟨x.isLt, ?_⟩
  apply Fin.ext
  simp [wordRepr, Fin.ofNat, Nat.mod_eq_of_lt x.isLt]

/-- C1 at a concrete record: `sampleRecord` is well formed for `tinyLayout` and
the round trip holds for it. -/
theorem codec_round_trip_witness :
    newFontWF tinyLayout sampleRecord
      ∧ (dumpNewFont wordRepr tinyLayout sampleRecord).length = newFontInfoSize tinyLayout
      ∧ (decodeNewFont wordRepr tinyLayout (fun _ => 7) (str "fonts/f_12.dat")
            (dumpNewFont wordRepr tinyLayout sampleRecord)).glyphs.map glyphInfo_t.metrics
          = sampleRecord.glyphs.map glyphInfo_t.metrics
      ∧ (decodeNewFont wordRepr tinyLayout (fun _ => 7) (str "fonts/f_12.dat")
            (dumpNewFont wordRepr tinyLayout sampleRecord)).shadows.map shadowInfo_t.summary
          = sampleRecord.shadows.map shadowInfo_t.summary
      ∧ (decodeNewFont wordRepr tinyLayout (fun _ => 7) (str "fonts/f_12.dat")
            (dumpNewFont wordRepr tinyLayout sampleRecord)).glyphScale = sampleRecord.glyphScale :=
  have hwf : newFontWF tinyLayout sampleRecord := by
    simp [newFontWF, tinyLayout, sampleRecord, sampleGlyph, glyphInt32, isInt32]
  ⟨hwf, codec_round_trip wordRepr tinyLayout (fun _ => 7) (str "fonts/f_12.dat") sampleRecord
    wordRepr_law hwf⟩

/-! ## The packer: texture coordinates and cells -/

theorem glyphBox_nonneg (g : GlyphSlot) (hw : 0 ≤ g.width) (hh : 0 ≤ g.height) :
    0 ≤ (R_GetGlyphInfo g).pitch ∧ 0 ≤ (R_GetGlyphInfo g).height := by
  simp only [R_GetGlyphInfo, _FLOOR, _CEIL, _TRUNC]
  omega

/-- The arithmetic behind the texture coordinates of a cell of size `sw × sh`
placed at `(x, y)`. -/
theorem texcoord_arith (x y sw sh : Int) (hx : 0 ≤ x) (hy : 0 ≤ y) (hsw : 0 ≤ sw) (hsh : 0 ≤ sh)
    (hyb : y + sh ≤ 1024) (hxb : sw ≤ 1024 → x + sw ≤ 1024) :
    (0 : ℚ) ≤ (x : ℚ) / ((1024 : Int) : ℚ)
      ∧ (x : ℚ) / ((1024 : Int) : ℚ) ≤ (x : ℚ) / ((1024 : Int) : ℚ) + (sw : ℚ) / ((1024 : Int) : ℚ)
      ∧ (0 < sw → (x : ℚ) / ((1024 : Int) : ℚ) < (x : ℚ) / ((1024 : Int) : ℚ) + (sw : ℚ) / ((1024 : Int) : ℚ))
      ∧ (sw ≤ 1024 → (x : ℚ) / ((1024 : Int) : ℚ) + (sw : ℚ) / ((1024 : Int) : ℚ) ≤ 1)
      ∧ (0 : ℚ) ≤ (y : ℚ) / ((1024 : Int) : ℚ)
      ∧ (y : ℚ) / ((1024 : Int) : ℚ) ≤ (y : ℚ) / ((1024 : Int) : ℚ) + (sh : ℚ) / ((1024 : Int) : ℚ)
      ∧ (0 < sh → (y : ℚ) / ((1024 : Int) : ℚ) < (y : ℚ) / ((1024 : Int) : ℚ) + (sh : ℚ) / ((1024 : Int) : ℚ))
      ∧ (y : ℚ) / ((1024 : Int) : ℚ) + (sh : ℚ) / ((1024 : Int) : ℚ) ≤ 1
      ∧ ((x : ℚ) / ((1024 : Int) : ℚ) + (sw : ℚ) / ((1024 : Int) : ℚ) - (x : ℚ) / ((1024 : Int) : ℚ))
          * ((1024 : Int) : ℚ) = (sw : ℚ)
      ∧ ((y : ℚ) / ((1024 : Int) : ℚ) + (sh : ℚ) / ((1024 : Int) : ℚ) - (y : ℚ) / ((1024 : Int) : ℚ))
          * ((1024 : Int) : ℚ) = (sh : ℚ) := by
  have hx' : (0 : ℚ) ≤ x := by exact_mod_cast hx
  have hy' : (0 : ℚ) ≤ y := by exact_mod_cast hy
  have hsw' : (0 : ℚ) ≤ sw := by exact_mod_cast hsw
  have hsh' : (0 : ℚ) ≤ sh := by exact_mod_cast hsh
  have hyb' : (y : ℚ) + sh ≤ 1024 := by exact_mod_cast hyb
  have e : (((1024 : Int) : ℚ)) = 1024 := by norm_num
  rw [e]
  refine ⟨by positivity, ?_, ?_, ?_, by positivity, ?_, ?_, ?_, ?_, ?_⟩
  · have : (0 : ℚ) ≤ (sw : ℚ) / 1024 := by positivity
    linarith
  · intro h
    have h' : (0 : ℚ) < sw := by exact_mod_cast h
    have : (0 : ℚ) < (sw : ℚ) / 1024 := by positivity
    linarith
  · intro h
    have h' : (x : ℚ) + sw ≤ 1024 := by exact_mod_cast hxb h
    rw [← add_div, div_le_one (by norm_num)]
    exact h'
  · have : (0 : ℚ) ≤ (sh : ℚ) / 1024 := by positivity
    linarith
  · intro h
    have h' : (0 : ℚ) < sh := by exact_mod_cast h
    have : (0 : ℚ) < (sh : ℚ) / 1024 := by positivity
    linarith
  · rw [← add_div, div_le_one (by norm_num)]
    exact hyb'
  · field_simp
  · field_simp

/-- The texture coordinates in exact arithmetic: for every glyph that
`RE_ConstructGlyphInfo` places (bitmap present, page-full not signalled) from a
cursor with non-negative coordinates and with a non-negative margin, the
coordinates satisfy `0 ≤ s ≤ s2`, `0 ≤ t ≤ t2 ≤ 1`, with `s < s2` when the cell
width `imageWidth` is positive and `t < t2` when `imageHeight` is positive,
`s2 ≤ 1` when the cell is at most `CANVAS_SIZE` wide, and
`(s2 - s) * CANVAS_SIZE = imageWidth`, `(t2 - t) * CANVAS_SIZE = imageHeight`. -/
theorem coords_exact (face : Face) (c : Nat) (margin : Int) (st : PackState)
    (hout : (face c).outline = true)
    (hw : 0 ≤ (face c).width) (hh : 0 ≤ (face c).height)
    (hx : 0 ≤ st.xOut) (hy : 0 ≤ st.yOut) (hm : 0 ≤ margin)
    (hplaced : (RE_ConstructGlyphInfo exactOps st (some face) c false margin).2.yOut ≠ -1) :
    let g := (RE_ConstructGlyphInfo exactOps st (some face) c false margin).1
    0 ≤ g.s ∧ g.s ≤ g.s2 ∧ (0 < g.imageWidth → g.s < g.s2) ∧ (g.imageWidth ≤ CANVAS_SIZE → g.s2 ≤ 1)
      ∧ 0 ≤ g.t ∧ g.t ≤ g.t2 ∧ (0 < g.imageHeight → g.t < g.t2) ∧ g.t2 ≤ 1
      ∧ (g.s2 - g.s) * (CANVAS_SIZE : ℚ) = g.imageWidth
      ∧ (g.t2 - g.t) * (CANVAS_SIZE : ℚ) = g.imageHeight := by
  obtain ⟨hp, hht⟩ := glyphBox_nonneg (face c) hw hh
  revert hplaced
  simp only [RE_ConstructGlyphInfo, R_RenderGlyph, hout, if_true, Bool.false_eq_true, if_false]
  split_ifs with h1 h2 h3 h4 h5 h6
  all_goals simp only [ne_eq, not_true_eq_false, IsEmpty.forall_iff, exactOps, CANVAS_SIZE]
  all_goals simp only [CANVAS_SIZE] at *
  all_goals intro _
  all_goals apply texcoord_arith
  all_goals omega

/-- What one real-pass call that does not signal page-full does to the cursor
and what cell it allots. -/
theorem construct_step {F : Type} (ops : FloatOps F) (face : Face) (c : Nat) (margin : Int)
    (st : PackState) (hw : 0 ≤ (face c).width) (hh : 0 ≤ (face c).height)
    (hx : 0 ≤ st.xOut) (hy : 0 ≤ st.yOut) (hm : 0 ≤ margin)
    (hplaced : (RE_ConstructGlyphInfo ops st (some face) c false margin).2.yOut ≠ -1) :
    let r := RE_ConstructGlyphInfo ops st (some face) c false margin
    0 ≤ r.2.xOut ∧ 0 ≤ r.2.yOut ∧ st.maxHeight ≤ r.2.maxHeight
      ∧ 0 ≤ r.1.imageWidth ∧ 0 ≤ r.1.imageHeight
      ∧ (r.1.imageHeight = 0 ∨ r.1.imageHeight ≤ r.2.maxHeight + margin * 2)
      ∧ ((r.2.yOut = st.yOut ∧ st.xOut ≤ r.2.xOut)
          ∨ st.yOut + st.maxHeight + margin * 2 + 1 ≤ r.2.yOut)
      ∧ ((r.1.imageWidth = 0 ∧ r.1.imageHeight = 0)
          ∨ (r.2.yOut = st.yOut ∧ st.xOut ≤ r.2.xOut - r.1.imageWidth - 1)
          ∨ st.yOut + st.maxHeight + margin * 2 + 1 ≤ r.2.yOut) := by
  obtain ⟨hp, hht⟩ := glyphBox_nonneg (face c) hw hh
  revert hplaced
  cases hout : (face c).outline
  · intro _
    simp only [RE_ConstructGlyphInfo, R_RenderGlyph, hout, Bool.false_eq_true, if_false, zeroGlyph]
    simp only [true_and, true_or, and_true, or_true]
    omega
  · simp only [RE_ConstructGlyphInfo, R_RenderGlyph, hout, if_true, Bool.false_eq_true, if_false]
    split_ifs with h1 h2 h3 h4 h5 h6
    all_goals simp only [ne_eq, not_true_eq_false, IsEmpty.forall_iff]
    all_goals simp only [CANVAS_SIZE] at *
    all_goals intro _
    all_goals try simp only [true_and, true_or, and_true, or_true]
    all_goals omega


/-- Every cell a run allots lies beyond the frontier of the state the run
starts in: in the current row at or right of the cursor, or in a later row;
unless it is empty. -/
theorem packRun_beyond {F : Type} (ops : FloatOps F) (face : Face) (margin : Int) (hm : 0 ≤ margin)
    (cs : List Nat) (hcs : ∀ c ∈ cs, 0 ≤ (face c).width ∧ 0 ≤ (face c).height) (st : PackState)
    (hx : 0 ≤ st.xOut) (hy : 0 ≤ st.yOut) (hmh : 0 ≤ st.maxHeight)
    (hfull : ∀ r ∈ packRun ops face margin cs st, r.2.yOut ≠ -1) :
    ∀ r ∈ packRun ops face margin cs st,
      ((cellOf r).w = 0 ∧ (cellOf r).h = 0)
        ∨ ((cellOf r).y = st.yOut ∧ st.xOut ≤ (cellOf r).x)
        ∨ st.yOut + st.maxHeight + margin * 2 + 1 ≤ (cellOf r).y := by
  induction cs generalizing st with
  | nil => intro r hr; simp [packRun] at hr
  | cons c cs ih =>
    intro r hr
    simp only [packRun, List.mem_cons] at hr hfull
    have hc := hcs c (List.mem_cons_self _ _)
    have hstep := construct_step ops face c margin st hc.1 hc.2 hx hy hm (hfull _ (Or.inl rfl))
    simp only [] at hstep
    obtain ⟨s1, s2, s3, s4, s5, s6, s7, s8⟩ := hstep
    rcases hr with rfl | hr
    · simpa only [cellOf] using s8
    · have hrec := ih (fun x hx => hcs x (List.mem_cons_of_mem _ hx)) _ s1 s2 (by omega)
        (fun x hx => hfull x (Or.inr hx)) r hr
      rcases hrec with h | h | h
      · exact Or.inl h
      · rcases s7 with ⟨e1, e2⟩ | e
        · right; left; constructor <;> omega
        · right; right; omega
      · right; right
        rcases s7 with ⟨e1, e2⟩ | e <;> omega

/-- C5. No overlap: in a run of real-pass calls of `RE_ConstructGlyphInfo` on one
page (a fixed margin, none of the calls signalling page-full, started from a
cursor with non-negative coordinates and a non-negative `maxHeight`), the cells `[x, x+imageWidth) ×
[y, y+imageHeight)` of any two distinct glyphs, each taken at the cursor the
glyph was placed at, have no pixel in common. `maxHeight` may grow during the
run; the case of the claim, where it is fixed at the maximum glyph height, is
included. -/
theorem cells_disjoint {F : Type} (ops : FloatOps F) (face : Face) (margin : Int) (hm : 0 ≤ margin)
    (cs : List Nat) (hcs : ∀ c ∈ cs, 0 ≤ (face c).width ∧ 0 ≤ (face c).height) (st : PackState)
    (hx : 0 ≤ st.xOut) (hy : 0 ≤ st.yOut) (hmh : 0 ≤ st.maxHeight)
    (hfull : ∀ r ∈ packRun ops face margin cs st, r.2.yOut ≠ -1) :
    ((packRun ops face margin cs st).map cellOf).Pairwise
      (fun a b => ∀ u v, ¬ (a.contains u v ∧ b.contains u v)) := by
  induction cs generalizing st with
  | nil => simp [packRun]
  | cons c cs ih =>
    simp only [packRun, List.mem_cons] at hfull
    have hc := hcs c (List.mem_cons_self _ _)
    have hstep := construct_step ops face c margin st hc.1 hc.2 hx hy hm (hfull _ (Or.inl rfl))
    simp only [] at hstep
    obtain ⟨s1, s2, s3, s4, s5, s6, s7, s8⟩ := hstep
    have hcs2 : ∀ x ∈ cs, 0 ≤ (face x).width ∧ 0 ≤ (face x).height :=
      fun x hx => hcs x (List.mem_cons_of_mem _ hx)
    simp only [packRun, List.map_cons, List.pairwise_cons]
    refine ⟨?_, ih hcs2 _ s1 s2 (by omega) (fun x hx => hfull x (Or.inr hx))⟩
    intro b hb u v
    obtain ⟨r, hr, rfl⟩ := List.mem_map.1 hb
    have hby := packRun_beyond ops face margin hm cs hcs2 _ s1 s2 (by omega)
      (fun x hx => hfull x (Or.inr hx)) r hr
    simp only [Cell.contains, cellOf] at hby ⊢
    rintro ⟨⟨a1, a2, a3, a4⟩, b1, b2, b3, b4⟩
    rcases hby with ⟨e1, e2⟩ | ⟨e1, e2⟩ | e
    · omega
    · omega
    · rcases s6 with z | z <;> omega

/-- C5 at a concrete run: three glyphs of pitch 500 placed with margin 1 from
the cursor `(0, 0)`; the third one opens a second row. -/
theorem cells_disjoint_witness :
    (∀ r ∈ packRun exactOps (fun _ => boxSlot 500 10) 1 [65, 66, 67] (packAt 0 0 10), r.2.yOut ≠ -1)
      ∧ ((packRun exactOps (fun _ => boxSlot 500 10) 1 [65, 66, 67] (packAt 0 0 10)).map cellOf).Pairwise
          (fun a b => ∀ u v, ¬ (a.contains u v ∧ b.contains u v)) :=
  have hfull : ∀ r ∈ packRun exactOps (fun _ => boxSlot 500 10) 1 [65, 66, 67] (packAt 0 0 10),
      r.2.yOut ≠ -1 := by decide
  ⟨hfull, cells_disjoint exactOps (fun _ => boxSlot 500 10) 1 (by decide) [65, 66, 67]
    (fun _ _ => (by decide : 0 ≤ (boxSlot 500 10).width ∧ 0 ≤ (boxSlot 500 10).height)) (packAt 0 0 10) (by decide) (by decide) (by decide) hfull⟩

/-! ## The page-building loop: stamping -/

theorem getElem?_updateRange {α : Type} (f : α → α) (a b : Nat) (l : List α) (k j : Nat) :
    (updateRange f a b k l)[j]? = (l[j]?).map (fun x => if a ≤ k + j ∧ k + j < b then f x else x) := by
  induction l generalizing k j with
  | nil => simp [updateRange]
  | cons x xs ih =>
    cases j with
    | zero => simp [updateRange]
    | succ j =>
      simp only [updateRange, List.getElem?_cons_succ, ih]
      have e : k + 1 + j = k + (j + 1) := by omega
      rw [e]

theorem pagesOf_append (a b : List Event) : pagesOf (a ++ b) = pagesOf a ++ pagesOf b := by
  simp [pagesOf]

theorem intervalsOf_append (a b : List Event) :
    intervalsOf (a ++ b) = intervalsOf a ++ intervalsOf b := by
  induction a with
  | nil => rfl
  | cons e a ih => cases e <;> simp [intervalsOf, ih]

theorem consecutive_snoc (a b c : Nat) (l : List (Nat × Nat)) (h : Consecutive a l b) :
    Consecutive a (l ++ [(b, c)]) c := by
  induction l generalizing a with
  | nil => simp only [Consecutive] at h; subst h; simp [Consecutive]
  | cons x xs ih =>
    obtain ⟨x1, x2⟩ := x
    simp only [Consecutive] at h
    simp only [List.cons_append, Consecutive]
    exact ⟨h.1, ih _ h.2⟩

theorem pageLoop_of_le {F : Type} (w : World F) (L : Layout) (cfg : PageCfg F) (face : Face)
    (fuel : Nat) (s : LoopState F) (h : s.i ≤ L.GLYPH_END + 1) :
    pageLoop w L cfg face (fuel + 1) s = pageLoop w L cfg face fuel (pageStep w L cfg face s) := by
  simp [pageLoop, h]

theorem pageLoop_of_gt {F : Type} (w : World F) (L : Layout) (cfg : PageCfg F) (face : Face)
    (fuel : Nat) (s : LoopState F) (h : L.GLYPH_END + 1 < s.i) :
    pageLoop w L cfg face fuel s = some s := by
  have h' : ¬ s.i ≤ L.GLYPH_END + 1 := by omega
  cases fuel <;> simp [pageLoop, h']

/-- The invariant holds when the loop starts. -/
theorem stampInv_start {F : Type} (w : World F) (L : Layout) (cfg : PageCfg F)
    (hL : L.GLYPH_START ≤ L.GLYPH_END + 1) (canvas : Canvas) (mh : Int)
    (glyphs : List (glyphInfo_t F)) (files : Files) (t0 : List Event) :
    StampInv w L cfg t0 (loopStart L canvas mh glyphs files t0) [] := by
  refine ⟨by simp [loopStart], le_refl _, le_refl _, ?_, ?_, rfl, ?_, ?_, ?_, ?_, ?_⟩
  · simp only [loopStart]; omega
  · simp only [loopStart]; omega
  · have : ¬ (loopStart L canvas mh glyphs files t0).i = L.GLYPH_END + 2 := by
      simp only [loopStart]; omega
    simp [pagesOf, this]
  · simp [intervalsOf, Consecutive, loopStart]
  · intro k name h a b hk; simp [pagesOf] at hk
  · intro j h1 h2; simp only [loopStart] at h1 h2; omega
  · intro j h1 h2; simp only [loopStart] at h1 h2; omega

theorem intervalsOf_nil_of_noPage (l : List Event) (h : ∀ e ∈ l, e.isPage = false) :
    intervalsOf l = [] := by
  induction l with
  | nil => rfl
  | cons e l ih =>
    have he := h e (List.mem_cons_self _ _)
    have hl := ih (fun x hx => h x (List.mem_cons_of_mem _ hx))
    cases e <;> simp_all [intervalsOf, Event.isPage]

theorem pagesOf_nil_of_noPage (l : List Event) (h : ∀ e ∈ l, e.isPage = false) :
    pagesOf l = [] := by
  simp only [pagesOf, List.filter_eq_nil_iff]
  intro e he
  simp [h e he]

/-- Finalizing a page keeps the invariant: `extra` is what the iteration has
added to the trace before it entered the branch. -/
theorem finalize_inv {F : Type} (w : World F) (L : Layout) (cfg : PageCfg F) (t0 : List Event)
    (s : LoopState F) (ev : List Event) (h : StampInv w L cfg t0 s ev)
    (hi : s.i ≤ L.GLYPH_END + 1) (extra : List Event) (hx : ∀ e ∈ extra, e.isPage = false)
    (hf : (extra.filter Event.isFull).length + (if s.i = L.GLYPH_END + 1 then 1 else 0) = 1)
    (pk : PackState) :
    ∃ ev', StampInv w L cfg t0
      (finalizePage w L cfg { s with trace := s.trace ++ extra } pk) ev' := by
  have hpre : ∀ e ∈ (if w.r_saveFontData then [Event.fsWrite (cfg.pageName s.imageNumber)] else []),
      e.isPage = false ∧ e.isFull = false := by
    intro e he
    split_ifs at he
    · simp only [List.mem_singleton] at he; subst he; exact ⟨rfl, rfl⟩
    · simp at he
  generalize hpd : (if w.r_saveFontData then [Event.fsWrite (cfg.pageName s.imageNumber)] else [])
    = pre at hpre
  have hmid : ∀ e ∈ extra ++ pre, e.isPage = false := by
    intro e he
    rcases List.mem_append.1 he with h1 | h1
    · exact hx e h1
    · exact (hpre e h1).1
  have hpreF : pre.filter Event.isFull = [] := by
    simp only [List.filter_eq_nil_iff]
    intro e he
    simp [(hpre e he).2]
  refine ⟨ev ++ (extra ++ pre) ++ [Event.page (cfg.pageName s.imageNumber)
    (w.shaderFromImage (cfg.pageName s.imageNumber) pk.imageOut cfg.blur) s.lastStart s.i], ?_⟩
  have hpages : pagesOf (ev ++ (extra ++ pre) ++ [Event.page (cfg.pageName s.imageNumber)
      (w.shaderFromImage (cfg.pageName s.imageNumber) pk.imageOut cfg.blur) s.lastStart s.i])
      = pagesOf ev ++ [Event.page (cfg.pageName s.imageNumber)
      (w.shaderFromImage (cfg.pageName s.imageNumber) pk.imageOut cfg.blur) s.lastStart s.i] := by
    rw [pagesOf_append, pagesOf_append, pagesOf_nil_of_noPage _ hmid]
    simp [pagesOf, Event.isPage]
  refine
    { trace_eq := ?_, start_le := ?_, last_le := ?_, i_le := ?_, last_end := ?_, number := ?_,
      fulls := ?_, pages := ?_, names := ?_, pending := ?_, stamped := ?_ }
  · simp only [finalizePage, h.trace_eq, hpd, List.append_assoc]
  · simp only [finalizePage]; exact le_trans h.start_le h.last_le
  · simp only [finalizePage]; split_ifs <;> omega
  · simp only [finalizePage]; split_ifs <;> omega
  · simp only [finalizePage]; split_ifs <;> omega
  · simp only [finalizePage]
    rw [hpages, List.length_append, List.length_singleton, h.number]
  · have h0 := h.fulls
    have hne : ¬ s.i = L.GLYPH_END + 2 := by omega
    simp only [hne, if_false, Nat.add_zero] at h0
    simp only [finalizePage, hpages, List.length_append, List.length_singleton,
      List.filter_append, hpreF, List.length_nil, h0]
    have hz : (List.filter Event.isFull [Event.page (cfg.pageName s.imageNumber)
      (w.shaderFromImage (cfg.pageName s.imageNumber) pk.imageOut cfg.blur) s.lastStart s.i]).length
        = 0 := by simp [Event.isFull]
    rw [hz]
    by_cases hc : s.i = L.GLYPH_END + 1
    · simp only [hc, if_true] at hf ⊢
      omega
    · simp only [hc, if_false] at hf ⊢
      have : ¬ s.i = L.GLYPH_END + 2 := by omega
      simp only [this, if_false]
      omega
  · simp only [finalizePage, intervalsOf_append, intervalsOf_nil_of_noPage _ hmid, List.append_nil]
    exact consecutive_snoc _ _ _ _ h.pages
  · intro k name hh a b hk
    rw [hpages] at hk
    by_cases hlt : k < (pagesOf ev).length
    · rw [List.getElem?_append_left hlt] at hk
      exact h.names k name hh a b hk
    · rw [List.getElem?_append_right (by omega)] at hk
      have hk0 : k - (pagesOf ev).length = 0 := by
        by_contra hne
        rw [List.getElem?_eq_none (by simp; omega)] at hk
        exact Option.noConfusion hk
      rw [hk0] at hk
      simp only [List.getElem?_cons_zero, Option.some.injEq, Event.page.injEq] at hk
      obtain ⟨e1, e2, _, _⟩ := hk
      have hkk : k = s.imageNumber := by rw [h.number]; omega
      subst e1
      exact ⟨by rw [hkk], pk.imageOut, by rw [← e2]⟩
  · intro j h1 h2 h3
    simp only [finalizePage] at h1 h2
    split_ifs at h2 <;> omega
  · intro j h1 h2
    simp only [finalizePage] at h2
    by_cases hlt : j < s.lastStart
    · obtain ⟨name, hh, a, b, ⟨l1, l2, l3, e1, e2⟩, e3, e4, e5⟩ := h.stamped j h1 hlt
      refine ⟨name, hh, a, b, ⟨l1, l2, l3 ++ ((extra ++ pre) ++ [Event.page (cfg.pageName s.imageNumber)
        (w.shaderFromImage (cfg.pageName s.imageNumber) pk.imageOut cfg.blur) s.lastStart s.i]),
        ?_, e2⟩, e3, e4, ?_⟩
      · rw [e1]; simp only [List.append_assoc, List.cons_append]
      · intro g hg
        simp only [finalizePage, getElem?_updateRange, Nat.zero_add] at hg
        have : ¬ (s.lastStart ≤ j ∧ j < s.i) := by omega
        simp only [this, if_false, Option.map_id'] at hg
        exact e5 g hg
    · have hj : j ≤ L.GLYPH_END := by omega
      obtain ⟨l1, l2, e1, e2⟩ := h.pending j (by omega) h2 hj
      refine ⟨cfg.pageName s.imageNumber,
        w.shaderFromImage (cfg.pageName s.imageNumber) pk.imageOut cfg.blur, s.lastStart, s.i,
        ⟨l1, l2 ++ (extra ++ pre), [], ?_, ?_⟩, by omega, h2, ?_⟩
      · rw [e1]; simp only [List.append_assoc, List.cons_append]
      · intro e he
        rcases List.mem_append.1 he with h3 | h3
        · exact e2 e h3
        · exact hmid e h3
      · intro g hg
        simp only [finalizePage, getElem?_updateRange, Nat.zero_add] at hg
        have : s.lastStart ≤ j ∧ j < s.i := ⟨by omega, h2⟩
        simp only [this, and_self, if_true] at hg
        cases hgj : s.glyphs[j]? with
        | none => rw [hgj] at hg; exact Option.noConfusion hg
        | some g0 =>
          rw [hgj] at hg
          simp only [Option.map_some', Option.some.injEq] at hg
          subst hg
          exact ⟨rfl, rfl⟩

/-- Copying a placed glyph into the record keeps the invariant. -/
theorem place_inv {F : Type} (w : World F) (L : Layout) (cfg : PageCfg F) (t0 : List Event)
    (s : LoopState F) (ev : List Event) (h : StampInv w L cfg t0 s ev)
    (hi : s.i ≤ L.GLYPH_END) (c : Nat) (g : glyphInfo_t F) (pk : PackState) :
    StampInv w L cfg t0
      { s with i := s.i + 1, pack := pk, glyphs := s.glyphs.set s.i g,
               trace := s.trace ++ [Event.loadGlyph c false] ++ [Event.placed s.i] }
      (ev ++ [Event.loadGlyph c false, Event.placed s.i]) := by
  have hne : ¬ s.i = L.GLYPH_END + 2 := by omega
  have hne1 : ¬ s.i + 1 = L.GLYPH_END + 2 := by omega
  have hnp : ∀ e ∈ [Event.loadGlyph c false, Event.placed s.i], e.isPage = false := by
    intro e he
    simp only [List.mem_cons, List.mem_singleton, List.not_mem_nil, or_false] at he
    rcases he with rfl | rfl <;> rfl
  refine
    { trace_eq := ?_, start_le := h.start_le, last_le := ?_, i_le := ?_, last_end := ?_,
      number := ?_, fulls := ?_, pages := ?_, names := ?_, pending := ?_, stamped := ?_ }
  · simp only [h.trace_eq, List.append_assoc, List.singleton_append]
  · have := h.last_le; simp only []; omega
  · simp only []; omega
  · intro h1; simp only [] at h1; omega
  · simp only [pagesOf_append, pagesOf_nil_of_noPage _ hnp, List.append_nil, h.number]
  · have h0 := h.fulls
    simp only [hne, if_false, Nat.add_zero] at h0
    simp only [pagesOf_append, pagesOf_nil_of_noPage _ hnp, List.append_nil, hne1, if_false,
      Nat.add_zero, List.filter_append, h0]
    simp [Event.isFull]
  · simp only [intervalsOf_append, intervalsOf_nil_of_noPage _ hnp, List.append_nil]
    exact h.pages
  · intro k name hh a b hk
    rw [pagesOf_append, pagesOf_nil_of_noPage _ hnp, List.append_nil] at hk
    exact h.names k name hh a b hk
  · intro j h1 h2 h3
    simp only [] at h1 h2
    by_cases hj : j < s.i
    · obtain ⟨l1, l2, e1, e2⟩ := h.pending j h1 hj h3
      refine ⟨l1, l2 ++ [Event.loadGlyph c false, Event.placed s.i], ?_, ?_⟩
      · rw [e1]; simp only [List.append_assoc, List.cons_append]
      · intro e he
        rcases List.mem_append.1 he with h4 | h4
        · exact e2 e h4
        · exact hnp e h4
    · have hji : j = s.i := by omega
      subst hji
      refine ⟨ev ++ [Event.loadGlyph c false], [], ?_, ?_⟩
      · simp only [List.append_assoc, List.singleton_append]
      · intro e he; simp at he
  · intro j h1 h2
    simp only [] at h2
    obtain ⟨name, hh, a, b, ⟨l1, l2, l3, e1, e2⟩, e3, e4, e5⟩ := h.stamped j h1 h2
    refine ⟨name, hh, a, b, ⟨l1, l2, l3 ++ [Event.loadGlyph c false, Event.placed s.i], ?_, e2⟩,
      e3, e4, ?_⟩
    · rw [e1]; simp only [List.append_assoc, List.cons_append]
    · intro g' hg
      have hlast := h.last_le
      have hji : s.i ≠ j := by omega
      simp only [List.getElem?_set_ne hji] at hg
      exact e5 g' hg

/-- One iteration of the loop keeps the invariant. -/
theorem pageStep_inv {F : Type} (w : World F) (L : Layout) (cfg : PageCfg F) (face : Face)
    (t0 : List Event) (s : LoopState F) (ev : List Event) (h : StampInv w L cfg t0 s ev)
    (hi : s.i ≤ L.GLYPH_END + 1) :
    ∃ ev', StampInv w L cfg t0 (pageStep w L cfg face s) ev' := by
  unfold pageStep
  by_cases hlast : s.i = L.GLYPH_END + 1
  · simp only [hlast, if_true]
    have := finalize_inv w L cfg t0 s ev h hi [] (by intro e he; simp at he)
      (by simp [hlast]) { s.pack with xOut := -1, yOut := -1 }
    have e : ({ s with trace := s.trace ++ [] } : LoopState F) = s := by
      cases s; simp
    rw [e] at this
    exact this
  · simp only [hlast, if_false]
    split_ifs with hfull
    · have := finalize_inv w L cfg t0 s ev h hi
        [Event.loadGlyph (s.i % 256) false, Event.pageFull s.i]
        (by
          intro e he
          simp only [List.mem_cons, List.mem_singleton, List.not_mem_nil, or_false] at he
          rcases he with rfl | rfl <;> rfl)
        (by simp [hlast, Event.isFull])
        (RE_ConstructGlyphInfo w.ops s.pack (some face) (s.i % 256) false cfg.margin).2
      simpa only [List.append_assoc, List.singleton_append] using this
    · exact ⟨_, place_inv w L cfg t0 s ev h (by omega) _ _ _⟩

/-- When the loop ends, the invariant holds of the state it ends in. -/
theorem pageLoop_inv {F : Type} (w : World F) (L : Layout) (cfg : PageCfg F) (face : Face)
    (t0 : List Event) (fuel : Nat) (s s' : LoopState F) (ev : List Event)
    (h : StampInv w L cfg t0 s ev) (hrun : pageLoop w L cfg face fuel s = some s') :
    ∃ ev', StampInv w L cfg t0 s' ev' ∧ L.GLYPH_END + 1 < s'.i := by
  induction fuel generalizing s ev with
  | zero =>
    simp only [pageLoop] at hrun
    split_ifs at hrun with hc
    simp only [Option.some.injEq] at hrun
    subst hrun
    exact ⟨ev, h, by omega⟩
  | succ fuel ih =>
    simp only [pageLoop] at hrun
    split_ifs at hrun with hc
    · obtain ⟨ev1, h1⟩ := pageStep_inv w L cfg face t0 s ev h hc
      exact ih _ _ h1 hrun
    · simp only [Option.some.injEq] at hrun
      subst hrun
      exact ⟨ev, h, by omega⟩

theorem intervalsOf_pagesOf (ev : List Event) : intervalsOf (pagesOf ev) = intervalsOf ev := by
  induction ev with
  | nil => rfl
  | cons e ev ih =>
    cases e <;> simp_all [pagesOf, intervalsOf, Event.isPage]

/-- A name without NUL that fits the destination is copied whole. -/
theorem Q_strncpyz_fits (name : List Nat) (n : Nat) (h0 : ∀ c ∈ name, c ≠ 0)
    (hlen : name.length < n) : Q_strncpyz name n = name := by
  unfold Q_strncpyz
  have h1 : name.takeWhile (fun b => b != 0) = name := by
    rw [List.takeWhile_eq_self_iff]
    intro c hc
    simpa using h0 c hc
  rw [h1, List.take_of_length_le (by omega)]

/-- C9 (amended). Page stamping: when a page-building loop (the legacy loop, the
base loop or a shadow loop, according to `cfg`) has run to its end over a
range with `GLYPH_START ≤ GLYPH_END + 1`, its trace `ev` shows that
* the pages cover the range as consecutive index intervals `[lastStart, i)`
  from `GLYPH_START` to `GLYPH_END + 1`, the `k`-th page carrying the name
  generated for image number `k`;
* every glyph index `j` in `[GLYPH_START, GLYPH_END]` was placed, the page
  finalized first after that has `j` in its interval, and the glyph is stamped
  with that page's handle and with that page's generated name cut by
  `Q_strncpyz` to the `shaderName` field;
* when no call signalled page-full, exactly one page was registered, under
  the name generated for image number 0, and every glyph carries its handle and
  its name cut to the field, which is the name itself when the name has fewer
  than `SHADERNAME_LEN` characters. -/
theorem page_stamping {F : Type} (w : World F) (L : Layout) (cfg : PageCfg F) (face : Face)
    (hL : L.GLYPH_START ≤ L.GLYPH_END + 1) (canvas : Canvas) (mh : Int)
    (glyphs : List (glyphInfo_t F)) (files : Files) (t0 : List Event) (fuel : Nat)
    (s' : LoopState F)
    (hrun : pageLoop w L cfg face fuel (loopStart L canvas mh glyphs files t0) = some s') :
    ∃ ev, s'.trace = t0 ++ ev
      ∧ Consecutive L.GLYPH_START (intervalsOf ev) (L.GLYPH_END + 1)
      ∧ (∀ k name h a b, (pagesOf ev)[k]? = some (Event.page name h a b) → name = cfg.pageName k)
      ∧ (∀ j, L.GLYPH_START ≤ j → j ≤ L.GLYPH_END →
          ∃ name h a b, PlacedThenPage ev j name h a b ∧ a ≤ j ∧ j < b
            ∧ ∀ g, s'.glyphs[j]? = some g →
                g.glyph = h ∧ g.shaderName = Q_strncpyz name L.SHADERNAME_LEN)
      ∧ ((∀ i, Event.pageFull i ∉ ev) →
          ∃ h, pagesOf ev = [Event.page (cfg.pageName 0) h L.GLYPH_START (L.GLYPH_END + 1)]
            ∧ ∀ j, L.GLYPH_START ≤ j → j ≤ L.GLYPH_END → ∀ g, s'.glyphs[j]? = some g →
                g.glyph = h ∧ g.shaderName = Q_strncpyz (cfg.pageName 0) L.SHADERNAME_LEN
                  ∧ ((∀ c ∈ cfg.pageName 0, c ≠ 0) → (cfg.pageName 0).length < L.SHADERNAME_LEN →
                      g.shaderName = cfg.pageName 0)) := by
  obtain ⟨ev, hinv, hend⟩ := pageLoop_inv w L cfg face t0 fuel _ s' []
    (stampInv_start w L cfg hL canvas mh glyphs files t0) hrun
  have hi : s'.i = L.GLYPH_END + 2 := by have := hinv.i_le; omega
  have hls : s'.lastStart = L.GLYPH_END + 1 := hinv.last_end hi
  have hstamp : ∀ j, L.GLYPH_START ≤ j → j ≤ L.GLYPH_END →
      ∃ name h a b, PlacedThenPage ev j name h a b ∧ a ≤ j ∧ j < b
        ∧ ∀ g, s'.glyphs[j]? = some g →
            g.glyph = h ∧ g.shaderName = Q_strncpyz name L.SHADERNAME_LEN :=
    fun j h1 h2 => hinv.stamped j h1 (by omega)
  refine ⟨ev, hinv.trace_eq, ?_, ?_, hstamp, ?_⟩
  · rw [← hls]; exact hinv.pages
  · intro k name h a b hk
    exact (hinv.names k name h a b hk).1
  · intro hnf
    have hf0 : ev.filter Event.isFull = [] := by
      simp only [List.filter_eq_nil_iff]
      intro e he
      cases e <;> simp only [Event.isFull, Bool.false_eq_true, not_false_eq_true]
      exact absurd he (hnf _)
    have hlen : (pagesOf ev).length = 1 := by
      have := hinv.fulls
      simpa [hf0, hi] using this
    obtain ⟨e, he⟩ := List.length_eq_one.1 hlen
    have hmem : e ∈ pagesOf ev := by rw [he]; exact List.mem_singleton_self e
    have hpage : e.isPage = true := by
      simp only [pagesOf, List.mem_filter] at hmem
      exact hmem.2
    cases e with
    | page name h a b =>
      have hname := (hinv.names 0 name h a b (by rw [he]; rfl)).1
      have hiv : intervalsOf ev = [(a, b)] := by
        rw [← intervalsOf_pagesOf, he]; rfl
      have hcons := hinv.pages
      rw [hiv, hls] at hcons
      simp only [Consecutive] at hcons
      obtain ⟨ha, hb⟩ := hcons
      subst ha hb hname
      refine ⟨h, he, ?_⟩
      intro j h1 h2 g hg
      obtain ⟨name', h', a', b', ⟨l1, l2, l3, e1, _⟩, _, _, e5⟩ := hstamp j h1 h2
      have hin : Event.page name' h' a' b' ∈ pagesOf ev := by
        simp only [pagesOf, List.mem_filter]
        refine ⟨?_, rfl⟩
        rw [e1]
        simp
      rw [he, List.mem_singleton] at hin
      simp only [Event.page.injEq] at hin
      obtain ⟨n1, n2, _, _⟩ := hin
      obtain ⟨g1, g2⟩ := e5 g hg
      rw [n1] at g2
      rw [n2] at g1
      refine ⟨g1, g2, ?_⟩
      intro hz hl
      rw [g2, Q_strncpyz_fits _ _ hz hl]
    | _ => simp [Event.isPage] at hpage

/-- C9 at a concrete run: the legacy loop of the scenario at point size 12. -/
theorem page_stamping_witness :
    ∃ s', pageLoop (demoWorld false) tinyLayout demoCfg demoFace 10 demoStart = some s'
      ∧ ∃ ev, s'.trace = [] ++ ev
      ∧ Consecutive tinyLayout.GLYPH_START (intervalsOf ev) (tinyLayout.GLYPH_END + 1)
      ∧ (∀ k name h a b, (pagesOf ev)[k]? = some (Event.page name h a b) → name = demoCfg.pageName k)
      ∧ (∀ j, tinyLayout.GLYPH_START ≤ j → j ≤ tinyLayout.GLYPH_END →
          ∃ name h a b, PlacedThenPage ev j name h a b ∧ a ≤ j ∧ j < b
            ∧ ∀ g, s'.glyphs[j]? = some g →
                g.glyph = h ∧ g.shaderName = Q_strncpyz name tinyLayout.SHADERNAME_LEN)
      ∧ ((∀ i, Event.pageFull i ∉ ev) →
          ∃ h, pagesOf ev = [Event.page (demoCfg.pageName 0) h tinyLayout.GLYPH_START
                (tinyLayout.GLYPH_END + 1)]
            ∧ ∀ j, tinyLayout.GLYPH_START ≤ j → j ≤ tinyLayout.GLYPH_END → ∀ g,
                s'.glyphs[j]? = some g →
                g.glyph = h ∧ g.shaderName = Q_strncpyz (demoCfg.pageName 0) tinyLayout.SHADERNAME_LEN
                  ∧ ((∀ c ∈ demoCfg.pageName 0, c ≠ 0) →
                      (demoCfg.pageName 0).length < tinyLayout.SHADERNAME_LEN →
                      g.shaderName = demoCfg.pageName 0)) := by
  have hsome : (pageLoop (demoWorld false) tinyLayout demoCfg demoFace 10 demoStart).isSome = true := by
    decide
  obtain ⟨s', hs⟩ := Option.isSome_iff_exists.1 hsome
  exact ⟨s', hs, page_stamping (demoWorld false) tinyLayout demoCfg demoFace (by decide) zeroCanvas 10
    (zeroFont exactOps tinyLayout).glyphs demoFiles [] 10 s' hs⟩

/-- C9 as stated fails: a full build of `RE_RegisterNewFont` (no shadow levels) for the simple name
`DejaVuSansCondensed-Bold` at point size 12, in which no call signals
page-full, registers the base page `fonts/DejaVuSansCondensed-Bold_0_12.tga`
and stamps the glyphs with the shader name `fonts/DejaVuSansCondensed-Bold_`,
the first 31 characters of it. -/
theorem page_stamping_counterexample :
    (RE_RegisterNewFont (demoWorld false) flatLayout 10 (flatState false) (some (str "fonts/a.ttf"))
        (str "DejaVuSansCondensed-Bold") 12 (zeroNewFont exactOps flatLayout)).map
      (fun r => (r.1.trace.filter Event.isFull, pagesOf r.1.trace,
        r.2.glyphs.map (fun g => g.shaderName)))
      = some ([],
          [Event.page (str "fonts/DejaVuSansCondensed-Bold_0_12.tga") 7 1 3],
          [[], str "fonts/DejaVuSansCondensed-Bold_", str "fonts/DejaVuSansCondensed-Bold_"])
      ∧ str "fonts/DejaVuSansCondensed-Bold_" ≠ str "fonts/DejaVuSansCondensed-Bold_0_12.tga" := by
  decide

/-! ## Unsupported glyphs -/

/-- A glyph in a non-outline format: the call returns the cleared glyph and
leaves the canvas, the cursor and `maxHeight` as they were. -/
theorem construct_unsupported {F : Type} (ops : FloatOps F) (face : Face) (c : Nat)
    (hno : (face c).outline = false) (st : PackState) (calcHeight : Bool) (margin : Int) :
    RE_ConstructGlyphInfo ops st (some face) c calcHeight margin = (zeroGlyph ops, st) := by
  simp [RE_ConstructGlyphInfo, R_RenderGlyph, hno]

/-- The glyphs of unsupported characters copied so far have cleared metrics. -/
theorem pageStep_zeroMetrics {F : Type} (w : World F) (L : Layout) (cfg : PageCfg F) (face : Face)
    (s : LoopState F)
    (h : ∀ j, L.GLYPH_START ≤ j → j < s.i → (face (j % 256)).outline = false →
      ∀ g, s.glyphs[j]? = some g → g.metrics = (zeroGlyph w.ops).metrics) :
    (pageStep w L cfg face s).glyphs.length = s.glyphs.length
      ∧ s.i ≤ (pageStep w L cfg face s).i
      ∧ ∀ j, L.GLYPH_START ≤ j → j < (pageStep w L cfg face s).i → j ≤ L.GLYPH_END →
          (face (j % 256)).outline = false → ∀ g, (pageStep w L cfg face s).glyphs[j]? = some g →
          g.metrics = (zeroGlyph w.ops).metrics := by
  have hfin : ∀ (s1 : LoopState F) (pk : PackState), s1.i = s.i → s1.glyphs = s.glyphs →
      s1.lastStart = s.lastStart →
      (finalizePage w L cfg s1 pk).glyphs.length = s.glyphs.length
      ∧ s.i ≤ (finalizePage w L cfg s1 pk).i
      ∧ ∀ j, L.GLYPH_START ≤ j → j < (finalizePage w L cfg s1 pk).i → j ≤ L.GLYPH_END →
          (face (j % 256)).outline = false → ∀ g, (finalizePage w L cfg s1 pk).glyphs[j]? = some g →
          g.metrics = (zeroGlyph w.ops).metrics := by
    intro s1 pk e1 e2 e3
    refine ⟨by simp [finalizePage, updateRange_length, e2], ?_, ?_⟩
    · simp only [finalizePage, e1]; split_ifs <;> omega
    · intro j hlo hj hje hno g hg
      have hji : j < s.i := by
        simp only [finalizePage, e1] at hj
        split_ifs at hj <;> omega
      simp only [finalizePage, getElem?_updateRange, e2] at hg
      cases hgj : s.glyphs[j]? with
      | none => rw [hgj] at hg; exact Option.noConfusion hg
      | some g0 =>
        rw [hgj] at hg
        simp only [Option.map_some', Option.some.injEq] at hg
        have := h j hlo hji hno g0 hgj
        rw [← hg]
        split_ifs
        · exact this
        · exact this
  unfold pageStep
  by_cases h1 : s.i = L.GLYPH_END + 1
  · rw [if_pos h1]
    exact hfin s _ rfl rfl rfl
  · rw [if_neg h1]
    simp only []
    split_ifs with h2
    · exact hfin _ _ rfl rfl rfl
    · refine ⟨by simp, by simp, ?_⟩
      intro j hlo hj hje hno g hg
      simp only [] at hj hg
      by_cases hji : j = s.i
      · subst hji
        rw [construct_unsupported w.ops face _ hno] at hg
        simp only [] at hg
        rw [List.getElem?_set] at hg
        simp only [if_true] at hg
        split_ifs at hg
        simp only [Option.some.injEq] at hg; rw [← hg]
      · have hne : s.i ≠ j := fun e => hji e.symm
        rw [List.getElem?_set_ne hne] at hg
        exact h j hlo (by omega) hno g hg

theorem pageLoop_zeroMetrics {F : Type} (w : World F) (L : Layout) (cfg : PageCfg F) (face : Face)
    (fuel : Nat) (s s' : LoopState F)
    (h : ∀ j, L.GLYPH_START ≤ j → j < s.i → j ≤ L.GLYPH_END → (face (j % 256)).outline = false →
      ∀ g, s.glyphs[j]? = some g → g.metrics = (zeroGlyph w.ops).metrics)
    (hrun : pageLoop w L cfg face fuel s = some s') :
    s'.glyphs.length = s.glyphs.length
      ∧ ∀ j, L.GLYPH_START ≤ j → j < s'.i → j ≤ L.GLYPH_END → (face (j % 256)).outline = false →
          ∀ g, s'.glyphs[j]? = some g → g.metrics = (zeroGlyph w.ops).metrics := by
  induction fuel generalizing s with
  | zero =>
    simp only [pageLoop] at hrun
    split_ifs at hrun
    simp only [Option.some.injEq] at hrun
    subst hrun
    exact ⟨rfl, h⟩
  | succ fuel ih =>
    simp only [pageLoop] at hrun
    split_ifs at hrun with hc
    · obtain ⟨q1, q2, q3⟩ := pageStep_zeroMetrics w L cfg face s
        (fun j hlo hj hno g hg => h j hlo hj (by omega) hno g hg)
      obtain ⟨r1, r2⟩ := ih _ q3 hrun
      exact ⟨by rw [r1, q1], r2⟩
    · simp only [Option.some.injEq] at hrun
      subst hrun
      exact ⟨rfl, h⟩

/-- C10 (amended). Unsupported glyph: if the rasterizer yields no bitmap for the
character of glyph index `j` (non-outline format), then
* the call of `RE_ConstructGlyphInfo` for it returns the cleared glyph and
  leaves the canvas, the cursor and `maxHeight` unchanged;
* the loop iteration for `j` copies that glyph and moves on to `j + 1`, so
  the build continues over the remaining characters;
* when the loop has run to its end, glyph `j` of the record has all-zero
  metrics and, like every glyph of its page, carries the handle of the page
  finalized first after it was copied and that page's name cut to the
  `shaderName` field. -/
theorem unsupported_glyph {F : Type} (w : World F) (L : Layout) (cfg : PageCfg F) (face : Face)
    (hL : L.GLYPH_START ≤ L.GLYPH_END + 1) (canvas : Canvas) (mh : Int)
    (glyphs : List (glyphInfo_t F)) (files : Files) (t0 : List Event) (fuel : Nat)
    (s' : LoopState F)
    (hrun : pageLoop w L cfg face fuel (loopStart L canvas mh glyphs files t0) = some s')
    (j : Nat) (h1 : L.GLYPH_START ≤ j) (h2 : j ≤ L.GLYPH_END) (hlen : j < glyphs.length)
    (hno : (face (j % 256)).outline = false) :
    (∀ st calcHeight margin,
        RE_ConstructGlyphInfo w.ops st (some face) (j % 256) calcHeight margin = (zeroGlyph w.ops, st))
      ∧ (∀ s : LoopState F, s.i = j → s.pack.xOut ≠ -1 → s.pack.yOut ≠ -1 →
          (pageStep w L cfg face s).i = j + 1 ∧ (pageStep w L cfg face s).pack = s.pack
            ∧ (pageStep w L cfg face s).glyphs = s.glyphs.set j (zeroGlyph w.ops))
      ∧ ∃ g, s'.glyphs[j]? = some g ∧ g.metrics = (zeroGlyph w.ops).metrics
          ∧ ∃ ev name h a b, s'.trace = t0 ++ ev ∧ PlacedThenPage ev j name h a b ∧ a ≤ j ∧ j < b
              ∧ g.glyph = h ∧ g.shaderName = Q_strncpyz name L.SHADERNAME_LEN := by
  refine ⟨fun st ch m => construct_unsupported w.ops face _ hno st ch m, ?_, ?_⟩
  · intro s hs hx hy
    have hne : ¬ s.i = L.GLYPH_END + 1 := by omega
    have hcur : ¬ (s.pack.xOut = -1 ∨ s.pack.yOut = -1) := by
      intro h; rcases h with h | h
      · exact hx h
      · exact hy h
    subst hs
    simp only [pageStep, hne, if_false, construct_unsupported w.ops face _ hno, hcur, and_self]
  · obtain ⟨m1, m2⟩ := pageLoop_zeroMetrics w L cfg face fuel _ s'
      (fun k hk1 hk2 _ _ _ _ => by simp only [loopStart] at hk2; omega) hrun
    obtain ⟨ev, hinv, hend⟩ := pageLoop_inv w L cfg face t0 fuel _ s' []
      (stampInv_start w L cfg hL canvas mh glyphs files t0) hrun
    have hi : s'.i = L.GLYPH_END + 2 := by have := hinv.i_le; omega
    have hls : s'.lastStart = L.GLYPH_END + 1 := hinv.last_end hi
    have hjlen : j < s'.glyphs.length := by rw [m1]; simpa [loopStart] using hlen
    obtain ⟨name, h, a, b, p1, p2, p3, p4⟩ := hinv.stamped j h1 (by omega)
    refine ⟨s'.glyphs[j], List.getElem?_eq_getElem hjlen, ?_, ev, name, h, a, b, hinv.trace_eq,
      p1, p2, p3, ?_⟩
    · exact m2 j h1 (by omega) h2 hno _ (List.getElem?_eq_getElem hjlen)
    · exact p4 _ (List.getElem?_eq_getElem hjlen)

/-- C10 at a concrete run: glyph 1 of the scenario, whose character is in a
non-outline format. -/
theorem unsupported_glyph_witness :
    ∃ s', pageLoop (demoWorld false) tinyLayout demoCfg demoFace 10 demoStart = some s'
      ∧ (∀ st calcHeight margin,
        RE_ConstructGlyphInfo exactOps st (some demoFace) (1 % 256) calcHeight margin
          = (zeroGlyph exactOps, st))
      ∧ (∀ s : LoopState ℚ, s.i = 1 → s.pack.xOut ≠ -1 → s.pack.yOut ≠ -1 →
          (pageStep (demoWorld false) tinyLayout demoCfg demoFace s).i = 1 + 1
            ∧ (pageStep (demoWorld false) tinyLayout demoCfg demoFace s).pack = s.pack
            ∧ (pageStep (demoWorld false) tinyLayout demoCfg demoFace s).glyphs
                = s.glyphs.set 1 (zeroGlyph exactOps))
      ∧ ∃ g, s'.glyphs[1]? = some g ∧ g.metrics = (zeroGlyph exactOps).metrics
          ∧ ∃ ev name h a b, s'.trace = [] ++ ev ∧ PlacedThenPage ev 1 name h a b ∧ a ≤ 1 ∧ 1 < b
              ∧ g.glyph = h ∧ g.shaderName = Q_strncpyz name tinyLayout.SHADERNAME_LEN := by
  have hsome : (pageLoop (demoWorld false) tinyLayout demoCfg demoFace 10 demoStart).isSome = true := by
    decide
  obtain ⟨s', hs⟩ := Option.isSome_iff_exists.1 hsome
  exact ⟨s', hs, unsupported_glyph (demoWorld false) tinyLayout demoCfg demoFace (by decide)
    zeroCanvas 10 (zeroFont exactOps tinyLayout).glyphs demoFiles [] 10 s' hs 1 (by decide)
    (by decide) (by decide) (by decide)⟩

/-- C10 as stated fails: in the finished record of a full build of
`RE_RegisterFont`, glyph 1, whose character is in a non-outline format, has
all-zero metrics but carries the shader handle 7 of its page and the shader
name `fonts/fontImage_0_12.tga`. -/
theorem unsupported_glyph_counterexample :
    (demoFace (1 % 256)).outline = false
      ∧ (RE_RegisterFont (demoWorld false) tinyLayout 10 (demoState false) (some (str "fonts/a.ttf")) 12
          (zeroFont exactOps tinyLayout)).map
          (fun r => r.2.glyphs[1]?.map (fun g => ([g.height, g.top, g.bottom, g.pitch, g.xSkip,
            g.imageWidth, g.imageHeight], g.glyph, g.shaderName)))
        = some (some ([0, 0, 0, 0, 0, 0, 0], 7, str "fonts/fontImage_0_12.tga")) := by
  decide

/-! ## Packing feasibility -/

/-- The dry-run pass leaves the canvas and the cursor alone and ends with a
`maxHeight` that bounds the height of every outline glyph of the pass and is
either the initial one or the height of one of them. -/
theorem dryRun_maxHeight {F : Type} (ops : FloatOps F) (face : Face) (is : List Nat)
    (pack : PackState) :
    pack.maxHeight ≤ (dryRun ops face is pack).maxHeight
      ∧ (∀ i ∈ is, (face (i % 256)).outline = true →
          (R_GetGlyphInfo (face (i % 256))).height ≤ (dryRun ops face is pack).maxHeight)
      ∧ ((dryRun ops face is pack).maxHeight = pack.maxHeight
          ∨ ∃ i ∈ is, (face (i % 256)).outline = true
              ∧ (dryRun ops face is pack).maxHeight = (R_GetGlyphInfo (face (i % 256))).height) := by
  induction is generalizing pack with
  | nil => simp [dryRun]
  | cons i is ih =>
    have hstep : (RE_ConstructGlyphInfo ops pack (some face) (i % 256) true 0).2.maxHeight
        = if (face (i % 256)).outline = true ∧ (R_GetGlyphInfo (face (i % 256))).height > pack.maxHeight
          then (R_GetGlyphInfo (face (i % 256))).height else pack.maxHeight := by
      cases hout : (face (i % 256)).outline
      · simp [RE_ConstructGlyphInfo, R_RenderGlyph, hout]
      · simp only [RE_ConstructGlyphInfo, R_RenderGlyph, hout, if_true, true_and]
    obtain ⟨a1, a2, a3⟩ := ih (RE_ConstructGlyphInfo ops pack (some face) (i % 256) true 0).2
    simp only [dryRun, List.foldl_cons] at a1 a2 a3 ⊢
    rw [hstep] at a1 a3
    refine ⟨?_, ?_, ?_⟩
    · split_ifs at a1 with hc <;> omega
    · intro k hk hout
      rcases List.mem_cons.1 hk with rfl | hk
      · split_ifs at a1 with hc
        · exact a1
        · have : ¬ (R_GetGlyphInfo (face (k % 256))).height > pack.maxHeight := fun h => hc ⟨hout, h⟩
          omega
      · exact a2 k hk hout
    · rcases a3 with e | ⟨k, hk, ho, e⟩
      · split_ifs at e with hc
        · exact Or.inr ⟨i, List.mem_cons_self _ _, hc.1, e⟩
        · exact Or.inl e
      · exact Or.inr ⟨k, List.mem_cons_of_mem _ hk, ho, e⟩

/-- A real-pass call under the fitting conditions: `maxHeight` stays, the call
either signals page-full or leaves a cursor with non-negative coordinates, and
from the cursor `(0, 0)` it does not signal page-full. -/
theorem construct_fit {F : Type} (ops : FloatOps F) (face : Face) (c : Nat) (margin : Int)
    (st : PackState) (hm : 0 ≤ margin) (hx : 0 ≤ st.xOut) (hy : 0 ≤ st.yOut)
    (hfit : (face c).outline = true → 0 ≤ (face c).width ∧ 0 ≤ (face c).height
      ∧ (R_GetGlyphInfo (face c)).pitch + margin * 2 + 2 < CANVAS_SIZE
      ∧ (R_GetGlyphInfo (face c)).height ≤ st.maxHeight
      ∧ st.maxHeight + margin * 2 + 2 < CANVAS_SIZE) :
    let r := RE_ConstructGlyphInfo ops st (some face) c false margin
    r.2.maxHeight = st.maxHeight
      ∧ ((r.2.xOut = -1 ∧ r.2.yOut = -1) ∨ (0 ≤ r.2.xOut ∧ 0 ≤ r.2.yOut))
      ∧ (st.xOut = 0 → st.yOut = 0 → 0 ≤ r.2.xOut ∧ 0 ≤ r.2.yOut) := by
  cases hout : (face c).outline
  · simp only [RE_ConstructGlyphInfo, R_RenderGlyph, hout, Bool.false_eq_true, if_false, true_and]
    exact ⟨Or.inr ⟨hx, hy⟩, fun _ _ => ⟨hx, hy⟩⟩
  · obtain ⟨hw, hh, hp, hht, hmh⟩ := hfit hout
    obtain ⟨hp0, hh0⟩ := glyphBox_nonneg (face c) hw hh
    simp only [RE_ConstructGlyphInfo, R_RenderGlyph, hout, if_true, Bool.false_eq_true, if_false]
    simp only [CANVAS_SIZE] at *
    split_ifs with q1 q2 q3 q4 q5 q6
    all_goals simp only [neg_nonneg, true_and, and_self, true_or, or_true]
    all_goals omega

/-- One iteration of the loop under the fitting conditions: it either moves
on to the next glyph, or finalizes a page and retries the same glyph from the
cursor `(0, 0)`; from the cursor `(0, 0)` it always moves on. -/
theorem pageStep_fit {F : Type} (w : World F) (L : Layout) (cfg : PageCfg F) (face : Face)
    (mh : Int) (hm : 0 ≤ cfg.margin)
    (hfit : ∀ j, L.GLYPH_START ≤ j → j ≤ L.GLYPH_END → (face (j % 256)).outline = true →
      0 ≤ (face (j % 256)).width ∧ 0 ≤ (face (j % 256)).height
      ∧ (R_GetGlyphInfo (face (j % 256))).pitch + cfg.margin * 2 + 2 < CANVAS_SIZE
      ∧ (R_GetGlyphInfo (face (j % 256))).height ≤ mh
      ∧ mh + cfg.margin * 2 + 2 < CANVAS_SIZE)
    (s : LoopState F) (hx : 0 ≤ s.pack.xOut) (hy : 0 ≤ s.pack.yOut) (hmh : s.pack.maxHeight = mh)
    (hlo : L.GLYPH_START ≤ s.i) (hi : s.i ≤ L.GLYPH_END) :
    0 ≤ (pageStep w L cfg face s).pack.xOut ∧ 0 ≤ (pageStep w L cfg face s).pack.yOut
      ∧ (pageStep w L cfg face s).pack.maxHeight = mh
      ∧ ((pageStep w L cfg face s).i = s.i + 1
          ∨ ((pageStep w L cfg face s).i = s.i ∧ (pageStep w L cfg face s).pack.xOut = 0
              ∧ (pageStep w L cfg face s).pack.yOut = 0))
      ∧ (s.pack.xOut = 0 → s.pack.yOut = 0 → (pageStep w L cfg face s).i = s.i + 1) := by
  have hc := construct_fit w.ops face (s.i % 256) cfg.margin s.pack hm hx hy
    (by rw [hmh]; exact hfit s.i hlo hi)
  simp only [] at hc
  obtain ⟨c1, c2, c3⟩ := hc
  have hne : ¬ s.i = L.GLYPH_END + 1 := by omega
  unfold pageStep
  rw [if_neg hne]
  simp only []
  split_ifs with hfull
  · simp only [finalizePage, hne, if_false, le_refl, true_and, and_self, or_true, c1, hmh]
    intro e1 e2
    have := c3 e1 e2
    omega
  · refine ⟨?_, ?_, by rw [c1, hmh], Or.inl rfl, fun _ _ => rfl⟩
    · rcases c2 with ⟨e, _⟩ | ⟨e, _⟩
      · exact absurd (Or.inl e) hfull
      · exact e
    · rcases c2 with ⟨_, e⟩ | ⟨_, e⟩
      · exact absurd (Or.inr e) hfull
      · exact e

/-- Under the fitting conditions the loop ends. -/
theorem pageLoop_terminates {F : Type} (w : World F) (L : Layout) (cfg : PageCfg F) (face : Face)
    (mh : Int) (hm : 0 ≤ cfg.margin)
    (hfit : ∀ j, L.GLYPH_START ≤ j → j ≤ L.GLYPH_END → (face (j % 256)).outline = true →
      0 ≤ (face (j % 256)).width ∧ 0 ≤ (face (j % 256)).height
      ∧ (R_GetGlyphInfo (face (j % 256))).pitch + cfg.margin * 2 + 2 < CANVAS_SIZE
      ∧ (R_GetGlyphInfo (face (j % 256))).height ≤ mh
      ∧ mh + cfg.margin * 2 + 2 < CANVAS_SIZE)
    (k : Nat) (s : LoopState F) (hx : 0 ≤ s.pack.xOut) (hy : 0 ≤ s.pack.yOut)
    (hmh : s.pack.maxHeight = mh) (hlo : L.GLYPH_START ≤ s.i) (hk : s.i + k = L.GLYPH_END + 1) :
    ∃ fuel s', pageLoop w L cfg face fuel s = some s' := by
  induction k generalizing s with
  | zero =>
    have hi : s.i = L.GLYPH_END + 1 := by omega
    refine ⟨1, pageStep w L cfg face s, ?_⟩
    rw [pageLoop_of_le w L cfg face 0 s (by omega)]
    apply pageLoop_of_gt
    simp only [pageStep, hi, if_true, finalizePage]
    omega
  | succ k ih =>
    have hi : s.i ≤ L.GLYPH_END := by omega
    obtain ⟨p1, p2, p3, p4, p5⟩ := pageStep_fit w L cfg face mh hm hfit s hx hy hmh hlo hi
    rcases p4 with e | ⟨e1, e2, e3⟩
    · obtain ⟨fuel, s', hs⟩ := ih (pageStep w L cfg face s) p1 p2 p3 (by omega) (by omega)
      exact ⟨fuel + 1, s', by rw [pageLoop_of_le w L cfg face fuel s (by omega)]; exact hs⟩
    · obtain ⟨q1, q2, q3, _, q5⟩ := pageStep_fit w L cfg face mh hm hfit
        (pageStep w L cfg face s) p1 p2 p3 (by omega) (by omega)
      have hnext := q5 e2 e3
      obtain ⟨fuel, s', hs⟩ := ih (pageStep w L cfg face (pageStep w L cfg face s)) q1 q2 q3
        (by omega) (by omega)
      refine ⟨fuel + 2, s', ?_⟩
      rw [pageLoop_of_le w L cfg face (fuel + 1) s (by omega),
        pageLoop_of_le w L cfg face fuel _ (by omega)]
      exact hs

/-- C4 (amended). Packing feasibility: for every character range (`GLYPH_START ≤
GLYPH_END + 1`), every margin `≥ 0` and every face whose outline glyphs in the
range have bitmaps with `pitch + 2*margin + 2 < CANVAS_SIZE` and
`height + 2*margin + 2 < CANVAS_SIZE`, the page-building loop, entered with the
`maxHeight` of the dry-run pass, ends after finitely many iterations with every
glyph of the range placed and followed by the finalization of a page whose
interval contains it; and a glyph tried against a fresh page (cursor `(0, 0)`)
is never answered with page-full. -/
theorem packing_feasible {F : Type} (w : World F) (L : Layout) (cfg : PageCfg F) (face : Face)
    (hL : L.GLYPH_START ≤ L.GLYPH_END + 1) (hm : 0 ≤ cfg.margin)
    (hfit : ∀ j, L.GLYPH_START ≤ j → j ≤ L.GLYPH_END → (face (j % 256)).outline = true →
      0 ≤ (face (j % 256)).width ∧ 0 ≤ (face (j % 256)).height
      ∧ (R_GetGlyphInfo (face (j % 256))).pitch + cfg.margin * 2 + 2 < CANVAS_SIZE
      ∧ (R_GetGlyphInfo (face (j % 256))).height + cfg.margin * 2 + 2 < CANVAS_SIZE)
    (canvas : Canvas) (glyphs : List (glyphInfo_t F)) (files : Files) (t0 : List Event) :
    let mh := (dryRun w.ops face (glyphRange L)
      { imageOut := zeroCanvas, xOut := 0, yOut := 0, maxHeight := 0 }).maxHeight
    (∃ fuel s' ev, pageLoop w L cfg face fuel (loopStart L canvas mh glyphs files t0) = some s'
        ∧ s'.trace = t0 ++ ev
        ∧ ∀ j, L.GLYPH_START ≤ j → j ≤ L.GLYPH_END →
            ∃ name h a b, PlacedThenPage ev j name h a b ∧ a ≤ j ∧ j < b)
      ∧ ∀ j, L.GLYPH_START ≤ j → j ≤ L.GLYPH_END → ∀ cv : Canvas,
          (RE_ConstructGlyphInfo w.ops { imageOut := cv, xOut := 0, yOut := 0, maxHeight := mh }
              (some face) (j % 256) false cfg.margin).2.xOut ≠ -1
            ∧ (RE_ConstructGlyphInfo w.ops { imageOut := cv, xOut := 0, yOut := 0, maxHeight := mh }
              (some face) (j % 256) false cfg.margin).2.yOut ≠ -1 := by
  intro mh
  obtain ⟨d1, d2, d3⟩ := dryRun_maxHeight w.ops face (glyphRange L)
    { imageOut := zeroCanvas, xOut := 0, yOut := 0, maxHeight := 0 }
  have hmem : ∀ j, L.GLYPH_START ≤ j → j ≤ L.GLYPH_END → j ∈ glyphRange L := by
    intro j h1 h2
    simp only [glyphRange, List.mem_range'_1]
    omega
  have hmem' : ∀ j, j ∈ glyphRange L → L.GLYPH_START ≤ j ∧ j ≤ L.GLYPH_END := by
    intro j hj
    simp only [glyphRange, List.mem_range'_1] at hj
    omega
  have hfit' : ∀ j, L.GLYPH_START ≤ j → j ≤ L.GLYPH_END → (face (j % 256)).outline = true →
      0 ≤ (face (j % 256)).width ∧ 0 ≤ (face (j % 256)).height
      ∧ (R_GetGlyphInfo (face (j % 256))).pitch + cfg.margin * 2 + 2 < CANVAS_SIZE
      ∧ (R_GetGlyphInfo (face (j % 256))).height ≤ mh
      ∧ mh + cfg.margin * 2 + 2 < CANVAS_SIZE := by
    intro j h1 h2 hout
    obtain ⟨f1, f2, f3, f4⟩ := hfit j h1 h2 hout
    have hle := d2 j (hmem j h1 h2) hout
    refine ⟨f1, f2, f3, hle, ?_⟩
    rcases d3 with e | ⟨i, hi, ho, e⟩
    · have hh0 := (glyphBox_nonneg (face (j % 256)) f1 f2).2
      have e' : mh = 0 := e
      have hle' : (R_GetGlyphInfo (face (j % 256))).height ≤ mh := hle
      omega
    · have := (hfit i (hmem' i hi).1 (hmem' i hi).2 ho).2.2.2
      have e' : mh = (R_GetGlyphInfo (face (i % 256))).height := e
      omega
  refine ⟨?_, ?_⟩
  · obtain ⟨fuel, s', hs⟩ := pageLoop_terminates w L cfg face mh hm hfit'
      (L.GLYPH_END + 1 - L.GLYPH_START) (loopStart L canvas mh glyphs files t0)
      (by simp [loopStart]) (by simp [loopStart]) rfl (by simp [loopStart])
      (by simp only [loopStart]; omega)
    obtain ⟨ev, hinv, hend⟩ := pageLoop_inv w L cfg face t0 fuel _ s' []
      (stampInv_start w L cfg hL canvas mh glyphs files t0) hs
    have hi : s'.i = L.GLYPH_END + 2 := by have := hinv.i_le; omega
    have hls : s'.lastStart = L.GLYPH_END + 1 := hinv.last_end hi
    refine ⟨fuel, s', ev, hs, hinv.trace_eq, ?_⟩
    intro j h1 h2
    obtain ⟨name, h, a, b, p1, p2, p3, _⟩ := hinv.stamped j h1 (by omega)
    exact ⟨name, h, a, b, p1, p2, p3⟩
  · intro j h1 h2 cv
    have hc := construct_fit w.ops face (j % 256) cfg.margin
      { imageOut := cv, xOut := 0, yOut := 0, maxHeight := mh } hm (le_refl _) (le_refl _)
      (hfit' j h1 h2)
    have := hc.2.2 rfl rfl
    constructor <;> omega

/-- C4 at a concrete input: the scenario face (glyphs of 8 by 10 pixels, one
of them unsupported) with margin 0. -/
theorem packing_feasible_witness :
    (∃ fuel s' ev, pageLoop (demoWorld false) tinyLayout demoCfg demoFace fuel
          (loopStart tinyLayout zeroCanvas
            (dryRun exactOps demoFace (glyphRange tinyLayout)
              { imageOut := zeroCanvas, xOut := 0, yOut := 0, maxHeight := 0 }).maxHeight
            (zeroFont exactOps tinyLayout).glyphs demoFiles []) = some s'
        ∧ s'.trace = [] ++ ev
        ∧ ∀ j, tinyLayout.GLYPH_START ≤ j → j ≤ tinyLayout.GLYPH_END →
            ∃ name h a b, PlacedThenPage ev j name h a b ∧ a ≤ j ∧ j < b)
      ∧ ∀ j, tinyLayout.GLYPH_START ≤ j → j ≤ tinyLayout.GLYPH_END → ∀ cv : Canvas,
          (RE_ConstructGlyphInfo exactOps { imageOut := cv, xOut := 0, yOut := 0, maxHeight :=
              (dryRun exactOps demoFace (glyphRange tinyLayout)
                { imageOut := zeroCanvas, xOut := 0, yOut := 0, maxHeight := 0 }).maxHeight }
              (some demoFace) (j % 256) false demoCfg.margin).2.xOut ≠ -1
            ∧ (RE_ConstructGlyphInfo exactOps { imageOut := cv, xOut := 0, yOut := 0, maxHeight :=
              (dryRun exactOps demoFace (glyphRange tinyLayout)
                { imageOut := zeroCanvas, xOut := 0, yOut := 0, maxHeight := 0 }).maxHeight }
              (some demoFace) (j % 256) false demoCfg.margin).2.yOut ≠ -1 :=
  packing_feasible (demoWorld false) tinyLayout demoCfg demoFace (by decide) (by decide)
    (by
      intro j h1 h2 _
      have hj : j = 1 ∨ j = 2 := by
        simp only [tinyLayout] at h1 h2; omega
      rcases hj with rfl | rfl <;> decide)
    zeroCanvas (zeroFont exactOps tinyLayout).glyphs demoFiles []

/-- Over `tallFace` a page-full answer leaves the loop where it was: at
glyph 1 with the cursor `(0, 0)`; so the loop never ends. -/
theorem tall_loop_stuck (fuel : Nat) (s : LoopState ℚ) (hi : s.i = 1) (hx : s.pack.xOut = 0)
    (hy : s.pack.yOut = 0) (hmh : s.pack.maxHeight = 1022) :
    pageLoop (demoWorld false) tinyLayout demoCfg tallFace fuel s = none := by
  induction fuel generalizing s with
  | zero => simp [pageLoop, hi, tinyLayout]
  | succ fuel ih =>
    rw [pageLoop_of_le _ _ _ _ _ _ (by rw [hi]; decide)]
    apply ih
    · simp [pageStep, finalizePage, hi, tinyLayout, RE_ConstructGlyphInfo, R_RenderGlyph,
        R_GetGlyphInfo, tallFace, boxSlot, _FLOOR, _CEIL, _TRUNC, hx, hy, hmh, demoCfg, CANVAS_SIZE,
        demoWorld]
    · simp [pageStep, finalizePage, hi, tinyLayout, RE_ConstructGlyphInfo, R_RenderGlyph,
        R_GetGlyphInfo, tallFace, boxSlot, _FLOOR, _CEIL, _TRUNC, hx, hy, hmh, demoCfg, CANVAS_SIZE,
        demoWorld]
    · simp [pageStep, finalizePage, hi, tinyLayout, RE_ConstructGlyphInfo, R_RenderGlyph,
        R_GetGlyphInfo, tallFace, boxSlot, _FLOOR, _CEIL, _TRUNC, hx, hy, hmh, demoCfg, CANVAS_SIZE,
        demoWorld]
    · simp [pageStep, finalizePage, hi, tinyLayout, RE_ConstructGlyphInfo, R_RenderGlyph,
        R_GetGlyphInfo, tallFace, boxSlot, _FLOOR, _CEIL, _TRUNC, hx, hy, hmh, demoCfg, CANVAS_SIZE,
        demoWorld]

/-- C4 as stated fails: a glyph bitmap of pitch 4 and height 1022, both smaller
than `CANVAS_SIZE`, packed with margin 0: the dry run yields `maxHeight = 1022`,
the glyph tried against a fresh, empty page (cursor `(0, 0)`) is answered with
page-full, and the page-building loop never ends, whatever the number of
iterations. -/
theorem packing_feasible_counterexample :
    ((R_GetGlyphInfo (tallFace 1)).pitch = 4 ∧ (R_GetGlyphInfo (tallFace 1)).height = 1022)
      ∧ (dryRun exactOps tallFace (glyphRange tinyLayout)
          { imageOut := zeroCanvas, xOut := 0, yOut := 0, maxHeight := 0 }).maxHeight = 1022
      ∧ (RE_ConstructGlyphInfo exactOps (packAt 0 0 1022) (some tallFace) 1 false 0).2.xOut = -1
      ∧ (RE_ConstructGlyphInfo exactOps (packAt 0 0 1022) (some tallFace) 1 false 0).2.yOut = -1
      ∧ ¬ ∃ fuel s', pageLoop (demoWorld false) tinyLayout demoCfg tallFace fuel tallStart = some s' := by
  refine ⟨by decide, by decide, by decide, by decide, ?_⟩
  rintro ⟨fuel, s', h⟩
  rw [tall_loop_stuck fuel tallStart rfl rfl rfl rfl] at h
  exact Option.noConfusion h

/-! ## Registration: capacity and cache acceptance -/

/-- C3. Capacity boundary: when the registry already holds `MAX_FONTS` entries, a
registration request whose cache key matches no registered entry is refused,
for each entry point on its own (the key of the other entry point may or may
not be registered): the call returns with the caller's record as it was,
`registeredFontCount` stays `MAX_FONTS`, the registry entries and the files are
unchanged, and the trace grows by one message only, so no file length is asked
for, no cache file is read or decoded and the rasterizer is not called. -/
theorem capacity_refusal {F : Type} (w : World F) (L : Layout) (fuel : Nat) (st : State F)
    (fontName : Option (List Nat)) (simpleName : List Nat) (pointSize : Int)
    (font : fontInfo_t F) (newFont : newFontInfo_t F)
    (hfull : st.registeredFontCount = MAX_FONTS) :
    (findRegistered st (legacyKey (if pointSize ≤ 0 then 12 else pointSize)) = none →
      ∃ st' msg, RE_RegisterFont w L fuel st fontName pointSize font = some (st', font)
        ∧ st'.registeredFontCount = MAX_FONTS ∧ st'.registeredFont = st.registeredFont
        ∧ st'.files = st.files ∧ st'.ftLibrary = st.ftLibrary
        ∧ st'.trace = st.trace ++ [Event.print msg])
      ∧ (findRegistered st (newKey simpleName (if pointSize ≤ 0 then 12 else pointSize)) = none →
        ∃ st' msg, RE_RegisterNewFont w L fuel st fontName simpleName pointSize newFont
            = some (st', newFont)
        ∧ st'.registeredFontCount = MAX_FONTS ∧ st'.registeredFont = st.registeredFont
        ∧ st'.files = st.files ∧ st'.ftLibrary = st.ftLibrary
        ∧ st'.trace = st.trace ++ [Event.print msg]) := by
  have hge : st.registeredFontCount ≥ MAX_FONTS := by omega
  constructor
  · intro hmiss
    rcases fontName with _ | ⟨_ | ⟨ch, rest⟩⟩
    · exact ⟨_, _, rfl, hfull, rfl, rfl, rfl, rfl⟩
    · exact ⟨_, _, rfl, hfull, rfl, rfl, rfl, rfl⟩
    · refine ⟨st.log (Event.print "RE_RegisterFont: Too many fonts registered already"), _, ?_,
        hfull, rfl, rfl, rfl, rfl⟩
      simp only [RE_RegisterFont, hmiss, hge, if_true]
  · intro hmissNew
    rcases fontName with _ | ⟨_ | ⟨ch, rest⟩⟩
    · exact ⟨_, _, rfl, hfull, rfl, rfl, rfl, rfl⟩
    · exact ⟨_, _, rfl, hfull, rfl, rfl, rfl, rfl⟩
    · refine ⟨st.log (Event.print "RE_RegisterNewFont: Too many fonts registered already"), _, ?_,
        hfull, rfl, rfl, rfl, rfl⟩
      simp only [RE_RegisterNewFont, hmissNew, hge, if_true]

set_option maxRecDepth 100000 in
/-- C3 at concrete inputs. In `fullState` (nine slots taken by records without
a name) both entry points refuse the request for point size 12. In
`namedState` (nine slots taken, the key `fonts/fontImage_12.dat` of
`RE_RegisterFont` registered) `RE_RegisterNewFont` refuses the request for the
font `b`, whose key is not registered, with the same nine entries left. -/
theorem capacity_refusal_witness :
    fullState.registeredFontCount = MAX_FONTS
      ∧ (∃ st' msg, RE_RegisterFont (demoWorld false) tinyLayout 10 fullState
            (some (str "fonts/a.ttf")) 12 (zeroFont exactOps tinyLayout)
            = some (st', zeroFont exactOps tinyLayout)
        ∧ st'.registeredFontCount = MAX_FONTS ∧ st'.registeredFont = fullState.registeredFont
        ∧ st'.files = fullState.files ∧ st'.ftLibrary = fullState.ftLibrary
        ∧ st'.trace = fullState.trace ++ [Event.print msg])
      ∧ (∃ st' msg, RE_RegisterNewFont (demoWorld false) tinyLayout 10 fullState
            (some (str "fonts/a.ttf")) (str "a") 12 (zeroNewFont exactOps tinyLayout)
            = some (st', zeroNewFont exactOps tinyLayout)
        ∧ st'.registeredFontCount = MAX_FONTS ∧ st'.registeredFont = fullState.registeredFont
        ∧ st'.files = fullState.files ∧ st'.ftLibrary = fullState.ftLibrary
        ∧ st'.trace = fullState.trace ++ [Event.print msg])
      ∧ namedState.registeredFontCount = MAX_FONTS
      ∧ (findRegistered namedState (legacyKey 12)).isSome = true
      ∧ findRegistered namedState (newKey (str "b") 12) = none
      ∧ (∃ st' msg, RE_RegisterNewFont (demoWorld false) tinyLayout 10 namedState
            (some (str "fonts/a.ttf")) (str "b") 12 (zeroNewFont exactOps tinyLayout)
            = some (st', zeroNewFont exactOps tinyLayout)
        ∧ st'.registeredFontCount = MAX_FONTS ∧ st'.registeredFont = namedState.registeredFont
        ∧ st'.files = namedState.files ∧ st'.ftLibrary = namedState.ftLibrary
        ∧ st'.trace = namedState.trace ++ [Event.print msg]) :=
  have h := capacity_refusal (demoWorld false) tinyLayout 10 fullState (some (str "fonts/a.ttf"))
    (str "a") 12 (zeroFont exactOps tinyLayout) (zeroNewFont exactOps tinyLayout) (by decide)
  have hn := capacity_refusal (demoWorld false) tinyLayout 10 namedState
    (some (str "fonts/a.ttf")) (str "b") 12 (zeroFont exactOps tinyLayout)
    (zeroNewFont exactOps tinyLayout) (by decide)
  ⟨by decide, h.1 (by decide), h.2 (by decide), by decide, by decide, by decide,
    hn.2 (by decide)⟩

theorem loadGlyph_not_mem_shaders {F : Type} (gs : List (glyphInfo_t F)) (c : Nat) (b : Bool) :
    Event.loadGlyph c b ∉ gs.map (fun g => Event.shaderNoMip g.shaderName) := by
  intro h
  obtain ⟨g, _, hg⟩ := List.mem_map.1 h
  exact Event.noConfusion hg

theorem loadGlyph_not_mem_noMipTrace {F : Type} (L : Layout) (font : newFontInfo_t F) (c : Nat)
    (b : Bool) : Event.loadGlyph c b ∉ noMipTrace L font := by
  intro h
  simp only [noMipTrace, List.mem_append, List.mem_flatMap] at h
  rcases h with h | ⟨sh, _, h⟩
  · exact loadGlyph_not_mem_shaders _ c b h
  · exact loadGlyph_not_mem_shaders _ c b h

/-! ## Registering twice -/

set_option maxRecDepth 100000 in
/-- C2 evaluated at the failing input. After `R_InitFreeType` in the scenario
(empty registry, no cache file, font file `fonts/a.ttf`), `RE_RegisterFont`
is called twice with the same arguments. Without `r_saveFontData` both calls
run a full build: `registeredFontCount` is 1 after the first and 2 after the
second call, and both records carry an empty name. With `r_saveFontData` the
second call is served by the cache file the first one wrote:
`registeredFontCount` is again 2, and the records differ (the first has an
empty name, the second the cache key). When the first call is served by a cache
file (`cacheState`), the second is answered from the registry and the count
stays 1. -/
theorem register_twice_after_full_build :
    ((RE_RegisterFont (demoWorld false) tinyLayout 10 (demoState false) (some (str "fonts/a.ttf")) 12
        (zeroFont exactOps tinyLayout)).bind (fun r1 =>
      (RE_RegisterFont (demoWorld false) tinyLayout 10 r1.1 (some (str "fonts/a.ttf")) 12 r1.2).map
        (fun r2 => (r1.1.registeredFontCount, r2.1.registeredFontCount, r1.2.name, r2.2.name)))
      = some (1, 2, [], []))
    ∧ ((RE_RegisterFont (demoWorld true) tinyLayout 10 (demoState true) (some (str "fonts/a.ttf")) 12
        (zeroFont exactOps tinyLayout)).bind (fun r1 =>
      (RE_RegisterFont (demoWorld true) tinyLayout 10 r1.1 (some (str "fonts/a.ttf")) 12 r1.2).map
        (fun r2 => (r1.1.registeredFontCount, r2.1.registeredFontCount, r1.2.name, r2.2.name)))
      = some (1, 2, [], str "fonts/fontImage_12.dat"))
    ∧ ((RE_RegisterFont (demoWorld false) tinyLayout 10 cacheState (some (str "fonts/a.ttf")) 12
        (zeroFont exactOps tinyLayout)).bind (fun r1 =>
      (RE_RegisterFont (demoWorld false) tinyLayout 10 r1.1 (some (str "fonts/a.ttf")) 12 r1.2).map
        (fun r2 => (r1.1.registeredFontCount, r2.1.registeredFontCount, r1.2.name, r2.2.name)))
      = some (1, 1, str "fonts/fontImage_12.dat", str "fonts/fontImage_12.dat")) := by
  refine ⟨by decide, by decide, by decide⟩

/-! ## Gaussian kernel: normalization -/

theorem cell_index_inj (n x y x' y' : Nat) (hx : x < n) (hx' : x' < n)
    (h : n * y + x = n * y' + x') : x = x' ∧ y = y' := by
  have h1 : (n * y + x) % n = (n * y' + x') % n := by rw [h]
  rw [Nat.mul_add_mod, Nat.mul_add_mod, Nat.mod_eq_of_lt hx, Nat.mod_eq_of_lt hx'] at h1
  subst h1
  have hn : 0 < n := by omega
  have h2 : n * y = n * y' := by omega
  exact ⟨rfl, Nat.eq_of_mul_eq_mul_left hn h2⟩

/-- While `kernelSize * kernelSize` fits an `int`, the `int` index
`kernelSize*y + x` of a cell is the mathematical one. -/
theorem cell_index (n x y : Nat) (hx : x < n) (hy : y < n) (hb : n * n < 2147483648) :
    wrapInt (wrapInt ((n : Int) * (y : Int)) + (x : Int)) = ((n * y + x : Nat) : Int) := by
  have hlt : n * y + x < n * n := by
    calc n * y + x < n * y + n := by omega
      _ = n * (y + 1) := by rw [Nat.mul_succ]
      _ ≤ n * n := Nat.mul_le_mul_left n (by omega)
  have e : (n : Int) * (y : Int) = ((n * y : Nat) : Int) := by push_cast; rfl
  have w1 : wrapInt ((n * y : Nat) : Int) = ((n * y : Nat) : Int) :=
    wrapInt_eq _ (by unfold isInt32; omega)
  rw [e, w1, wrapInt_eq _ (by unfold isInt32; omega)]
  push_cast
  rfl

/-- The inner loop over `y < m` for a fixed column `x`. -/
theorem inner_loop {K : Type} [Field K] (exp : K → K) (pi : K) (n : Nat) (off : Int) (sigma : K)
    (hb : n * n < 2147483648) (x : Nat) (hx : x < n) (m : Nat) (hm : m ≤ n) (st : KernelState K) :
    ((List.range m).foldl (kernelCell exp pi (n : Int) off sigma x) st).sum
        = st.sum + ∑ y ∈ Finset.range m, gaussCell exp pi off sigma x y
      ∧ (∀ y, y < m →
          ((List.range m).foldl (kernelCell exp pi (n : Int) off sigma x) st).kernel
            ((n * y + x : Nat) : Int) = gaussCell exp pi off sigma x y)
      ∧ (∀ p : Int, (∀ y, y < m → p ≠ ((n * y + x : Nat) : Int)) →
          ((List.range m).foldl (kernelCell exp pi (n : Int) off sigma x) st).kernel p
            = st.kernel p) := by
  induction m with
  | zero => simp
  | succ m ih =>
    obtain ⟨i1, i2, i3⟩ := ih (by omega)
    have hidx := cell_index n x m hx (by omega) hb
    rw [List.range_succ, List.foldl_append]
    simp only [List.foldl_cons, List.foldl_nil, kernelCell, hidx, Function.update_same]
    refine ⟨?_, ?_, ?_⟩
    · rw [i1, Finset.sum_range_succ, add_assoc]
    · intro y hy
      by_cases hym : y = m
      · subst hym; simp
      · have hne : ((n * y + x : Nat) : Int) ≠ ((n * m + x : Nat) : Int) := by
          intro h
          exact hym (cell_index_inj n x y x m hx hx (Int.ofNat.inj h)).2
        rw [Function.update_noteq hne]
        exact i2 y (by omega)
    · intro p hp
      have hne : p ≠ ((n * m + x : Nat) : Int) := hp m (by omega)
      rw [Function.update_noteq hne]
      exact i3 p (fun y hy => hp y (by omega))

/-- The outer loop over the columns `x < m`. -/
theorem outer_loop {K : Type} [Field K] (exp : K → K) (pi : K) (n : Nat) (off : Int) (sigma : K)
    (hb : n * n < 2147483648) (m : Nat) (hm : m ≤ n) (st : KernelState K) :
    ((List.range m).foldl
        (fun st x => (List.range n).foldl (kernelCell exp pi (n : Int) off sigma x) st) st).sum
        = st.sum + ∑ x ∈ Finset.range m, ∑ y ∈ Finset.range n, gaussCell exp pi off sigma x y
      ∧ (∀ x y, x < m → y < n →
          ((List.range m).foldl
            (fun st x => (List.range n).foldl (kernelCell exp pi (n : Int) off sigma x) st)
              st).kernel ((n * y + x : Nat) : Int) = gaussCell exp pi off sigma x y) := by
  induction m with
  | zero => simp
  | succ m ih =>
    obtain ⟨o1, o2⟩ := ih (by omega)
    rw [List.range_succ, List.foldl_append]
    simp only [List.foldl_cons, List.foldl_nil]
    obtain ⟨i1, i2, i3⟩ := inner_loop exp pi n off sigma hb m (by omega) n (le_refl _)
      ((List.range m).foldl
        (fun st x => (List.range n).foldl (kernelCell exp pi (n : Int) off sigma x) st) st)
    refine ⟨?_, ?_⟩
    · rw [i1, o1, Finset.sum_range_succ, add_assoc]
    · intro x y hx hy
      by_cases hxm : x = m
      · subst hxm; exact i2 y hy
      · rw [i3]
        · exact o2 x y (by omega) hy
        · intro y' _ h
          exact hxm (cell_index_inj n x y m y' (by omega) (by omega) (Int.ofNat.inj h)).1

theorem list_sum_range {K : Type} [AddCommMonoid K] (f : Nat → K) (n : Nat) :
    ((List.range n).map f).sum = ∑ i ∈ Finset.range n, f i := by
  induction n with
  | zero => simp
  | succ n ih =>
    rw [List.range_succ, List.map_append, List.sum_append, ih, Finset.sum_range_succ]
    simp

theorem sum_rows {K : Type} [AddCommMonoid K] (f : Nat → K) (n m : Nat) :
    ∑ i ∈ Finset.range (n * m), f i
      = ∑ y ∈ Finset.range m, ∑ x ∈ Finset.range n, f (n * y + x) := by
  induction m with
  | zero => simp
  | succ m ih =>
    rw [Nat.mul_succ, Finset.sum_range_add, ih, Finset.sum_range_succ]

theorem gaussCell_real (radius : Int) (σ : ℝ) (x y : Nat)
    (hx : isInt32 ((x : Int) - radius)) (hy : isInt32 ((y : Int) - radius)) :
    gaussCell Real.exp Real.pi radius σ x y
      = Real.exp (-(1 / 2) * ((((x : ℝ) - radius) / σ) ^ 2 + (((y : ℝ) - radius) / σ) ^ 2))
          / (2 * Real.pi * σ ^ 2) := by
  simp only [gaussCell, wrapInt_eq _ hx, wrapInt_eq _ hy]
  push_cast
  rfl

theorem gaussCell_pos (radius : Int) (σ : ℝ) (hσ : 0 < σ) (x y : Nat) :
    0 < gaussCell Real.exp Real.pi radius σ x y := by
  simp only [gaussCell]
  apply div_pos (Real.exp_pos _)
  have := Real.pi_pos
  positivity

/-- C7 (amended). Kernel normalization: for every radius `0 ≤ r ≤ 23169`, the radii for
which `(2r+1)*(2r+1)` fits the `int` the code computes it in, and every
`sigma > 0`, when the allocation succeeds, `RE_GaussianKernel` (its `double`
arithmetic taken over the reals) returns `(2r+1)*(2r+1)` entries, the entry at
index `(2r+1)*y + x` being `exp(-0.5*(((x-r)/sigma)^2 + ((y-r)/sigma)^2)) /
(2*pi*sigma^2)` divided by the sum of these values over all cells, and the
entries sum to 1. -/
theorem gaussian_kernel_normalized (radius : Int) (hr : 0 ≤ radius) (hb : radius ≤ 23169)
    (σ : ℝ) (hσ : 0 < σ) :
    ∃ kernel : List ℝ, RE_GaussianKernel Real.exp Real.pi true radius σ = some kernel
      ∧ kernel.length = (2 * radius.toNat + 1) * (2 * radius.toNat + 1)
      ∧ (∀ x y : Nat, x < 2 * radius.toNat + 1 → y < 2 * radius.toNat + 1 →
          kernel[(2 * radius.toNat + 1) * y + x]?
            = some (Real.exp (-(1 / 2) * ((((x : ℝ) - radius) / σ) ^ 2
                  + (((y : ℝ) - radius) / σ) ^ 2)) / (2 * Real.pi * σ ^ 2)
                / ∑ x' ∈ Finset.range (2 * radius.toNat + 1),
                    ∑ y' ∈ Finset.range (2 * radius.toNat + 1),
                      Real.exp (-(1 / 2) * ((((x' : ℝ) - radius) / σ) ^ 2
                        + (((y' : ℝ) - radius) / σ) ^ 2)) / (2 * Real.pi * σ ^ 2)))
      ∧ kernel.sum = 1 := by
  have hsize : wrapInt (wrapInt (radius * 2) + 1) = ((2 * radius.toNat + 1 : Nat) : Int) := by
    have w1 : wrapInt (radius * 2) = radius * 2 := wrapInt_eq _ (by unfold isInt32; omega)
    rw [w1, wrapInt_eq _ (by unfold isInt32; omega)]
    omega
  have hbn : (2 * radius.toNat + 1) * (2 * radius.toNat + 1) < 2147483648 := by
    have h1 : 2 * radius.toNat + 1 ≤ 46339 := by omega
    calc (2 * radius.toNat + 1) * (2 * radius.toNat + 1) ≤ 46339 * 46339 :=
          Nat.mul_le_mul h1 h1
      _ < 2147483648 := by norm_num
  have hcell : ∀ x : Nat, x < 2 * radius.toNat + 1 → isInt32 ((x : Int) - radius) := by
    intro x hx
    unfold isInt32
    omega
  generalize hN : 2 * radius.toNat + 1 = n at hsize hbn hcell ⊢
  have hnn : (wrapInt ((n : Int) * (n : Int))).toNat = n * n := by
    have e : (n : Int) * (n : Int) = ((n * n : Nat) : Int) := by push_cast; rfl
    rw [e, wrapInt_eq _ (by unfold isInt32; omega), Int.toNat_natCast]
  have hnpos : 0 < n := by omega
  obtain ⟨o1, o2⟩ := outer_loop Real.exp Real.pi n radius σ hbn n (le_refl _)
    { kernel := fun _ => 0, sum := 0 }
  have hfill : fillKernel Real.exp Real.pi (n : Int) radius σ
      = (List.range n).foldl
        (fun st x => (List.range n).foldl (kernelCell Real.exp Real.pi (n : Int) radius σ x) st)
        { kernel := fun _ => 0, sum := 0 } := by
    simp only [fillKernel, Int.toNat_natCast]
  rw [← hfill] at o1 o2
  simp only [zero_add] at o1
  have hSpos : 0 < (fillKernel Real.exp Real.pi (n : Int) radius σ).sum := by
    rw [o1]
    apply Finset.sum_pos
    · intro x _
      apply Finset.sum_pos
      · intro y _
        exact gaussCell_pos radius σ hσ x y
      · exact ⟨0, Finset.mem_range.2 hnpos⟩
    · exact ⟨0, Finset.mem_range.2 hnpos⟩
  have htotal : ∑ i ∈ Finset.range (n * n),
      (fillKernel Real.exp Real.pi (n : Int) radius σ).kernel ((i : Nat) : Int)
      = (fillKernel Real.exp Real.pi (n : Int) radius σ).sum := by
    rw [sum_rows (fun i => (fillKernel Real.exp Real.pi (n : Int) radius σ).kernel ((i : Nat) : Int)),
      o1, Finset.sum_comm]
    apply Finset.sum_congr rfl
    intro x hx
    apply Finset.sum_congr rfl
    intro y hy
    exact o2 x y (Finset.mem_range.1 hx) (Finset.mem_range.1 hy)
  refine ⟨(List.range (n * n)).map
    (fun i => (fillKernel Real.exp Real.pi (n : Int) radius σ).kernel ((i : Nat) : Int)
      / (fillKernel Real.exp Real.pi (n : Int) radius σ).sum), ?_, ?_, ?_, ?_⟩
  · simp only [RE_GaussianKernel, if_true, hsize, hnn]
  · simp
  · intro x y hx hy
    have hlt : n * y + x < n * n := by
      calc n * y + x < n * y + n := by omega
        _ = n * (y + 1) := by rw [Nat.mul_succ]
        _ ≤ n * n := Nat.mul_le_mul_left n (by omega)
    rw [List.getElem?_map, List.getElem?_range hlt]
    simp only [Option.map_some', Option.some.injEq]
    have hS : (fillKernel Real.exp Real.pi (n : Int) radius σ).sum
        = ∑ x' ∈ Finset.range n, ∑ y' ∈ Finset.range n,
            Real.exp (-(1 / 2) * ((((x' : ℝ) - radius) / σ) ^ 2
              + (((y' : ℝ) - radius) / σ) ^ 2)) / (2 * Real.pi * σ ^ 2) := by
      rw [o1]
      apply Finset.sum_congr rfl
      intro x' hx'
      apply Finset.sum_congr rfl
      intro y' hy'
      exact gaussCell_real radius σ x' y' (hcell x' (Finset.mem_range.1 hx'))
        (hcell y' (Finset.mem_range.1 hy'))
    rw [o2 x y hx hy, ← hS, gaussCell_real radius σ x y (hcell x hx) (hcell y hy)]
  · have h1 := list_sum_range
      (fun i => (fillKernel Real.exp Real.pi (n : Int) radius σ).kernel ((i : Nat) : Int)
        / (fillKernel Real.exp Real.pi (n : Int) radius σ).sum) (n * n)
    have h2 := Finset.sum_div (Finset.range (n * n))
      (fun i => (fillKernel Real.exp Real.pi (n : Int) radius σ).kernel ((i : Nat) : Int))
      (fillKernel Real.exp Real.pi (n : Int) radius σ).sum
    rw [h1, ← h2, htotal]
    exact div_self (ne_of_gt hSpos)

/-- C7 at a concrete input: radius 1 and sigma 1, a kernel of nine entries. -/
theorem gaussian_kernel_normalized_witness :
    ∃ kernel : List ℝ, RE_GaussianKernel Real.exp Real.pi true 1 1 = some kernel
      ∧ kernel.length = (2 * (1 : Int).toNat + 1) * (2 * (1 : Int).toNat + 1)
      ∧ (∀ x y : Nat, x < 2 * (1 : Int).toNat + 1 → y < 2 * (1 : Int).toNat + 1 →
          kernel[(2 * (1 : Int).toNat + 1) * y + x]?
            = some (Real.exp (-(1 / 2) * ((((x : ℝ) - (1 : Int)) / 1) ^ 2
                  + (((y : ℝ) - (1 : Int)) / 1) ^ 2)) / (2 * Real.pi * 1 ^ 2)
                / ∑ x' ∈ Finset.range (2 * (1 : Int).toNat + 1),
                    ∑ y' ∈ Finset.range (2 * (1 : Int).toNat + 1),
                      Real.exp (-(1 / 2) * ((((x' : ℝ) - (1 : Int)) / 1) ^ 2
                        + (((y' : ℝ) - (1 : Int)) / 1) ^ 2)) / (2 * Real.pi * 1 ^ 2)))
      ∧ kernel.sum = 1 :=
  gaussian_kernel_normalized 1 (by decide) (by decide) 1 (by norm_num)

/-- C7 without the bound on the radius: at radius 23170 the product
`kernelSize*kernelSize = 46341 * 46341` does not fit an `int`, the normalizing
loop `for (i = 0; i < kernelSize*kernelSize; i++)` runs over the wrapped,
negative bound and no entry is normalized: the call does not return
`(2r+1)*(2r+1)` entries that sum to 1. -/
theorem gaussian_kernel_normalized_counterexample :
    ¬ isInt32 ((2 * 23170 + 1) * (2 * 23170 + 1))
      ∧ wrapInt (wrapInt (23170 * 2) + 1) = 46341
      ∧ wrapInt (46341 * 46341) = -2147479015
      ∧ (RE_GaussianKernel Real.exp Real.pi true 23170 1).map List.length = some 0
      ∧ ¬ ∃ kernel : List ℝ, RE_GaussianKernel Real.exp Real.pi true 23170 1 = some kernel
          ∧ kernel.length = (2 * (23170 : Int).toNat + 1) * (2 * (23170 : Int).toNat + 1)
          ∧ kernel.sum = 1 := by
  have h1 : wrapInt (wrapInt (23170 * 2) + 1) = 46341 := by decide
  have h2 : wrapInt (46341 * 46341) = -2147479015 := by decide
  have hlen : (RE_GaussianKernel Real.exp Real.pi true 23170 1).map List.length = some 0 := by
    simp only [RE_GaussianKernel, if_true, h1, h2, Option.map_some', List.length_map,
      List.length_range]
    rfl
  refine ⟨by decide, h1, h2, hlen, ?_⟩
  rintro ⟨kernel, hk, hl, -⟩
  rw [hk] at hlen
  simp only [Option.map_some', Option.some.injEq] at hlen
  rw [hlen] at hl
  exact absurd hl (by decide)

/-- The cell read off the returned cursor starts where the texture coordinates
of the glyph point: `(s * CANVAS_SIZE, t * CANVAS_SIZE)`. -/
theorem cellOf_origin (face : Face) (c : Nat) (margin : Int) (st : PackState)
    (hout : (face c).outline = true) :
    (RE_ConstructGlyphInfo exactOps st (some face) c false margin).2.yOut = -1
      ∨ ((((cellOf (RE_ConstructGlyphInfo exactOps st (some face) c false margin)).x : Int) : ℚ)
          = (RE_ConstructGlyphInfo exactOps st (some face) c false margin).1.s * (CANVAS_SIZE : ℚ)
        ∧ (((cellOf (RE_ConstructGlyphInfo exactOps st (some face) c false margin)).y : Int) : ℚ)
          = (RE_ConstructGlyphInfo exactOps st (some face) c false margin).1.t * (CANVAS_SIZE : ℚ)) := by
  simp only [RE_ConstructGlyphInfo, R_RenderGlyph, hout, if_true, Bool.false_eq_true, if_false, cellOf]
  split_ifs with h1 h2 h3 h4 h5 h6
  all_goals simp only [exactOps, CANVAS_SIZE, true_or]
  all_goals right
  all_goals constructor
  all_goals push_cast
  all_goals ring

/-! ## Blur: the sample coordinates -/

/-- The clamp of `RE_ApplyBlur` keeps a coordinate in `[0, canvasSize]`, the
upper end `canvasSize` included, and leaves a coordinate of that range alone. -/
theorem clampSample_range (canvasSize v : Int) (h : 0 ≤ canvasSize) :
    0 ≤ clampSample canvasSize v ∧ clampSample canvasSize v ≤ canvasSize
      ∧ (0 ≤ v → v ≤ canvasSize → clampSample canvasSize v = v)
      ∧ (canvasSize ≤ v → clampSample canvasSize v = canvasSize) := by
  simp only [clampSample]
  split_ifs <;> refine ⟨?_, ?_, ?_, ?_⟩ <;> intros <;> omega

/-- For every canvas and every radius of at least 1, the destination pixel in
the last row and column reads, for the last kernel cell, the index
`(canvasSize*canvasSize + canvasSize) * 4 + channel`, which is not below
`canvasSize*canvasSize*4`. -/
theorem sampleIndex_corner (canvasSize radius channel : Int) (hc : 1 ≤ canvasSize)
    (hr : 1 ≤ radius) (hch : 0 ≤ channel) :
    sampleIndex canvasSize radius channel (canvasSize - 1) (canvasSize - 1) (2 * radius) (2 * radius)
        = (canvasSize * canvasSize + canvasSize) * 4 + channel
      ∧ canvasSize * canvasSize * 4
          ≤ sampleIndex canvasSize radius channel (canvasSize - 1) (canvasSize - 1) (2 * radius)
              (2 * radius) := by
  have e : clampSample canvasSize (canvasSize - 1 + 2 * radius - radius) = canvasSize :=
    (clampSample_range canvasSize _ (by omega)).2.2.2 (by omega)
  simp only [sampleIndex, e, true_and]
  nlinarith

/-- C11 evaluated at a failing input: for the canvas of `CANVAS_SIZE` = 1024 and
the blur radius 1, the destination pixel `(1023, 1023)` and the kernel cell
`(2, 2)` give the sample coordinates `x2 = y2 = 1024`, which are not in
`[0, 1023]`, and the read index `(1024*1024 + 1024)*4 + 0 = 4198400`, which is
among the indices read for that pixel and is not below `1024*1024*4`. For the
destination pixel `(1023, 0)` the cell `(2, 1)` reads index 4096, the first
pixel of row 1 instead of the last pixel of row 0. -/
theorem blur_reads_past_end :
    clampSample CANVAS_SIZE (1023 + 2 - 1) = 1024
      ∧ sampleIndex CANVAS_SIZE 1 0 1023 1023 2 2 = 4198400
      ∧ (4198400 : Int) ∈ blurReads CANVAS_SIZE 1 0 1023 1023
      ∧ ¬ ((4198400 : Int) < CANVAS_SIZE * CANVAS_SIZE * 4)
      ∧ sampleIndex CANVAS_SIZE 1 0 1023 0 2 1 = (1 * CANVAS_SIZE + 0) * 4 + 0 := by
  decide

/-! ## Registration: empty names and registry hits -/

/-- C12. Empty font name: `RE_RegisterFont` and `RE_RegisterNewFont` called with a
null (`none`) or empty (`some []`) `fontName` return at once: the caller's
record is as it was, `registeredFontCount`, the registry entries, the files
and the library handle are unchanged, and the trace grows by the one message,
so no file is read. -/
theorem empty_font_name {F : Type} (w : World F) (L : Layout) (fuel : Nat) (st : State F)
    (simpleName : List Nat) (pointSize : Int) (font : fontInfo_t F) (newFont : newFontInfo_t F) :
    (∃ st' msg, RE_RegisterFont w L fuel st none pointSize font = some (st', font)
        ∧ st'.registeredFontCount = st.registeredFontCount
        ∧ st'.registeredFont = st.registeredFont ∧ st'.files = st.files
        ∧ st'.ftLibrary = st.ftLibrary ∧ st'.trace = st.trace ++ [Event.print msg])
      ∧ (∃ st' msg, RE_RegisterFont w L fuel st (some []) pointSize font = some (st', font)
        ∧ st'.registeredFontCount = st.registeredFontCount
        ∧ st'.registeredFont = st.registeredFont ∧ st'.files = st.files
        ∧ st'.ftLibrary = st.ftLibrary ∧ st'.trace = st.trace ++ [Event.print msg])
      ∧ (∃ st' msg, RE_RegisterNewFont w L fuel st none simpleName pointSize newFont
            = some (st', newFont)
        ∧ st'.registeredFontCount = st.registeredFontCount
        ∧ st'.registeredFont = st.registeredFont ∧ st'.files = st.files
        ∧ st'.ftLibrary = st.ftLibrary ∧ st'.trace = st.trace ++ [Event.print msg])
      ∧ (∃ st' msg, RE_RegisterNewFont w L fuel st (some []) simpleName pointSize newFont
            = some (st', newFont)
        ∧ st'.registeredFontCount = st.registeredFontCount
        ∧ st'.registeredFont = st.registeredFont ∧ st'.files = st.files
        ∧ st'.ftLibrary = st.ftLibrary ∧ st'.trace = st.trace ++ [Event.print msg]) :=
  ⟨⟨_, _, rfl, rfl, rfl, rfl, rfl, rfl⟩, ⟨_, _, rfl, rfl, rfl, rfl, rfl, rfl⟩,
    ⟨_, _, rfl, rfl, rfl, rfl, rfl, rfl⟩, ⟨_, _, rfl, rfl, rfl, rfl, rfl, rfl⟩⟩

/-- The first element of a list that satisfies `p` is what `find?` returns. -/
theorem find?_first {α : Type} (p : α → Bool) (l : List α) (i : Nat) (e : α)
    (he : l[i]? = some e) (hp : p e = true)
    (hfirst : ∀ j, j < i → ∀ e', l[j]? = some e' → p e' = false) :
    l.find? p = some e := by
  induction l generalizing i with
  | nil => simp at he
  | cons a l ih =>
    cases i with
    | zero =>
      simp only [List.getElem?_cons_zero, Option.some.injEq] at he
      subst he
      simp [List.find?, hp]
    | succ i =>
      have ha : p a = false := hfirst 0 (Nat.succ_pos i) a (by simp)
      simp only [List.find?, ha]
      simp only [List.getElem?_cons_succ] at he
      exact ih i he (fun j hj e' hj' => hfirst (j + 1) (Nat.succ_lt_succ hj) e' (by simpa using hj'))

/-- The registry scan returns the lowest-indexed entry whose name matches. -/
theorem findRegistered_first {F : Type} (st : State F) (name : List Nat) (i : Nat)
    (e : newFontInfo_t F) (hi : i < st.registeredFontCount) (he : st.registeredFont[i]? = some e)
    (hmatch : Q_stricmp_eq name e.name = true)
    (hfirst : ∀ j, j < i → ∀ e', st.registeredFont[j]? = some e' → Q_stricmp_eq name e'.name = false) :
    findRegistered st name = some e := by
  unfold findRegistered
  apply find?_first _ _ i e
  · rw [List.getElem?_take_of_lt hi]; exact he
  · exact hmatch
  · intro j hj e' hj'
    rw [List.getElem?_take_of_lt (Nat.lt_trans hj hi)] at hj'
    exact hfirst j hj e' hj'

/-- C13. Registry lookup: when the entry at index `i` below `registeredFontCount`
is the lowest-indexed one whose name equals the request's cache key under
`Q_stricmp`, a call with a non-empty font name copies that entry into the
caller's record (for `RE_RegisterFont` its first `sizeof(fontInfo_t)` bytes:
the glyphs, `glyphScale` and the name; for `RE_RegisterNewFont` the whole
entry) and the state is exactly the one before the call: `registeredFontCount`,
the entries, the files and the trace are unchanged, so no cache file is decoded
and no glyph is built. Each entry point is taken on its own, whatever the
registry holds for the key of the other one, and nothing is assumed about the
count, so this holds for a full registry too. -/
theorem registry_lookup {F : Type} (w : World F) (L : Layout) (fuel : Nat) (st : State F)
    (ch : Nat) (rest : List Nat) (simpleName : List Nat) (pointSize : Int)
    (font : fontInfo_t F) (newFont : newFontInfo_t F)
    (i : Nat) (e : newFontInfo_t F) (hi : i < st.registeredFontCount)
    (he : st.registeredFont[i]? = some e) :
    (Q_stricmp_eq (legacyKey (if pointSize ≤ 0 then 12 else pointSize)) e.name = true →
      (∀ j, j < i → ∀ e', st.registeredFont[j]? = some e' →
        Q_stricmp_eq (legacyKey (if pointSize ≤ 0 then 12 else pointSize)) e'.name = false) →
      ∃ r, RE_RegisterFont w L fuel st (some (ch :: rest)) pointSize font = some (st, r)
        ∧ r.glyphs = e.glyphs ∧ r.glyphScale = e.glyphScale ∧ r.name = e.name)
      ∧ (Q_stricmp_eq (newKey simpleName (if pointSize ≤ 0 then 12 else pointSize)) e.name = true →
        (∀ j, j < i → ∀ e', st.registeredFont[j]? = some e' →
          Q_stricmp_eq (newKey simpleName (if pointSize ≤ 0 then 12 else pointSize)) e'.name
            = false) →
        RE_RegisterNewFont w L fuel st (some (ch :: rest)) simpleName pointSize newFont
          = some (st, e)) := by
  constructor
  · intro hmatch hfirst
    have h1 := findRegistered_first st _ i e hi he hmatch hfirst
    refine ⟨e.legacy, ?_, rfl, rfl, rfl⟩
    simp only [RE_RegisterFont, h1]
  · intro hmatch hfirst
    have h2 := findRegistered_first st _ i e hi he hmatch hfirst
    simp only [RE_RegisterNewFont, h2]

set_option maxRecDepth 100000 in
/-- C13 at concrete inputs: in the full registry `namedState` the request of
`RE_RegisterFont` for point size 12 is answered by slot 1 (named
`FONTS/FONTIMAGE_12.DAT`, scale 1, before the equally matching slot 2), and the
request of `RE_RegisterNewFont` for the font `a` by slot 3 (named
`Fonts/A_12.dat`, scale 3); the state is `namedState` in both cases. -/
theorem registry_lookup_witness :
    namedState.registeredFontCount = MAX_FONTS
      ∧ (∃ r, RE_RegisterFont (demoWorld false) tinyLayout 10 namedState
            (some (str "fonts/a.ttf")) 12 (zeroFont exactOps tinyLayout) = some (namedState, r)
          ∧ r.glyphs = List.replicate 3 (zeroGlyph exactOps) ∧ r.glyphScale = 1
          ∧ r.name = str "FONTS/FONTIMAGE_12.DAT")
      ∧ RE_RegisterNewFont (demoWorld false) tinyLayout 10 namedState (some (str "fonts/a.ttf"))
          (str "a") 12 (zeroNewFont exactOps tinyLayout)
        = some (namedState,
            { zeroNewFont exactOps tinyLayout with name := str "Fonts/A_12.dat", glyphScale := 3 }) :=
  have h1 := (registry_lookup (demoWorld false) tinyLayout 10 namedState 102 (str "onts/a.ttf")
    (str "b") 12 (zeroFont exactOps tinyLayout) (zeroNewFont exactOps tinyLayout)
    1 _ (by decide) rfl).1 (by decide)
    (fun j hj e' he' => by
      have hj0 : j = 0 := by omega
      subst hj0
      simp only [namedState, List.cons_append, List.getElem?_cons_zero, Option.some.injEq] at he'
      subst he'
      decide)
  have h3 := (registry_lookup (demoWorld false) tinyLayout 10 namedState 102 (str "onts/a.ttf")
    (str "a") 12 (zeroFont exactOps tinyLayout) (zeroNewFont exactOps tinyLayout)
    3 _ (by decide) rfl).2 (by decide)
    (fun j hj e' he' => by
      have hj3 : j = 0 ∨ j = 1 ∨ j = 2 := by omega
      rcases hj3 with rfl | rfl | rfl <;>
        simp only [namedState, List.cons_append, List.getElem?_cons_zero, List.getElem?_cons_succ,
          Option.some.injEq] at he' <;> subst he' <;> decide)
  ⟨by decide, h1, h3⟩

/-! ## The registry invariant -/

/-- Writing slot `n` leaves the slots below `n` alone. -/
theorem getElem?_set_below {α : Type} (l : List α) (n i : Nat) (x : α) (h : i < n) :
    (l.set n x)[i]? = l[i]? := by
  rw [List.getElem?_set_ne (by omega)]

/-- What a call of `RE_RegisterFont` that returns does to the registry: the
count stays or grows by one, the latter only from below `MAX_FONTS`, and the
entries below the old count are untouched. -/
theorem registerFont_step {F : Type} (w : World F) (L : Layout) (fuel : Nat) (st st' : State F)
    (fontName : Option (List Nat)) (pointSize : Int) (font r : fontInfo_t F)
    (h : RE_RegisterFont w L fuel st fontName pointSize font = some (st', r)) :
    (st'.registeredFontCount = st.registeredFontCount
        ∨ (st'.registeredFontCount = st.registeredFontCount + 1
            ∧ st.registeredFontCount < MAX_FONTS))
      ∧ ∀ i, i < st.registeredFontCount → st'.registeredFont[i]? = st.registeredFont[i]? := by
  unfold RE_RegisterFont at h
  split at h
  · cases h; exact ⟨Or.inl rfl, fun _ _ => rfl⟩
  · cases h; exact ⟨Or.inl rfl, fun _ _ => rfl⟩
  · simp only [] at h
    generalize (if pointSize ≤ 0 then (12 : Int) else pointSize) = ps at h
    split at h
    · cases h; exact ⟨Or.inl rfl, fun _ _ => rfl⟩
    · split_ifs at h with hcap hlen
      · cases h; exact ⟨Or.inl rfl, fun _ _ => rfl⟩
      · cases h
        exact ⟨Or.inr ⟨rfl, by simpa using hcap⟩, fun i hi => getElem?_set_below _ _ _ _ hi⟩
      · unfold rebuildFont at h
        split_ifs at h
        · cases h; exact ⟨Or.inl rfl, fun _ _ => rfl⟩
        · cases h; exact ⟨Or.inl rfl, fun _ _ => rfl⟩
        · simp only [] at h
          split at h
          · cases h; exact ⟨Or.inl rfl, fun _ _ => rfl⟩
          · cases h; exact ⟨Or.inl rfl, fun _ _ => rfl⟩
          · split at h
            · cases h; exact ⟨Or.inl rfl, fun _ _ => rfl⟩
            · split at h
              · cases h; exact ⟨Or.inl rfl, fun _ _ => rfl⟩
              · unfold buildFont at h
                simp only [] at h
                split at h
                · cases h
                · cases h
                  exact ⟨Or.inr ⟨rfl, by simpa using hcap⟩,
                    fun i hi => getElem?_set_below _ _ _ _ hi⟩

/-- The same for `RE_RegisterNewFont`. -/
theorem registerNewFont_step {F : Type} (w : World F) (L : Layout) (fuel : Nat)
    (st st' : State F) (fontName : Option (List Nat)) (simpleName : List Nat) (pointSize : Int)
    (font r : newFontInfo_t F)
    (h : RE_RegisterNewFont w L fuel st fontName simpleName pointSize font = some (st', r)) :
    (st'.registeredFontCount = st.registeredFontCount
        ∨ (st'.registeredFontCount = st.registeredFontCount + 1
            ∧ st.registeredFontCount < MAX_FONTS))
      ∧ ∀ i, i < st.registeredFontCount → st'.registeredFont[i]? = st.registeredFont[i]? := by
  unfold RE_RegisterNewFont at h
  split at h
  · cases h; exact ⟨Or.inl rfl, fun _ _ => rfl⟩
  · cases h; exact ⟨Or.inl rfl, fun _ _ => rfl⟩
  · simp only [] at h
    generalize (if pointSize ≤ 0 then (12 : Int) else pointSize) = ps at h
    split at h
    · cases h; exact ⟨Or.inl rfl, fun _ _ => rfl⟩
    · split_ifs at h with hcap hlen
      · cases h; exact ⟨Or.inl rfl, fun _ _ => rfl⟩
      · cases h
        exact ⟨Or.inr ⟨rfl, by simpa using hcap⟩, fun i hi => getElem?_set_below _ _ _ _ hi⟩
      · unfold rebuildNewFont at h
        split_ifs at h
        · cases h; exact ⟨Or.inl rfl, fun _ _ => rfl⟩
        · cases h; exact ⟨Or.inl rfl, fun _ _ => rfl⟩
        · simp only [] at h
          split at h
          · cases h; exact ⟨Or.inl rfl, fun _ _ => rfl⟩
          · cases h; exact ⟨Or.inl rfl, fun _ _ => rfl⟩
          · split at h
            · cases h; exact ⟨Or.inl rfl, fun _ _ => rfl⟩
            · split at h
              · cases h; exact ⟨Or.inl rfl, fun _ _ => rfl⟩
              · unfold buildNewFont at h
                simp only [] at h
                split at h
                · cases h
                · split at h
                  · cases h
                  · cases h
                    exact ⟨Or.inr ⟨rfl, by simpa using hcap⟩,
                      fun i hi => getElem?_set_below _ _ _ _ hi⟩

/-- `R_InitFreeType` and `R_DoneFreeType` reset the count. -/
theorem init_done_count {F : Type} (w : World F) (st : State F) :
    (R_InitFreeType w st).registeredFontCount = 0
      ∧ (R_DoneFreeType w st).registeredFontCount = 0 := by
  unfold R_InitFreeType R_DoneFreeType
  constructor <;> split_ifs <;> rfl

/-- The count of a reachable state is at most `MAX_FONTS`. -/
theorem reachable_count {F : Type} (w : World F) (L : Layout) (st : State F)
    (h : Reachable w L st) : st.registeredFontCount ≤ MAX_FONTS := by
  induction h with
  | init st0 => rw [(init_done_count w st0).1]; exact Nat.zero_le _
  | call st0 st1 fuel c _ hrun ih =>
    cases c with
    | registerFont fontName pointSize font =>
      simp only [Call.run, Option.map_eq_some'] at hrun
      obtain ⟨⟨s, r⟩, hr, rfl⟩ := hrun
      rcases (registerFont_step w L fuel st0 s fontName pointSize font r hr).1 with e | ⟨e, hlt⟩
      · simp only []; omega
      · simp only []; omega
    | registerNewFont fontName simpleName pointSize font =>
      simp only [Call.run, Option.map_eq_some'] at hrun
      obtain ⟨⟨s, r⟩, hr, rfl⟩ := hrun
      rcases (registerNewFont_step w L fuel st0 s fontName simpleName pointSize font r hr).1
        with e | ⟨e, hlt⟩
      · simp only []; omega
      · simp only []; omega
    | initFreeType =>
      simp only [Call.run, Option.some.injEq] at hrun
      subst hrun
      rw [(init_done_count w st0).1]; exact Nat.zero_le _
    | doneFreeType =>
      simp only [Call.run, Option.some.injEq] at hrun
      subst hrun
      rw [(init_done_count w st0).2]; exact Nat.zero_le _

/-- C14. Registry invariant: in every state reachable from `R_InitFreeType` by
calls of `RE_RegisterFont`, `RE_RegisterNewFont`, `R_InitFreeType` and
`R_DoneFreeType`, `registeredFontCount` is at most `MAX_FONTS` (it is a
natural number, so at least 0); a registration call that returns leaves the
count as it is or raises it by one, and leaves every entry at an index below
the count it started with as it was; and `R_InitFreeType` and `R_DoneFreeType`
set the count to 0. -/
theorem registry_invariant {F : Type} (w : World F) (L : Layout) (st : State F)
    (h : Reachable w L st) :
    st.registeredFontCount ≤ MAX_FONTS
      ∧ (∀ fuel fontName pointSize font st' r,
          RE_RegisterFont w L fuel st fontName pointSize font = some (st', r) →
            (st'.registeredFontCount = st.registeredFontCount
                ∨ st'.registeredFontCount = st.registeredFontCount + 1)
              ∧ st'.registeredFontCount ≤ MAX_FONTS
              ∧ ∀ i, i < st.registeredFontCount →
                  st'.registeredFont[i]? = st.registeredFont[i]?)
      ∧ (∀ fuel fontName simpleName pointSize font st' r,
          RE_RegisterNewFont w L fuel st fontName simpleName pointSize font = some (st', r) →
            (st'.registeredFontCount = st.registeredFontCount
                ∨ st'.registeredFontCount = st.registeredFontCount + 1)
              ∧ st'.registeredFontCount ≤ MAX_FONTS
              ∧ ∀ i, i < st.registeredFontCount →
                  st'.registeredFont[i]? = st.registeredFont[i]?)
      ∧ (R_InitFreeType w st).registeredFontCount = 0
      ∧ (R_DoneFreeType w st).registeredFontCount = 0 := by
  have hc := reachable_count w L st h
  refine ⟨hc, ?_, ?_, init_done_count w st⟩
  · intro fuel fontName pointSize font st' r hr
    obtain ⟨h1, h2⟩ := registerFont_step w L fuel st st' fontName pointSize font r hr
    refine ⟨?_, ?_, h2⟩
    · rcases h1 with e | ⟨e, _⟩
      · exact Or.inl e
      · exact Or.inr e
    · rcases h1 with e | ⟨e, hlt⟩ <;> omega
  · intro fuel fontName simpleName pointSize font st' r hr
    obtain ⟨h1, h2⟩ := registerNewFont_step w L fuel st st' fontName simpleName pointSize font r hr
    refine ⟨?_, ?_, h2⟩
    · rcases h1 with e | ⟨e, _⟩
      · exact Or.inl e
      · exact Or.inr e
    · rcases h1 with e | ⟨e, hlt⟩ <;> omega

/-- A call that returns leads to the state it returns. -/
theorem getD_of_isSome {α : Type} (x : Option α) (d : α) (h : x.isSome = true) :
    x = some (x.getD d) := by
  cases x with
  | none => simp at h
  | some a => rfl

set_option maxRecDepth 100000 in
/-- C14 at a concrete reachable state: the state after `R_InitFreeType` and one
registration served by a cache file, in which the count is 1. -/
theorem registry_invariant_witness :
    Reachable (demoWorld false) tinyLayout cachedState
      ∧ cachedState.registeredFontCount = 1
      ∧ cachedState.registeredFontCount ≤ MAX_FONTS
      ∧ (∀ fuel fontName pointSize font st' r,
          RE_RegisterFont (demoWorld false) tinyLayout fuel cachedState fontName pointSize font
              = some (st', r) →
            (st'.registeredFontCount = cachedState.registeredFontCount
                ∨ st'.registeredFontCount = cachedState.registeredFontCount + 1)
              ∧ st'.registeredFontCount ≤ MAX_FONTS
              ∧ ∀ i, i < cachedState.registeredFontCount →
                  st'.registeredFont[i]? = cachedState.registeredFont[i]?)
      ∧ (∀ fuel fontName simpleName pointSize font st' r,
          RE_RegisterNewFont (demoWorld false) tinyLayout fuel cachedState fontName simpleName
              pointSize font = some (st', r) →
            (st'.registeredFontCount = cachedState.registeredFontCount
                ∨ st'.registeredFontCount = cachedState.registeredFontCount + 1)
              ∧ st'.registeredFontCount ≤ MAX_FONTS
              ∧ ∀ i, i < cachedState.registeredFontCount →
                  st'.registeredFont[i]? = cachedState.registeredFont[i]?)
      ∧ (R_InitFreeType (demoWorld false) cachedState).registeredFontCount = 0
      ∧ (R_DoneFreeType (demoWorld false) cachedState).registeredFontCount = 0 :=
  have hreach : Reachable (demoWorld false) tinyLayout cachedState :=
    Reachable.call cacheState cachedState 10
      (Call.registerFont (some (str "fonts/a.ttf")) 12 (zeroFont exactOps tinyLayout))
      (Reachable.init _) (getD_of_isSome _ _ (by decide))
  ⟨hreach, by decide, registry_invariant (demoWorld false) tinyLayout cachedState hreach⟩

/-! ## The packer: row wrap and page-full -/

/-- C15 (amended). Row-wrap rule: in a real-pass call for a glyph with a bitmap,
with `cellWidth = pitch + 2*margin` and the row height `maxHeight + 2*margin`
(`maxHeight` as updated by the call), the packer advances to a new row, to
`x = 0` and `y = y + maxHeight + 2*margin + 1`, exactly when
`x + cellWidth + 1 >= CANVAS_SIZE - 1`; otherwise `x` and `y` are as on entry.
The page-full test is made on the resulting `y`, and a glyph that is placed is
placed at the resulting `(x, y)`: its texture coordinates are `x / CANVAS_SIZE`
and `y / CANVAS_SIZE` and the cursor is left at `(x + cellWidth + 1, y)`. -/
theorem row_wrap {F : Type} (ops : FloatOps F) (face : Face) (c : Nat) (margin : Int)
    (st : PackState) (hout : (face c).outline = true) :
    let r := RE_ConstructGlyphInfo ops st (some face) c false margin
    let cellWidth := r.1.pitch + margin * 2
    let rowHeight := r.2.maxHeight + margin * 2
    (st.xOut + cellWidth + 1 ≥ CANVAS_SIZE - 1 →
        (st.yOut + rowHeight + 1 + rowHeight + 1 ≥ CANVAS_SIZE - 1 ∧ r.2.xOut = -1 ∧ r.2.yOut = -1)
          ∨ (st.yOut + rowHeight + 1 + rowHeight + 1 < CANVAS_SIZE - 1
              ∧ r.2.xOut = 0 + cellWidth + 1 ∧ r.2.yOut = st.yOut + rowHeight + 1
              ∧ r.1.s = ops.div (ops.ofInt 0) (ops.ofInt CANVAS_SIZE)
              ∧ r.1.t = ops.div (ops.ofInt (st.yOut + rowHeight + 1)) (ops.ofInt CANVAS_SIZE)))
      ∧ (st.xOut + cellWidth + 1 < CANVAS_SIZE - 1 →
          (st.yOut + rowHeight + 1 ≥ CANVAS_SIZE - 1 ∧ r.2.xOut = -1 ∧ r.2.yOut = -1)
            ∨ (st.yOut + rowHeight + 1 < CANVAS_SIZE - 1
                ∧ r.2.xOut = st.xOut + cellWidth + 1 ∧ r.2.yOut = st.yOut
                ∧ r.1.s = ops.div (ops.ofInt st.xOut) (ops.ofInt CANVAS_SIZE)
                ∧ r.1.t = ops.div (ops.ofInt st.yOut) (ops.ofInt CANVAS_SIZE))) := by
  simp only [RE_ConstructGlyphInfo, R_RenderGlyph, hout, if_true, Bool.false_eq_true, if_false]
  split_ifs with h1 h2 h3 h4 h5 h6
  all_goals simp only [CANVAS_SIZE] at *
  all_goals constructor
  all_goals intro hw
  all_goals first
    | (exfalso; omega)
    | (left; exact ⟨by omega, trivial, trivial⟩)
    | (right; exact ⟨by omega, trivial, trivial, trivial, trivial⟩)

/-- C15 at a concrete input: a glyph of pitch 500 entered at the cursor
`(100, 0)`, which stays in the row. -/
theorem row_wrap_witness :
    let r := RE_ConstructGlyphInfo exactOps (packAt 100 0 10) (some (fun _ => boxSlot 500 10)) 65
      false 0
    let cellWidth := r.1.pitch + 0 * 2
    let rowHeight := r.2.maxHeight + 0 * 2
    (100 + cellWidth + 1 < CANVAS_SIZE - 1 ∧ r.2.xOut = 601 ∧ r.2.yOut = 0)
      ∧ ((packAt 100 0 10).xOut + cellWidth + 1 ≥ CANVAS_SIZE - 1 →
        ((packAt 100 0 10).yOut + rowHeight + 1 + rowHeight + 1 ≥ CANVAS_SIZE - 1
            ∧ r.2.xOut = -1 ∧ r.2.yOut = -1)
          ∨ ((packAt 100 0 10).yOut + rowHeight + 1 + rowHeight + 1 < CANVAS_SIZE - 1
              ∧ r.2.xOut = 0 + cellWidth + 1 ∧ r.2.yOut = (packAt 100 0 10).yOut + rowHeight + 1
              ∧ r.1.s = exactOps.div (exactOps.ofInt 0) (exactOps.ofInt CANVAS_SIZE)
              ∧ r.1.t = exactOps.div (exactOps.ofInt ((packAt 100 0 10).yOut + rowHeight + 1))
                  (exactOps.ofInt CANVAS_SIZE)))
      ∧ ((packAt 100 0 10).xOut + cellWidth + 1 < CANVAS_SIZE - 1 →
          ((packAt 100 0 10).yOut + rowHeight + 1 ≥ CANVAS_SIZE - 1 ∧ r.2.xOut = -1 ∧ r.2.yOut = -1)
            ∨ ((packAt 100 0 10).yOut + rowHeight + 1 < CANVAS_SIZE - 1
                ∧ r.2.xOut = (packAt 100 0 10).xOut + cellWidth + 1
                ∧ r.2.yOut = (packAt 100 0 10).yOut
                ∧ r.1.s = exactOps.div (exactOps.ofInt (packAt 100 0 10).xOut)
                    (exactOps.ofInt CANVAS_SIZE)
                ∧ r.1.t = exactOps.div (exactOps.ofInt (packAt 100 0 10).yOut)
                    (exactOps.ofInt CANVAS_SIZE))) :=
  ⟨by decide, row_wrap exactOps (fun _ => boxSlot 500 10) 65 0 (packAt 100 0 10) rfl⟩

/-- C15 as stated fails: a glyph of pitch 500 entered at the cursor `(522, 0)`
with margin 0 has `x + cellWidth = 1022`, which does not exceed
`CANVAS_SIZE - 1`, and there is room below; yet the packer starts a new row:
the glyph is placed at `(0, 11)` and the cursor is left at `(501, 11)`, not at
`(1023, 0)`. -/
theorem row_wrap_counterexample :
    (RE_ConstructGlyphInfo exactOps (packAt 522 0 10) (some (fun _ => boxSlot 500 10)) 65
        false 0).1.pitch = 500
      ∧ ¬ ((522 : Int) + (500 + 0 * 2) > CANVAS_SIZE - 1)
      ∧ (RE_ConstructGlyphInfo exactOps (packAt 522 0 10) (some (fun _ => boxSlot 500 10)) 65
          false 0).2.xOut = 0 + (500 + 0 * 2) + 1
      ∧ (RE_ConstructGlyphInfo exactOps (packAt 522 0 10) (some (fun _ => boxSlot 500 10)) 65
          false 0).2.yOut = 0 + 10 + 0 * 2 + 1
      ∧ (RE_ConstructGlyphInfo exactOps (packAt 522 0 10) (some (fun _ => boxSlot 500 10)) 65
          false 0).2.yOut ≠ 0 := by
  decide

/-- C16 (amended). Page-full rule: in a real-pass call for a glyph with a bitmap,
entered with a non-negative cursor and margin, let `rowHeight = maxHeight +
2*margin` with `maxHeight` the running maximum as updated by the call (at
least the height of the glyph being placed) and let `y1` be `y` after the row
decision. The call signals page-full (`x = y = -1`) exactly when
`y1 + rowHeight + 1 >= CANVAS_SIZE - 1`; in every other case the glyph is
placed: the cursor is left in row `y1` and the glyph carries its cell size
`(pitch + 2*margin, height + 2*margin)`. -/
theorem page_full_rule {F : Type} (ops : FloatOps F) (face : Face) (c : Nat) (margin : Int)
    (st : PackState) (hout : (face c).outline = true)
    (hw : 0 ≤ (face c).width) (hh : 0 ≤ (face c).height)
    (hx : 0 ≤ st.xOut) (hy : 0 ≤ st.yOut) (hm : 0 ≤ margin) :
    let r := RE_ConstructGlyphInfo ops st (some face) c false margin
    let cellWidth := r.1.pitch + margin * 2
    let rowHeight := r.2.maxHeight + margin * 2
    let y1 := if st.xOut + cellWidth + 1 ≥ CANVAS_SIZE - 1 then st.yOut + rowHeight + 1 else st.yOut
    r.1.height ≤ r.2.maxHeight ∧ st.maxHeight ≤ r.2.maxHeight
      ∧ (r.2.maxHeight = st.maxHeight ∨ r.2.maxHeight = r.1.height)
      ∧ ((r.2.xOut = -1 ∧ r.2.yOut = -1) ↔ y1 + rowHeight + 1 ≥ CANVAS_SIZE - 1)
      ∧ ((r.2.xOut = -1 ∨ r.2.yOut = -1) ↔ y1 + rowHeight + 1 ≥ CANVAS_SIZE - 1)
      ∧ (y1 + rowHeight + 1 < CANVAS_SIZE - 1 →
          r.2.yOut = y1 ∧ 0 < r.2.xOut ∧ r.1.imageWidth = cellWidth
            ∧ r.1.imageHeight = r.1.height + margin * 2) := by
  obtain ⟨hp, hht⟩ := glyphBox_nonneg (face c) hw hh
  simp only [RE_ConstructGlyphInfo, R_RenderGlyph, hout, if_true, Bool.false_eq_true, if_false]
  split_ifs with h1 h2 h3 h4 h5 h6
  all_goals simp only [CANVAS_SIZE] at *
  all_goals refine ⟨by omega, by omega, by first | omega | simp, ?_, ?_, ?_⟩
  all_goals first
    | omega
    | (constructor <;> intro hq <;> omega)
    | (intro hq; omega)
    | (intro hq; exact ⟨trivial, by omega, trivial, trivial⟩)
    | (simp only [true_and, and_true, true_or, or_true, and_self, or_self, iff_true, true_iff,
        ge_iff_le]; omega)

/-- C16 at a concrete input: a glyph of 8 by 10 pixels entered at the cursor
`(5, 7)` with margin 2 and `maxHeight` 20. -/
theorem page_full_rule_witness :
    let r := RE_ConstructGlyphInfo exactOps (packAt 5 7 20) (some (fun _ => boxSlot 8 10)) 65 false 2
    let cellWidth := r.1.pitch + 2 * 2
    let rowHeight := r.2.maxHeight + 2 * 2
    let y1 := if (packAt 5 7 20).xOut + cellWidth + 1 ≥ CANVAS_SIZE - 1
      then (packAt 5 7 20).yOut + rowHeight + 1 else (packAt 5 7 20).yOut
    r.1.height ≤ r.2.maxHeight ∧ (packAt 5 7 20).maxHeight ≤ r.2.maxHeight
      ∧ (r.2.maxHeight = (packAt 5 7 20).maxHeight ∨ r.2.maxHeight = r.1.height)
      ∧ ((r.2.xOut = -1 ∧ r.2.yOut = -1) ↔ y1 + rowHeight + 1 ≥ CANVAS_SIZE - 1)
      ∧ ((r.2.xOut = -1 ∨ r.2.yOut = -1) ↔ y1 + rowHeight + 1 ≥ CANVAS_SIZE - 1)
      ∧ (y1 + rowHeight + 1 < CANVAS_SIZE - 1 →
          r.2.yOut = y1 ∧ 0 < r.2.xOut ∧ r.1.imageWidth = cellWidth
            ∧ r.1.imageHeight = r.1.height + 2 * 2) :=
  page_full_rule exactOps (fun _ => boxSlot 8 10) 65 2 (packAt 5 7 20) rfl (by decide) (by decide)
    (by decide) (by decide) (by decide)

/-- C16 as stated fails. A glyph of height 10 entered at the cursor `(0, 1000)`
with margin 0 under `maxHeight` 30 stays in its row and has
`y + cellHeight = 1010`, which does not exceed `CANVAS_SIZE - 1`; yet the call
signals page-full. The same happens under `maxHeight` 10, the height of the
glyph itself, at the cursor `(0, 1012)`, where `y + cellHeight = 1022`. -/
theorem page_full_rule_counterexample :
    ((RE_ConstructGlyphInfo exactOps (packAt 0 1000 30) (some (fun _ => boxSlot 8 10)) 65
          false 0).1.height = 10
      ∧ ((0 : Int) + (8 + 0 * 2) + 1 < CANVAS_SIZE - 1)
      ∧ ¬ ((1000 : Int) + (10 + 0 * 2) > CANVAS_SIZE - 1)
      ∧ (RE_ConstructGlyphInfo exactOps (packAt 0 1000 30) (some (fun _ => boxSlot 8 10)) 65
          false 0).2.xOut = -1
      ∧ (RE_ConstructGlyphInfo exactOps (packAt 0 1000 30) (some (fun _ => boxSlot 8 10)) 65
          false 0).2.yOut = -1)
    ∧ ((RE_ConstructGlyphInfo exactOps (packAt 0 1012 10) (some (fun _ => boxSlot 8 10)) 65
          false 0).1.height = 10
      ∧ ¬ ((1012 : Int) + (10 + 0 * 2) > CANVAS_SIZE - 1)
      ∧ (RE_ConstructGlyphInfo exactOps (packAt 0 1012 10) (some (fun _ => boxSlot 8 10)) 65
          false 0).2.xOut = -1
      ∧ (RE_ConstructGlyphInfo exactOps (packAt 0 1012 10) (some (fun _ => boxSlot 8 10)) 65
          false 0).2.yOut = -1) := by
  decide

/-! ## The copy of a placed glyph -/

theorem blit_eq_blitRows (canvas : Canvas) (dst : Int) (bitmap : FT_Bitmap) (height pitch : Int) :
    blit canvas dst bitmap height pitch = blitRows canvas dst bitmap pitch height.toNat := rfl

/-- One more iteration of the 8-bit copy loop copies one more row. -/
theorem blitRows_succ (canvas : Canvas) (dst : Int) (bitmap : FT_Bitmap) (pitch : Int) (n : Nat)
    (hg : bitmap.pixel_mode = PixelMode.grays) :
    blitRows canvas dst bitmap pitch (n + 1)
      = copyRow (blitRows canvas dst bitmap pitch n) (dst + n * CANVAS_SIZE) bitmap.buffer
          (n * pitch) pitch := by
  simp only [blitRows, List.range_succ, hg]
  simp [List.foldl_append]

/-- The copy loop leaves alone every index outside the rows it writes. -/
theorem blitRows_outside (canvas : Canvas) (dst : Int) (bitmap : FT_Bitmap) (pitch : Int) (n : Nat)
    (hg : bitmap.pixel_mode = PixelMode.grays) (k : Int)
    (hk : ∀ i : Nat, i < n → ¬ (dst + i * CANVAS_SIZE ≤ k ∧ k < dst + i * CANVAS_SIZE + pitch)) :
    blitRows canvas dst bitmap pitch n k = canvas k := by
  induction n with
  | zero => rfl
  | succ n ih =>
    rw [blitRows_succ _ _ _ _ _ hg]
    simp only [copyRow, if_neg (hk n (Nat.lt_succ_self n))]
    exact ih (fun i hi => hk i (Nat.lt_succ_of_lt hi))

/-- Right after iteration `i` of the copy loop, row `i` of the bitmap is on the
canvas. -/
theorem blitRows_last (canvas : Canvas) (dst : Int) (bitmap : FT_Bitmap) (pitch : Int) (i : Nat)
    (hg : bitmap.pixel_mode = PixelMode.grays) (j : Int) (hj0 : 0 ≤ j) (hj : j < pitch) :
    blitRows canvas dst bitmap pitch (i + 1) (dst + i * CANVAS_SIZE + j)
      = bitmap.buffer (i * pitch + j).toNat := by
  rw [blitRows_succ _ _ _ _ _ hg]
  have hin : dst + i * CANVAS_SIZE ≤ dst + i * CANVAS_SIZE + j
      ∧ dst + i * CANVAS_SIZE + j < dst + i * CANVAS_SIZE + pitch := by constructor <;> omega
  simp only [copyRow, if_pos hin]
  congr 2
  omega

/-- When a row is no longer than a canvas row, the rows do not overlap and
every byte of the first `n` rows of the bitmap is on the canvas at the end. -/
theorem blitRows_inside (canvas : Canvas) (dst : Int) (bitmap : FT_Bitmap) (pitch : Int) (n : Nat)
    (hg : bitmap.pixel_mode = PixelMode.grays) (hp : pitch ≤ CANVAS_SIZE)
    (i : Nat) (hi : i < n) (j : Int) (hj0 : 0 ≤ j) (hj : j < pitch) :
    blitRows canvas dst bitmap pitch n (dst + i * CANVAS_SIZE + j)
      = bitmap.buffer (i * pitch + j).toNat := by
  induction n with
  | zero => omega
  | succ n ih =>
    rcases Nat.lt_succ_iff_lt_or_eq.1 hi with hlt | rfl
    · rw [blitRows_succ _ _ _ _ _ hg]
      have hout : ¬ (dst + n * CANVAS_SIZE ≤ dst + i * CANVAS_SIZE + j
          ∧ dst + i * CANVAS_SIZE + j < dst + n * CANVAS_SIZE + pitch) := by
        have h1 : ((i : Int) + 1) ≤ n := by exact_mod_cast hlt
        have h2 : ((i : Int) + 1) * CANVAS_SIZE ≤ n * CANVAS_SIZE :=
          Int.mul_le_mul_of_nonneg_right h1 (by decide)
        simp only [CANVAS_SIZE] at *
        omega
      simp only [copyRow, if_neg hout]
      exact ih hlt
    · exact blitRows_last canvas dst bitmap pitch i hg j hj0 hj

/-- The bitmap that `R_RenderGlyph` hands to the packer for an outline glyph:
8 bits per pixel, with the buffer the rasterizer filled. -/
theorem renderGlyph_bitmap {F : Type} (ops : FloatOps F) (g : GlyphSlot) (hout : g.outline = true) :
    ∃ bitmap, (R_RenderGlyph g (zeroGlyph ops)).1 = some bitmap
      ∧ bitmap.pixel_mode = PixelMode.grays ∧ bitmap.buffer = g.coverage
      ∧ bitmap.pitch = (R_GetGlyphInfo g).pitch ∧ bitmap.rows = (R_GetGlyphInfo g).height := by
  simp only [R_RenderGlyph, hout, if_true]
  exact ⟨_, rfl, rfl, rfl, rfl, rfl⟩

/-- The two outcomes of a real-pass call for a glyph with a bitmap: page-full
with the canvas as it was, or the canvas after the copy loop at the position
the row decision gives, with the cursor moved past the cell. -/
theorem construct_canvas {F : Type} (ops : FloatOps F) (face : Face) (c : Nat) (margin : Int)
    (st : PackState) (hout : (face c).outline = true) (bitmap : FT_Bitmap)
    (hb : (R_RenderGlyph (face c) (zeroGlyph ops)).1 = some bitmap) :
    let r := RE_ConstructGlyphInfo ops st (some face) c false margin
    let cellWidth := r.1.pitch + margin * 2
    let rowHeight := r.2.maxHeight + margin * 2
    ∃ x1 y1 : Int,
      x1 = (if st.xOut + cellWidth + 1 ≥ CANVAS_SIZE - 1 then 0 else st.xOut)
      ∧ y1 = (if st.xOut + cellWidth + 1 ≥ CANVAS_SIZE - 1 then st.yOut + rowHeight + 1
              else st.yOut)
      ∧ (y1 + rowHeight + 1 ≥ CANVAS_SIZE - 1 →
          r.2.xOut = -1 ∧ r.2.yOut = -1 ∧ r.2.imageOut = st.imageOut)
      ∧ (y1 + rowHeight + 1 < CANVAS_SIZE - 1 →
          r.2.xOut = x1 + cellWidth + 1 ∧ r.2.yOut = y1
            ∧ r.1.imageWidth = cellWidth ∧ r.1.imageHeight = r.1.height + margin * 2
            ∧ r.2.imageOut
                = blitRows st.imageOut ((y1 + margin) * CANVAS_SIZE + (x1 + margin)) bitmap
                    r.1.pitch r.1.height.toNat) := by
  simp only [R_RenderGlyph, hout, if_true, Option.some.injEq] at hb
  subst hb
  refine ⟨_, _, rfl, rfl, ?_⟩
  simp only [RE_ConstructGlyphInfo, R_RenderGlyph, hout, if_true, Bool.false_eq_true, if_false,
    blit_eq_blitRows]
  split_ifs with h1 h2 h3 h4 h5 h6
  all_goals simp only [CANVAS_SIZE] at *
  all_goals constructor
  all_goals intro hq
  all_goals first
    | (exfalso; omega)
    | exact ⟨trivial, trivial, trivial⟩
    | exact ⟨trivial, trivial, trivial, trivial, trivial⟩

/-- With a non-negative cursor and margin, the sentinel -1 in either
coordinate of the returned cursor means page-full, and a placed glyph leaves a
non-negative cursor. -/
theorem page_full_cases {F : Type} (ops : FloatOps F) (face : Face) (c : Nat) (margin : Int)
    (st : PackState) (hout : (face c).outline = true)
    (hw : 0 ≤ (face c).width) (hh : 0 ≤ (face c).height)
    (hx : 0 ≤ st.xOut) (hy : 0 ≤ st.yOut) (hm : 0 ≤ margin) :
    let r := RE_ConstructGlyphInfo ops st (some face) c false margin
    let cellWidth := r.1.pitch + margin * 2
    let rowHeight := r.2.maxHeight + margin * 2
    let y1 := if st.xOut + cellWidth + 1 ≥ CANVAS_SIZE - 1 then st.yOut + rowHeight + 1 else st.yOut
    ((r.2.xOut = -1 ∨ r.2.yOut = -1) ↔ y1 + rowHeight + 1 ≥ CANVAS_SIZE - 1)
      ∧ (y1 + rowHeight + 1 < CANVAS_SIZE - 1 → 0 ≤ r.2.xOut ∧ 0 ≤ r.2.yOut) := by
  obtain ⟨hp, hht⟩ := glyphBox_nonneg (face c) hw hh
  simp only [RE_ConstructGlyphInfo, R_RenderGlyph, hout, if_true, Bool.false_eq_true, if_false]
  split_ifs with h1 h2 h3 h4 h5 h6
  all_goals simp only [CANVAS_SIZE] at *
  all_goals constructor
  all_goals first
    | omega
    | (constructor <;> intro hq <;> omega)
    | (simp only [true_and, and_true, true_or, or_true, and_self, or_self, iff_true, true_iff,
        ge_iff_le]; omega)

/-- A real-pass call for a glyph with a bitmap returns the metrics of the
bitmap and a `maxHeight` that is the larger of the old one and the height of
the glyph. -/
theorem construct_maxHeight {F : Type} (ops : FloatOps F) (face : Face) (c : Nat) (margin : Int)
    (st : PackState) (hout : (face c).outline = true) :
    let r := RE_ConstructGlyphInfo ops st (some face) c false margin
    r.1.pitch = (R_GetGlyphInfo (face c)).pitch ∧ r.1.height = (R_GetGlyphInfo (face c)).height
      ∧ r.1.height ≤ r.2.maxHeight ∧ st.maxHeight ≤ r.2.maxHeight
      ∧ (r.2.maxHeight = st.maxHeight ∨ r.2.maxHeight = r.1.height) := by
  simp only [RE_ConstructGlyphInfo, R_RenderGlyph, hout, if_true, Bool.false_eq_true, if_false]
  split_ifs with h1 h2 h3 h4 h5 h6
  all_goals simp only []
  all_goals refine ⟨trivial, trivial, by omega, by omega, by first | omega | simp⟩

/-- C17. All-or-nothing placement: a real-pass call of `RE_ConstructGlyphInfo` for
a glyph with a bitmap, entered with a non-negative cursor and margin, either
signals page-full, and then both `x` and `y` are -1 and every byte of the
canvas is as it was; or it does not, and then the cursor stays non-negative
and the canvas is the one the copy loop leaves after all `height` rows of the
bitmap the rasterizer returned (`pitch` and `height` are the sizes of that
bitmap, which the glyph record repeats): each of the `height * pitch` bitmap
bytes has been written, byte `i*pitch + j` to the index
`dst + i*CANVAS_SIZE + j` in iteration `i`, and when a bitmap row is no longer
than a canvas row (`pitch <= CANVAS_SIZE`) all of them are on the final
canvas. -/
theorem all_or_nothing {F : Type} (ops : FloatOps F) (face : Face) (c : Nat) (margin : Int)
    (st : PackState) (hout : (face c).outline = true)
    (hw : 0 ≤ (face c).width) (hh : 0 ≤ (face c).height)
    (hx : 0 ≤ st.xOut) (hy : 0 ≤ st.yOut) (hm : 0 ≤ margin) :
    let r := RE_ConstructGlyphInfo ops st (some face) c false margin
    ((r.2.xOut = -1 ∨ r.2.yOut = -1) →
        r.2.xOut = -1 ∧ r.2.yOut = -1 ∧ r.2.imageOut = st.imageOut)
      ∧ (¬ (r.2.xOut = -1 ∨ r.2.yOut = -1) →
          0 ≤ r.2.xOut ∧ 0 ≤ r.2.yOut
            ∧ ∃ dst bitmap, (R_RenderGlyph (face c) (zeroGlyph ops)).1 = some bitmap
                ∧ bitmap.buffer = (face c).coverage
                ∧ bitmap.pitch = (R_GetGlyphInfo (face c)).pitch
                ∧ bitmap.rows = (R_GetGlyphInfo (face c)).height
                ∧ r.1.pitch = bitmap.pitch ∧ r.1.height = bitmap.rows
                ∧ dst = (r.2.yOut + margin) * CANVAS_SIZE
                    + (r.2.xOut - (bitmap.pitch + margin * 2) - 1 + margin)
                ∧ r.2.imageOut = blitRows st.imageOut dst bitmap bitmap.pitch bitmap.rows.toNat
                ∧ (∀ i : Nat, i < bitmap.rows.toNat → ∀ j : Int, 0 ≤ j → j < bitmap.pitch →
                    blitRows st.imageOut dst bitmap bitmap.pitch (i + 1)
                        (dst + i * CANVAS_SIZE + j)
                      = (face c).coverage (i * bitmap.pitch + j).toNat)
                ∧ (bitmap.pitch ≤ CANVAS_SIZE →
                    ∀ i : Nat, i < bitmap.rows.toNat → ∀ j : Int, 0 ≤ j → j < bitmap.pitch →
                      r.2.imageOut (dst + i * CANVAS_SIZE + j)
                        = (face c).coverage (i * bitmap.pitch + j).toNat)) := by
  obtain ⟨bitmap, hb, hg, hbuf, hbp, hbr⟩ := renderGlyph_bitmap ops (face c) hout
  have hcv := construct_canvas ops face c margin st hout bitmap hb
  have hpf := page_full_cases ops face c margin st hout hw hh hx hy hm
  obtain ⟨hpitch, hheight, _, _, _⟩ := construct_maxHeight ops face c margin st hout
  simp only [] at hcv hpf hpitch hheight ⊢
  obtain ⟨x1, y1, hx1, hy1, hfull, hplaced⟩ := hcv
  rw [← hy1] at hpf
  obtain ⟨hiff, hnn⟩ := hpf
  constructor
  · intro hsig
    exact hfull (hiff.1 hsig)
  · intro hns
    have hlt := lt_of_not_ge (fun hge => hns (hiff.2 hge))
    obtain ⟨e1, e2, e3, e4, e5⟩ := hplaced hlt
    obtain ⟨n1, n2⟩ := hnn hlt
    have hrp : (RE_ConstructGlyphInfo ops st (some face) c false margin).1.pitch = bitmap.pitch := by
      rw [hpitch, hbp]
    have hrh : (RE_ConstructGlyphInfo ops st (some face) c false margin).1.height = bitmap.rows := by
      rw [hheight, hbr]
    have hdst : ((RE_ConstructGlyphInfo ops st (some face) c false margin).2.yOut + margin)
          * CANVAS_SIZE
        + ((RE_ConstructGlyphInfo ops st (some face) c false margin).2.xOut
            - (bitmap.pitch + margin * 2) - 1 + margin)
        = (y1 + margin) * CANVAS_SIZE + (x1 + margin) := by
      rw [e1, e2, hrp]
      ring
    rw [hrp, hrh] at e5
    refine ⟨n1, n2, _, bitmap, hb, hbuf, hbp, hbr, hrp, hrh, rfl, ?_, ?_, ?_⟩
    · rw [hdst]; exact e5
    · intro i _ j hj0 hj
      rw [← hbuf]
      exact blitRows_last _ _ _ _ i hg j hj0 hj
    · intro hp i hi j hj0 hj
      rw [hdst, e5, ← hbuf]
      exact blitRows_inside _ _ _ _ _ hg hp i hi j hj0 hj

/-- C17 at concrete inputs. A glyph of 8 by 10 pixels of full intensity entered
at the cursor `(5, 7)` with margin 2 is placed: the cursor is left at `(18, 7)`,
the record has pitch 8 and height 10, and each of the 80 pixels of the rows
9..18 and the columns 7..14 holds 255. The same glyph entered at the cursor
`(0, 1012)` with margin 0 is answered with page-full: the cursor is `(-1, -1)`
and the canvas is as it was. -/
theorem all_or_nothing_witness :
    ((RE_ConstructGlyphInfo exactOps (packAt 5 7 20) (some (fun _ => boxSlot 8 10)) 65 false 2).2.xOut
          = 18
        ∧ (RE_ConstructGlyphInfo exactOps (packAt 5 7 20) (some (fun _ => boxSlot 8 10)) 65 false
            2).2.yOut = 7
        ∧ (RE_ConstructGlyphInfo exactOps (packAt 5 7 20) (some (fun _ => boxSlot 8 10)) 65 false
            2).1.pitch = 8
        ∧ (RE_ConstructGlyphInfo exactOps (packAt 5 7 20) (some (fun _ => boxSlot 8 10)) 65 false
            2).1.height = 10)
      ∧ (∀ i : Nat, i < 10 → ∀ j : Int, 0 ≤ j → j < 8 →
          (RE_ConstructGlyphInfo exactOps (packAt 5 7 20) (some (fun _ => boxSlot 8 10)) 65 false
            2).2.imageOut ((9 + i) * CANVAS_SIZE + (7 + j)) = 255)
      ∧ ((RE_ConstructGlyphInfo exactOps (packAt 0 1012 10) (some (fun _ => boxSlot 8 10)) 65 false
            0).2.xOut = -1
        ∧ (RE_ConstructGlyphInfo exactOps (packAt 0 1012 10) (some (fun _ => boxSlot 8 10)) 65 false
            0).2.yOut = -1
        ∧ (RE_ConstructGlyphInfo exactOps (packAt 0 1012 10) (some (fun _ => boxSlot 8 10)) 65 false
            0).2.imageOut = (packAt 0 1012 10).imageOut) := by
  have h := all_or_nothing exactOps (fun _ => boxSlot 8 10) 65 2 (packAt 5 7 20) rfl (by decide)
    (by decide) (by decide) (by decide) (by decide)
  have hf := all_or_nothing exactOps (fun _ => boxSlot 8 10) 65 0 (packAt 0 1012 10) rfl (by decide)
    (by decide) (by decide) (by decide) (by decide)
  simp only [] at h hf
  have hx : (RE_ConstructGlyphInfo exactOps (packAt 5 7 20) (some (fun _ => boxSlot 8 10)) 65 false
      2).2.xOut = 18 := by decide
  have hy : (RE_ConstructGlyphInfo exactOps (packAt 5 7 20) (some (fun _ => boxSlot 8 10)) 65 false
      2).2.yOut = 7 := by decide
  obtain ⟨_, _, dst, bitmap, _, _, hbp, hbr, hrp, hrh, hdst, _, _, hall⟩ := h.2 (by decide)
  have hp8 : bitmap.pitch = 8 := by rw [hbp]; decide
  have hr10 : bitmap.rows = 10 := by rw [hbr]; decide
  refine ⟨⟨hx, hy, by rw [hrp, hp8], by rw [hrh, hr10]⟩, ?_, hf.1 (Or.inl (by decide))⟩
  intro i hi j hj0 hj
  rw [hx, hy, hp8] at hdst
  have key := hall (by rw [hp8]; decide) i (by rw [hr10]; exact hi) j hj0 (by rw [hp8]; exact hj)
  have hidx : (9 + (i : Int)) * CANVAS_SIZE + (7 + j) = dst + i * CANVAS_SIZE + j := by
    rw [hdst]
    simp only [CANVAS_SIZE]
    ring
  rw [hidx, key]
  rfl

/-- C18. Placement copy: when a real-pass call places an 8-bit bitmap of `pitch`
by `height` bytes with margin `m` at the cursor `(x1, y1)` that the row
decision gives (the cursor on entry, or `(0, y + maxHeight + 2*m + 1)` after a
row wrap) and the cell fits in the canvas row (`x1 + pitch + 2*m <=
CANVAS_SIZE`), then afterwards the canvas pixel in row `y1 + m + i` and column
`x1 + m + j`, both within the canvas, holds the bitmap byte `i*pitch + j`, for
all `0 <= i < height` and `0 <= j < pitch`; every other canvas byte is
unchanged; and the cursor is `(x1 + pitch + 2*m + 1, y1)`. -/
theorem placement_copy {F : Type} (ops : FloatOps F) (face : Face) (c : Nat) (margin : Int)
    (st : PackState) (hout : (face c).outline = true)
    (hw : 0 ≤ (face c).width) (hh : 0 ≤ (face c).height)
    (hx : 0 ≤ st.xOut) (hy : 0 ≤ st.yOut) (hm : 0 ≤ margin) :
    let r := RE_ConstructGlyphInfo ops st (some face) c false margin
    let pitch := r.1.pitch
    let height := r.1.height
    let rowHeight := r.2.maxHeight + margin * 2
    let x1 := if st.xOut + (pitch + margin * 2) + 1 ≥ CANVAS_SIZE - 1 then 0 else st.xOut
    let y1 := if st.xOut + (pitch + margin * 2) + 1 ≥ CANVAS_SIZE - 1 then st.yOut + rowHeight + 1
      else st.yOut
    ¬ (r.2.xOut = -1 ∨ r.2.yOut = -1) → x1 + (pitch + margin * 2) ≤ CANVAS_SIZE →
      (∀ i j : Int, 0 ≤ i → i < height → 0 ≤ j → j < pitch →
          0 ≤ y1 + margin + i ∧ y1 + margin + i < CANVAS_SIZE
            ∧ 0 ≤ x1 + margin + j ∧ x1 + margin + j < CANVAS_SIZE
            ∧ r.2.imageOut ((y1 + margin + i) * CANVAS_SIZE + (x1 + margin + j))
                = (face c).coverage (i * pitch + j).toNat)
        ∧ (∀ k : Int,
            (¬ ∃ i j : Int, 0 ≤ i ∧ i < height ∧ 0 ≤ j ∧ j < pitch
                ∧ k = (y1 + margin + i) * CANVAS_SIZE + (x1 + margin + j)) →
            r.2.imageOut k = st.imageOut k)
        ∧ r.2.xOut = x1 + pitch + 2 * margin + 1 ∧ r.2.yOut = y1 := by
  obtain ⟨bitmap, hb, hg, hbuf, _, _⟩ := renderGlyph_bitmap ops (face c) hout
  obtain ⟨hp0, hh0⟩ := glyphBox_nonneg (face c) hw hh
  have hcv := construct_canvas ops face c margin st hout bitmap hb
  have hpf := page_full_cases ops face c margin st hout hw hh hx hy hm
  obtain ⟨hpitch, hheight, hle, _, _⟩ := construct_maxHeight ops face c margin st hout
  simp only [] at hcv hpf hpitch hheight hle ⊢
  obtain ⟨x1, y1, hx1, hy1, hfull, hplaced⟩ := hcv
  rw [← hy1] at hpf
  rw [← hx1, ← hy1]
  obtain ⟨hiff, hnn⟩ := hpf
  intro hns hfit
  have hlt := lt_of_not_ge (fun hge => hns (hiff.2 hge))
  obtain ⟨e1, e2, e3, e4, e5⟩ := hplaced hlt
  obtain ⟨n1, n2⟩ := hnn hlt
  rw [hpitch] at hfit e1 e5 hx1 hy1 ⊢
  rw [hheight] at e5 hle ⊢
  have hx1n : 0 ≤ x1 := by rw [hx1]; split_ifs <;> omega
  have hy1n : 0 ≤ y1 := by rw [e2] at n2; exact n2
  refine ⟨?_, ?_, by rw [e1]; ring, e2⟩
  · intro i j hi0 hi hj0 hj
    have hi' : i.toNat < (R_GetGlyphInfo (face c)).height.toNat := by omega
    have hprow : (R_GetGlyphInfo (face c)).pitch ≤ CANVAS_SIZE := by omega
    have key := blitRows_inside st.imageOut ((y1 + margin) * CANVAS_SIZE + (x1 + margin)) bitmap
      (R_GetGlyphInfo (face c)).pitch _ hg hprow i.toNat hi' j hj0 hj
    have hcast : ((i.toNat : Nat) : Int) = i := Int.toNat_of_nonneg hi0
    rw [hcast, hbuf] at key
    simp only [CANVAS_SIZE] at hlt hfit ⊢
    refine ⟨by omega, by omega, by omega, by omega, ?_⟩
    rw [e5, ← key]
    simp only [CANVAS_SIZE]
    congr 1
    ring
  · intro k hk
    rw [e5]
    apply blitRows_outside _ _ _ _ _ hg
    intro i hi hin
    apply hk
    refine ⟨i, k - ((y1 + margin) * CANVAS_SIZE + (x1 + margin)) - i * CANVAS_SIZE, by omega, by omega,
      by omega, by omega, ?_⟩
    ring

/-- C18 at a concrete input: a glyph of 8 by 10 pixels of full intensity entered
at the cursor `(5, 7)` with margin 2; it stays in its row, so it is placed at
`(5, 7)`: the pixels of rows 9..18, columns 7..14 hold 255 and the cursor is
left at `(18, 7)`. -/
theorem placement_copy_witness :
    let r := RE_ConstructGlyphInfo exactOps (packAt 5 7 20) (some (fun _ => boxSlot 8 10)) 65 false 2
    (r.1.pitch = 8 ∧ r.1.height = 10 ∧ ¬ (r.2.xOut = -1 ∨ r.2.yOut = -1)
        ∧ ¬ ((5 : Int) + (8 + 2 * 2) + 1 ≥ CANVAS_SIZE - 1))
      ∧ (∀ i j : Int, 0 ≤ i → i < 10 → 0 ≤ j → j < 8 →
          0 ≤ 7 + 2 + i ∧ 7 + 2 + i < CANVAS_SIZE ∧ 0 ≤ 5 + 2 + j ∧ 5 + 2 + j < CANVAS_SIZE
            ∧ r.2.imageOut ((7 + 2 + i) * CANVAS_SIZE + (5 + 2 + j))
                = (boxSlot 8 10).coverage (i * 8 + j).toNat)
      ∧ (∀ k : Int,
          (¬ ∃ i j : Int, 0 ≤ i ∧ i < 10 ∧ 0 ≤ j ∧ j < 8
              ∧ k = (7 + 2 + i) * CANVAS_SIZE + (5 + 2 + j)) →
          r.2.imageOut k = (packAt 5 7 20).imageOut k)
      ∧ r.2.xOut = 5 + 8 + 2 * 2 + 1 ∧ r.2.yOut = 7 :=
  ⟨by decide,
    placement_copy exactOps (fun _ => boxSlot 8 10) 65 2 (packAt 5 7 20) rfl (by decide)
      (by decide) (by decide) (by decide) (by decide) (by decide) (by decide)⟩

/-! ## The dry-run pass -/

/-- A call with `calcHeight` set: the canvas and the cursor are untouched, the
glyph returned has the height of the bitmap (0 when there is none), and
`maxHeight` becomes the larger of the old one and that height when there is a
bitmap, and stays as it is when there is none. -/
theorem dry_call {F : Type} (ops : FloatOps F) (face : Face) (c : Nat) (margin : Int)
    (st : PackState) :
    let r := RE_ConstructGlyphInfo ops st (some face) c true margin
    r.2.imageOut = st.imageOut ∧ r.2.xOut = st.xOut ∧ r.2.yOut = st.yOut
      ∧ r.1.height = (if (face c).outline then (R_GetGlyphInfo (face c)).height else 0)
      ∧ r.2.maxHeight
          = (if (face c).outline = true ∧ (R_GetGlyphInfo (face c)).height > st.maxHeight
             then (R_GetGlyphInfo (face c)).height else st.maxHeight) := by
  cases hout : (face c).outline
  · simp [RE_ConstructGlyphInfo, R_RenderGlyph, hout, zeroGlyph]
  · simp only [RE_ConstructGlyphInfo, R_RenderGlyph, hout, if_true, true_and]

/-- The dry-run pass leaves the canvas and the cursor alone. -/
theorem dryRun_frame {F : Type} (ops : FloatOps F) (face : Face) (is : List Nat)
    (pack : PackState) :
    (dryRun ops face is pack).imageOut = pack.imageOut
      ∧ (dryRun ops face is pack).xOut = pack.xOut ∧ (dryRun ops face is pack).yOut = pack.yOut := by
  induction is generalizing pack with
  | nil => exact ⟨rfl, rfl, rfl⟩
  | cons i is ih =>
    obtain ⟨a1, a2, a3⟩ := ih (RE_ConstructGlyphInfo ops pack (some face) (i % 256) true 0).2
    obtain ⟨b1, b2, b3, _, _⟩ := dry_call ops face (i % 256) 0 pack
    simp only [dryRun, List.foldl_cons] at a1 a2 a3 ⊢
    exact ⟨a1.trans b1, a2.trans b2, a3.trans b3⟩

/-- A real-pass call for a glyph that is not taller than `maxHeight` leaves
`maxHeight` as it is. -/
theorem real_call_maxHeight {F : Type} (ops : FloatOps F) (face : Face) (c : Nat) (margin : Int)
    (st : PackState)
    (hle : (face c).outline = true → (R_GetGlyphInfo (face c)).height ≤ st.maxHeight) :
    (RE_ConstructGlyphInfo ops st (some face) c false margin).2.maxHeight = st.maxHeight := by
  cases hout : (face c).outline
  · simp [RE_ConstructGlyphInfo, R_RenderGlyph, hout]
  · have h := hle hout
    simp only [RE_ConstructGlyphInfo, R_RenderGlyph, hout, if_true, Bool.false_eq_true, if_false]
    have hn : ¬ (R_GetGlyphInfo (face c)).height > st.maxHeight := by omega
    simp only [hn, if_false]
    split_ifs <;> rfl

/-- One iteration of a page-building loop entered with a `maxHeight` that
bounds the heights of the glyphs of the range keeps `maxHeight`. -/
theorem pageStep_maxHeight {F : Type} (w : World F) (L : Layout) (cfg : PageCfg F) (face : Face)
    (mh : Int)
    (hle : ∀ j, L.GLYPH_START ≤ j → j ≤ L.GLYPH_END → (face (j % 256)).outline = true →
      (R_GetGlyphInfo (face (j % 256))).height ≤ mh)
    (s : LoopState F) (hmh : s.pack.maxHeight = mh) (hlo : L.GLYPH_START ≤ s.i)
    (hhi : s.i ≤ L.GLYPH_END + 1) :
    (pageStep w L cfg face s).pack.maxHeight = mh ∧ L.GLYPH_START ≤ (pageStep w L cfg face s).i := by
  unfold pageStep
  by_cases h1 : s.i = L.GLYPH_END + 1
  · rw [if_pos h1]
    simp only [finalizePage, h1, if_true]
    exact ⟨hmh, by omega⟩
  · have hc := real_call_maxHeight w.ops face (s.i % 256) cfg.margin s.pack
      (fun ho => by rw [hmh]; exact hle s.i hlo (by omega) ho)
    rw [if_neg h1]
    simp only []
    split_ifs with h2
    · simp only [finalizePage, h1, if_false]
      exact ⟨hc.trans hmh, hlo⟩
    · exact ⟨hc.trans hmh, by simp only []; omega⟩

/-- The loop keeps `maxHeight` to its end. -/
theorem pageLoop_maxHeight {F : Type} (w : World F) (L : Layout) (cfg : PageCfg F) (face : Face)
    (mh : Int)
    (hle : ∀ j, L.GLYPH_START ≤ j → j ≤ L.GLYPH_END → (face (j % 256)).outline = true →
      (R_GetGlyphInfo (face (j % 256))).height ≤ mh)
    (fuel : Nat) (s s' : LoopState F) (hmh : s.pack.maxHeight = mh) (hlo : L.GLYPH_START ≤ s.i)
    (hrun : pageLoop w L cfg face fuel s = some s') : s'.pack.maxHeight = mh := by
  induction fuel generalizing s with
  | zero =>
    simp only [pageLoop] at hrun
    split_ifs at hrun
    cases hrun
    exact hmh
  | succ fuel ih =>
    simp only [pageLoop] at hrun
    split_ifs at hrun with hi
    · obtain ⟨p1, p2⟩ := pageStep_maxHeight w L cfg face mh hle s hmh hlo hi
      exact ih _ p1 p2 hrun
    · cases hrun
      exact hmh

theorem mem_glyphRange (L : Layout) (j : Nat) :
    j ∈ glyphRange L ↔ L.GLYPH_START ≤ j ∧ j ≤ L.GLYPH_END := by
  simp only [glyphRange, List.mem_range'_1]
  omega

/-- C19. Dry-run pass: a call of `RE_ConstructGlyphInfo` with `calcHeight` set
leaves the canvas and the cursor untouched and changes only `maxHeight`, to
the larger of the old `maxHeight` and the height of the glyph (for a glyph
without a bitmap, whose height is 0, when the old `maxHeight` is not
negative). Hence after the dry-run pass over the range, started with
`maxHeight = 0`, the canvas and the cursor are as before, `maxHeight` bounds
the height of every glyph of the range and is the height of one of them; no
real-pass call for a glyph of the range changes it, whatever the margin; and
it stays the same through every iteration of a page-building loop and at the
end of the loop, so the row advance `maxHeight + 2*margin + 1` is constant. -/
theorem dry_run_pass {F : Type} (w : World F) (L : Layout) (face : Face) (canvas : Canvas)
    (x y : Int)
    (hh : ∀ j, L.GLYPH_START ≤ j → j ≤ L.GLYPH_END → (face (j % 256)).outline = true →
      0 ≤ (face (j % 256)).height) :
    (∀ (st : PackState) (c : Nat) (margin : Int),
        let r := RE_ConstructGlyphInfo w.ops st (some face) c true margin
        r.2.imageOut = st.imageOut ∧ r.2.xOut = st.xOut ∧ r.2.yOut = st.yOut
          ∧ (0 ≤ st.maxHeight ∨ (face c).outline = true →
              r.2.maxHeight = max st.maxHeight r.1.height))
      ∧ (let pack0 : PackState := { imageOut := canvas, xOut := x, yOut := y, maxHeight := 0 }
         let after := dryRun w.ops face (glyphRange L) pack0
         let glyphHeight := fun j : Nat =>
           (RE_ConstructGlyphInfo w.ops pack0 (some face) (j % 256) true 0).1.height
         after.imageOut = canvas ∧ after.xOut = x ∧ after.yOut = y
          ∧ (∀ j, L.GLYPH_START ≤ j → j ≤ L.GLYPH_END → glyphHeight j ≤ after.maxHeight)
          ∧ (L.GLYPH_START ≤ L.GLYPH_END →
              ∃ j, L.GLYPH_START ≤ j ∧ j ≤ L.GLYPH_END ∧ after.maxHeight = glyphHeight j)
          ∧ (∀ (st : PackState) (j : Nat) (margin : Int), st.maxHeight = after.maxHeight →
              L.GLYPH_START ≤ j → j ≤ L.GLYPH_END →
              (RE_ConstructGlyphInfo w.ops st (some face) (j % 256) false margin).2.maxHeight
                = after.maxHeight)
          ∧ (∀ (cfg : PageCfg F) (s : LoopState F), s.pack.maxHeight = after.maxHeight →
              L.GLYPH_START ≤ s.i → s.i ≤ L.GLYPH_END + 1 →
              (pageStep w L cfg face s).pack.maxHeight = after.maxHeight)
          ∧ (∀ (cfg : PageCfg F) (fuel : Nat) (cv : Canvas) (glyphs : List (glyphInfo_t F))
                (files : Files) (t0 : List Event) (s' : LoopState F),
              pageLoop w L cfg face fuel (loopStart L cv after.maxHeight glyphs files t0) = some s' →
              s'.pack.maxHeight = after.maxHeight)) := by
  constructor
  · intro st c margin
    obtain ⟨a1, a2, a3, a4, a5⟩ := dry_call w.ops face c margin st
    refine ⟨a1, a2, a3, ?_⟩
    intro hcase
    rw [a5, a4]
    cases hout : (face c).outline
    · rcases hcase with h0 | h0
      · simp only [Bool.false_eq_true, false_and, if_false]
        exact (max_eq_left h0).symm
      · rw [hout] at h0; cases h0
    · simp only [true_and, if_true]
      split_ifs with hgt
      · exact (max_eq_right (le_of_lt hgt)).symm
      · exact (max_eq_left (not_lt.1 hgt)).symm
  · simp only []
    obtain ⟨f1, f2, f3⟩ := dryRun_frame w.ops face (glyphRange L)
      { imageOut := canvas, xOut := x, yOut := y, maxHeight := 0 }
    obtain ⟨m1, m2, m3⟩ := dryRun_maxHeight w.ops face (glyphRange L)
      { imageOut := canvas, xOut := x, yOut := y, maxHeight := 0 }
    simp only [] at m1 m3
    have hgh : ∀ j : Nat, (RE_ConstructGlyphInfo w.ops
          { imageOut := canvas, xOut := x, yOut := y, maxHeight := 0 } (some face) (j % 256) true
          0).1.height
        = (if (face (j % 256)).outline then (R_GetGlyphInfo (face (j % 256))).height else 0) :=
      fun j => (dry_call w.ops face (j % 256) 0 _).2.2.2.1
    have hbound : ∀ j, L.GLYPH_START ≤ j → j ≤ L.GLYPH_END → (face (j % 256)).outline = true →
        (R_GetGlyphInfo (face (j % 256))).height
          ≤ (dryRun w.ops face (glyphRange L)
              { imageOut := canvas, xOut := x, yOut := y, maxHeight := 0 }).maxHeight :=
      fun j h1 h2 ho => m2 j ((mem_glyphRange L j).2 ⟨h1, h2⟩) ho
    have hnn : ∀ j, L.GLYPH_START ≤ j → j ≤ L.GLYPH_END → (face (j % 256)).outline = true →
        0 ≤ (R_GetGlyphInfo (face (j % 256))).height := by
      intro j h1 h2 ho
      have := hh j h1 h2 ho
      simp only [R_GetGlyphInfo, _FLOOR, _CEIL, _TRUNC]
      omega
    refine ⟨f1, f2, f3, ?_, ?_, ?_, ?_, ?_⟩
    · intro j h1 h2
      rw [hgh]
      cases hout : (face (j % 256)).outline
      · simpa using m1
      · simpa using hbound j h1 h2 hout
    · intro hne
      rcases m3 with e | ⟨j, hj, ho, e⟩
      · refine ⟨L.GLYPH_START, le_refl _, hne, ?_⟩
        rw [hgh, e]
        cases hout : (face (L.GLYPH_START % 256)).outline
        · simp
        · have hb := hbound L.GLYPH_START (le_refl _) hne hout
          have hn := hnn L.GLYPH_START (le_refl _) hne hout
          rw [e] at hb
          simp only [if_true]
          omega
      · obtain ⟨h1, h2⟩ := (mem_glyphRange L j).1 hj
        refine ⟨j, h1, h2, ?_⟩
        rw [hgh, ho, e]
        simp
    · intro st j margin hst h1 h2
      rw [← hst]
      exact real_call_maxHeight w.ops face (j % 256) margin st
        (fun ho => by rw [hst]; exact hbound j h1 h2 ho)
    · intro cfg s hs hlo hhi
      exact (pageStep_maxHeight w L cfg face _ hbound s hs hlo hhi).1
    · intro cfg fuel cv glyphs files t0 s' hrun
      exact pageLoop_maxHeight w L cfg face _ hbound fuel _ s' rfl (le_refl _) hrun

/-- C19 at a concrete input: the face of the scenario over the range of
`tinyLayout`, where the dry-run pass ends with `maxHeight = 10`. -/
theorem dry_run_pass_witness :
    (dryRun exactOps demoFace (glyphRange tinyLayout)
        { imageOut := zeroCanvas, xOut := 0, yOut := 0, maxHeight := 0 }).maxHeight = 10
      ∧ (∀ (st : PackState) (c : Nat) (margin : Int),
        let r := RE_ConstructGlyphInfo (demoWorld false).ops st (some demoFace) c true margin
        r.2.imageOut = st.imageOut ∧ r.2.xOut = st.xOut ∧ r.2.yOut = st.yOut
          ∧ (0 ≤ st.maxHeight ∨ (demoFace c).outline = true →
              r.2.maxHeight = max st.maxHeight r.1.height))
      ∧ (let pack0 : PackState := { imageOut := zeroCanvas, xOut := 0, yOut := 0, maxHeight := 0 }
         let after := dryRun (demoWorld false).ops demoFace (glyphRange tinyLayout) pack0
         let glyphHeight := fun j : Nat =>
           (RE_ConstructGlyphInfo (demoWorld false).ops pack0 (some demoFace) (j % 256) true
              0).1.height
         after.imageOut = zeroCanvas ∧ after.xOut = 0 ∧ after.yOut = 0
          ∧ (∀ j, tinyLayout.GLYPH_START ≤ j → j ≤ tinyLayout.GLYPH_END →
              glyphHeight j ≤ after.maxHeight)
          ∧ (tinyLayout.GLYPH_START ≤ tinyLayout.GLYPH_END →
              ∃ j, tinyLayout.GLYPH_START ≤ j ∧ j ≤ tinyLayout.GLYPH_END
                ∧ after.maxHeight = glyphHeight j)
          ∧ (∀ (st : PackState) (j : Nat) (margin : Int), st.maxHeight = after.maxHeight →
              tinyLayout.GLYPH_START ≤ j → j ≤ tinyLayout.GLYPH_END →
              (RE_ConstructGlyphInfo (demoWorld false).ops st (some demoFace) (j % 256) false
                  margin).2.maxHeight = after.maxHeight)
          ∧ (∀ (cfg : PageCfg ℚ) (s : LoopState ℚ), s.pack.maxHeight = after.maxHeight →
              tinyLayout.GLYPH_START ≤ s.i → s.i ≤ tinyLayout.GLYPH_END + 1 →
              (pageStep (demoWorld false) tinyLayout cfg demoFace s).pack.maxHeight
                = after.maxHeight)
          ∧ (∀ (cfg : PageCfg ℚ) (fuel : Nat) (cv : Canvas) (glyphs : List (glyphInfo_t ℚ))
                (files : Files) (t0 : List Event) (s' : LoopState ℚ),
              pageLoop (demoWorld false) tinyLayout cfg demoFace fuel
                  (loopStart tinyLayout cv after.maxHeight glyphs files t0) = some s' →
              s'.pack.maxHeight = after.maxHeight)) :=
  ⟨by decide,
    dry_run_pass (demoWorld false) tinyLayout demoFace zeroCanvas 0 0
      (fun j _ _ _ => by
        simp only [demoFace]
        split_ifs <;> decide)⟩

/-! ## Rounding to binary32 -/

/-- Rounding to the nearest integer moves a value by at most one half. -/
theorem roundHalfEven_err (y : ℚ) : |(roundHalfEven y : ℚ) - y| ≤ 1 / 2 := by
  have h1 : (⌊y⌋ : ℚ) ≤ y := Int.floor_le y
  have h2 : y < (⌊y⌋ : ℚ) + 1 := Int.lt_floor_add_one y
  unfold roundHalfEven
  split_ifs with a b c
  · rw [abs_le]; constructor <;> linarith
  · push_cast; rw [abs_le]; constructor <;> linarith
  · rw [abs_le]; constructor <;> linarith
  · push_cast; rw [abs_le]; constructor <;> linarith

/-- An integer is its own rounding. -/
theorem roundHalfEven_int (m : Int) : roundHalfEven (m : ℚ) = m := by
  unfold roundHalfEven
  simp

/-- A value in the lower half of `[f, f + 1)` rounds to `f`. -/
theorem roundHalfEven_down (y : ℚ) (f : Int) (h1 : (f : ℚ) ≤ y) (h2 : y < (f : ℚ) + 1 / 2) :
    roundHalfEven y = f := by
  have hf : ⌊y⌋ = f := Int.floor_eq_iff.2 ⟨h1, by linarith⟩
  unfold roundHalfEven
  rw [hf, if_pos (by linarith)]

/-- The exponent that `round32` uses. -/
theorem log_eq_of_bounds (q : ℚ) (e : Int) (h1 : (2 : ℚ) ^ e ≤ q) (h2 : q < (2 : ℚ) ^ (e + 1)) :
    Int.log 2 q = e := by
  have hq : 0 < q := lt_of_lt_of_le (zpow_pos (by norm_num) e) h1
  have a : e ≤ Int.log 2 q := (Int.zpow_le_iff_le_log (by norm_num) hq).1 (by exact_mod_cast h1)
  have b : Int.log 2 q < e + 1 := (Int.lt_zpow_iff_log_lt (by norm_num) hq).1 (by exact_mod_cast h2)
  omega

/-- The relative error of `round32` is at most `2^-24`. -/
theorem round32_err (q : ℚ) (hq : 0 < q) : |round32 q - q| ≤ q / 2 ^ 24 := by
  have hne : q ≠ 0 := ne_of_gt hq
  have habs : |q| = q := abs_of_pos hq
  have hu : (0 : ℚ) < (2 : ℚ) ^ (Int.log 2 q - 23) := zpow_pos (by norm_num) _
  have hlog : (2 : ℚ) ^ (Int.log 2 q) ≤ q := by
    have := Int.zpow_log_le_self (b := 2) (by norm_num) hq
    exact_mod_cast this
  have hsplit : (2 : ℚ) ^ (Int.log 2 q - 23) = (2 : ℚ) ^ (Int.log 2 q) / 2 ^ 23 := by
    rw [zpow_sub₀ (by norm_num)]
    norm_num
  unfold round32
  rw [if_neg hne, habs]
  have herr := roundHalfEven_err (q / (2 : ℚ) ^ (Int.log 2 q - 23))
  have hmul : (roundHalfEven (q / (2 : ℚ) ^ (Int.log 2 q - 23)) : ℚ) * (2 : ℚ) ^ (Int.log 2 q - 23) - q
      = ((roundHalfEven (q / (2 : ℚ) ^ (Int.log 2 q - 23)) : ℚ) - q / (2 : ℚ) ^ (Int.log 2 q - 23))
          * (2 : ℚ) ^ (Int.log 2 q - 23) := by
    field_simp
  rw [hmul, abs_mul, abs_of_pos hu]
  calc |(roundHalfEven (q / (2 : ℚ) ^ (Int.log 2 q - 23)) : ℚ) - q / (2 : ℚ) ^ (Int.log 2 q - 23)|
        * (2 : ℚ) ^ (Int.log 2 q - 23)
      ≤ 1 / 2 * (2 : ℚ) ^ (Int.log 2 q - 23) := mul_le_mul_of_nonneg_right herr (le_of_lt hu)
    _ = (2 : ℚ) ^ (Int.log 2 q) / 2 ^ 24 := by rw [hsplit]; ring
    _ ≤ q / 2 ^ 24 := div_le_div_of_nonneg_right hlog (by norm_num)

/-- A natural number below `2^24` is a binary32 value. -/
theorem round32_nat (n : Nat) (hn : n < 2 ^ 24) : round32 (n : ℚ) = n := by
  rcases Nat.eq_zero_or_pos n with rfl | hpos
  · simp [round32]
  have hq : (0 : ℚ) < n := by exact_mod_cast hpos
  have hne : (n : ℚ) ≠ 0 := ne_of_gt hq
  have hlog : Int.log 2 (n : ℚ) = Nat.log 2 n := Int.log_natCast 2 n
  have hlt : Nat.log 2 n < 24 := Nat.log_lt_of_lt_pow (by omega) hn
  obtain ⟨k, hk⟩ : ∃ k : Nat, (Nat.log 2 n : Int) - 23 = -(k : Int) :=
    ⟨23 - Nat.log 2 n, by omega⟩
  unfold round32
  rw [if_neg hne, abs_of_pos hq, hlog, hk, zpow_neg, zpow_natCast]
  have hint : (n : ℚ) / ((2 : ℚ) ^ k)⁻¹ = ((n * 2 ^ k : Nat) : Int) := by
    push_cast
    field_simp
  rw [hint, roundHalfEven_int]
  push_cast
  field_simp

/-- The conversion to a byte of a value in `[z, z + 1)`. -/
theorem toByte_of_floor (p : ℚ) (z : Nat) (hz : z < 256) (h1 : (z : ℚ) ≤ p) (h2 : p < (z : ℚ) + 1) :
    binary32Conv.toByte p = z := by
  have hf : ⌊p⌋ = (z : Int) := Int.floor_eq_iff.2 ⟨by exact_mod_cast h1, by exact_mod_cast h2⟩
  simp only [binary32Conv, hf, Int.toNat_ofNat]
  exact Nat.mod_eq_of_lt hz

/-- The alpha value that the binary32 computation `(float)v * (255 / M)` gives
for an intensity `v` under the maximum `M`: it is `floor(255*v/M)`, or one
less, which can only happen when `255*v/M` is an integer; it is exact when `M`
divides 255. -/
theorem alpha_value (M v : Nat) (hM0 : 0 < M) (hM : M ≤ 255) (hv : v ≤ M) :
    (binary32Conv.toByte (binary32Ops.mul (binary32Ops.ofInt ((v : Nat) : Int))
          (binary32Ops.div (binary32Ops.ofInt 255) (binary32Ops.ofInt ((M : Nat) : Int))))
        = 255 * v / M
      ∨ (M ∣ 255 * v ∧ 0 < v
          ∧ binary32Conv.toByte (binary32Ops.mul (binary32Ops.ofInt ((v : Nat) : Int))
              (binary32Ops.div (binary32Ops.ofInt 255) (binary32Ops.ofInt ((M : Nat) : Int)))) + 1
            = 255 * v / M))
      ∧ (M ∣ 255 →
          binary32Conv.toByte (binary32Ops.mul (binary32Ops.ofInt ((v : Nat) : Int))
              (binary32Ops.div (binary32Ops.ofInt 255) (binary32Ops.ofInt ((M : Nat) : Int))))
            = 255 * v / M) := by
  have hv24 : v < 2 ^ 24 := by omega
  have hM24 : M < 2 ^ 24 := by omega
  have e255 : round32 (((255 : Int) : ℚ)) = 255 := by
    have := round32_nat 255 (by norm_num)
    simpa using this
  have ev : round32 ((((v : Nat) : Int) : ℚ)) = (v : ℚ) := by
    have := round32_nat v hv24
    simpa using this
  have eM : round32 ((((M : Nat) : Int) : ℚ)) = (M : ℚ) := by
    have := round32_nat M hM24
    simpa using this
  simp only [binary32Ops, e255, ev, eM]
  have hMq : (0 : ℚ) < M := by exact_mod_cast hM0
  have hMle : (M : ℚ) ≤ 255 := by exact_mod_cast hM
  have hvq : (0 : ℚ) ≤ v := by exact_mod_cast Nat.zero_le v
  have hvM : (v : ℚ) ≤ M := by exact_mod_cast hv
  have he255 : 255 * v / M ≤ 255 :=
    Nat.div_le_of_le_mul (by nlinarith)
  constructor
  · rcases Nat.eq_zero_or_pos v with rfl | hvpos
    · left
      simp [round32, binary32Conv]
    -- the scale factor and its error
    have hc : (0 : ℚ) < 255 / M := div_pos (by norm_num) hMq
    have hs := round32_err (255 / (M : ℚ)) hc
    rw [abs_le] at hs
    have hspos : (0 : ℚ) < round32 (255 / (M : ℚ)) := by
      have : (255 : ℚ) / M / 2 ^ 24 < 255 / M := by
        apply div_lt_self hc; norm_num
      linarith [hs.1]
    have hvq' : (0 : ℚ) < v := by exact_mod_cast hvpos
    have hvs : (0 : ℚ) < v * round32 (255 / (M : ℚ)) := mul_pos hvq' hspos
    have hp := round32_err (v * round32 (255 / (M : ℚ))) hvs
    rw [abs_le] at hp
    -- the exact quotient
    have hxdef : (v : ℚ) * (255 / M) = 255 * v / M := by ring
    have hxle : (255 : ℚ) * v / M ≤ 255 := by
      rw [div_le_iff₀ hMq]; nlinarith
    have hvs1 : (v : ℚ) * round32 (255 / (M : ℚ)) ≤ 255 * v / M + 255 * v / M / 2 ^ 24 := by
      have := mul_le_mul_of_nonneg_left (show round32 (255 / (M : ℚ)) ≤ 255 / M + 255 / M / 2 ^ 24
        by linarith [hs.2]) hvq
      calc (v : ℚ) * round32 (255 / (M : ℚ)) ≤ v * (255 / M + 255 / M / 2 ^ 24) := this
        _ = 255 * v / M + 255 * v / M / 2 ^ 24 := by ring
    have hvs2 : (255 : ℚ) * v / M - 255 * v / M / 2 ^ 24 ≤ v * round32 (255 / (M : ℚ)) := by
      have := mul_le_mul_of_nonneg_left (show (255 : ℚ) / M - 255 / M / 2 ^ 24
        ≤ round32 (255 / (M : ℚ)) by linarith [hs.1]) hvq
      calc (255 : ℚ) * v / M - 255 * v / M / 2 ^ 24 = v * (255 / M - 255 / M / 2 ^ 24) := by ring
        _ ≤ (v : ℚ) * round32 (255 / (M : ℚ)) := this
    have hup : round32 (v * round32 (255 / (M : ℚ))) < 255 * v / M + 1 / 256 := by
      have h3 := hp.2
      norm_num at h3 hvs1 hxle ⊢
      linarith
    have hlo : (255 : ℚ) * v / M - 1 / 256 < round32 (v * round32 (255 / (M : ℚ))) := by
      have h3 := hp.1
      norm_num at h3 hvs1 hvs2 hxle ⊢
      linarith
    -- quotient and remainder
    have hdm : M * (255 * v / M) + 255 * v % M = 255 * v := Nat.div_add_mod (255 * v) M
    have hrlt : 255 * v % M < M := Nat.mod_lt (255 * v) hM0
    have hdvd_iff : 255 * v % M = 0 → M ∣ 255 * v := Nat.dvd_of_mod_eq_zero
    have he1 : 1 ≤ 255 * v / M := by
      apply (Nat.one_le_div_iff hM0).2
      nlinarith
    generalize 255 * v / M = e at hdm he1 he255 ⊢
    generalize 255 * v % M = r at hdm hrlt hdvd_iff
    have hx : (255 : ℚ) * v / M = (e : ℚ) + (r : ℚ) / M := by
      rw [eq_comm, ← sub_eq_zero]
      field_simp
      have : ((M * e + r : Nat) : ℚ) = ((255 * v : Nat) : ℚ) := by rw [hdm]
      push_cast at this
      linarith
    have hMinv : (1 : ℚ) / 255 ≤ 1 / M := one_div_le_one_div_of_le hMq hMle
    rw [hx] at hup hlo
    rcases Nat.eq_zero_or_pos r with hr0 | hrpos
    · -- the quotient is an integer
      have hdvd : M ∣ 255 * v := hdvd_iff hr0
      rw [hr0] at hup hlo
      simp only [Nat.cast_zero, zero_div, add_zero] at hup hlo
      have he1q : (1 : ℚ) ≤ (e : ℚ) := by exact_mod_cast he1
      by_cases hge : (e : ℚ) ≤ round32 (v * round32 (255 / (M : ℚ)))
      · left
        exact toByte_of_floor _ _ (by omega) hge (by linarith)
      · right
        refine ⟨hdvd, hvpos, ?_⟩
        have hcast : ((e - 1 : Nat) : ℚ) = (e : ℚ) - 1 := by
          rw [Nat.cast_sub he1]; simp
        have hz : binary32Conv.toByte (round32 (v * round32 (255 / (M : ℚ)))) = e - 1 := by
          apply toByte_of_floor _ _ (by omega)
          · rw [hcast]; linarith
          · rw [hcast]; push_neg at hge; linarith
        rw [hz]
        omega
    · -- the quotient has a fraction of at least 1/M and at most 1 - 1/M
      left
      have hr1 : (1 : ℚ) ≤ (r : ℚ) := by exact_mod_cast hrpos
      have hrM : (r : ℚ) + 1 ≤ M := by exact_mod_cast hrlt
      have hfrac1 : (1 : ℚ) / M ≤ (r : ℚ) / M :=
        div_le_div_of_nonneg_right hr1 (le_of_lt hMq)
      have hfrac2 : (r : ℚ) / M ≤ 1 - 1 / M := by
        have h4 : (r : ℚ) / M ≤ (M - 1) / M :=
          div_le_div_of_nonneg_right (by linarith) (le_of_lt hMq)
        have h5 : ((M : ℚ) - 1) / M = 1 - 1 / M := by field_simp
        linarith
      apply toByte_of_floor _ _ (by omega)
      · have h6 : (1 : ℚ) / 256 < 1 / 255 := by norm_num
        linarith only [hlo, hfrac1, hMinv, h6]
      · have h6 : (1 : ℚ) / 256 < 1 / 255 := by norm_num
        show round32 (v * round32 (255 / (M : ℚ))) < (e : ℚ) + 1
        linarith only [hup, hfrac2, hMinv, h6]
  · intro hdvd
    obtain ⟨c, hc⟩ := hdvd
    have hcq : (255 : ℚ) / M = (c : ℚ) := by
      have : ((255 : Nat) : ℚ) = ((M * c : Nat) : ℚ) := by rw [← hc]
      push_cast at this
      rw [div_eq_iff (ne_of_gt hMq)]
      linarith
    have hc255 : c ≤ 255 := by
      calc c = 1 * c := (Nat.one_mul c).symm
        _ ≤ M * c := Nat.mul_le_mul_right c hM0
        _ = 255 := hc.symm
    have hvc : v * c ≤ 255 := by
      calc v * c ≤ M * c := Nat.mul_le_mul_right c hv
        _ = 255 := hc.symm
    have hdiv : 255 * v / M = v * c := by
      rw [hc, Nat.mul_assoc, Nat.mul_div_cancel_left _ hM0, Nat.mul_comm]
    rw [hcq, round32_nat c (by omega)]
    have : ((v : ℚ) * (c : ℚ)) = ((v * c : Nat) : ℚ) := by push_cast; ring
    rw [this, round32_nat (v * c) (by omega), hdiv]
    exact toByte_of_floor _ _ (by omega) (le_refl _) (by linarith)

/-- A value in the lower half of a rounding interval rounds down. -/
theorem round32_down (q : ℚ) (e m : Int) (h1 : (2 : ℚ) ^ e ≤ q) (h2 : q < (2 : ℚ) ^ (e + 1))
    (h3 : (m : ℚ) ≤ q / (2 : ℚ) ^ (e - 23)) (h4 : q / (2 : ℚ) ^ (e - 23) < (m : ℚ) + 1 / 2) :
    round32 q = (m : ℚ) * (2 : ℚ) ^ (e - 23) := by
  have hq : 0 < q := lt_of_lt_of_le (zpow_pos (by norm_num) e) h1
  unfold round32
  rw [if_neg (ne_of_gt hq), abs_of_pos hq, log_eq_of_bounds q e h1 h2,
    roundHalfEven_down _ m h3 h4]

/-- The binary32 computation for the intensity 7 under the maximum 7: the
scale `255/7` rounds to `9549531 / 2^18`, seven times that rounds to
`16711679 / 2^16`, which is below 255, and the conversion gives 254. -/
theorem alpha_seven :
    binary32Conv.toByte (binary32Ops.mul (binary32Ops.ofInt ((7 : Nat) : Int))
      (binary32Ops.div (binary32Ops.ofInt 255) (binary32Ops.ofInt ((7 : Nat) : Int)))) = 254 := by
  have e255 : round32 (((255 : Int) : ℚ)) = 255 := by
    have := round32_nat 255 (by norm_num)
    simpa using this
  have e7 : round32 ((((7 : Nat) : Int) : ℚ)) = 7 := by
    have := round32_nat 7 (by norm_num)
    simpa using this
  have hs : round32 ((255 : ℚ) / 7) = 9549531 / 262144 := by
    rw [round32_down (255 / 7) 5 9549531 (by norm_num) (by norm_num) (by norm_num) (by norm_num)]
    norm_num
  have hp : round32 ((7 : ℚ) * (9549531 / 262144)) = 16711679 / 65536 := by
    rw [round32_down (7 * (9549531 / 262144)) 7 16711679 (by norm_num) (by norm_num) (by norm_num)
      (by norm_num)]
    norm_num
  simp only [binary32Ops, e255, e7, hs, hp]
  exact toByte_of_floor _ 254 (by norm_num) (by norm_num) (by norm_num)

/-- The running maximum of the first `n` canvas bytes, all of them at most
255, is computed exactly. -/
theorem pageMax_exact (out : Canvas) (n : Nat) (hb : ∀ k : Nat, k < n → out k ≤ 255) :
    ∃ m : Nat, pageMax binary32Ops binary32Conv out n = (m : ℚ)
      ∧ (∀ k : Nat, k < n → out k ≤ m) ∧ (m = 0 ∨ ∃ k : Nat, k < n ∧ out k = m) := by
  induction n with
  | zero =>
    refine ⟨0, ?_, fun k hk => absurd hk (Nat.not_lt_zero k), Or.inl rfl⟩
    simp [pageMax, binary32Ops, round32]
  | succ n ih =>
    obtain ⟨m, hm, hle, hatt⟩ := ih (fun k hk => hb k (Nat.lt_succ_of_lt hk))
    have hstep : pageMax binary32Ops binary32Conv out (n + 1)
        = if binary32Conv.lt (pageMax binary32Ops binary32Conv out n)
              (binary32Ops.ofInt ((out (n : Int) : Nat) : Int))
          then binary32Ops.ofInt ((out (n : Int) : Nat) : Int)
          else pageMax binary32Ops binary32Conv out n := by
      simp only [pageMax, List.range_succ, List.foldl_append, List.foldl_cons, List.foldl_nil]
    have hn : round32 ((((out (n : Int) : Nat) : Int) : ℚ)) = ((out (n : Int) : Nat) : ℚ) := by
      have := round32_nat (out (n : Int)) (by have := hb n (Nat.lt_succ_self n); omega)
      simpa using this
    rw [hstep, hm]
    simp only [binary32Ops, binary32Conv, hn, decide_eq_true_eq, Nat.cast_lt]
    split_ifs with hlt
    · refine ⟨out (n : Int), rfl, ?_, Or.inr ⟨n, Nat.lt_succ_self n, rfl⟩⟩
      intro k hk
      rcases Nat.lt_succ_iff_lt_or_eq.1 hk with h | rfl
      · exact le_trans (hle k h) (le_of_lt hlt)
      · exact le_refl _
    · refine ⟨m, rfl, ?_, ?_⟩
      · intro k hk
        rcases Nat.lt_succ_iff_lt_or_eq.1 hk with h | rfl
        · exact hle k h
        · exact not_lt.1 hlt
      · rcases hatt with h | ⟨k, hk, h⟩
        · exact Or.inl h
        · exact Or.inr ⟨k, Nat.lt_succ_of_lt hk, h⟩

/-- The running maximum is the maximum `M` of the canvas bytes. -/
theorem pageMax_eq (out : Canvas) (n M : Nat) (hM : M ≤ 255) (hle : ∀ k : Nat, k < n → out k ≤ M)
    (hatt : M = 0 ∨ ∃ k : Nat, k < n ∧ out k = M) :
    pageMax binary32Ops binary32Conv out n = (M : ℚ) := by
  obtain ⟨m, hm, h1, h2⟩ := pageMax_exact out n (fun k hk => le_trans (hle k hk) hM)
  have hmM : m = M := by
    apply le_antisymm
    · rcases h2 with h | ⟨k, hk, h⟩
      · omega
      · rw [← h]; exact hle k hk
    · rcases hatt with h | ⟨k, hk, h⟩
      · omega
      · rw [← h]; exact h1 k hk
  rw [hm, hmM]

/-- The scale factor: `255 / M` rounded when `M > 0`, and 0 when `M = 0`. -/
theorem pageScale_eq (out : Canvas) (n M : Nat) (hM : M ≤ 255) (hle : ∀ k : Nat, k < n → out k ≤ M)
    (hatt : M = 0 ∨ ∃ k : Nat, k < n ∧ out k = M) :
    pageScale binary32Ops binary32Conv out n
      = if 0 < M then binary32Ops.div (binary32Ops.ofInt 255) (binary32Ops.ofInt ((M : Nat) : Int))
        else 0 := by
  have eM : round32 ((((M : Nat) : Int) : ℚ)) = (M : ℚ) := by
    have := round32_nat M (by omega)
    simpa using this
  have e0 : round32 (((0 : Int) : ℚ)) = 0 := by simp [round32]
  simp only [pageScale, pageMax_eq out n M hM hle hatt]
  simp only [binary32Ops, binary32Conv, eM, e0, decide_eq_true_eq, Nat.cast_pos]
  split_ifs with h
  · rfl
  · simp only [Nat.not_lt, Nat.le_zero] at h
    simp [h]

/-- Length and entries of a buffer written four bytes at a time. -/
theorem flatMap_four (f : Nat → List Nat) (hf : ∀ k, (f k).length = 4) (n : Nat) :
    ((List.range n).flatMap f).length = 4 * n
      ∧ ∀ k c : Nat, k < n → c < 4 → ((List.range n).flatMap f)[4 * k + c]? = (f k)[c]? := by
  induction n with
  | zero => exact ⟨rfl, fun k c hk _ => absurd hk (Nat.not_lt_zero k)⟩
  | succ n ih =>
    obtain ⟨hlen, hget⟩ := ih
    have happ : (List.range (n + 1)).flatMap f = (List.range n).flatMap f ++ f n := by
      simp [List.range_succ, List.flatMap_append]
    rw [happ]
    refine ⟨by rw [List.length_append, hlen, hf]; omega, ?_⟩
    intro k c hk hc
    rcases Nat.lt_succ_iff_lt_or_eq.1 hk with h | rfl
    · rw [List.getElem?_append_left (by rw [hlen]; omega)]
      exact hget k c h hc
    · rw [List.getElem?_append_right (by rw [hlen]; omega), hlen]
      congr 1
      omega

/-- C20 (amended). Page normalization in binary32 arithmetic: at page
finalization, with `M` the maximum intensity over the `n` canvas bytes
(`n = CANVAS_SIZE*CANVAS_SIZE` in the code), the image holds four bytes per
canvas byte; R, G and B are 255, and the alpha of a pixel of intensity `v` is
the integer part of the binary32 product `(float)v * (255/M)`: when `M > 0` it
is `floor(v*255/M)` or, only when `v*255/M` is an integer, possibly one less;
it is exactly `floor(v*255/M)` when `M` divides 255 (as for `M = 255`); a pixel
of intensity 0 gets alpha 0 and a pixel of intensity `M` gets 254 or 255; when
`M = 0` every alpha is 0. -/
theorem page_normalization (out : Canvas) (n M : Nat) (hM : M ≤ 255)
    (hle : ∀ k : Nat, k < n → out k ≤ M) (hatt : M = 0 ∨ ∃ k : Nat, k < n ∧ out k = M) :
    (pageImage binary32Ops binary32Conv out n).length = 4 * n
      ∧ ∀ k : Nat, k < n →
          (pageImage binary32Ops binary32Conv out n)[4 * k]? = some 255
            ∧ (pageImage binary32Ops binary32Conv out n)[4 * k + 1]? = some 255
            ∧ (pageImage binary32Ops binary32Conv out n)[4 * k + 2]? = some 255
            ∧ ∃ a, (pageImage binary32Ops binary32Conv out n)[4 * k + 3]? = some a
                ∧ (M = 0 → a = 0)
                ∧ (0 < M → a = 255 * out k / M
                    ∨ (M ∣ 255 * out k ∧ 0 < out k ∧ a + 1 = 255 * out k / M))
                ∧ (out k = 0 → a = 0)
                ∧ (0 < M → out k = M → a = 254 ∨ a = 255)
                ∧ (0 < M → M ∣ 255 → a = 255 * out k / M) := by
  obtain ⟨hlen, hget⟩ := flatMap_four
    (fun (k : Nat) => [255, 255, 255, binary32Conv.toByte (binary32Ops.mul
      (binary32Ops.ofInt ((out (k : Int) : Nat) : Int)) (pageScale binary32Ops binary32Conv out n))])
    (fun _ => rfl) n
  refine ⟨hlen, ?_⟩
  intro k hk
  have g0 := hget k 0 hk (by norm_num)
  have g1 := hget k 1 hk (by norm_num)
  have g2 := hget k 2 hk (by norm_num)
  have g3 := hget k 3 hk (by norm_num)
  refine ⟨g0, g1, g2, binary32Conv.toByte (binary32Ops.mul
      (binary32Ops.ofInt ((out (k : Int) : Nat) : Int)) (pageScale binary32Ops binary32Conv out n)),
    g3, ?_⟩
  rw [pageScale_eq out n M hM hle hatt]
  have hzero : binary32Conv.toByte (binary32Ops.mul
      (binary32Ops.ofInt ((out (k : Int) : Nat) : Int)) 0) = 0 := by
    simp [binary32Ops, binary32Conv, round32]
  refine ⟨?_, ?_, ?_, ?_, ?_⟩
  · intro h0
    rw [if_neg (by omega)]
    exact hzero
  · intro hpos
    rw [if_pos hpos]
    exact (alpha_value M (out k) hpos hM (hle k hk)).1
  · intro hv
    by_cases hpos : 0 < M
    · rw [if_pos hpos]
      rcases (alpha_value M (out k) hpos hM (hle k hk)).1 with h | ⟨_, h, _⟩
      · rw [h, hv]; simp
      · omega
    · rw [if_neg hpos]
      exact hzero
  · intro hpos hv
    rw [if_pos hpos]
    have hq : 255 * out k / M = 255 := by
      rw [hv]; exact Nat.mul_div_cancel 255 hpos
    rcases (alpha_value M (out k) hpos hM (hle k hk)).1 with h | ⟨_, _, h⟩
    · right; rw [h, hq]
    · left; omega
  · intro hpos hdvd
    rw [if_pos hpos]
    exact (alpha_value M (out k) hpos hM (hle k hk)).2 hdvd

/-- The bytes of `dimCanvas` are at most 7. -/
theorem dimCanvas_le (k : Int) : dimCanvas k ≤ 7 := by
  unfold dimCanvas
  split_ifs <;> omega

/-- C20 at a concrete input: the canvas `dimCanvas` of `CANVAS_SIZE *
CANVAS_SIZE` bytes, whose maximum intensity is 7. -/
theorem page_normalization_witness :
    (pageImage binary32Ops binary32Conv dimCanvas (CANVAS_SIZE * CANVAS_SIZE).toNat).length
        = 4 * (CANVAS_SIZE * CANVAS_SIZE).toNat
      ∧ ∀ k : Nat, k < (CANVAS_SIZE * CANVAS_SIZE).toNat →
          (pageImage binary32Ops binary32Conv dimCanvas (CANVAS_SIZE * CANVAS_SIZE).toNat)[4 * k]?
              = some 255
            ∧ (pageImage binary32Ops binary32Conv dimCanvas
                (CANVAS_SIZE * CANVAS_SIZE).toNat)[4 * k + 1]? = some 255
            ∧ (pageImage binary32Ops binary32Conv dimCanvas
                (CANVAS_SIZE * CANVAS_SIZE).toNat)[4 * k + 2]? = some 255
            ∧ ∃ a, (pageImage binary32Ops binary32Conv dimCanvas
                  (CANVAS_SIZE * CANVAS_SIZE).toNat)[4 * k + 3]? = some a
                ∧ (7 = 0 → a = 0)
                ∧ (0 < 7 → a = 255 * dimCanvas k / 7
                    ∨ (7 ∣ 255 * dimCanvas k ∧ 0 < dimCanvas k ∧ a + 1 = 255 * dimCanvas k / 7))
                ∧ (dimCanvas k = 0 → a = 0)
                ∧ (0 < 7 → dimCanvas k = 7 → a = 254 ∨ a = 255)
                ∧ (0 < 7 → 7 ∣ 255 → a = 255 * dimCanvas k / 7) :=
  page_normalization dimCanvas (CANVAS_SIZE * CANVAS_SIZE).toNat 7 (by norm_num)
    (fun k _ => dimCanvas_le k) (Or.inr ⟨0, by decide, rfl⟩)

/-- C20 as stated fails in binary32 arithmetic: on the canvas `dimCanvas`, whose
maximum intensity is `M = 7`, the pixel 0 of intensity 7 gets the alpha 254,
not `floor(7 * 255 / 7) = 255`: the scale `255/7` is rounded down to a binary32
value, seven times it is below 255, and the conversion to a byte drops the
fraction. -/
theorem page_normalization_counterexample :
    dimCanvas 0 = 7 ∧ (∀ k : Int, dimCanvas k ≤ 7)
      ∧ (pageImage binary32Ops binary32Conv dimCanvas (CANVAS_SIZE * CANVAS_SIZE).toNat)[4 * 0 + 3]?
          = some 254
      ∧ 7 * 255 / 7 = 255 := by
  refine ⟨rfl, dimCanvas_le, ?_, by norm_num⟩
  obtain ⟨_, hget⟩ := flatMap_four
    (fun (k : Nat) => [255, 255, 255, binary32Conv.toByte (binary32Ops.mul
      (binary32Ops.ofInt ((dimCanvas (k : Int) : Nat) : Int))
      (pageScale binary32Ops binary32Conv dimCanvas (CANVAS_SIZE * CANVAS_SIZE).toNat))])
    (fun _ => rfl) (CANVAS_SIZE * CANVAS_SIZE).toNat
  have g3 := hget 0 3 (by decide) (by norm_num)
  have hs := pageScale_eq dimCanvas (CANVAS_SIZE * CANVAS_SIZE).toNat 7 (by norm_num)
    (fun k _ => dimCanvas_le k) (Or.inr ⟨0, by decide, rfl⟩)
  rw [if_pos (by norm_num)] at hs
  have hval : binary32Conv.toByte (binary32Ops.mul
      (binary32Ops.ofInt ((dimCanvas ((0 : Nat) : Int) : Nat) : Int))
      (pageScale binary32Ops binary32Conv dimCanvas (CANVAS_SIZE * CANVAS_SIZE).toNat)) = 254 := by
    rw [hs]
    exact alpha_seven
  unfold pageImage
  rw [g3]
  simp only [List.getElem?_cons_succ, List.getElem?_cons_zero, Option.some.injEq]
  exact hval

/-! ## Decoding integers -/

/-- C22. Integer decoding: for every signed 32-bit integer `n`, negative ones
included, and every offset `o`, if the four bytes at `o .. o+3` of the file
buffer are the little-endian two's-complement encoding of `n` (byte `i` is
bits `8i .. 8i+7` of `n mod 2^32`), then `readInt` returns `n` and advances
the read offset by exactly 4. The value is assembled from the bytes one by
one, so no struct layout enters. -/
theorem readInt_decodes (fdFile : List Nat) (o : Nat) (n : Int) (hn : isInt32 n)
    (h0 : fdFile[o]? = some ((n % 4294967296).toNat % 256))
    (h1 : fdFile[o + 1]? = some ((n % 4294967296).toNat / 256 % 256))
    (h2 : fdFile[o + 2]? = some ((n % 4294967296).toNat / 65536 % 256))
    (h3 : fdFile[o + 3]? = some ((n % 4294967296).toNat / 16777216 % 256)) :
    readInt fdFile o = (n, o + 4) := by
  have hu : (n % 4294967296).toNat < 4294967296 := by omega
  have b0 : byteAt fdFile o = (n % 4294967296).toNat % 256 := by
    simp [byteAt, List.getD_eq_getElem?_getD, h0]
  have b1 : byteAt fdFile (o + 1) = (n % 4294967296).toNat / 256 % 256 := by
    simp [byteAt, List.getD_eq_getElem?_getD, h1]
  have b2 : byteAt fdFile (o + 2) = (n % 4294967296).toNat / 65536 % 256 := by
    simp [byteAt, List.getD_eq_getElem?_getD, h2]
  have b3 : byteAt fdFile (o + 3) = (n % 4294967296).toNat / 16777216 % 256 := by
    simp [byteAt, List.getD_eq_getElem?_getD, h3]
  unfold readInt word32
  rw [b0, b1, b2, b3, word32_bytes _ hu, toInt32_dump n hn]

/-- C22 at a concrete input: the bytes `fe ff ff ff` at offset 2 decode to -2. -/
theorem readInt_decodes_witness :
    readInt [7, 7, 254, 255, 255, 255, 9] 2 = (-2, 2 + 4) :=
  readInt_decodes [7, 7, 254, 255, 255, 255, 9] 2 (-2) (by decide) (by decide) (by decide)
    (by decide) (by decide)

/-! ## The layout the decoder reads -/

/-- The decoder of a glyph reads the fields at the offsets of the layout and
advances by the size of a glyph. -/
theorem readGlyph_layout {F : Type} (ops : FloatRepr F) (L : Layout) (fdFile : List Nat) (o : Nat) :
    readGlyph ops L fdFile o = (glyphAt ops L fdFile o, o + glyphSize L) := by
  simp only [readGlyph, readInt, readFloat, glyphAt, glyphSize, Prod.mk.injEq, true_and]
  omega

/-- The glyph-reading loop: glyph `i` is read at `o + i * glyphSize`, and the
loop advances by `n * glyphSize`. -/
theorem readGlyphs_layout {F : Type} (ops : FloatRepr F) (L : Layout) (fdFile : List Nat)
    (n o : Nat) :
    (readGlyphs ops L fdFile n o).2 = o + n * glyphSize L
      ∧ (readGlyphs ops L fdFile n o).1.length = n
      ∧ ∀ i, i < n →
          (readGlyphs ops L fdFile n o).1[i]? = some (glyphAt ops L fdFile (o + i * glyphSize L)) := by
  induction n generalizing o with
  | zero => exact ⟨by simp [readGlyphs], rfl, fun i hi => absurd hi (Nat.not_lt_zero i)⟩
  | succ n ih =>
    obtain ⟨h1, h2, h3⟩ := ih (o + glyphSize L)
    simp only [readGlyphs, readGlyph_layout]
    refine ⟨?_, ?_, ?_⟩
    · rw [h1]; ring
    · simp [h2]
    · intro i hi
      cases i with
      | zero => simp
      | succ i =>
        simp only [List.getElem?_cons_succ]
        rw [h3 i (by omega)]
        congr 2
        ring

/-- The decoder of a shadow level: its glyphs, then `margin`, then
`available`. -/
theorem readShadow_layout {F : Type} (ops : FloatRepr F) (L : Layout) (fdFile : List Nat)
    (o : Nat) :
    (readShadow ops L fdFile o).2 = o + shadowSize L
      ∧ (readShadow ops L fdFile o).1.margin
          = (readInt fdFile (o + L.GLYPHS_PER_FONT * glyphSize L)).1
      ∧ (readShadow ops L fdFile o).1.available
          = decide ((readInt fdFile (o + L.GLYPHS_PER_FONT * glyphSize L + 4)).1 = 1)
      ∧ (readShadow ops L fdFile o).1.glyphs.length = L.GLYPHS_PER_FONT
      ∧ ∀ j, j < L.GLYPHS_PER_FONT →
          (readShadow ops L fdFile o).1.glyphs[j]?
            = some (glyphAt ops L fdFile (o + j * glyphSize L)) := by
  obtain ⟨h1, h2, h3⟩ := readGlyphs_layout ops L fdFile L.GLYPHS_PER_FONT o
  simp only [readShadow, readInt, h1, shadowSize, true_and]
  exact ⟨by omega, h2, h3⟩

/-- The shadow-reading loop: level `l` is read at `o + l * shadowSize`. -/
theorem readShadows_layout {F : Type} (ops : FloatRepr F) (L : Layout) (fdFile : List Nat)
    (n o : Nat) :
    (readShadows ops L fdFile n o).2 = o + n * shadowSize L
      ∧ (readShadows ops L fdFile n o).1.length = n
      ∧ ∀ l, l < n →
          (readShadows ops L fdFile n o).1[l]?
            = some (readShadow ops L fdFile (o + l * shadowSize L)).1 := by
  induction n generalizing o with
  | zero => exact ⟨by simp [readShadows], rfl, fun i hi => absurd hi (Nat.not_lt_zero i)⟩
  | succ n ih =>
    obtain ⟨h1, h2, h3⟩ := ih (o + shadowSize L)
    have hs := (readShadow_layout ops L fdFile o).1
    simp only [readShadows, hs]
    refine ⟨?_, ?_, ?_⟩
    · rw [h1]; ring
    · simp [h2]
    · intro l hl
      cases l with
      | zero => simp
      | succ l =>
        simp only [List.getElem?_cons_succ]
        rw [h3 l (by omega)]
        congr 3
        ring

/-- Bytes before the end of the file do not depend on what follows the file. -/
theorem byteAt_append_left (fdFile extra : List Nat) (k : Nat) (hk : k < fdFile.length) :
    byteAt (fdFile ++ extra) k = byteAt fdFile k := by
  simp only [byteAt, List.getD_eq_getElem?_getD, List.getElem?_append_left hk]

theorem word32_append_left (fdFile extra : List Nat) (o : Nat) (ho : o + 4 ≤ fdFile.length) :
    word32 (fdFile ++ extra) o = word32 fdFile o := by
  simp only [word32, byteAt_append_left fdFile extra o (by omega),
    byteAt_append_left fdFile extra (o + 1) (by omega),
    byteAt_append_left fdFile extra (o + 2) (by omega),
    byteAt_append_left fdFile extra (o + 3) (by omega)]

/-- A bounded copy reads at most `destsize - 1` characters of its source. -/
theorem Q_strncpyz_append (l extra : List Nat) (n : Nat) (h : n ≤ l.length + 1) :
    Q_strncpyz (l ++ extra) n = Q_strncpyz l n := by
  unfold Q_strncpyz
  have key : ∀ (p : Nat → Bool) (k : Nat) (a b : List Nat), k ≤ a.length →
      ((a ++ b).takeWhile p).take k = (a.takeWhile p).take k := by
    intro p k a
    induction a generalizing k with
    | nil =>
      intro b hk
      have : k = 0 := by simpa using hk
      subst this
      simp
    | cons x xs ih =>
      intro b hk
      cases k with
      | zero => simp
      | succ k =>
        simp only [List.cons_append, List.takeWhile_cons]
        split_ifs
        · simp only [List.take_succ_cons]
          rw [ih k b (by simpa using hk)]
        · rfl
  exact key _ _ _ _ (by omega)

/-- A glyph that lies within the file does not depend on what follows the
file. -/
theorem glyphAt_append {F : Type} (ops : FloatRepr F) (L : Layout) (fdFile extra : List Nat)
    (o : Nat) (ho : o + glyphSize L ≤ fdFile.length) :
    glyphAt ops L (fdFile ++ extra) o = glyphAt ops L fdFile o := by
  unfold glyphSize at ho
  have hd : (fdFile ++ extra).drop (o + 48) = fdFile.drop (o + 48) ++ extra :=
    List.drop_append_of_le_length (by omega)
  simp only [glyphAt, readInt, readFloat, hd]
  rw [word32_append_left _ _ o (by omega), word32_append_left _ _ (o + 4) (by omega),
    word32_append_left _ _ (o + 8) (by omega), word32_append_left _ _ (o + 12) (by omega),
    word32_append_left _ _ (o + 16) (by omega), word32_append_left _ _ (o + 20) (by omega),
    word32_append_left _ _ (o + 24) (by omega), word32_append_left _ _ (o + 28) (by omega),
    word32_append_left _ _ (o + 32) (by omega), word32_append_left _ _ (o + 36) (by omega),
    word32_append_left _ _ (o + 40) (by omega), word32_append_left _ _ (o + 44) (by omega),
    Q_strncpyz_append _ _ _ (by simp only [List.length_drop]; omega)]

/-- A glyph array that lies within the file does not depend on what follows
the file. -/
theorem readGlyphs_append {F : Type} (ops : FloatRepr F) (L : Layout) (fdFile extra : List Nat)
    (n o : Nat) (ho : o + n * glyphSize L ≤ fdFile.length) :
    readGlyphs ops L (fdFile ++ extra) n o = readGlyphs ops L fdFile n o := by
  induction n generalizing o with
  | zero => rfl
  | succ n ih =>
    have hmul : (n + 1) * glyphSize L = n * glyphSize L + glyphSize L := by ring
    simp only [readGlyphs, readGlyph_layout]
    rw [glyphAt_append ops L fdFile extra o (by omega), ih (o + glyphSize L) (by omega)]

theorem readShadows_append {F : Type} (ops : FloatRepr F) (L : Layout) (fdFile extra : List Nat)
    (n o : Nat) (ho : o + n * shadowSize L ≤ fdFile.length) :
    readShadows ops L (fdFile ++ extra) n o = readShadows ops L fdFile n o := by
  induction n generalizing o with
  | zero => rfl
  | succ n ih =>
    have hmul : (n + 1) * shadowSize L = n * shadowSize L + shadowSize L := by ring
    have hsz : shadowSize L = L.GLYPHS_PER_FONT * glyphSize L + 8 := rfl
    have hoff := (readGlyphs_layout ops L fdFile L.GLYPHS_PER_FONT o).1
    have hs : readShadow ops L (fdFile ++ extra) o = readShadow ops L fdFile o := by
      have w1 := word32_append_left fdFile extra (o + L.GLYPHS_PER_FONT * glyphSize L) (by omega)
      have w2 := word32_append_left fdFile extra (o + L.GLYPHS_PER_FONT * glyphSize L + 4)
        (by omega)
      have hg := readGlyphs_append ops L fdFile extra L.GLYPHS_PER_FONT o (by omega)
      simp only [readShadow, readInt, hg, hoff, w1, w2]
    have hend := (readShadow_layout ops L fdFile o).1
    simp only [readShadows, hs, hend]
    rw [ih (o + shadowSize L) (by omega)]

theorem registerGlyphShaders_getElem? {F : Type} (L : Layout) (noMip : List Nat → Int)
    (gs : List (glyphInfo_t F)) (i : Nat) (g : glyphInfo_t F) (h : gs[i]? = some g) :
    (registerGlyphShaders L noMip gs)[i]? = some (withHandle L noMip true i g) := by
  simp only [registerGlyphShaders, getElem?_updateRange, h, Option.map_some', withHandle,
    Nat.zero_add, true_and]

/-- C23. Decode layout: for a file of the accepted length
`sizeof(newFontInfo_t)`, the cache decoder of `RE_RegisterNewFont` ends at an
offset equal to that length; glyph `i` of the record holds the fields that stand
at offset `i * glyphSize` in the order height, top, bottom, pitch, xSkip,
imageWidth, imageHeight, s, t, s2, t2, glyph handle (4 bytes each) and then the
fixed-width shader name (`glyphAt`), its handle replaced by the registered
shader for the rendered range; `glyphScale` stands after the glyphs, the name
field after it is skipped and the record is named by the cache key; shadow level
`l` starts at `sizeof(fontInfo_t) + l * shadowSize` and holds its glyphs in the
same layout, then `margin`, then the availability flag; each of these fields
ends at or before the file length, and the decoded record does not depend on
any byte at or after the file length (also for the decoder of
`RE_RegisterFont` and a file of `sizeof(fontInfo_t)` bytes). -/
theorem decode_layout {F : Type} (ops : FloatRepr F) (L : Layout) (noMip : List Nat → Int)
    (name fdFile : List Nat) (hlen : fdFile.length = newFontInfoSize L) :
    (readShadows ops L fdFile L.FONT_MAXSHADOW
        ((readFloat ops fdFile (readGlyphs ops L fdFile L.GLYPHS_PER_FONT 0).2).2 + L.MAX_QPATH)).2
        = fdFile.length
      ∧ (decodeNewFont ops L noMip name fdFile).glyphs.length = L.GLYPHS_PER_FONT
      ∧ (∀ i, i < L.GLYPHS_PER_FONT →
          i * glyphSize L + glyphSize L ≤ fdFile.length
          ∧ (decodeNewFont ops L noMip name fdFile).glyphs[i]?
              = some (withHandle L noMip true i (glyphAt ops L fdFile (i * glyphSize L))))
      ∧ L.GLYPHS_PER_FONT * glyphSize L + 4 + L.MAX_QPATH ≤ fdFile.length
      ∧ (decodeNewFont ops L noMip name fdFile).glyphScale
          = (readFloat ops fdFile (L.GLYPHS_PER_FONT * glyphSize L)).1
      ∧ (decodeNewFont ops L noMip name fdFile).name = Q_strncpyz name L.MAX_QPATH
      ∧ (decodeNewFont ops L noMip name fdFile).shadows.length = L.FONT_MAXSHADOW
      ∧ (∀ l, l < L.FONT_MAXSHADOW →
          ∃ sh, (decodeNewFont ops L noMip name fdFile).shadows[l]? = some sh
            ∧ fontInfoSize L + l * shadowSize L + shadowSize L ≤ fdFile.length
            ∧ sh.margin = (readInt fdFile
                (fontInfoSize L + l * shadowSize L + L.GLYPHS_PER_FONT * glyphSize L)).1
            ∧ sh.available = decide ((readInt fdFile
                (fontInfoSize L + l * shadowSize L + L.GLYPHS_PER_FONT * glyphSize L + 4)).1 = 1)
            ∧ sh.glyphs.length = L.GLYPHS_PER_FONT
            ∧ ∀ j, j < L.GLYPHS_PER_FONT →
                sh.glyphs[j]? = some (withHandle L noMip sh.available j
                  (glyphAt ops L fdFile (fontInfoSize L + l * shadowSize L + j * glyphSize L))))
      ∧ (∀ extra, decodeNewFont ops L noMip name (fdFile ++ extra)
          = decodeNewFont ops L noMip name fdFile)
      ∧ ∀ legacy extra, legacy.length = fontInfoSize L →
          decodeFont ops L noMip name (legacy ++ extra) = decodeFont ops L noMip name legacy := by
  obtain ⟨g1, g2, g3⟩ := readGlyphs_layout ops L fdFile L.GLYPHS_PER_FONT 0
  rw [Nat.zero_add] at g1
  have hbase : (readFloat ops fdFile (readGlyphs ops L fdFile L.GLYPHS_PER_FONT 0).2).2 + L.MAX_QPATH
      = fontInfoSize L := by
    simp only [readFloat, g1, fontInfoSize]
  obtain ⟨s1, s2, s3⟩ := readShadows_layout ops L fdFile L.FONT_MAXSHADOW (fontInfoSize L)
  have hsize : newFontInfoSize L = fontInfoSize L + L.FONT_MAXSHADOW * shadowSize L := rfl
  have hfsize : fontInfoSize L = L.GLYPHS_PER_FONT * glyphSize L + 4 + L.MAX_QPATH := rfl
  have hmulG : ∀ i, i < L.GLYPHS_PER_FONT →
      i * glyphSize L + glyphSize L ≤ L.GLYPHS_PER_FONT * glyphSize L := by
    intro i hi
    calc i * glyphSize L + glyphSize L = (i + 1) * glyphSize L := by ring
      _ ≤ L.GLYPHS_PER_FONT * glyphSize L := Nat.mul_le_mul_right _ hi
  have hmulS : ∀ l, l < L.FONT_MAXSHADOW →
      l * shadowSize L + shadowSize L ≤ L.FONT_MAXSHADOW * shadowSize L := by
    intro l hl
    calc l * shadowSize L + shadowSize L = (l + 1) * shadowSize L := by ring
      _ ≤ L.FONT_MAXSHADOW * shadowSize L := Nat.mul_le_mul_right _ hl
  have hdec : decodeNewFont ops L noMip name fdFile
      = { glyphs := registerGlyphShaders L noMip (readGlyphs ops L fdFile L.GLYPHS_PER_FONT 0).1,
          glyphScale := (readFloat ops fdFile (L.GLYPHS_PER_FONT * glyphSize L)).1,
          name := Q_strncpyz name L.MAX_QPATH,
          shadows := (readShadows ops L fdFile L.FONT_MAXSHADOW (fontInfoSize L)).1.map (fun sh =>
            if sh.available then { sh with glyphs := registerGlyphShaders L noMip sh.glyphs }
            else sh) } := by
    simp only [decodeNewFont, readFloat, g1, ← hfsize]
  refine ⟨?_, ?_, ?_, ?_, ?_, ?_, ?_, ?_, ?_, ?_⟩
  · rw [hbase, s1, hlen, hsize]
  · rw [hdec]
    simp only [registerGlyphShaders, updateRange_length, g2]
  · intro i hi
    refine ⟨?_, ?_⟩
    · have := hmulG i hi
      omega
    · rw [hdec]
      have h := g3 i hi
      rw [Nat.zero_add] at h
      exact registerGlyphShaders_getElem? L noMip _ i _ h
  · omega
  · rw [hdec]
  · rw [hdec]
  · rw [hdec]
    simp only [List.length_map, s2]
  · intro l hl
    obtain ⟨_, m1, m2, m3, m4⟩ := readShadow_layout ops L fdFile (fontInfoSize L + l * shadowSize L)
    have hsl := s3 l hl
    have hb := hmulS l hl
    generalize (readShadow ops L fdFile (fontInfoSize L + l * shadowSize L)).1 = sh0
      at m1 m2 m3 m4 hsl
    by_cases hav : sh0.available = true
    · refine ⟨{ sh0 with glyphs := registerGlyphShaders L noMip sh0.glyphs }, ?_, by omega, m1, m2,
        ?_, ?_⟩
      · rw [hdec]
        simp only [List.getElem?_map, hsl, Option.map_some', hav, if_true]
      · simp only [registerGlyphShaders, updateRange_length, m3]
      · intro j hj
        simp only []
        rw [registerGlyphShaders_getElem? L noMip _ j _ (m4 j hj), hav]
    · refine ⟨sh0, ?_, by omega, m1, m2, m3, ?_⟩
      · rw [hdec]
        simp only [List.getElem?_map, hsl, Option.map_some', if_neg hav]
      · intro j hj
        rw [m4 j hj, withHandle, if_neg (fun h => hav h.1)]
  · intro extra
    have e1 := readGlyphs_append ops L fdFile extra L.GLYPHS_PER_FONT 0 (by omega)
    have e2 := word32_append_left fdFile extra (L.GLYPHS_PER_FONT * glyphSize L) (by omega)
    have e3 := readShadows_append ops L fdFile extra L.FONT_MAXSHADOW (fontInfoSize L) (by omega)
    simp only [decodeNewFont, readFloat, e1, g1, e2, ← hfsize, e3]
  · intro legacy extra hl
    have g1l := (readGlyphs_layout ops L legacy L.GLYPHS_PER_FONT 0).1
    rw [Nat.zero_add] at g1l
    have e1 := readGlyphs_append ops L legacy extra L.GLYPHS_PER_FONT 0 (by omega)
    have e2 := word32_append_left legacy extra (L.GLYPHS_PER_FONT * glyphSize L) (by omega)
    simp only [decodeFont, readFloat, e1, g1l, e2]

set_option maxRecDepth 100000 in
/-- C23 at a concrete input: `layoutFile` has the `sizeof(newFontInfo_t)` of
`tinyLayout`, 556 bytes; the decoder ends at offset 556, glyph 1 is the one laid
out at offset 80 with the registered handle, and the only shadow level starts at
offset 308, with its `margin` at offset 548 and its flag at offset 552. -/
theorem decode_layout_witness :
    layoutFile.length = newFontInfoSize tinyLayout
      ∧ (readShadows wordRepr tinyLayout layoutFile 1
          ((readFloat wordRepr layoutFile (readGlyphs wordRepr tinyLayout layoutFile 3 0).2).2
            + 64)).2 = 556
      ∧ (decodeNewFont wordRepr tinyLayout (fun _ => 7) (str "fonts/a_12.dat") layoutFile).glyphs[1]?
          = some (withHandle tinyLayout (fun _ => 7) true 1 (glyphAt wordRepr tinyLayout layoutFile 80))
      ∧ ∃ sh, (decodeNewFont wordRepr tinyLayout (fun _ => 7) (str "fonts/a_12.dat")
            layoutFile).shadows[0]? = some sh
          ∧ sh.margin = (readInt layoutFile 548).1
          ∧ sh.available = decide ((readInt layoutFile 552).1 = 1) :=
  have h := decode_layout wordRepr tinyLayout (fun _ => 7) (str "fonts/a_12.dat") layoutFile
    (by decide)
  have h3 := (h.2.2.1 1 (by decide)).2
  ⟨by decide, h.1, h3,
    (h.2.2.2.2.2.2.2.1 0 (by decide)).imp
      (fun _ hs => ⟨hs.1, hs.2.2.1, hs.2.2.2.1⟩)⟩

/-! ## The indices a placed glyph writes -/

theorem mem_blitWrites (dst height pitch k : Int) :
    k ∈ blitWrites dst height pitch
      ↔ ∃ i j : Nat, i < height.toNat ∧ j < pitch.toNat ∧ k = dst + (i : Int) * CANVAS_SIZE + j := by
  simp only [blitWrites, List.mem_flatMap, List.mem_map, List.mem_range]
  constructor
  · rintro ⟨i, hi, j, hj, rfl⟩
    exact ⟨i, j, hi, hj, rfl⟩
  · rintro ⟨i, j, hi, hj, rfl⟩
    exact ⟨i, hi, j, hj, rfl⟩

/-- The copy loop changes the canvas only at the indices of `blitWrites`. -/
theorem blit_frame (canvas : Canvas) (dst : Int) (bitmap : FT_Bitmap) (height pitch : Int)
    (hg : bitmap.pixel_mode = PixelMode.grays) (k : Int) (hk : k ∉ blitWrites dst height pitch) :
    blit canvas dst bitmap height pitch k = canvas k := by
  rw [blit_eq_blitRows]
  apply blitRows_outside _ _ _ _ _ hg
  intro i hi hin
  apply hk
  rw [mem_blitWrites]
  refine ⟨i, (k - (dst + i * CANVAS_SIZE)).toNat, hi, by omega, by omega⟩

/-- The indices a real-pass call for a glyph with a bitmap writes: none when
the page is full, those of the copy loops at the position the row decision
gives otherwise. -/
theorem construct_writes {F : Type} (ops : FloatOps F) (face : Face) (c : Nat) (margin : Int)
    (st : PackState) (hout : (face c).outline = true) :
    let r := RE_ConstructGlyphInfo ops st (some face) c false margin
    let cellWidth := r.1.pitch + margin * 2
    let rowHeight := r.2.maxHeight + margin * 2
    ∃ x1 y1 : Int,
      x1 = (if st.xOut + cellWidth + 1 ≥ CANVAS_SIZE - 1 then 0 else st.xOut)
      ∧ y1 = (if st.xOut + cellWidth + 1 ≥ CANVAS_SIZE - 1 then st.yOut + rowHeight + 1
              else st.yOut)
      ∧ (y1 + rowHeight + 1 ≥ CANVAS_SIZE - 1 →
          constructWrites ops st (some face) c false margin = [])
      ∧ (y1 + rowHeight + 1 < CANVAS_SIZE - 1 →
          constructWrites ops st (some face) c false margin
            = blitWrites ((y1 + margin) * CANVAS_SIZE + (x1 + margin)) r.1.height r.1.pitch) := by
  refine ⟨_, _, rfl, rfl, ?_⟩
  simp only [RE_ConstructGlyphInfo, constructWrites, R_RenderGlyph, hout, if_true,
    Bool.false_eq_true, if_false]
  split_ifs with h1 h2 h3 h4 h5 h6
  all_goals simp only [CANVAS_SIZE] at *
  all_goals constructor
  all_goals intro hq
  all_goals first
    | (exfalso; omega)
    | trivial

/-- C24. Canvas write bounds: for a real-pass call of `RE_ConstructGlyphInfo`
entered with a cursor `x, y >= 0`, a margin `>= 0` and a cell width
`pitch + 2*margin <= CANVAS_SIZE`, the canvas is changed at most at the indices
the copy loops write (`constructWrites`; none when the glyph is not placed), and
each of them lies in `[0, CANVAS_SIZE*CANVAS_SIZE)` and is the index
`row * CANVAS_SIZE + col` of a pixel of the canvas with `col` in
`[x1, x1 + cellWidth)` and `row` in `[y1, y1 + cellHeight)`, where `(x1, y1)` is
the cursor used for the placement (the one on entry, or
`(0, y + maxHeight + 2*margin + 1)` after a row wrap), `cellWidth` is
`pitch + 2*margin` and `cellHeight` is `height + 2*margin`. -/
theorem canvas_write_bounds {F : Type} (ops : FloatOps F) (face : Face) (c : Nat) (margin : Int)
    (st : PackState) (hx : 0 ≤ st.xOut) (hy : 0 ≤ st.yOut) (hm : 0 ≤ margin) :
    let r := RE_ConstructGlyphInfo ops st (some face) c false margin
    let cellWidth := r.1.pitch + margin * 2
    let cellHeight := r.1.height + margin * 2
    let rowHeight := r.2.maxHeight + margin * 2
    let x1 := if st.xOut + cellWidth + 1 ≥ CANVAS_SIZE - 1 then 0 else st.xOut
    let y1 := if st.xOut + cellWidth + 1 ≥ CANVAS_SIZE - 1 then st.yOut + rowHeight + 1
      else st.yOut
    cellWidth ≤ CANVAS_SIZE →
      (∀ k : Int, k ∉ constructWrites ops st (some face) c false margin →
          r.2.imageOut k = st.imageOut k)
        ∧ ∀ k : Int, k ∈ constructWrites ops st (some face) c false margin →
            0 ≤ k ∧ k < CANVAS_SIZE * CANVAS_SIZE
              ∧ r.2.xOut = x1 + cellWidth + 1 ∧ r.2.yOut = y1
              ∧ ∃ row col : Int, k = row * CANVAS_SIZE + col
                  ∧ 0 ≤ col ∧ col < CANVAS_SIZE ∧ 0 ≤ row ∧ row < CANVAS_SIZE
                  ∧ x1 ≤ col ∧ col < x1 + cellWidth ∧ y1 ≤ row ∧ row < y1 + cellHeight := by
  by_cases hout : (face c).outline = true
  · obtain ⟨bitmap, hb, hg, _, _, _⟩ := renderGlyph_bitmap ops (face c) hout
    have hcv := construct_canvas ops face c margin st hout bitmap hb
    have hwr := construct_writes ops face c margin st hout
    obtain ⟨hpitch, hheight, hle, _, _⟩ := construct_maxHeight ops face c margin st hout
    simp only [] at hcv hwr hpitch hheight hle ⊢
    obtain ⟨x1, y1, hx1, hy1, hfull, hplaced⟩ := hcv
    obtain ⟨x1w, y1w, hx1w, hy1w, hwfull, hwplaced⟩ := hwr
    rw [← hx1] at hx1w
    rw [← hy1] at hy1w
    subst hx1w hy1w
    rw [← hx1, ← hy1]
    intro hfit
    by_cases hlt : y1w + ((RE_ConstructGlyphInfo ops st (some face) c false margin).2.maxHeight
        + margin * 2) + 1 < CANVAS_SIZE - 1
    · obtain ⟨e1, e2, e3, e4, e5⟩ := hplaced hlt
      rw [hwplaced hlt]
      refine ⟨?_, ?_⟩
      · intro k hk
        rw [e5, ← blit_eq_blitRows]
        exact blit_frame _ _ _ _ _ hg k hk
      · intro k hk
        rw [mem_blitWrites] at hk
        obtain ⟨i, j, hi, hj, hk⟩ := hk
        have hx1n : 0 ≤ x1w := by rw [hx1]; split_ifs <;> omega
        have hy1n : 0 ≤ y1w := by rw [hy1]; split_ifs <;> omega
        have hx1b : x1w + ((RE_ConstructGlyphInfo ops st (some face) c false margin).1.pitch
            + margin * 2) ≤ CANVAS_SIZE := by
          rw [hx1]
          split_ifs <;> simp only [CANVAS_SIZE] at * <;> omega
        simp only [CANVAS_SIZE] at hlt hfit hk hx1b ⊢
        refine ⟨by omega, by omega, e1, e2, y1w + margin + i, x1w + margin + j, by omega,
          by omega, by omega, by omega, by omega, by omega, by omega, by omega, by omega⟩
    · rw [hwfull (by omega)]
      obtain ⟨_, _, e3⟩ := hfull (by omega)
      exact ⟨fun k _ => by rw [e3], fun k hk => absurd hk (List.not_mem_nil k)⟩
  · simp only [RE_ConstructGlyphInfo, constructWrites, R_RenderGlyph, hout, if_false,
      Bool.false_eq_true]
    intro _
    exact ⟨fun k _ => trivial, fun k hk => absurd hk (List.not_mem_nil k)⟩

/-- C24 at a concrete input: a glyph of 8 by 10 pixels entered at the cursor
`(5, 7)` with margin 2 is placed at `(5, 7)`; the first index written is that
of row 9, column 7, and every index written is on the canvas, in the columns
5..16 and the rows 7..20 of the cell. -/
theorem canvas_write_bounds_witness :
    (0 : Int) ≤ 5 ∧ (0 : Int) ≤ 7 ∧ (0 : Int) ≤ 2 ∧ (8 : Int) + 2 * 2 ≤ CANVAS_SIZE
      ∧ (constructWrites exactOps (packAt 5 7 20) (some (fun _ => boxSlot 8 10)) 65 false 2).head?
          = some (9 * CANVAS_SIZE + 7)
      ∧ ∀ k : Int,
          k ∈ constructWrites exactOps (packAt 5 7 20) (some (fun _ => boxSlot 8 10)) 65 false 2 →
          0 ≤ k ∧ k < CANVAS_SIZE * CANVAS_SIZE
            ∧ ∃ row col : Int, k = row * CANVAS_SIZE + col
                ∧ 5 ≤ col ∧ col < 5 + 12 ∧ 7 ≤ row ∧ row < 7 + 14 :=
  ⟨by decide, by decide, by decide, by decide, by decide, fun k hk =>
    have h := (canvas_write_bounds exactOps (fun _ => boxSlot 8 10) 65 2 (packAt 5 7 20)
      (by decide) (by decide) (by decide) (by decide)).2 k hk
    ⟨h.1, h.2.1, h.2.2.2.2.imp (fun _ hr => hr.imp (fun _ hc =>
      ⟨hc.1, hc.2.2.2.2.2.1, hc.2.2.2.2.2.2.1, hc.2.2.2.2.2.2.2.1, hc.2.2.2.2.2.2.2.2⟩))⟩⟩

/-! ## The name of a record served by a cache file -/

theorem decodeNewFont_name {F : Type} (ops : FloatRepr F) (L : Layout) (noMip : List Nat → Int)
    (name fdFile : List Nat) :
    (decodeNewFont ops L noMip name fdFile).name = Q_strncpyz name L.MAX_QPATH := rfl

theorem decodeFont_name {F : Type} (ops : FloatRepr F) (L : Layout) (noMip : List Nat → Int)
    (name fdFile : List Nat) :
    (decodeFont ops L noMip name fdFile).name = Q_strncpyz name L.MAX_QPATH := rfl

theorem Q_stricmp_eq_self (a : List Nat) : Q_stricmp_eq a a = true := by
  simp [Q_stricmp_eq]

/-- After a registry miss, an entry stored at index `registeredFontCount` whose
name matches the key is what the scan returns once the count has grown. -/
theorem findRegistered_appended {F : Type} (st : State F) (key : List Nat) (e : newFontInfo_t F)
    (tr : List Event) (hmiss : findRegistered st key = none)
    (hlen : st.registeredFontCount < st.registeredFont.length)
    (hmatch : Q_stricmp_eq key e.name = true) :
    findRegistered
        { st with registeredFontCount := st.registeredFontCount + 1
                  registeredFont := st.registeredFont.set st.registeredFontCount e
                  trace := tr } key = some e := by
  apply findRegistered_first _ key st.registeredFontCount e
  · exact Nat.lt_succ_self _
  · simp only []
    rw [List.getElem?_set_self hlen]
  · exact hmatch
  · intro j hj e' he'
    simp only [] at he'
    rw [getElem?_set_below _ _ _ _ hj] at he'
    unfold findRegistered at hmiss
    rw [List.find?_eq_none] at hmiss
    have hmem : e' ∈ st.registeredFont.take st.registeredFontCount := by
      rw [List.mem_iff_getElem?]
      exact ⟨j, by rw [List.getElem?_take_of_lt hj]; exact he'⟩
    simpa using hmiss e' hmem

/-- A call of `RE_RegisterFont` that is served by a cache file: the decoded
record is returned and stored at index `registeredFontCount`. -/
theorem registerFont_cacheHit {F : Type} (w : World F) (L : Layout) (fuel : Nat) (st : State F)
    (ch : Nat) (rest : List Nat) (pointSize : Int) (font : fontInfo_t F)
    (hcap : st.registeredFontCount < MAX_FONTS)
    (hmiss : findRegistered st (legacyKey (if pointSize ≤ 0 then 12 else pointSize)) = none)
    (hfile : lengthIs st.files (legacyKey (if pointSize ≤ 0 then 12 else pointSize))
      (fontInfoSize L) = true) :
    ∃ tr, RE_RegisterFont w L fuel st (some (ch :: rest)) pointSize font
      = some ({ st with
          registeredFontCount := st.registeredFontCount + 1
          registeredFont := st.registeredFont.set st.registeredFontCount
            ((zeroNewFont w.ops L).overlay (decodeFont w.repr L w.RE_RegisterShaderNoMip
              (legacyKey (if pointSize ≤ 0 then 12 else pointSize))
              ((st.files (legacyKey (if pointSize ≤ 0 then 12 else pointSize))).getD [])))
          trace := tr },
        decodeFont w.repr L w.RE_RegisterShaderNoMip
          (legacyKey (if pointSize ≤ 0 then 12 else pointSize))
          ((st.files (legacyKey (if pointSize ≤ 0 then 12 else pointSize))).getD [])) := by
  have hnot : ¬ st.registeredFontCount ≥ MAX_FONTS := by omega
  refine ⟨?_, ?_⟩
  rotate_left
  · simp only [RE_RegisterFont, hmiss, hnot, if_false, State.log, hfile, if_true]
    exact rfl

/-- The same for `RE_RegisterNewFont`. -/
theorem registerNewFont_cacheHit {F : Type} (w : World F) (L : Layout) (fuel : Nat)
    (st : State F) (ch : Nat) (rest : List Nat) (simpleName : List Nat) (pointSize : Int)
    (font : newFontInfo_t F) (hcap : st.registeredFontCount < MAX_FONTS)
    (hmiss : findRegistered st (newKey simpleName (if pointSize ≤ 0 then 12 else pointSize))
      = none)
    (hfile : lengthIs st.files (newKey simpleName (if pointSize ≤ 0 then 12 else pointSize))
      (newFontInfoSize L) = true) :
    ∃ tr, RE_RegisterNewFont w L fuel st (some (ch :: rest)) simpleName pointSize font
      = some ({ st with
          registeredFontCount := st.registeredFontCount + 1
          registeredFont := st.registeredFont.set st.registeredFontCount
            (decodeNewFont w.repr L w.RE_RegisterShaderNoMip
              (newKey simpleName (if pointSize ≤ 0 then 12 else pointSize))
              ((st.files (newKey simpleName (if pointSize ≤ 0 then 12 else pointSize))).getD []))
          trace := tr },
        decodeNewFont w.repr L w.RE_RegisterShaderNoMip
          (newKey simpleName (if pointSize ≤ 0 then 12 else pointSize))
          ((st.files (newKey simpleName (if pointSize ≤ 0 then 12 else pointSize))).getD [])) := by
  have hnot : ¬ st.registeredFontCount ≥ MAX_FONTS := by omega
  refine ⟨?_, ?_⟩
  rotate_left
  · simp only [RE_RegisterNewFont, hmiss, hnot, if_false, State.log, hfile, if_true]
    exact rfl

/-- The name of a record served by a cache file, and the repeated call for a
key that fits the name field: when a registration call with a non-empty font
name misses the registry, finds free capacity and is served by decoding a cache
file of the record size, the name of the returned record and of the registry
entry appended at index `registeredFontCount` is the cache key cut to the name
field (`Q_strncpyz(font->name, name, sizeof(font->name))`), whatever bytes the
file holds; and when the cache key is a C string of fewer than `MAX_QPATH`
characters, that name is the key itself, and an immediately repeated call with
the same arguments is answered from the registry: it returns the same record
and the state, `registeredFontCount` included, is unchanged. This holds for
`RE_RegisterFont` and for `RE_RegisterNewFont`. -/
theorem cache_hit_short_key {F : Type} (w : World F) (L : Layout) (fuel : Nat) (st : State F)
    (ch : Nat) (rest : List Nat) (simpleName : List Nat) (pointSize : Int)
    (font font2 : fontInfo_t F) (newFont newFont2 : newFontInfo_t F)
    (hcap : st.registeredFontCount < MAX_FONTS)
    (harr : MAX_FONTS ≤ st.registeredFont.length) :
    (findRegistered st (legacyKey (if pointSize ≤ 0 then 12 else pointSize)) = none →
      lengthIs st.files (legacyKey (if pointSize ≤ 0 then 12 else pointSize)) (fontInfoSize L)
        = true →
      ∃ st' rec, RE_RegisterFont w L fuel st (some (ch :: rest)) pointSize font = some (st', rec)
        ∧ st'.registeredFontCount = st.registeredFontCount + 1
        ∧ rec.name = Q_strncpyz (legacyKey (if pointSize ≤ 0 then 12 else pointSize)) L.MAX_QPATH
        ∧ (st'.registeredFont[st.registeredFontCount]?).map (fun e => e.name) = some rec.name
        ∧ ((∀ c ∈ legacyKey (if pointSize ≤ 0 then 12 else pointSize), c ≠ 0) →
            (legacyKey (if pointSize ≤ 0 then 12 else pointSize)).length < L.MAX_QPATH →
            rec.name = legacyKey (if pointSize ≤ 0 then 12 else pointSize)
              ∧ RE_RegisterFont w L fuel st' (some (ch :: rest)) pointSize font2
                  = some (st', rec)))
      ∧ (findRegistered st (newKey simpleName (if pointSize ≤ 0 then 12 else pointSize)) = none →
        lengthIs st.files (newKey simpleName (if pointSize ≤ 0 then 12 else pointSize))
          (newFontInfoSize L) = true →
        ∃ st' rec,
          RE_RegisterNewFont w L fuel st (some (ch :: rest)) simpleName pointSize newFont
            = some (st', rec)
          ∧ st'.registeredFontCount = st.registeredFontCount + 1
          ∧ rec.name
              = Q_strncpyz (newKey simpleName (if pointSize ≤ 0 then 12 else pointSize)) L.MAX_QPATH
          ∧ st'.registeredFont[st.registeredFontCount]? = some rec
          ∧ ((∀ c ∈ newKey simpleName (if pointSize ≤ 0 then 12 else pointSize), c ≠ 0) →
              (newKey simpleName (if pointSize ≤ 0 then 12 else pointSize)).length < L.MAX_QPATH →
              rec.name = newKey simpleName (if pointSize ≤ 0 then 12 else pointSize)
                ∧ RE_RegisterNewFont w L fuel st' (some (ch :: rest)) simpleName pointSize newFont2
                    = some (st', rec))) := by
  have hlt : st.registeredFontCount < st.registeredFont.length := by omega
  constructor
  · intro hmiss hfile
    obtain ⟨tr, hcall⟩ := registerFont_cacheHit w L fuel st ch rest pointSize font hcap hmiss hfile
    refine ⟨_, _, hcall, rfl, rfl, ?_, ?_⟩
    · simp only []
      rw [List.getElem?_set_self hlt]
      rfl
    · intro hnul hfit
      have hname := Q_strncpyz_fits _ L.MAX_QPATH hnul hfit
      have hfound := findRegistered_appended st
        (legacyKey (if pointSize ≤ 0 then 12 else pointSize))
        ((zeroNewFont w.ops L).overlay (decodeFont w.repr L w.RE_RegisterShaderNoMip
          (legacyKey (if pointSize ≤ 0 then 12 else pointSize))
          ((st.files (legacyKey (if pointSize ≤ 0 then 12 else pointSize))).getD []))) tr hmiss hlt
        (by
          show Q_stricmp_eq _ (Q_strncpyz _ L.MAX_QPATH) = true
          rw [hname]
          exact Q_stricmp_eq_self _)
      refine ⟨hname, ?_⟩
      simp only [RE_RegisterFont, hfound]
      rfl
  · intro hmiss hfile
    obtain ⟨tr, hcall⟩ := registerNewFont_cacheHit w L fuel st ch rest simpleName pointSize newFont
      hcap hmiss hfile
    refine ⟨_, _, hcall, rfl, rfl, ?_, ?_⟩
    · simp only []
      rw [List.getElem?_set_self hlt]
    · intro hnul hfit
      have hname := Q_strncpyz_fits _ L.MAX_QPATH hnul hfit
      have hfound := findRegistered_appended st
        (newKey simpleName (if pointSize ≤ 0 then 12 else pointSize))
        (decodeNewFont w.repr L w.RE_RegisterShaderNoMip
          (newKey simpleName (if pointSize ≤ 0 then 12 else pointSize))
          ((st.files (newKey simpleName (if pointSize ≤ 0 then 12 else pointSize))).getD [])) tr
        hmiss hlt
        (by
          show Q_stricmp_eq _ (Q_strncpyz _ L.MAX_QPATH) = true
          rw [hname]
          exact Q_stricmp_eq_self _)
      refine ⟨hname, ?_⟩
      simp only [RE_RegisterNewFont, hfound]

set_option maxRecDepth 100000 in
/-- A key that fits the name field, at a concrete input: over `newCacheFiles` the first call for the font
`a` at point size 12 is served by the cache file, the record is named
`fonts/a_12.dat`, and the repeated call returns the same record and the same
state. -/
theorem cache_hit_short_key_example :
    newCacheState.registeredFontCount < MAX_FONTS
      ∧ MAX_FONTS ≤ newCacheState.registeredFont.length
      ∧ ∃ st' rec,
          RE_RegisterNewFont (demoWorld false) tinyLayout 10 newCacheState
            (some (102 :: str "onts/a.ttf")) (str "a") 12 (zeroNewFont exactOps tinyLayout)
            = some (st', rec)
          ∧ st'.registeredFontCount = newCacheState.registeredFontCount + 1
          ∧ rec.name = newKey (str "a") 12
          ∧ RE_RegisterNewFont (demoWorld false) tinyLayout 10 st'
              (some (102 :: str "onts/a.ttf")) (str "a") 12 (zeroNewFont exactOps tinyLayout)
              = some (st', rec) :=
  have h := (cache_hit_short_key (demoWorld false) tinyLayout 10 newCacheState 102 (str "onts/a.ttf")
    (str "a") 12 (zeroFont exactOps tinyLayout) (zeroFont exactOps tinyLayout)
    (zeroNewFont exactOps tinyLayout) (zeroNewFont exactOps tinyLayout)
    (by decide) (by decide)).2 (by decide) (by decide)
  ⟨by decide, by decide, h.imp (fun _ hst => hst.imp (fun _ hr =>
    ⟨hr.1, hr.2.1, (hr.2.2.2.2 (by decide) (by decide)).1,
      (hr.2.2.2.2 (by decide) (by decide)).2⟩))⟩

set_option maxRecDepth 100000 in
/-- C25 evaluated at the failing input. Over `newCacheFiles`, which holds a
cache file of the record size under the key of the font `a` and under the key
of a font whose simple name has 60 characters, `RE_RegisterNewFont` is called
twice in a row with the same arguments. For the font `a` (key
`fonts/a_12.dat`, 14 characters) the first call is served by the cache file and
names the record after the key, and the repeated call is answered from the
registry: `registeredFontCount` goes from 0 to 1 and stays 1. For the long
simple name the key has 73 characters and the name field of `tinyLayout` holds
63: the first call is served by the cache file and names the record after the
first 63 characters of the key; the repeated call misses the registry, decodes
the file again and appends a second entry: `registeredFontCount` goes from 0 to
1 to 2. -/
theorem cache_hit_naming :
    (findRegistered newCacheState (newKey (str "a") 12) = none
      ∧ lengthIs newCacheState.files (newKey (str "a") 12) (newFontInfoSize tinyLayout) = true
      ∧ (newKey (str "a") 12).length = 14
      ∧ (RE_RegisterNewFont (demoWorld false) tinyLayout 10 newCacheState
          (some (str "fonts/a.ttf")) (str "a") 12 (zeroNewFont exactOps tinyLayout)).bind (fun r1 =>
        (RE_RegisterNewFont (demoWorld false) tinyLayout 10 r1.1 (some (str "fonts/a.ttf"))
          (str "a") 12 r1.2).map
          (fun r2 => (newCacheState.registeredFontCount, r1.1.registeredFontCount,
            r2.1.registeredFontCount, r1.2.name, r2.2.name)))
        = some (0, 1, 1, newKey (str "a") 12, newKey (str "a") 12))
      ∧ findRegistered newCacheState (newKey (List.replicate 60 97) 12) = none
      ∧ lengthIs newCacheState.files (newKey (List.replicate 60 97) 12)
          (newFontInfoSize tinyLayout) = true
      ∧ (newKey (List.replicate 60 97) 12).length = 73
      ∧ tinyLayout.MAX_QPATH = 64
      ∧ (RE_RegisterNewFont (demoWorld false) tinyLayout 10 newCacheState
          (some (str "fonts/a.ttf")) (List.replicate 60 97) 12
          (zeroNewFont exactOps tinyLayout)).bind (fun r1 =>
        (RE_RegisterNewFont (demoWorld false) tinyLayout 10 r1.1 (some (str "fonts/a.ttf"))
          (List.replicate 60 97) 12 r1.2).map
          (fun r2 => (newCacheState.registeredFontCount, r1.1.registeredFontCount,
            r2.1.registeredFontCount, r1.2.name, r2.2.name)))
        = some (0, 1, 2, (newKey (List.replicate 60 97) 12).take 63,
            (newKey (List.replicate 60 97) 12).take 63) := by
  refine ⟨⟨by decide, by decide, by decide, by decide⟩, by decide, by decide, by decide, by decide,
    by decide⟩

/-! ## The TGA file of a page -/

/-- The pixel loop after `n` iterations: the first `n` pixels hold the bytes of
`data` in the order blue, green, red, alpha; the rest of the buffer is as
before. -/
theorem tgaSwap_fold (data buffer : Int → Nat) (n : Nat) :
    let b := (List.range n).foldl
      (fun b (k : Nat) =>
        let i : Int := 18 + 4 * (k : Int)
        let b := Function.update b i (data (i - 18 + 2))
        let b := Function.update b (i + 1) (data (i - 18 + 1))
        let b := Function.update b (i + 2) (data (i - 18 + 0))
        Function.update b (i + 3) (data (i - 18 + 3)))
      buffer
    (∀ k : Int, 0 ≤ k → k < n →
        b (18 + 4 * k) = data (4 * k + 2) ∧ b (18 + 4 * k + 1) = data (4 * k + 1)
          ∧ b (18 + 4 * k + 2) = data (4 * k) ∧ b (18 + 4 * k + 3) = data (4 * k + 3))
      ∧ ∀ p : Int, (p < 18 ∨ 18 + 4 * (n : Int) ≤ p) → b p = buffer p := by
  induction n with
  | zero =>
    refine ⟨fun k h0 h1 => ?_, fun p _ => rfl⟩
    simp at h1
    omega
  | succ n ih =>
    simp only [List.range_succ, List.foldl_append, List.foldl_cons, List.foldl_nil]
    simp only [] at ih
    obtain ⟨ih1, ih2⟩ := ih
    refine ⟨?_, ?_⟩
    · intro k h0 h1
      by_cases hk : k = n
      · subst hk
        refine ⟨?_, ?_, ?_, ?_⟩
        · rw [Function.update_noteq (by omega), Function.update_noteq (by omega),
            Function.update_noteq (by omega), Function.update_same]
          congr 1
          ring
        · rw [Function.update_noteq (by omega), Function.update_noteq (by omega),
            Function.update_same]
          congr 1
          ring
        · rw [Function.update_noteq (by omega), Function.update_same]
          congr 1
          ring
        · rw [Function.update_same]
          congr 1
          ring
      · have hlt : k < n := by push_cast at h1; omega
        obtain ⟨a0, a1, a2, a3⟩ := ih1 k h0 hlt
        refine ⟨?_, ?_, ?_, ?_⟩
        · rw [Function.update_noteq (by omega), Function.update_noteq (by omega),
            Function.update_noteq (by omega), Function.update_noteq (by omega), a0]
        · rw [Function.update_noteq (by omega), Function.update_noteq (by omega),
            Function.update_noteq (by omega), Function.update_noteq (by omega), a1]
        · rw [Function.update_noteq (by omega), Function.update_noteq (by omega),
            Function.update_noteq (by omega), Function.update_noteq (by omega), a2]
        · rw [Function.update_noteq (by omega), Function.update_noteq (by omega),
            Function.update_noteq (by omega), Function.update_noteq (by omega), a3]
    · intro p hp
      push_cast at hp
      rw [Function.update_noteq (by omega), Function.update_noteq (by omega),
        Function.update_noteq (by omega), Function.update_noteq (by omega)]
      exact ih2 p (by omega)

/-- A byte of row `r` lies in row `r0` only if `r = r0`. -/
theorem row_of_mem (W r r0 q : Int) (hW : 0 < W) (hq : 0 ≤ q) (hqW : q < W)
    (h1 : r0 * W ≤ r * W + q) (h2 : r * W + q < r0 * W + W) : r = r0 := by
  by_contra hne
  rcases lt_or_gt_of_ne hne with h | h
  · have : (r + 1) * W ≤ r0 * W := mul_le_mul_of_nonneg_right (by omega) hW.le
    have e : (r + 1) * W = r * W + W := by ring
    omega
  · have : (r0 + 1) * W ≤ r * W := mul_le_mul_of_nonneg_right (by omega) hW.le
    have e : (r0 + 1) * W = r0 * W + W := by ring
    omega

/-- One exchange of rows, when no `int` expression overflows: the bytes of row
`height - row - 1` become those of row `row` and conversely. -/
theorem tgaFlipRow_eq (b : Int → Nat) (w h row : Int) (hw : 0 < w) (hrow : 0 ≤ row)
    (hh : 2 * row + 2 ≤ h) (hsz : 18 + 4 * (w * h) < 2147483648) (p : Int) :
    tgaFlipRow b w h row p
      = if 18 + (h - row - 1) * (4 * w) ≤ p ∧ p < 18 + (h - row - 1) * (4 * w) + 4 * w then
          b (18 + row * (4 * w) + (p - (18 + (h - row - 1) * (4 * w))))
        else if 18 + row * (4 * w) ≤ p ∧ p < 18 + row * (4 * w) + 4 * w then
          b (18 + (h - row - 1) * (4 * w) + (p - (18 + row * (4 * w))))
        else b p := by
  have hP1 : row * w ≤ h * w := mul_le_mul_of_nonneg_right (by omega) hw.le
  have hP2 : (h - row - 1) * w ≤ h * w := mul_le_mul_of_nonneg_right (by omega) hw.le
  have hP3 : 0 ≤ row * w := mul_nonneg hrow hw.le
  have hP4 : 0 ≤ (h - row - 1) * w := mul_nonneg (by omega) hw.le
  have hP5 : 1 * w ≤ h * w := mul_le_mul_of_nonneg_right (by omega) hw.le
  have hP6 : h * 1 ≤ h * w := mul_le_mul_of_nonneg_left (by omega) (by omega)
  have hc : h * w = w * h := mul_comm h w
  have e1 : wrapInt (row * 4) = row * 4 := wrapInt_eq _ (by unfold isInt32; omega)
  have e2 : wrapInt (row * 4 * w) = row * (4 * w) := by
    rw [wrapInt_eq _ (by
      unfold isInt32
      have : row * 4 * w = 4 * (row * w) := by ring
      omega)]
    ring
  have e3 : wrapInt (h - row) = h - row := wrapInt_eq _ (by unfold isInt32; omega)
  have e4 : wrapInt (h - row - 1) = h - row - 1 := wrapInt_eq _ (by unfold isInt32; omega)
  have e5 : wrapInt ((h - row - 1) * 4) = (h - row - 1) * 4 :=
    wrapInt_eq _ (by unfold isInt32; omega)
  have e6 : wrapInt ((h - row - 1) * 4 * w) = (h - row - 1) * (4 * w) := by
    rw [wrapInt_eq _ (by
      unfold isInt32
      have : (h - row - 1) * 4 * w = 4 * ((h - row - 1) * w) := by ring
      omega)]
    ring
  have e7 : wrapInt (w * 4) = 4 * w := by
    rw [wrapInt_eq _ (by unfold isInt32; omega)]
    ring
  simp only [tgaFlipRow, e1, e2, e3, e4, e5, e6, e7, copyBytes]
  have hd : (h - row - 1) * (4 * w) = 4 * ((h - row - 1) * w) := by ring
  have hs : row * (4 * w) = 4 * (row * w) := by ring
  by_cases c1 : 18 + (h - row - 1) * (4 * w) ≤ p ∧ p < 18 + (h - row - 1) * (4 * w) + 4 * w
  · rw [if_pos c1, if_pos c1, if_pos (by omega)]
    congr 1
    omega
  · rw [if_neg c1, if_neg c1]

/-- The flip loop after `m` iterations: the first and the last `m` rows are
exchanged, the rows between them and the header are as before. -/
theorem tgaFlip_fold (S : Int → Nat) (w h : Int) (hw : 0 < w)
    (hsz : 18 + 4 * (w * h) < 2147483648) (m : Nat) (hm : 2 * (m : Int) ≤ h) :
    (∀ r q : Int, 0 ≤ r → r < h → 0 ≤ q → q < 4 * w →
        (List.range m).foldl (fun b (row : Nat) => tgaFlipRow b w h row) S (18 + r * (4 * w) + q)
          = S (18 + (if r < m ∨ h - m ≤ r then h - 1 - r else r) * (4 * w) + q))
      ∧ ∀ p : Int, p < 18 →
          (List.range m).foldl (fun b (row : Nat) => tgaFlipRow b w h row) S p = S p := by
  induction m with
  | zero =>
    refine ⟨fun r q h0 h1 _ _ => ?_, fun p _ => rfl⟩
    rw [if_neg (by push_cast; omega)]
    rfl
  | succ m ih =>
    push_cast at hm
    obtain ⟨ih1, ih2⟩ := ih (by omega)
    simp only [List.range_succ, List.foldl_append, List.foldl_cons, List.foldl_nil]
    have h4w : 0 < 4 * w := by omega
    have hm0 : (0 : Int) ≤ m := Int.ofNat_nonneg m
    refine ⟨?_, ?_⟩
    · intro r q h0 h1 hq0 hq1
      rw [tgaFlipRow_eq _ w h m hw hm0 (by omega) hsz]
      by_cases c1 : 18 + (h - m - 1) * (4 * w) ≤ 18 + r * (4 * w) + q
          ∧ 18 + r * (4 * w) + q < 18 + (h - m - 1) * (4 * w) + 4 * w
      · have hr : r = h - m - 1 :=
          row_of_mem (4 * w) r (h - m - 1) q h4w hq0 hq1 (by omega) (by omega)
        rw [if_pos c1, hr]
        have e : 18 + (m : Int) * (4 * w)
            + (18 + (h - m - 1) * (4 * w) + q - (18 + (h - m - 1) * (4 * w)))
            = 18 + (m : Int) * (4 * w) + q := by ring
        rw [e, ih1 m q hm0 (by omega) hq0 hq1, if_neg (by omega), if_pos (by push_cast; omega)]
        congr 2
        ring
      · rw [if_neg c1]
        by_cases c2 : 18 + (m : Int) * (4 * w) ≤ 18 + r * (4 * w) + q
            ∧ 18 + r * (4 * w) + q < 18 + (m : Int) * (4 * w) + 4 * w
        · have hr : r = m := row_of_mem (4 * w) r m q h4w hq0 hq1 (by omega) (by omega)
          rw [if_pos c2, hr]
          have e : 18 + (h - m - 1) * (4 * w) + (18 + (m : Int) * (4 * w) + q - (18 + m * (4 * w)))
              = 18 + (h - m - 1) * (4 * w) + q := by ring
          rw [e, ih1 (h - m - 1) q (by omega) (by omega) hq0 hq1, if_neg (by omega),
            if_pos (by push_cast; omega)]
          congr 2
          ring
        · rw [if_neg c2, ih1 r q h0 h1 hq0 hq1]
          have hne1 : r ≠ m := by
            intro hr
            apply c2
            rw [hr]
            omega
          have hne2 : r ≠ h - m - 1 := by
            intro hr
            apply c1
            rw [hr]
            omega
          by_cases c3 : r < m ∨ h - m ≤ r
          · rw [if_pos c3, if_pos (by push_cast; omega)]
          · rw [if_neg c3, if_neg (by push_cast; omega)]
    · intro p hp
      have hP4 : 0 ≤ (h - m - 1) * w := mul_nonneg (by omega) hw.le
      have hP3 : 0 ≤ (m : Int) * w := mul_nonneg hm0 hw.le
      have hd : (h - m - 1) * (4 * w) = 4 * ((h - m - 1) * w) := by ring
      have hs : (m : Int) * (4 * w) = 4 * (m * w) := by ring
      rw [tgaFlipRow_eq _ w h m hw hm0 (by omega) hsz, if_neg (by omega), if_neg (by omega)]
      exact ih2 p hp

/-- The bytes `WriteTGA` hands to `FS_WriteFile` when `18 + 4 * width * height`
fits an `int`. -/
theorem WriteTGA_bytes (mem data : Int → Nat) (w h : Int) (hw : 0 < w) (hh : 0 < h)
    (hsz : 18 + 4 * (w * h) < 2147483648) :
    WriteTGA mem data w h
      = (List.range (18 + 4 * (w * h)).toNat).map (fun (k : Nat) =>
          tgaFlip (tgaSwap data (tgaHeader mem w h) (18 + 4 * (w * h))) w h (k : Int)) := by
  have hP : 0 < w * h := mul_pos hw hh
  have e1 : wrapInt (w * h) = w * h := wrapInt_eq _ (by unfold isInt32; omega)
  have e2 : wrapInt (w * h * 4) = 4 * (w * h) := by
    rw [wrapInt_eq _ (by unfold isInt32; omega)]
    ring
  have e3 : wrapInt (18 + 4 * (w * h)) = 18 + 4 * (w * h) :=
    wrapInt_eq _ (by unfold isInt32; omega)
  simp only [WriteTGA, e1, e2, e3]

/-- The header bytes are those of `tgaHeader`: neither loop writes below
offset 18. -/
theorem tga_header_kept (mem data : Int → Nat) (w h : Int) (hw : 0 < w) (hh : 0 < h)
    (hsz : 18 + 4 * (w * h) < 2147483648) (p : Int) (hp : p < 18) :
    tgaFlip (tgaSwap data (tgaHeader mem w h) (18 + 4 * (w * h))) w h p = tgaHeader mem w h p := by
  have hm : 2 * (((h / 2).toNat : Nat) : Int) ≤ h := by omega
  unfold tgaFlip
  rw [(tgaFlip_fold _ w h hw hsz (h / 2).toNat hm).2 p hp]
  unfold tgaSwap
  exact (tgaSwap_fold data _ _).2 p (Or.inl hp)

/-- The pixel at row `r` and column `c` of the written image is the pixel at
row `h - 1 - r` and column `c` of `data`, stored as blue, green, red, alpha. -/
theorem tga_pixel (mem data : Int → Nat) (w h : Int) (hw : 0 < w)
    (hsz : 18 + 4 * (w * h) < 2147483648) (r c : Int) (hr0 : 0 ≤ r) (hr : r < h) (hc0 : 0 ≤ c)
    (hc : c < w) (j : Int) (hj0 : 0 ≤ j) (hj : j < 4) :
    tgaFlip (tgaSwap data (tgaHeader mem w h) (18 + 4 * (w * h))) w h (18 + 4 * (r * w + c) + j)
      = tgaSwap data (tgaHeader mem w h) (18 + 4 * (w * h))
          (18 + 4 * ((h - 1 - r) * w + c) + j) := by
  have hm : 2 * (((h / 2).toNat : Nat) : Int) ≤ h := by omega
  have hm2 : h < 2 * (((h / 2).toNat : Nat) : Int) + 2 := by omega
  unfold tgaFlip
  have e : 18 + 4 * (r * w + c) + j = 18 + r * (4 * w) + (4 * c + j) := by ring
  rw [e, (tgaFlip_fold _ w h hw hsz (h / 2).toNat hm).1 r (4 * c + j) hr0 hr (by omega) (by omega)]
  have hr2 : (if r < (((h / 2).toNat : Nat) : Int) ∨ h - (((h / 2).toNat : Nat) : Int) ≤ r
      then h - 1 - r else r) = h - 1 - r := by
    split_ifs with hcase
    · rfl
    · omega
  rw [hr2]
  congr 1
  ring

theorem tgaHeader_val (mem : Int → Nat) (w h p : Int) :
    tgaHeader mem w h p
      = if p = 16 then 32 else if p = 15 then storeByte (h / 256)
        else if p = 14 then storeByte (h % 256) else if p = 13 then storeByte (w / 256)
        else if p = 12 then storeByte (w % 256) else if p = 2 then 2
        else if 0 ≤ p ∧ p < 18 then 0 else mem p := by
  simp only [tgaHeader, Function.update, eq_rec_constant, dite_eq_ite]

/-- The pixel loop run up to `c = 18 + 4 * N`: pixel `k < N` holds the bytes of
pixel `k` of `data` in the order blue, green, red, alpha. -/
theorem tgaSwap_pixel (data buffer : Int → Nat) (N k : Int) (hk0 : 0 ≤ k) (hk : k < N) :
    tgaSwap data buffer (18 + 4 * N) (18 + 4 * k) = data (4 * k + 2)
      ∧ tgaSwap data buffer (18 + 4 * N) (18 + 4 * k + 1) = data (4 * k + 1)
      ∧ tgaSwap data buffer (18 + 4 * N) (18 + 4 * k + 2) = data (4 * k)
      ∧ tgaSwap data buffer (18 + 4 * N) (18 + 4 * k + 3) = data (4 * k + 3) := by
  have hn : ((18 + 4 * N - 18 + 3) / 4).toNat = N.toNat := by
    congr 1
    omega
  unfold tgaSwap
  rw [hn]
  exact (tgaSwap_fold data buffer N.toNat).1 k hk0 (by omega)

/-- C26. TGA encoding: for every RGBA input of width `w` and height `h` with
`0 < w, h < 65536` and `18 + 4*w*h < 2^31`, the bytes `WriteTGA` writes are
`18 + 4*w*h` in number; byte 2 is 2, bytes 12..15 are `w` and `h` as 16-bit
little-endian values, byte 16 is 32 and the other bytes of the header are 0; the
pixel at output row `r`, column `c` is the input pixel at row `h - 1 - r`,
column `c`, stored as blue, green, red, alpha, for every `r < h` and `c < w`. -/
theorem tga_encoding (mem data : Int → Nat) (w h : Nat) (hw : 0 < w) (hh : 0 < h)
    (hw2 : w < 65536) (hh2 : h < 65536) (hsz : 18 + 4 * w * h < 2147483648) :
    (WriteTGA mem data w h).length = 18 + 4 * w * h
      ∧ (WriteTGA mem data w h)[2]? = some 2
      ∧ (WriteTGA mem data w h)[12]? = some (w % 256)
      ∧ (WriteTGA mem data w h)[13]? = some (w / 256)
      ∧ (WriteTGA mem data w h)[14]? = some (h % 256)
      ∧ (WriteTGA mem data w h)[15]? = some (h / 256)
      ∧ (WriteTGA mem data w h)[16]? = some 32
      ∧ (∀ k, k < 18 → k ≠ 2 → k ≠ 12 → k ≠ 13 → k ≠ 14 → k ≠ 15 → k ≠ 16 →
          (WriteTGA mem data w h)[k]? = some 0)
      ∧ ∀ r c, r < h → c < w →
          (WriteTGA mem data w h)[18 + 4 * (r * w + c)]?
              = some (data ((4 * ((h - 1 - r) * w + c) + 2 : Nat) : Int))
            ∧ (WriteTGA mem data w h)[18 + 4 * (r * w + c) + 1]?
              = some (data ((4 * ((h - 1 - r) * w + c) + 1 : Nat) : Int))
            ∧ (WriteTGA mem data w h)[18 + 4 * (r * w + c) + 2]?
              = some (data ((4 * ((h - 1 - r) * w + c) : Nat) : Int))
            ∧ (WriteTGA mem data w h)[18 + 4 * (r * w + c) + 3]?
              = some (data ((4 * ((h - 1 - r) * w + c) + 3 : Nat) : Int)) := by
  have hwI : (0 : Int) < (w : Int) := by exact_mod_cast hw
  have hhI : (0 : Int) < (h : Int) := by exact_mod_cast hh
  have hszI : 18 + 4 * ((w : Int) * (h : Int)) < 2147483648 := by
    have : ((18 + 4 * w * h : Nat) : Int) < 2147483648 := by exact_mod_cast hsz
    push_cast at this
    linarith
  have hlenI : (18 + 4 * ((w : Int) * (h : Int))).toNat = 18 + 4 * w * h := by
    have : 18 + 4 * ((w : Int) * (h : Int)) = ((18 + 4 * w * h : Nat) : Int) := by
      push_cast
      ring
    rw [this, Int.toNat_ofNat]
  have hP : 0 < w * h := Nat.mul_pos hw hh
  have hget : ∀ k : Nat, k < 18 + 4 * w * h → (WriteTGA mem data w h)[k]?
      = some (tgaFlip (tgaSwap data (tgaHeader mem w h) (18 + 4 * ((w : Int) * (h : Int)))) w h
          (k : Int)) := by
    intro k hk
    rw [WriteTGA_bytes mem data w h hwI hhI hszI, hlenI, List.getElem?_map,
      List.getElem?_range hk]
    rfl
  have hhead : ∀ k : Nat, k < 18 → (WriteTGA mem data w h)[k]? = some (tgaHeader mem w h (k : Int)) := by
    intro k hk
    rw [hget k (by omega), tga_header_kept mem data w h hwI hhI hszI k (by omega)]
  refine ⟨?_, ?_, ?_, ?_, ?_, ?_, ?_, ?_, ?_⟩
  · rw [WriteTGA_bytes mem data w h hwI hhI hszI, List.length_map, List.length_range, hlenI]
  · rw [hhead 2 (by omega), tgaHeader_val]
    rfl
  · rw [hhead 12 (by omega), tgaHeader_val]
    simp only [Nat.cast_ofNat, storeByte]
    norm_num
    omega
  · rw [hhead 13 (by omega), tgaHeader_val]
    simp only [Nat.cast_ofNat, storeByte]
    norm_num
    omega
  · rw [hhead 14 (by omega), tgaHeader_val]
    simp only [Nat.cast_ofNat, storeByte]
    norm_num
    omega
  · rw [hhead 15 (by omega), tgaHeader_val]
    simp only [Nat.cast_ofNat, storeByte]
    norm_num
    omega
  · rw [hhead 16 (by omega), tgaHeader_val]
    rfl
  · intro k hk k2 k12 k13 k14 k15 k16
    rw [hhead k hk, tgaHeader_val, if_neg (by omega), if_neg (by omega), if_neg (by omega),
      if_neg (by omega), if_neg (by omega), if_neg (by omega), if_pos (by omega)]
  · intro r c hr hc
    have hrw : (r * w + c) + 1 ≤ w * h := by
      calc r * w + c + 1 ≤ r * w + w := by omega
        _ = (r + 1) * w := by ring
        _ ≤ h * w := Nat.mul_le_mul_right _ hr
        _ = w * h := Nat.mul_comm _ _
    have hrw2 : ((h - 1 - r) * w + c) + 1 ≤ w * h := by
      calc (h - 1 - r) * w + c + 1 ≤ (h - 1 - r) * w + w := by omega
        _ = (h - 1 - r + 1) * w := by ring
        _ ≤ h * w := Nat.mul_le_mul_right _ (by omega)
        _ = w * h := Nat.mul_comm _ _
    have hcast : (((h - 1 - r : Nat) : Int)) = (h : Int) - 1 - r := by omega
    have hsw := tgaSwap_pixel data (tgaHeader mem w h) ((w : Int) * (h : Int))
      ((((h - 1 - r) * w + c : Nat)) : Int) (by omega) (by exact_mod_cast hrw2)
    have hpix : ∀ j : Nat, j < 4 →
        (WriteTGA mem data w h)[18 + 4 * (r * w + c) + j]?
          = some (tgaSwap data (tgaHeader mem w h) (18 + 4 * ((w : Int) * (h : Int)))
              (18 + 4 * ((((h - 1 - r) * w + c : Nat)) : Int) + j)) := by
      intro j hj
      rw [hget _ (by omega)]
      have := tga_pixel mem data w h hwI hszI r c (by omega) (by exact_mod_cast hr) (by omega)
        (by exact_mod_cast hc) j (by omega) (by exact_mod_cast hj)
      push_cast
      rw [this, hcast]
    obtain ⟨a0, a1, a2, a3⟩ := hsw
    refine ⟨?_, ?_, ?_, ?_⟩
    · have := hpix 0 (by omega)
      rw [Nat.add_zero, Nat.cast_zero, add_zero] at this
      rw [this, a0]
      push_cast
      rfl
    · have := hpix 1 (by omega)
      rw [Nat.cast_one] at this
      rw [this, a1]
      push_cast
      rfl
    · have := hpix 2 (by omega)
      rw [Nat.cast_ofNat] at this
      rw [this, a2]
      push_cast
      rfl
    · have := hpix 3 (by omega)
      rw [Nat.cast_ofNat] at this
      rw [this, a3]
      push_cast
      rfl

set_option maxRecDepth 100000 in
/-- C26 at a concrete input: an image of 2 columns and 3 rows gives 42 bytes;
the first output pixel is the first pixel of the last input row, whose bytes
are `data[16..19]`, in the order blue, green, red, alpha. -/
theorem tga_encoding_witness :
    (WriteTGA (fun _ => 9) demoImage 2 3).length = 42
      ∧ (WriteTGA (fun _ => 9) demoImage 2 3)[12]? = some 2
      ∧ (WriteTGA (fun _ => 9) demoImage 2 3)[14]? = some 3
      ∧ (WriteTGA (fun _ => 9) demoImage 2 3)[18]? = some (demoImage 18)
      ∧ (WriteTGA (fun _ => 9) demoImage 2 3)[19]? = some (demoImage 17)
      ∧ (WriteTGA (fun _ => 9) demoImage 2 3)[20]? = some (demoImage 16)
      ∧ (WriteTGA (fun _ => 9) demoImage 2 3)[21]? = some (demoImage 19) :=
  have h := tga_encoding (fun _ => 9) demoImage 2 3 (by decide) (by decide) (by decide)
    (by decide) (by decide)
  have hp := h.2.2.2.2.2.2.2.2 0 0 (by decide) (by decide)
  ⟨h.1, h.2.2.1, h.2.2.2.2.1, hp.1, hp.2.1, hp.2.2.1, hp.2.2.2⟩

/-- C26 as stated fails for large images: with `w = h = 32768`, both below
65536, the byte count `18 + 4*w*h` is not a value of `int`, the type in which
`WriteTGA` computes it and passes it on; with 32-bit wrap-around the expression
`18 + width * height * 4` has the value 18, and the file holds 18 bytes, not
`18 + 4*w*h`. -/
theorem tga_encoding_counterexample :
    (0 : Int) < 32768 ∧ (32768 : Int) < 65536
      ∧ ¬ isInt32 (18 + 4 * 32768 * 32768)
      ∧ (WriteTGA (fun _ => 0) (fun _ => 0) 32768 32768).length = 18
      ∧ (WriteTGA (fun _ => 0) (fun _ => 0) 32768 32768).length ≠ 18 + 4 * 32768 * 32768 := by
  have hl : (WriteTGA (fun _ => 0) (fun _ => 0) 32768 32768).length = 18 := by
    simp only [WriteTGA, List.length_map, List.length_range]
    decide
  refine ⟨by decide, by decide, by decide, hl, ?_⟩
  rw [hl]
  decide

/-! ## Tutorial key filtering -/


/-- The two loops of `CG_GetAllowedKeys` for a mode `mode`: the keys before the
first `K_NONE` that the mode allows, then `-1` up to three entries. -/
theorem allowedKeys_loops (E : TutorialModes) (K : KeyCodes) (mode : Int)
    (bkeys keys : List Int) (hb : bkeys.length = 3) (hk : keys.length = 3) :
    padKeysLoop (3 - (allowedKeysLoop E K mode bkeys 3 0 0 keys).1)
        (allowedKeysLoop E K mode bkeys 3 0 0 keys).1 (allowedKeysLoop E K mode bkeys 3 0 0 keys).2
      = ((bkeys.takeWhile (fun key => key != K.K_NONE)).filter (keyAllowed E K mode))
          ++ List.replicate
            (3 - ((bkeys.takeWhile (fun key => key != K.K_NONE)).filter
              (keyAllowed E K mode)).length) (-1) := by
  obtain ⟨a, b, c, rfl⟩ : ∃ a b c, bkeys = [a, b, c] := by
    match bkeys, hb with
    | [a, b, c], _ => exact ⟨a, b, c, rfl⟩
  obtain ⟨x, y, z, rfl⟩ : ∃ x y z, keys = [x, y, z] := by
    match keys, hk with
    | [x, y, z], _ => exact ⟨x, y, z, rfl⟩
  by_cases ha : a = K.K_NONE <;> by_cases hb1 : b = K.K_NONE <;> by_cases hc : c = K.K_NONE <;>
    by_cases pa : keyAllowed E K mode a = true <;> by_cases pb : keyAllowed E K mode b = true <;>
    by_cases pc : keyAllowed E K mode c = true <;>
    simp [allowedKeysLoop, padKeysLoop, List.takeWhile_cons, List.filter_cons, ha, hb1, hc, pa, pb,
      pc, List.replicate]

/-- C27. Tutorial key filtering: for a binding with three key slots and every
value of the tutorial setting, `CG_GetAllowedKeys` leaves three entries in
`keys`: the keys of the binding before its first `K_NONE` entry that pass the
filter of the mode, in their order, followed by `-1` in the remaining slots. The
mode is never `TUTO_AUTOMATIC`, a setting outside
`[TUTO_DISABLED, TUTO_AUTOMATIC]` gives `TUTO_ALL`; in `TUTO_ALL` every key
passes, in `TUTO_GAMEPAD` the keys in
`[K_FIRST_GAMEPAD_KEY, K_LAST_GAMEPAD_KEY]`, in `TUTO_MOUSE` the keys below
`K_FIRST_GAMEPAD_KEY`. The enumerators are distinct and `TUTO_DISABLED` is not
above `TUTO_AUTOMATIC`. -/
theorem allowed_keys (E : TutorialModes) (K : KeyCodes) (cg_tutorial in_joystickCount : Int)
    (bkeys keys : List Int) (hb : bkeys.length = 3) (hk : keys.length = 3)
    (hall : E.TUTO_ALL ≠ E.TUTO_AUTOMATIC ∧ E.TUTO_ALL ≠ E.TUTO_GAMEPAD ∧ E.TUTO_ALL ≠ E.TUTO_MOUSE)
    (hpad : E.TUTO_GAMEPAD ≠ E.TUTO_AUTOMATIC ∧ E.TUTO_GAMEPAD ≠ E.TUTO_MOUSE)
    (hmouse : E.TUTO_MOUSE ≠ E.TUTO_AUTOMATIC)
    (hord : E.TUTO_DISABLED ≤ E.TUTO_AUTOMATIC) :
    CG_GetAllowedKeys E K cg_tutorial in_joystickCount bkeys keys
        = ((bkeys.takeWhile (fun key => key != K.K_NONE)).filter
              (keyAllowed E K (CG_getTutorialMode E cg_tutorial in_joystickCount)))
            ++ List.replicate
              (3 - ((bkeys.takeWhile (fun key => key != K.K_NONE)).filter
                (keyAllowed E K (CG_getTutorialMode E cg_tutorial in_joystickCount))).length) (-1)
      ∧ (CG_GetAllowedKeys E K cg_tutorial in_joystickCount bkeys keys).length = 3
      ∧ CG_getTutorialMode E cg_tutorial in_joystickCount ≠ E.TUTO_AUTOMATIC
      ∧ ((cg_tutorial < E.TUTO_DISABLED ∨ E.TUTO_AUTOMATIC < cg_tutorial) →
          CG_getTutorialMode E cg_tutorial in_joystickCount = E.TUTO_ALL)
      ∧ (∀ key, keyAllowed E K E.TUTO_ALL key = true)
      ∧ (∀ key, keyAllowed E K E.TUTO_GAMEPAD key = true
          ↔ K.K_FIRST_GAMEPAD_KEY ≤ key ∧ key ≤ K.K_LAST_GAMEPAD_KEY)
      ∧ (∀ key, keyAllowed E K E.TUTO_MOUSE key = true ↔ key < K.K_FIRST_GAMEPAD_KEY) := by
  refine ⟨?_, ?_, ?_, ?_, ?_, ?_, ?_⟩
  · simp only [CG_GetAllowedKeys]
    exact allowedKeys_loops E K _ bkeys keys hb hk
  · simp only [CG_GetAllowedKeys]
    rw [allowedKeys_loops E K _ bkeys keys hb hk, List.length_append, List.length_replicate]
    have h1 := List.length_filter_le
      (keyAllowed E K (CG_getTutorialMode E cg_tutorial in_joystickCount))
      (bkeys.takeWhile (fun key => key != K.K_NONE))
    have h2 : (bkeys.takeWhile (fun key => key != K.K_NONE)).length ≤ bkeys.length :=
      (List.takeWhile_sublist _).length_le
    omega
  · unfold CG_getTutorialMode
    simp only []
    split_ifs <;> first | exact hpad.1 | exact hmouse | exact hall.1 | assumption
  · intro h
    unfold CG_getTutorialMode
    simp only []
    rw [if_neg (by omega), if_pos (by omega)]
  · intro key
    simp [keyAllowed]
  · intro key
    simp only [keyAllowed, decide_eq_true_eq, ge_iff_le]
    constructor
    · rintro (h | h | h)
      · exact absurd h.symm hall.2.1
      · exact h.2
      · exact absurd h.1 hpad.2
    · intro h
      exact Or.inr (Or.inl ⟨trivial, h⟩)
  · intro key
    simp only [keyAllowed, decide_eq_true_eq, ge_iff_le]
    constructor
    · rintro (h | h | h)
      · exact absurd h.symm hall.2.2
      · exact absurd h.1.symm hpad.2
      · exact h.2
    · intro h
      exact Or.inr (Or.inr ⟨trivial, h⟩)

/-- C27 at a concrete input: with the setting on automatic and a joystick
present the mode is the gamepad one; of the keys 32, 210, 220 of a binding the
two gamepad keys are kept, and one slot is padded. -/
theorem allowed_keys_witness :
    CG_GetAllowedKeys demoModes demoKeys 4 1 [32, 210, 220] [0, 0, 0] = [210, 220, -1]
      ∧ CG_getTutorialMode demoModes 4 1 ≠ demoModes.TUTO_AUTOMATIC
      ∧ CG_getTutorialMode demoModes 9 1 = demoModes.TUTO_ALL :=
  have h := allowed_keys demoModes demoKeys 4 1 [32, 210, 220] [0, 0, 0] rfl rfl
    (by decide) (by decide) (by decide) (by decide)
  have h9 := allowed_keys demoModes demoKeys 9 1 [32, 210, 220] [0, 0, 0] rfl rfl
    (by decide) (by decide) (by decide) (by decide)
  ⟨h.1.trans (by decide), h.2.2.1, h9.2.2.2.1 (Or.inr (by decide))⟩

/-! ## The margin of a shadow level -/

/-- Scaling by a power of two commutes with rounding to binary32 (the exponent
range is not bounded). -/
theorem round32_scale (q : ℚ) (hq : 0 < q) (k : Int) :
    round32 (q * (2 : ℚ) ^ k) = round32 q * (2 : ℚ) ^ k := by
  have hk : (0 : ℚ) < (2 : ℚ) ^ k := zpow_pos (by norm_num) k
  have hqk : 0 < q * (2 : ℚ) ^ k := mul_pos hq hk
  have h1 : (2 : ℚ) ^ (Int.log 2 q) ≤ q := by
    have := Int.zpow_log_le_self (b := 2) (by norm_num) hq
    exact_mod_cast this
  have h2 : q < (2 : ℚ) ^ (Int.log 2 q + 1) := by
    have := Int.lt_zpow_succ_log_self (b := 2) (by norm_num) q
    exact_mod_cast this
  have hlog : Int.log 2 (q * (2 : ℚ) ^ k) = Int.log 2 q + k := by
    apply log_eq_of_bounds
    · rw [zpow_add₀ (by norm_num)]
      exact mul_le_mul_of_nonneg_right h1 hk.le
    · have : Int.log 2 q + k + 1 = (Int.log 2 q + 1) + k := by ring
      rw [this, zpow_add₀ (by norm_num)]
      exact mul_lt_mul_of_pos_right h2 hk
  have hsplit : (2 : ℚ) ^ (Int.log 2 q + k - 23) = (2 : ℚ) ^ (Int.log 2 q - 23) * (2 : ℚ) ^ k := by
    have : Int.log 2 q + k - 23 = (Int.log 2 q - 23) + k := by ring
    rw [this, zpow_add₀ (by norm_num)]
  have hu : (0 : ℚ) < (2 : ℚ) ^ (Int.log 2 q - 23) := zpow_pos (by norm_num) _
  unfold round32
  rw [if_neg (ne_of_gt hqk), if_neg (ne_of_gt hq), abs_of_pos hqk, abs_of_pos hq, hlog, hsplit]
  have hquot : q * (2 : ℚ) ^ k / ((2 : ℚ) ^ (Int.log 2 q - 23) * (2 : ℚ) ^ k)
      = q / (2 : ℚ) ^ (Int.log 2 q - 23) := by
    field_simp
    ring
  rw [hquot]
  ring

/-- Half of a natural number below `2^24` is a binary32 value. -/
theorem round32_half (n : Nat) (hn : n < 2 ^ 24) : round32 ((n : ℚ) / 2) = (n : ℚ) / 2 := by
  rcases Nat.eq_zero_or_pos n with rfl | hpos
  · simp [round32]
  have hq : (0 : ℚ) < n := by exact_mod_cast hpos
  have h := round32_scale (n : ℚ) hq (-1)
  rw [round32_nat n hn] at h
  have e : (n : ℚ) * (2 : ℚ) ^ (-1 : Int) = (n : ℚ) / 2 := by
    rw [zpow_neg_one]
    ring
  rw [e] at h
  exact h

/-- The error of four roundings in a row, as the computation of the margin
makes them: with `P` the rounded point size, `Q` the rounded quotient, `S` the
rounded quarter of it and `M` the rounded double of that, `M` is within
`8 * 2^-24` relative to `a / p`. -/
theorem margin_error (a p P Q S M : ℚ) (ha : 0 < a) (hp : 0 < p)
    (hP : |P - p| ≤ p / 2 ^ 24) (hQ : |Q - 2 * a / P| ≤ 2 * a / P / 2 ^ 24)
    (hS : |S - Q / 4| ≤ Q / 4 / 2 ^ 24) (hM : |M - S * 2| ≤ S * 2 / 2 ^ 24) :
    a / p * (1 - 8 / 2 ^ 24) ≤ M ∧ M ≤ a / p * (1 + 8 / 2 ^ 24) := by
  have hX : 0 < a / p := div_pos ha hp
  rw [abs_le] at hP hQ hS hM
  have hPlo : p * (16777215 / 16777216) ≤ P := by linarith only [hP.1]
  have hPhi : P ≤ p * (16777217 / 16777216) := by linarith only [hP.2]
  have hPpos : 0 < P := lt_of_lt_of_le (by positivity) hPlo
  have hYhi : 2 * a / P ≤ a / p * (2 * (16777216 / 16777215)) := by
    have h1 : 2 * a / P ≤ 2 * a / (p * (16777215 / 16777216)) :=
      div_le_div_of_nonneg_left (by positivity) (by positivity) hPlo
    have h2 : 2 * a / (p * (16777215 / 16777216)) = a / p * (2 * (16777216 / 16777215)) := by
      field_simp
      ring
    linarith only [h1, h2]
  have hYlo : a / p * (2 * (16777216 / 16777217)) ≤ 2 * a / P := by
    have h1 : 2 * a / (p * (16777217 / 16777216)) ≤ 2 * a / P :=
      div_le_div_of_nonneg_left (by positivity) hPpos hPhi
    have h2 : 2 * a / (p * (16777217 / 16777216)) = a / p * (2 * (16777216 / 16777217)) := by
      field_simp
      ring
    linarith only [h1, h2]
  generalize 2 * a / P = Y at hQ hYhi hYlo
  generalize a / p = X at hX hYhi hYlo ⊢
  constructor
  · linarith only [hQ.1, hS.1, hM.1, hYlo, hX]
  · linarith only [hQ.2, hS.2, hM.2, hYhi, hX]

/-- The margin that the binary32 computation of lines 885-887 gives for level
`l` (elevation `l + 1`) at point size `p > 0`: the ceiling of `72 * (l + 1) / p`,
as in exact arithmetic, for the levels below 1024. -/
theorem shadowBlur_margin (p : Int) (l : Nat) (hp : 0 < p) (hl : l < 1024) :
    (shadowBlur binary32Ops p l).1 = ⌈(72 * ((l : ℚ) + 1)) / (p : ℚ)⌉ := by
  obtain ⟨P0, rfl⟩ : ∃ P0 : Nat, p = (P0 : Int) := ⟨p.toNat, by omega⟩
  have hP0 : 0 < P0 := by exact_mod_cast hp
  have hP0q : (0 : ℚ) < (P0 : ℚ) := by exact_mod_cast hP0
  have rE : round32 ((((l : Int) + 1 : Int)) : ℚ) = (l : ℚ) + 1 := by
    have := round32_nat (l + 1) (by norm_num; omega)
    push_cast at this ⊢
    exact this
  have rD : round32 ((DPI : Int) : ℚ) = 144 := by
    have := round32_nat 144 (by norm_num)
    simpa [DPI] using this
  have r4 : round32 (((4 : Int)) : ℚ) = 4 := by
    have := round32_nat 4 (by norm_num)
    simpa using this
  have r2 : round32 (((2 : Int)) : ℚ) = 2 := by
    have := round32_nat 2 (by norm_num)
    simpa using this
  have rProd : round32 (((l : ℚ) + 1) * 144) = 2 * (72 * ((l : ℚ) + 1)) := by
    have := round32_nat (144 * (l + 1)) (by norm_num; omega)
    push_cast at this
    have e : ((l : ℚ) + 1) * 144 = 144 * ((l : ℚ) + 1) := by ring
    rw [e, this]
    ring
  simp only [shadowBlur, binary32Ops, rE, rD, r4, r2, rProd, Int.cast_natCast]
  have ha : (0 : ℚ) < 72 * ((l : ℚ) + 1) := by positivity
  have haN : (72 * ((l : ℚ) + 1)) = ((72 * (l + 1) : Nat) : ℚ) := by push_cast; ring
  by_cases hd : P0 ∣ 72 * (l + 1)
  · obtain ⟨n, hn⟩ := hd
    have hn0 : 0 < n := by
      rcases Nat.eq_zero_or_pos n with h0 | h0
      · rw [h0] at hn; omega
      · exact h0
    have hPle : P0 ≤ 72 * (l + 1) := by
      rw [hn]
      exact Nat.le_mul_of_pos_right _ hn0
    have hnle : n ≤ 72 * (l + 1) := by
      rw [hn]
      exact Nat.le_mul_of_pos_left _ hP0
    have rP : round32 (P0 : ℚ) = P0 := round32_nat P0 (by norm_num; omega)
    have hquot : 2 * (72 * ((l : ℚ) + 1)) / (P0 : ℚ) = ((2 * n : Nat) : ℚ) := by
      rw [haN, hn]
      push_cast
      field_simp
      ring
    have hX : (72 * ((l : ℚ) + 1)) / (P0 : ℚ) = ((n : Int) : ℚ) := by
      rw [haN, hn]
      push_cast
      field_simp
    have rQ : round32 (((2 * n : Nat)) : ℚ) = ((2 * n : Nat) : ℚ) :=
      round32_nat (2 * n) (by norm_num; omega)
    have hquarter : (((2 * n : Nat)) : ℚ) / 4 = (n : ℚ) / 2 := by
      push_cast
      ring
    have rS : round32 ((n : ℚ) / 2) = (n : ℚ) / 2 := round32_half n (by norm_num; omega)
    have hdouble : (n : ℚ) / 2 * 2 = (n : ℚ) := by ring
    have rM : round32 (n : ℚ) = n := round32_nat n (by norm_num; omega)
    rw [rP, hquot, rQ, hquarter, rS, hdouble, rM, hX, Int.ceil_intCast]
    simp
  · have hPerr := round32_err (P0 : ℚ) hP0q
    have hPpos : 0 < round32 (P0 : ℚ) := by
      rw [abs_le] at hPerr
      have : (P0 : ℚ) * (16777215 / 16777216) ≤ round32 (P0 : ℚ) := by linarith only [hPerr.1]
      exact lt_of_lt_of_le (by positivity) this
    have hYpos : 0 < 2 * (72 * ((l : ℚ) + 1)) / round32 (P0 : ℚ) := by positivity
    have hQerr := round32_err _ hYpos
    have hQpos : 0 < round32 (2 * (72 * ((l : ℚ) + 1)) / round32 (P0 : ℚ)) := by
      rw [abs_le] at hQerr
      linarith only [hQerr.1, hYpos]
    have hSerr := round32_err _ (show (0 : ℚ) < round32 (2 * (72 * ((l : ℚ) + 1))
      / round32 (P0 : ℚ)) / 4 by positivity)
    have hSpos : 0 < round32 (round32 (2 * (72 * ((l : ℚ) + 1)) / round32 (P0 : ℚ)) / 4) := by
      rw [abs_le] at hSerr
      linarith only [hSerr.1, hQpos]
    have hMerr := round32_err _ (show (0 : ℚ) < round32 (round32 (2 * (72 * ((l : ℚ) + 1))
      / round32 (P0 : ℚ)) / 4) * 2 by positivity)
    obtain ⟨hlo, hhi⟩ := margin_error _ _ _ _ _ _ ha hP0q hPerr hQerr hSerr hMerr
    generalize round32 (round32 (round32 (2 * (72 * ((l : ℚ) + 1)) / round32 (P0 : ℚ)) / 4) * 2)
      = M at hlo hhi ⊢
    -- the exact quotient is at least `1/p` away from every integer
    have hceil1 : (72 * ((l : ℚ) + 1)) / (P0 : ℚ) ≤ ⌈(72 * ((l : ℚ) + 1)) / (P0 : ℚ)⌉ :=
      Int.le_ceil _
    have hceil2 : ((⌈(72 * ((l : ℚ) + 1)) / (P0 : ℚ)⌉ : Int) : ℚ) - 1
        < (72 * ((l : ℚ) + 1)) / (P0 : ℚ) := by
      have := Int.ceil_lt_add_one ((72 * ((l : ℚ) + 1)) / (P0 : ℚ))
      linarith only [this]
    generalize hn : ⌈(72 * ((l : ℚ) + 1)) / (P0 : ℚ)⌉ = n at hceil1 hceil2 ⊢
    have h1 : (72 * (l + 1) : Int) ≤ P0 * n := by
      have : (72 * ((l : ℚ) + 1)) ≤ (n : ℚ) * P0 := (div_le_iff₀ hP0q).1 hceil1
      have h' : (((72 * (l + 1) : Int)) : ℚ) ≤ ((P0 * n : Int) : ℚ) := by
        push_cast
        linarith only [this]
      exact_mod_cast h'
    have h2 : (P0 : Int) * (n - 1) < 72 * (l + 1) := by
      have : ((n : ℚ) - 1) * P0 < (72 * ((l : ℚ) + 1)) := (lt_div_iff₀ hP0q).1 hceil2
      have h' : (((P0 : Int) * (n - 1) : Int) : ℚ) < (((72 * (l + 1) : Int)) : ℚ) := by
        push_cast
        linarith only [this]
      exact_mod_cast h'
    have hne : (72 * (l + 1) : Int) ≠ P0 * n := by
      intro heq
      apply hd
      have hnn : 0 ≤ n := by
        by_contra hneg
        have : (P0 : Int) * n < 0 := mul_neg_of_pos_of_neg (by exact_mod_cast hP0) (by omega)
        omega
      refine ⟨n.toNat, ?_⟩
      have : ((72 * (l + 1) : Nat) : Int) = ((P0 * n.toNat : Nat) : Int) := by
        push_cast
        rw [Int.toNat_of_nonneg hnn]
        exact heq
      exact_mod_cast this
    have h1' : (72 * (l + 1) : Int) + 1 ≤ P0 * n := by omega
    have h2' : (P0 : Int) * (n - 1) + 1 ≤ 72 * (l + 1) := by omega
    have hI : (0 : ℚ) < 1 / (P0 : ℚ) := by positivity
    have hXhi : (72 * ((l : ℚ) + 1)) / (P0 : ℚ) ≤ (n : ℚ) - 1 / (P0 : ℚ) := by
      have h' : (72 * ((l : ℚ) + 1)) + 1 ≤ (P0 : ℚ) * n := by exact_mod_cast h1'
      rw [div_le_iff₀ hP0q]
      have : ((n : ℚ) - 1 / (P0 : ℚ)) * P0 = (P0 : ℚ) * n - 1 := by
        field_simp
        ring
      linarith only [this, h']
    have hXlo : (n : ℚ) - 1 + 1 / (P0 : ℚ) ≤ (72 * ((l : ℚ) + 1)) / (P0 : ℚ) := by
      have h' : (P0 : ℚ) * ((n : ℚ) - 1) + 1 ≤ (72 * ((l : ℚ) + 1)) := by exact_mod_cast h2'
      rw [le_div_iff₀ hP0q]
      have : ((n : ℚ) - 1 + 1 / (P0 : ℚ)) * P0 = (P0 : ℚ) * ((n : ℚ) - 1) + 1 := by
        field_simp
        ring
      linarith only [this, h']
    have hXI : (72 * ((l : ℚ) + 1)) / (P0 : ℚ) ≤ 73728 * (1 / (P0 : ℚ)) := by
      have hlq : (l : ℚ) + 1 ≤ 1024 := by
        have : ((l + 1 : Nat) : ℚ) ≤ ((1024 : Nat) : ℚ) := by exact_mod_cast hl
        push_cast at this
        exact this
      rw [div_eq_mul_one_div]
      exact mul_le_mul_of_nonneg_right (by linarith only [hlq]) hI.le
    generalize (72 * ((l : ℚ) + 1)) / (P0 : ℚ) = X at hlo hhi hXhi hXlo hXI
    generalize 1 / (P0 : ℚ) = I at hI hXhi hXlo hXI
    rw [Int.ceil_eq_iff]
    constructor
    · linarith only [hlo, hXlo, hXI, hI]
    · linarith only [hhi, hXhi, hXI, hI]

/-- A placed outline glyph records a cell that is the bitmap widened by the
margin on every side. -/
theorem construct_cell {F : Type} (ops : FloatOps F) (face : Face) (c : Nat) (margin : Int)
    (st : PackState) (hout : (face c).outline = true)
    (hplaced : ¬ ((RE_ConstructGlyphInfo ops st (some face) c false margin).2.xOut = -1
      ∨ (RE_ConstructGlyphInfo ops st (some face) c false margin).2.yOut = -1)) :
    (RE_ConstructGlyphInfo ops st (some face) c false margin).1.imageWidth
        = (RE_ConstructGlyphInfo ops st (some face) c false margin).1.pitch + margin * 2
      ∧ (RE_ConstructGlyphInfo ops st (some face) c false margin).1.imageHeight
        = (RE_ConstructGlyphInfo ops st (some face) c false margin).1.height + margin * 2 := by
  obtain ⟨bitmap, hb, _, _, _, _⟩ := renderGlyph_bitmap ops (face c) hout
  have hcv := construct_canvas ops face c margin st hout bitmap hb
  simp only [] at hcv
  obtain ⟨x1, y1, _, _, hfull, hplaced'⟩ := hcv
  by_cases hlt : y1 + ((RE_ConstructGlyphInfo ops st (some face) c false margin).2.maxHeight
      + margin * 2) + 1 < CANVAS_SIZE - 1
  · obtain ⟨_, _, e3, e4, _⟩ := hplaced' hlt
    exact ⟨e3, e4⟩
  · exact absurd (Or.inl (hfull (by omega)).1) hplaced

/-- One iteration of a page-building loop keeps a property of the glyphs
copied so far, when the property holds for every glyph a call places and does
not depend on the shader handle and the shader name. -/
theorem pageStep_glyphs {F : Type} (w : World F) (L : Layout) (cfg : PageCfg F) (face : Face)
    (P : Nat → glyphInfo_t F → Prop)
    (hstamp : ∀ j g h n, P j g → P j { g with glyph := h, shaderName := n })
    (hplace : ∀ (pk : PackState) j, L.GLYPH_START ≤ j → j ≤ L.GLYPH_END →
      ¬ ((RE_ConstructGlyphInfo w.ops pk (some face) (j % 256) false cfg.margin).2.xOut = -1
        ∨ (RE_ConstructGlyphInfo w.ops pk (some face) (j % 256) false cfg.margin).2.yOut = -1) →
      P j (RE_ConstructGlyphInfo w.ops pk (some face) (j % 256) false cfg.margin).1)
    (s : LoopState F) (hlo : L.GLYPH_START ≤ s.i)
    (h : ∀ j, L.GLYPH_START ≤ j → j < s.i → ∀ g, s.glyphs[j]? = some g → P j g) :
    L.GLYPH_START ≤ (pageStep w L cfg face s).i
      ∧ ∀ j, L.GLYPH_START ≤ j → j < (pageStep w L cfg face s).i → j ≤ L.GLYPH_END →
          ∀ g, (pageStep w L cfg face s).glyphs[j]? = some g → P j g := by
  have hfin : ∀ (s1 : LoopState F) (pk : PackState), s1.i = s.i → s1.glyphs = s.glyphs →
      s1.lastStart = s.lastStart →
      L.GLYPH_START ≤ (finalizePage w L cfg s1 pk).i
      ∧ ∀ j, L.GLYPH_START ≤ j → j < (finalizePage w L cfg s1 pk).i → j ≤ L.GLYPH_END →
          ∀ g, (finalizePage w L cfg s1 pk).glyphs[j]? = some g → P j g := by
    intro s1 pk e1 e2 e3
    refine ⟨?_, ?_⟩
    · simp only [finalizePage, e1]; split_ifs <;> omega
    · intro j hlo' hj hje g hg
      have hji : j < s.i := by
        simp only [finalizePage, e1] at hj
        split_ifs at hj <;> omega
      simp only [finalizePage, getElem?_updateRange, e2] at hg
      cases hgj : s.glyphs[j]? with
      | none => rw [hgj] at hg; exact Option.noConfusion hg
      | some g0 =>
        rw [hgj] at hg
        simp only [Option.map_some', Option.some.injEq] at hg
        have := h j hlo' hji g0 hgj
        rw [← hg]
        split_ifs
        · exact hstamp _ _ _ _ this
        · exact this
  unfold pageStep
  by_cases h1 : s.i = L.GLYPH_END + 1
  · rw [if_pos h1]
    exact hfin s _ rfl rfl rfl
  · rw [if_neg h1]
    simp only []
    split_ifs with h2
    · exact hfin _ _ rfl rfl rfl
    · refine ⟨by simp only []; omega, ?_⟩
      intro j hlo' hj hje g hg
      simp only [] at hj hg
      by_cases hji : j = s.i
      · subst hji
        rw [List.getElem?_set] at hg
        simp only [if_true] at hg
        split_ifs at hg
        simp only [Option.some.injEq] at hg
        rw [← hg]
        exact hplace s.pack s.i hlo' hje h2
      · have hne : s.i ≠ j := fun e => hji e.symm
        rw [List.getElem?_set_ne hne] at hg
        exact h j hlo' (by omega) g hg

/-- The loop keeps such a property to its end. -/
theorem pageLoop_glyphs {F : Type} (w : World F) (L : Layout) (cfg : PageCfg F) (face : Face)
    (P : Nat → glyphInfo_t F → Prop)
    (hstamp : ∀ j g h n, P j g → P j { g with glyph := h, shaderName := n })
    (hplace : ∀ (pk : PackState) j, L.GLYPH_START ≤ j → j ≤ L.GLYPH_END →
      ¬ ((RE_ConstructGlyphInfo w.ops pk (some face) (j % 256) false cfg.margin).2.xOut = -1
        ∨ (RE_ConstructGlyphInfo w.ops pk (some face) (j % 256) false cfg.margin).2.yOut = -1) →
      P j (RE_ConstructGlyphInfo w.ops pk (some face) (j % 256) false cfg.margin).1)
    (fuel : Nat) (s s' : LoopState F) (hlo : L.GLYPH_START ≤ s.i)
    (h : ∀ j, L.GLYPH_START ≤ j → j < s.i → j ≤ L.GLYPH_END → ∀ g, s.glyphs[j]? = some g → P j g)
    (hrun : pageLoop w L cfg face fuel s = some s') :
    L.GLYPH_END + 1 < s'.i
      ∧ ∀ j, L.GLYPH_START ≤ j → j ≤ L.GLYPH_END → ∀ g, s'.glyphs[j]? = some g → P j g := by
  induction fuel generalizing s with
  | zero =>
    simp only [pageLoop] at hrun
    split_ifs at hrun with hc
    simp only [Option.some.injEq] at hrun
    subst hrun
    exact ⟨by omega, fun j h1 h2 g hg => h j h1 (by omega) h2 g hg⟩
  | succ fuel ih =>
    simp only [pageLoop] at hrun
    split_ifs at hrun with hc
    · obtain ⟨q1, q2⟩ := pageStep_glyphs w L cfg face P hstamp hplace s hlo
        (fun j h1 h2 g hg => h j h1 h2 (by omega) g hg)
      exact ih _ q1 q2 hrun
    · simp only [Option.some.injEq] at hrun
      subst hrun
      exact ⟨by omega, fun j h1 h2 g hg => h j h1 (by omega) h2 g hg⟩

/-- The cells of the outline glyphs of a finished page-building loop are the
bitmaps widened by the margin of the loop. -/
theorem pageLoop_cells {F : Type} (w : World F) (L : Layout) (cfg : PageCfg F) (face : Face)
    (fuel : Nat) (canvas : Canvas) (mh : Int) (glyphs : List (glyphInfo_t F)) (files : Files)
    (t0 : List Event) (s' : LoopState F)
    (hrun : pageLoop w L cfg face fuel (loopStart L canvas mh glyphs files t0) = some s') :
    ∀ j, L.GLYPH_START ≤ j → j ≤ L.GLYPH_END → (face (j % 256)).outline = true →
      ∀ g, s'.glyphs[j]? = some g →
        g.imageWidth = g.pitch + cfg.margin * 2 ∧ g.imageHeight = g.height + cfg.margin * 2 := by
  have h := (pageLoop_glyphs w L cfg face
    (fun j g => (face (j % 256)).outline = true →
      g.imageWidth = g.pitch + cfg.margin * 2 ∧ g.imageHeight = g.height + cfg.margin * 2)
    (fun j g h n hP => hP)
    (fun pk j _ _ hpl hout => construct_cell w.ops face (j % 256) cfg.margin pk hout hpl)
    fuel _ s' (le_refl _)
    (fun j h1 h2 _ _ _ => by simp only [loopStart] at h2; omega) hrun).2
  intro j h1 h2 hout g hg
  exact h j h1 h2 g hg hout

/-- What the loop over the shadow levels `l, ..., l + n - 1` leaves in the
record: the base glyphs and the levels below `l` are untouched, and each level
of the loop is marked available, records the margin its blur is computed
with, and holds glyphs whose cells are the bitmaps widened by that margin. -/
theorem shadowLoops_levels {F : Type} (w : World F) (L : Layout) (fuel : Nat) (face : Face)
    (simpleName : List Nat) (pointSize : Int) (n l : Nat) (b b' : BuildState F)
    (hlen : l + n ≤ b.font.shadows.length)
    (hrun : shadowLoops w L fuel face simpleName pointSize n l b = some b') :
    b'.font.glyphs = b.font.glyphs
      ∧ b'.font.shadows.length = b.font.shadows.length
      ∧ (∀ k, k < l → b'.font.shadows[k]? = b.font.shadows[k]?)
      ∧ ∀ k, l ≤ k → k < l + n →
          ∃ sh, b'.font.shadows[k]? = some sh ∧ sh.available = true
            ∧ sh.margin = (shadowBlur w.ops pointSize k).1
            ∧ ∀ j, L.GLYPH_START ≤ j → j ≤ L.GLYPH_END → (face (j % 256)).outline = true →
                ∀ g, sh.glyphs[j]? = some g →
                  g.imageWidth = g.pitch + sh.margin * 2
                    ∧ g.imageHeight = g.height + sh.margin * 2 := by
  induction n generalizing l b with
  | zero =>
    simp only [shadowLoops, Option.some.injEq] at hrun
    subst hrun
    exact ⟨rfl, rfl, fun _ _ => rfl, fun k h1 h2 => by omega⟩
  | succ n ih =>
    simp only [shadowLoops] at hrun
    split at hrun
    · exact Option.noConfusion hrun
    · rename_i s hs
      obtain ⟨q1, q2, q3, q4⟩ := ih (l + 1) _ (by simp only [List.length_set]; omega) hrun
      simp only [List.length_set] at q2
      refine ⟨q1, q2, ?_, ?_⟩
      · intro k hk
        rw [q3 k (by omega)]
        simp only []
        rw [List.getElem?_set_ne (by omega)]
      · intro k h1 h2
        by_cases hkl : k = l
        · subst hkl
          refine ⟨(⟨s.glyphs, (shadowBlur w.ops pointSize k).1, true⟩ : shadowInfo_t F), ?_, rfl,
            rfl, ?_⟩
          · rw [q3 k (by omega)]
            simp only []
            rw [List.getElem?_set_self (by omega)]
          · exact pageLoop_cells w L _ face fuel _ _ _ _ _ s hs
        · exact q4 k (by omega) (by omega)

/-- More fuel does not change the result of a loop that has ended. -/
theorem pageLoop_mono {F : Type} (w : World F) (L : Layout) (cfg : PageCfg F) (face : Face)
    (fuel fuel' : Nat) (s s' : LoopState F) (hle : fuel ≤ fuel')
    (hrun : pageLoop w L cfg face fuel s = some s') : pageLoop w L cfg face fuel' s = some s' := by
  induction fuel generalizing s fuel' with
  | zero =>
    simp only [pageLoop] at hrun
    split_ifs at hrun with hc
    simp only [Option.some.injEq] at hrun
    subst hrun
    exact pageLoop_of_gt w L cfg face fuel' s (by omega)
  | succ fuel ih =>
    obtain ⟨f, rfl⟩ : ∃ f, fuel' = f + 1 := ⟨fuel' - 1, by omega⟩
    simp only [pageLoop] at hrun ⊢
    split_ifs at hrun ⊢ with hc
    · exact ih f _ (by omega) hrun
    · exact hrun

theorem shadowLoops_mono {F : Type} (w : World F) (L : Layout) (face : Face)
    (simpleName : List Nat) (pointSize : Int) (fuel fuel' : Nat) (hle : fuel ≤ fuel')
    (n l : Nat) (b b' : BuildState F)
    (hrun : shadowLoops w L fuel face simpleName pointSize n l b = some b') :
    shadowLoops w L fuel' face simpleName pointSize n l b = some b' := by
  induction n generalizing l b with
  | zero => exact hrun
  | succ n ih =>
    simp only [shadowLoops] at hrun ⊢
    split at hrun
    · exact Option.noConfusion hrun
    · rename_i s hs
      rw [pageLoop_mono w L _ face fuel fuel' _ s hle hs]
      exact ih _ _ hrun

/-- The loop over the shadow levels ends when every glyph of the range fits a
page with the margin of every level. -/
theorem shadowLoops_terminates {F : Type} (w : World F) (L : Layout) (face : Face)
    (simpleName : List Nat) (pointSize : Int) (mh : Int)
    (hL : L.GLYPH_START ≤ L.GLYPH_END + 1) (n l : Nat)
    (hfit : ∀ k, l ≤ k → k < l + n → 0 ≤ (shadowBlur w.ops pointSize k).1
      ∧ ∀ j, L.GLYPH_START ≤ j → j ≤ L.GLYPH_END → (face (j % 256)).outline = true →
        0 ≤ (face (j % 256)).width ∧ 0 ≤ (face (j % 256)).height
        ∧ (R_GetGlyphInfo (face (j % 256))).pitch + (shadowBlur w.ops pointSize k).1 * 2 + 2
            < CANVAS_SIZE
        ∧ (R_GetGlyphInfo (face (j % 256))).height ≤ mh
        ∧ mh + (shadowBlur w.ops pointSize k).1 * 2 + 2 < CANVAS_SIZE)
    (b : BuildState F) (hmh : b.maxHeight = mh) :
    ∃ fuel b', shadowLoops w L fuel face simpleName pointSize n l b = some b' := by
  induction n generalizing l b with
  | zero => exact ⟨0, b, rfl⟩
  | succ n ih =>
    obtain ⟨hm, hf⟩ := hfit l (le_refl _) (by omega)
    obtain ⟨F1, s, hs⟩ := pageLoop_terminates w L
      { margin := (shadowBlur w.ops pointSize l).1,
        pageName := shadowPageName simpleName pointSize l,
        blur := some (shadowBlur w.ops pointSize l) } face mh hm hf
      (L.GLYPH_END + 1 - L.GLYPH_START)
      (loopStart L b.imageOut b.maxHeight
        (b.font.shadows.getD l (zeroShadow w.ops L)).glyphs b.files b.trace)
      (le_refl _) (le_refl _) hmh (le_refl _) (by simp only [loopStart]; omega)
    have hmh' : s.pack.maxHeight = mh := pageLoop_maxHeight w L _ face mh
      (fun j h1 h2 ho => (hf j h1 h2 ho).2.2.2.1) F1 _ s hmh (le_refl _) hs
    obtain ⟨F2, b', hb'⟩ := ih (l + 1)
      (fun k h1 h2 => hfit k (by omega) (by omega))
      { font :=
          { b.font with
            shadows :=
              b.font.shadows.set l
                (⟨s.glyphs, (shadowBlur w.ops pointSize l).1, true⟩ : shadowInfo_t F) },
        imageOut := s.pack.imageOut, maxHeight := s.pack.maxHeight, files := s.files,
        trace := s.trace } hmh'
    refine ⟨max F1 F2, b', ?_⟩
    simp only [shadowLoops]
    rw [pageLoop_mono w L _ face F1 (max F1 F2) _ s (le_max_left _ _) hs]
    exact shadowLoops_mono w L face simpleName pointSize F2 (max F1 F2) (le_max_right _ _) _ _ _ _
      hb'

/-- The exact margins do not decrease with the level. -/
theorem margin_mono (p : Int) (hp : 0 < p) (l l' : Nat) (h : l ≤ l') :
    ⌈(72 * ((l : ℚ) + 1)) / (p : ℚ)⌉ ≤ ⌈(72 * ((l' : ℚ) + 1)) / (p : ℚ)⌉ := by
  apply Int.ceil_mono
  have hpq : (0 : ℚ) < (p : ℚ) := by exact_mod_cast hp
  have hl : (l : ℚ) ≤ (l' : ℚ) := by exact_mod_cast h
  exact div_le_div_of_nonneg_right (by linarith only [hl]) hpq.le

theorem margin_nonneg (p : Int) (hp : 0 < p) (l : Nat) :
    0 ≤ ⌈(72 * ((l : ℚ) + 1)) / (p : ℚ)⌉ := by
  apply Int.ceil_nonneg
  have hpq : (0 : ℚ) < (p : ℚ) := by exact_mod_cast hp
  positivity

/-- The fitting conditions of a page-building loop with margin `m`, from the
sizes of the glyphs and the `maxHeight` of the dry-run pass. -/
theorem dryRun_fit {F : Type} (ops : FloatOps F) (L : Layout) (face : Face) (m : Int)
    (hfit : ∀ j, L.GLYPH_START ≤ j → j ≤ L.GLYPH_END → (face (j % 256)).outline = true →
      0 ≤ (face (j % 256)).width ∧ 0 ≤ (face (j % 256)).height
      ∧ (R_GetGlyphInfo (face (j % 256))).pitch + m * 2 + 2 < CANVAS_SIZE
      ∧ (R_GetGlyphInfo (face (j % 256))).height + m * 2 + 2 < CANVAS_SIZE) :
    ∀ j, L.GLYPH_START ≤ j → j ≤ L.GLYPH_END → (face (j % 256)).outline = true →
      0 ≤ (face (j % 256)).width ∧ 0 ≤ (face (j % 256)).height
      ∧ (R_GetGlyphInfo (face (j % 256))).pitch + m * 2 + 2 < CANVAS_SIZE
      ∧ (R_GetGlyphInfo (face (j % 256))).height
          ≤ (dryRun ops face (glyphRange L)
              { imageOut := zeroCanvas, xOut := 0, yOut := 0, maxHeight := 0 }).maxHeight
      ∧ (dryRun ops face (glyphRange L)
              { imageOut := zeroCanvas, xOut := 0, yOut := 0, maxHeight := 0 }).maxHeight
            + m * 2 + 2 < CANVAS_SIZE := by
  obtain ⟨d1, d2, d3⟩ := dryRun_maxHeight ops face (glyphRange L)
    { imageOut := zeroCanvas, xOut := 0, yOut := 0, maxHeight := 0 }
  intro j h1 h2 hout
  obtain ⟨f1, f2, f3, f4⟩ := hfit j h1 h2 hout
  have hle := d2 j ((mem_glyphRange L j).2 ⟨h1, h2⟩) hout
  refine ⟨f1, f2, f3, hle, ?_⟩
  rcases d3 with e | ⟨i, hi, ho, e⟩
  · have hh0 := (glyphBox_nonneg (face (j % 256)) f1 f2).2
    rw [e]
    simp only [CANVAS_SIZE] at f4 ⊢
    omega
  · have hi' := (mem_glyphRange L i).1 hi
    have := (hfit i hi'.1 hi'.2 ho).2.2.2
    rw [e]
    exact this

/-- C21. Shadow margin: in a full build of `RE_RegisterNewFont` (lines 798-974)
with point size `p > 0` and the arithmetic of binary32, for a record with
`FONT_MAXSHADOW <= 1024` levels: whenever the build returns, the level `l` of
the record (elevation `e = l + 1`) is marked available and records the margin
`ceil(72 * e / p)`, which is `ceil(2 * sigma)` for `sigma = e * 144 / (p * 4)`,
and the cell of each of its outline glyphs is the bitmap widened by that
margin; the cell of each outline glyph of the base set is the bitmap itself
(margin 0); and the margins recorded do not decrease with the level. The build
returns, given enough fuel, when the character range is not empty and each
outline glyph of the range fits a page with the margin of the last level. -/
theorem shadow_margin (w : World ℚ) (L : Layout) (st : State ℚ) (face : Face)
    (simpleName : List Nat) (pointSize : Int) (font : newFontInfo_t ℚ)
    (hops : w.ops = binary32Ops) (hp : 0 < pointSize) (hN : L.FONT_MAXSHADOW ≤ 1024)
    (hsh : L.FONT_MAXSHADOW ≤ font.shadows.length) :
    (∀ fuel st' r, buildNewFont w L fuel st face simpleName pointSize font = some (st', r) →
        (∀ l, l < L.FONT_MAXSHADOW →
          ∃ sh, r.shadows[l]? = some sh ∧ sh.available = true
            ∧ sh.margin = ⌈(72 * ((l : ℚ) + 1)) / (pointSize : ℚ)⌉
            ∧ sh.margin = ⌈2 * ((((l : ℚ) + 1) * 144) / ((pointSize : ℚ) * 4))⌉
            ∧ ∀ j, L.GLYPH_START ≤ j → j ≤ L.GLYPH_END → (face (j % 256)).outline = true →
                ∀ g, sh.glyphs[j]? = some g →
                  g.imageWidth = g.pitch + sh.margin * 2
                    ∧ g.imageHeight = g.height + sh.margin * 2)
          ∧ (∀ j, L.GLYPH_START ≤ j → j ≤ L.GLYPH_END → (face (j % 256)).outline = true →
              ∀ g, r.glyphs[j]? = some g → g.imageWidth = g.pitch ∧ g.imageHeight = g.height)
          ∧ ∀ l l' sh sh', l ≤ l' → l' < L.FONT_MAXSHADOW → r.shadows[l]? = some sh →
              r.shadows[l']? = some sh' → sh.margin ≤ sh'.margin)
      ∧ (L.GLYPH_START ≤ L.GLYPH_END + 1 →
          (∀ j, L.GLYPH_START ≤ j → j ≤ L.GLYPH_END → (face (j % 256)).outline = true →
            0 ≤ (face (j % 256)).width ∧ 0 ≤ (face (j % 256)).height
            ∧ (R_GetGlyphInfo (face (j % 256))).pitch
                + ⌈(72 * (L.FONT_MAXSHADOW : ℚ)) / (pointSize : ℚ)⌉ * 2 + 2 < CANVAS_SIZE
            ∧ (R_GetGlyphInfo (face (j % 256))).height
                + ⌈(72 * (L.FONT_MAXSHADOW : ℚ)) / (pointSize : ℚ)⌉ * 2 + 2 < CANVAS_SIZE) →
          ∃ fuel st' r, buildNewFont w L fuel st face simpleName pointSize font = some (st', r)) := by
  have hpq : (0 : ℚ) < (pointSize : ℚ) := by exact_mod_cast hp
  have hmargin : ∀ l, l < L.FONT_MAXSHADOW →
      (shadowBlur w.ops pointSize l).1 = ⌈(72 * ((l : ℚ) + 1)) / (pointSize : ℚ)⌉ := by
    intro l hl
    rw [hops]
    exact shadowBlur_margin pointSize l hp (by omega)
  constructor
  · intro fuel st' r h
    unfold buildNewFont at h
    simp only [] at h
    split at h
    · exact Option.noConfusion h
    · rename_i s hs
      split at h
      · exact Option.noConfusion h
      · rename_i b hb
        simp only [Option.some.injEq, Prod.mk.injEq] at h
        obtain ⟨_, hr⟩ := h
        obtain ⟨q1, q2, _, q4⟩ := shadowLoops_levels w L fuel face simpleName pointSize
          L.FONT_MAXSHADOW 0 _ b (by simp only [Nat.zero_add]; exact hsh) hb
        have hlev : ∀ l, l < L.FONT_MAXSHADOW →
            ∃ sh, r.shadows[l]? = some sh ∧ sh.available = true
              ∧ sh.margin = ⌈(72 * ((l : ℚ) + 1)) / (pointSize : ℚ)⌉
              ∧ ∀ j, L.GLYPH_START ≤ j → j ≤ L.GLYPH_END → (face (j % 256)).outline = true →
                  ∀ g, sh.glyphs[j]? = some g →
                    g.imageWidth = g.pitch + sh.margin * 2
                      ∧ g.imageHeight = g.height + sh.margin * 2 := by
          intro l hl
          obtain ⟨sh, e1, e2, e3, e4⟩ := q4 l (Nat.zero_le _) (by omega)
          refine ⟨sh, ?_, e2, by rw [e3, hmargin l hl], e4⟩
          rw [← hr]
          exact e1
        refine ⟨?_, ?_, ?_⟩
        · intro l hl
          obtain ⟨sh, e1, e2, e3, e4⟩ := hlev l hl
          refine ⟨sh, e1, e2, e3, ?_, e4⟩
          rw [e3]
          congr 1
          field_simp
          ring
        · intro j h1 h2 hout g hg
          rw [← hr] at hg
          simp only [] at hg
          rw [q1] at hg
          have := pageLoop_cells w L _ face fuel _ _ _ _ _ s hs j h1 h2 hout g hg
          simpa using this
        · intro l l' sh sh' hll hl' e e'
          obtain ⟨sh1, a1, _, a3, _⟩ := hlev l (by omega)
          obtain ⟨sh2, b1, _, b3, _⟩ := hlev l' hl'
          rw [a1] at e
          rw [b1] at e'
          simp only [Option.some.injEq] at e e'
          subst e e'
          rw [a3, b3]
          exact margin_mono pointSize hp l l' hll
  · intro hL hfit
    have hM0 : 0 ≤ ⌈(72 * (L.FONT_MAXSHADOW : ℚ)) / (pointSize : ℚ)⌉ := by
      apply Int.ceil_nonneg
      positivity
    have hbase := dryRun_fit w.ops L face 0 (fun j h1 h2 ho => by
      obtain ⟨f1, f2, f3, f4⟩ := hfit j h1 h2 ho
      exact ⟨f1, f2, by omega, by omega⟩)
    obtain ⟨F0, s, hs⟩ := pageLoop_terminates w L
      { margin := 0, pageName := basePageName simpleName pointSize, blur := none } face
      (dryRun w.ops face (glyphRange L)
        { imageOut := zeroCanvas, xOut := 0, yOut := 0, maxHeight := 0 }).maxHeight
      (le_refl _) hbase (L.GLYPH_END + 1 - L.GLYPH_START)
      (loopStart L (dryRun w.ops face (glyphRange L)
          { imageOut := zeroCanvas, xOut := 0, yOut := 0, maxHeight := 0 }).imageOut
        (dryRun w.ops face (glyphRange L)
          { imageOut := zeroCanvas, xOut := 0, yOut := 0, maxHeight := 0 }).maxHeight
        font.glyphs st.files (st.trace ++ dryRunTrace L))
      (le_refl _) (le_refl _) rfl (le_refl _) (by simp only [loopStart]; omega)
    have hmh : s.pack.maxHeight = (dryRun w.ops face (glyphRange L)
        { imageOut := zeroCanvas, xOut := 0, yOut := 0, maxHeight := 0 }).maxHeight :=
      pageLoop_maxHeight w L _ face _ (fun j h1 h2 ho => (hbase j h1 h2 ho).2.2.2.1) F0 _ s rfl
        (le_refl _) hs
    have hshadow : ∀ k, 0 ≤ k → k < 0 + L.FONT_MAXSHADOW → 0 ≤ (shadowBlur w.ops pointSize k).1
        ∧ ∀ j, L.GLYPH_START ≤ j → j ≤ L.GLYPH_END → (face (j % 256)).outline = true →
          0 ≤ (face (j % 256)).width ∧ 0 ≤ (face (j % 256)).height
          ∧ (R_GetGlyphInfo (face (j % 256))).pitch + (shadowBlur w.ops pointSize k).1 * 2 + 2
              < CANVAS_SIZE
          ∧ (R_GetGlyphInfo (face (j % 256))).height
              ≤ (dryRun w.ops face (glyphRange L)
                  { imageOut := zeroCanvas, xOut := 0, yOut := 0, maxHeight := 0 }).maxHeight
          ∧ (dryRun w.ops face (glyphRange L)
                  { imageOut := zeroCanvas, xOut := 0, yOut := 0, maxHeight := 0 }).maxHeight
                + (shadowBlur w.ops pointSize k).1 * 2 + 2 < CANVAS_SIZE := by
      intro k _ hk
      rw [Nat.zero_add] at hk
      rw [hmargin k hk]
      have hle : ⌈(72 * ((k : ℚ) + 1)) / (pointSize : ℚ)⌉
          ≤ ⌈(72 * (L.FONT_MAXSHADOW : ℚ)) / (pointSize : ℚ)⌉ := by
        apply Int.ceil_mono
        have hk' : (k : ℚ) + 1 ≤ (L.FONT_MAXSHADOW : ℚ) := by exact_mod_cast hk
        exact div_le_div_of_nonneg_right (by linarith only [hk']) hpq.le
      have h0 := margin_nonneg pointSize hp k
      refine ⟨h0, ?_⟩
      exact dryRun_fit w.ops L face _ (fun j h1 h2 ho => by
        obtain ⟨f1, f2, f3, f4⟩ := hfit j h1 h2 ho
        exact ⟨f1, f2, by omega, by omega⟩)
    obtain ⟨F1, b, hb⟩ := shadowLoops_terminates w L face simpleName pointSize _ hL
      L.FONT_MAXSHADOW 0 hshadow
      { font := { font with glyphs := s.glyphs }, imageOut := s.pack.imageOut,
        maxHeight := s.pack.maxHeight, files := s.files, trace := s.trace } hmh
    refine ⟨max F0 F1, ?_⟩
    unfold buildNewFont
    simp only []
    rw [pageLoop_mono w L _ face F0 (max F0 F1) _ s (le_max_left _ _) hs]
    simp only []
    rw [shadowLoops_mono w L face simpleName pointSize F1 (max F0 F1) (le_max_right _ _) _ _ _ _
      hb]
    exact ⟨_, _, rfl⟩

/-- C21 at a concrete input: the build of the scenario at point size 12 over
binary32 arithmetic returns, given enough fuel, and level 0 (elevation 1) of
the record is available with the margin `ceil(72 / 12) = 6`. -/
theorem shadow_margin_witness :
    (0 : Int) < 12 ∧ tinyLayout.FONT_MAXSHADOW ≤ 1024
      ∧ ∃ fuel st' r,
          buildNewFont roundWorld tinyLayout fuel (demoState false) demoFace (str "a") 12
            (zeroNewFont binary32Ops tinyLayout) = some (st', r)
          ∧ ∃ sh, r.shadows[0]? = some sh ∧ sh.available = true ∧ sh.margin = 6 := by
  have h := shadow_margin roundWorld tinyLayout (demoState false) demoFace (str "a") 12
    (zeroNewFont binary32Ops tinyLayout) rfl (by decide) (by decide) (by decide)
  have hc : ⌈(72 * ((tinyLayout.FONT_MAXSHADOW : Nat) : ℚ)) / (((12 : Int)) : ℚ)⌉ = 6 := by
    rw [Int.ceil_eq_iff]
    norm_num [tinyLayout]
  obtain ⟨fuel, st', r, hr⟩ := h.2 (by decide) (fun j h1 h2 ho => by
    have hface : demoFace (j % 256) = boxSlot 8 10 := by
      unfold demoFace at ho ⊢
      split_ifs at ho ⊢ with hc1
      · exact absurd ho (by decide)
      · rfl
    rw [hface, hc]
    decide)
  obtain ⟨sh, e1, e2, e3, _⟩ := (h.1 fuel st' r hr).1 0 (by decide)
  refine ⟨by decide, by decide, fuel, st', r, hr, sh, e1, e2, ?_⟩
  rw [e3, Int.ceil_eq_iff]
  norm_num
/-! ## Texture coordinates in binary32 -/

/-- A quotient `a / CANVAS_SIZE` of an integer `0 ≤ a < 2^24` is computed
exactly in binary32: the conversion of `a` is exact and the division by a power
of two only changes the exponent. -/
theorem round32_coord (a : Int) (h0 : 0 ≤ a) (h1 : a < 16777216) :
    round32 (round32 ((a : Int) : ℚ) / round32 ((CANVAS_SIZE : Int) : ℚ))
      = (a : ℚ) / ((CANVAS_SIZE : Int) : ℚ) := by
  obtain ⟨n, rfl⟩ := Int.eq_ofNat_of_zero_le h0
  have hn : n < 2 ^ 24 := by omega
  have hc : round32 ((CANVAS_SIZE : Int) : ℚ) = 1024 := by
    have := round32_nat 1024 (by norm_num)
    simpa [CANVAS_SIZE] using this
  have hcq : ((CANVAS_SIZE : Int) : ℚ) = 1024 := by simp [CANVAS_SIZE]
  have hnq : (((n : Nat) : Int) : ℚ) = (n : ℚ) := by push_cast; rfl
  rw [hc, hcq, hnq, round32_nat n hn]
  rcases Nat.eq_zero_or_pos n with rfl | hpos
  · simp [round32]
  have hq : (0 : ℚ) < n := by exact_mod_cast hpos
  have h := round32_scale (n : ℚ) hq (-10)
  rw [round32_nat n hn] at h
  have e : (n : ℚ) * (2 : ℚ) ^ (-10 : Int) = (n : ℚ) / 1024 := by
    rw [zpow_neg, div_eq_mul_inv]
    norm_num
  rw [e] at h
  exact h

/-- The sum of two such quotients is computed exactly when the sum of the
integers is below `2^24`. -/
theorem round32_coord_add (a b : Int) (ha : 0 ≤ a) (hb : 0 ≤ b) (h1 : a + b < 16777216) :
    round32 ((a : ℚ) / ((CANVAS_SIZE : Int) : ℚ) + (b : ℚ) / ((CANVAS_SIZE : Int) : ℚ))
      = (a : ℚ) / ((CANVAS_SIZE : Int) : ℚ) + (b : ℚ) / ((CANVAS_SIZE : Int) : ℚ) := by
  have h := round32_coord (a + b) (by omega) h1
  have hr : round32 (((a + b : Int) : Int) : ℚ) = ((a + b : Int) : ℚ) := by
    obtain ⟨n, hn⟩ := Int.eq_ofNat_of_zero_le (show 0 ≤ a + b by omega)
    rw [hn]
    have hnq : (((n : Nat) : Int) : ℚ) = (n : ℚ) := by push_cast; rfl
    rw [hnq]
    exact round32_nat n (by omega)
  have hc : round32 ((CANVAS_SIZE : Int) : ℚ) = ((CANVAS_SIZE : Int) : ℚ) := by
    have := round32_nat 1024 (by norm_num)
    simpa [CANVAS_SIZE] using this
  rw [hr, hc] at h
  have e : (a : ℚ) / ((CANVAS_SIZE : Int) : ℚ) + (b : ℚ) / ((CANVAS_SIZE : Int) : ℚ)
      = ((a + b : Int) : ℚ) / ((CANVAS_SIZE : Int) : ℚ) := by
    push_cast
    ring
  rw [e]
  exact h

/-- The four texture coordinates of a cell at `(x, y)` of size `w × h`, as
binary32 computes them, are the exact quotients when `x + w` and `y + h` are
below `2^24`. -/
theorem coords_binary32 (x y w h : Int) (hx : 0 ≤ x) (hy : 0 ≤ y) (hw : 0 ≤ w) (hh : 0 ≤ h)
    (hxw : x + w < 16777216) (hyh : y + h < 16777216) :
    binary32Ops.div (binary32Ops.ofInt x) (binary32Ops.ofInt CANVAS_SIZE)
        = exactOps.div (exactOps.ofInt x) (exactOps.ofInt CANVAS_SIZE)
      ∧ binary32Ops.div (binary32Ops.ofInt y) (binary32Ops.ofInt CANVAS_SIZE)
        = exactOps.div (exactOps.ofInt y) (exactOps.ofInt CANVAS_SIZE)
      ∧ binary32Ops.add (binary32Ops.div (binary32Ops.ofInt x) (binary32Ops.ofInt CANVAS_SIZE))
          (binary32Ops.div (binary32Ops.ofInt w) (binary32Ops.ofInt CANVAS_SIZE))
        = exactOps.add (exactOps.div (exactOps.ofInt x) (exactOps.ofInt CANVAS_SIZE))
          (exactOps.div (exactOps.ofInt w) (exactOps.ofInt CANVAS_SIZE))
      ∧ binary32Ops.add (binary32Ops.div (binary32Ops.ofInt y) (binary32Ops.ofInt CANVAS_SIZE))
          (binary32Ops.div (binary32Ops.ofInt h) (binary32Ops.ofInt CANVAS_SIZE))
        = exactOps.add (exactOps.div (exactOps.ofInt y) (exactOps.ofInt CANVAS_SIZE))
          (exactOps.div (exactOps.ofInt h) (exactOps.ofInt CANVAS_SIZE)) := by
  simp only [binary32Ops, exactOps]
  rw [round32_coord x hx (by omega), round32_coord y hy (by omega),
    round32_coord w hw (by omega), round32_coord h hh (by omega),
    round32_coord_add x w hx hw hxw, round32_coord_add y h hy hh hyh]
  exact ⟨rfl, rfl, rfl, rfl⟩

theorem coord_div (x : Int) (hx : 0 ≤ x) (hb : x < 16777216) :
    binary32Ops.div (binary32Ops.ofInt x) (binary32Ops.ofInt 1024)
      = exactOps.div (exactOps.ofInt x) (exactOps.ofInt 1024) :=
  (coords_binary32 x 0 0 0 hx (le_refl _) (le_refl _) (le_refl _) (by omega) (by omega)).1

theorem coord_add (x w : Int) (hx : 0 ≤ x) (hw : 0 ≤ w) (hb : x + w < 16777216) :
    binary32Ops.add (binary32Ops.div (binary32Ops.ofInt x) (binary32Ops.ofInt 1024))
        (binary32Ops.div (binary32Ops.ofInt w) (binary32Ops.ofInt 1024))
      = exactOps.add (exactOps.div (exactOps.ofInt x) (exactOps.ofInt 1024))
        (exactOps.div (exactOps.ofInt w) (exactOps.ofInt 1024)) :=
  (coords_binary32 x 0 w 0 hx (le_refl _) hw (le_refl _) hb (by omega)).2.2.1

/-- For a cell less than `2^24` pixels wide, the packer computes in binary32
what it computes in exact arithmetic: every integer it converts, and every
quotient and sum it forms, is a binary32 value. -/
theorem construct_binary32 (face : Face) (c : Nat) (margin : Int) (st : PackState)
    (hw : 0 ≤ (face c).width) (hh : 0 ≤ (face c).height)
    (hx : 0 ≤ st.xOut) (hy : 0 ≤ st.yOut) (hm : 0 ≤ margin)
    (hb : (R_GetGlyphInfo (face c)).pitch + margin * 2 < 16777216) :
    RE_ConstructGlyphInfo binary32Ops st (some face) c false margin
      = RE_ConstructGlyphInfo exactOps st (some face) c false margin := by
  obtain ⟨hp, hht⟩ := glyphBox_nonneg (face c) hw hh
  have hz : zeroGlyph binary32Ops = zeroGlyph exactOps := rfl
  by_cases hout : (face c).outline = true
  · simp only [RE_ConstructGlyphInfo, R_RenderGlyph, hout, if_true, Bool.false_eq_true, if_false,
      hz]
    split_ifs with h1 h2 h3 h4 h5 h6
    all_goals first
      | rfl
      | skip
    all_goals simp only [CANVAS_SIZE] at *
    all_goals congr 2
    all_goals first
      | exact coord_div _ (by omega) (by omega)
      | exact coord_add _ _ (by omega) (by omega) (by omega)
  · simp only [RE_ConstructGlyphInfo, R_RenderGlyph, hout, Bool.false_eq_true, if_false, hz]

/-- C6 (amended). Texture coordinates, with the arithmetic of `float` taken as
IEEE 754 binary32: for every glyph that `RE_ConstructGlyphInfo` places (bitmap
present, page-full not signalled) from a cursor with non-negative coordinates,
with a non-negative margin and a cell width `pitch + 2*margin` below `2^24`
(so that the conversion `(float)scaled_width` is exact), the stored coordinates
satisfy `0 ≤ s ≤ s2`, `0 ≤ t ≤ t2 ≤ 1`, with `s < s2` when the cell width
`imageWidth` is positive and `t < t2` when `imageHeight` is positive, `s2 ≤ 1`
when the cell is at most `CANVAS_SIZE` wide, and
`(s2 - s) * CANVAS_SIZE = imageWidth`, `(t2 - t) * CANVAS_SIZE = imageHeight`. -/
theorem texcoords (face : Face) (c : Nat) (margin : Int) (st : PackState)
    (hout : (face c).outline = true)
    (hw : 0 ≤ (face c).width) (hh : 0 ≤ (face c).height)
    (hx : 0 ≤ st.xOut) (hy : 0 ≤ st.yOut) (hm : 0 ≤ margin)
    (hb : (R_GetGlyphInfo (face c)).pitch + margin * 2 < 16777216)
    (hplaced : (RE_ConstructGlyphInfo binary32Ops st (some face) c false margin).2.yOut ≠ -1) :
    let g := (RE_ConstructGlyphInfo binary32Ops st (some face) c false margin).1
    0 ≤ g.s ∧ g.s ≤ g.s2 ∧ (0 < g.imageWidth → g.s < g.s2) ∧ (g.imageWidth ≤ CANVAS_SIZE → g.s2 ≤ 1)
      ∧ 0 ≤ g.t ∧ g.t ≤ g.t2 ∧ (0 < g.imageHeight → g.t < g.t2) ∧ g.t2 ≤ 1
      ∧ (g.s2 - g.s) * (CANVAS_SIZE : ℚ) = g.imageWidth
      ∧ (g.t2 - g.t) * (CANVAS_SIZE : ℚ) = g.imageHeight := by
  have e := construct_binary32 face c margin st hw hh hx hy hm hb
  rw [e] at hplaced
  rw [e]
  exact coords_exact face c margin st hout hw hh hx hy hm hplaced

/-- C6 at a concrete input: an 8-bit glyph of 4 by 10 pixels placed at cursor
`(5, 7)` with margin 2, which gets `s = 5/1024`, `s2 = 13/1024`, `t = 7/1024`
and `t2 = 21/1024`. -/
theorem texcoords_witness :
    (let g := (RE_ConstructGlyphInfo binary32Ops (packAt 5 7 20) (some (fun _ => boxSlot 4 10)) 65 false 2).1
     0 ≤ g.s ∧ g.s ≤ g.s2 ∧ (0 < g.imageWidth → g.s < g.s2) ∧ (g.imageWidth ≤ CANVAS_SIZE → g.s2 ≤ 1)
        ∧ 0 ≤ g.t ∧ g.t ≤ g.t2 ∧ (0 < g.imageHeight → g.t < g.t2) ∧ g.t2 ≤ 1
        ∧ (g.s2 - g.s) * (CANVAS_SIZE : ℚ) = g.imageWidth
        ∧ (g.t2 - g.t) * (CANVAS_SIZE : ℚ) = g.imageHeight)
      ∧ (RE_ConstructGlyphInfo binary32Ops (packAt 5 7 20) (some (fun _ => boxSlot 4 10)) 65
          false 2).1.s = 5 / 1024
      ∧ (RE_ConstructGlyphInfo binary32Ops (packAt 5 7 20) (some (fun _ => boxSlot 4 10)) 65
          false 2).1.s2 = 13 / 1024
      ∧ (RE_ConstructGlyphInfo binary32Ops (packAt 5 7 20) (some (fun _ => boxSlot 4 10)) 65
          false 2).1.t = 7 / 1024
      ∧ (RE_ConstructGlyphInfo binary32Ops (packAt 5 7 20) (some (fun _ => boxSlot 4 10)) 65
          false 2).1.t2 = 21 / 1024
      ∧ (RE_ConstructGlyphInfo binary32Ops (packAt 5 7 20) (some (fun _ => boxSlot 4 10)) 65
          false 2).1.imageWidth = 8
      ∧ (RE_ConstructGlyphInfo binary32Ops (packAt 5 7 20) (some (fun _ => boxSlot 4 10)) 65
          false 2).1.imageHeight = 14 := by
  have e := construct_binary32 (fun _ => boxSlot 4 10) 65 2 (packAt 5 7 20)
    (by decide) (by decide) (by decide) (by decide) (by decide) (by decide)
  refine ⟨texcoords (fun _ => boxSlot 4 10) 65 2 (packAt 5 7 20)
    (by decide) (by decide) (by decide) (by decide) (by decide) (by decide) (by decide)
    (by rw [e]; decide), ?_, ?_, ?_, ?_, ?_, ?_⟩
  all_goals rw [e]
  all_goals norm_num [RE_ConstructGlyphInfo, R_RenderGlyph, R_GetGlyphInfo, boxSlot, packAt,
    exactOps, _FLOOR, _CEIL, _TRUNC, CANVAS_SIZE, zeroGlyph]

/-- C6 as stated fails, with the arithmetic of `float` taken as binary32: a
glyph with an empty bitmap (the space character, 0 by 0 pixels) placed with
margin 0 gets `s = s2` and `t = t2`; a glyph of pitch 1020 placed with margin 3
gets `s2 > 1`; and for a glyph of pitch `2^26` placed with margin 1 the cell
width `2^26 + 2` is not a binary32 value, `(float)scaled_width` is `2^26` and
`(s2 - s) * CANVAS_SIZE` is `2^26`, not `imageWidth`. -/
theorem texcoords_counterexample :
    ((boxSlot 0 0).outline = true
      ∧ (RE_ConstructGlyphInfo binary32Ops (packAt 0 0 10) (some (fun _ => boxSlot 0 0)) 32 false 0).2.yOut ≠ -1
      ∧ ¬ ((RE_ConstructGlyphInfo binary32Ops (packAt 0 0 10) (some (fun _ => boxSlot 0 0)) 32 false 0).1.s
            < (RE_ConstructGlyphInfo binary32Ops (packAt 0 0 10) (some (fun _ => boxSlot 0 0)) 32 false 0).1.s2)
      ∧ ¬ ((RE_ConstructGlyphInfo binary32Ops (packAt 0 0 10) (some (fun _ => boxSlot 0 0)) 32 false 0).1.t
            < (RE_ConstructGlyphInfo binary32Ops (packAt 0 0 10) (some (fun _ => boxSlot 0 0)) 32 false 0).1.t2))
    ∧ ((boxSlot 1020 10).outline = true
      ∧ (RE_ConstructGlyphInfo binary32Ops (packAt 0 0 10) (some (fun _ => boxSlot 1020 10)) 87 false 3).2.yOut ≠ -1
      ∧ ¬ ((RE_ConstructGlyphInfo binary32Ops (packAt 0 0 10) (some (fun _ => boxSlot 1020 10)) 87 false 3).1.s2
            ≤ 1))
    ∧ ((boxSlot 67108864 10).outline = true
      ∧ (RE_ConstructGlyphInfo binary32Ops (packAt 0 0 10) (some (fun _ => boxSlot 67108864 10)) 87
          false 1).2.yOut ≠ -1
      ∧ (RE_ConstructGlyphInfo binary32Ops (packAt 0 0 10) (some (fun _ => boxSlot 67108864 10)) 87
          false 1).1.imageWidth = 67108866
      ∧ (RE_ConstructGlyphInfo binary32Ops (packAt 0 0 10) (some (fun _ => boxSlot 67108864 10)) 87
          false 1).1.s = 0
      ∧ (RE_ConstructGlyphInfo binary32Ops (packAt 0 0 10) (some (fun _ => boxSlot 67108864 10)) 87
          false 1).1.s2 = 65536
      ∧ ¬ (((RE_ConstructGlyphInfo binary32Ops (packAt 0 0 10) (some (fun _ => boxSlot 67108864 10)) 87
              false 1).1.s2
            - (RE_ConstructGlyphInfo binary32Ops (packAt 0 0 10) (some (fun _ => boxSlot 67108864 10)) 87
              false 1).1.s) * (CANVAS_SIZE : ℚ)
          = (RE_ConstructGlyphInfo binary32Ops (packAt 0 0 10) (some (fun _ => boxSlot 67108864 10)) 87
              false 1).1.imageWidth)) := by
  have e1 := construct_binary32 (fun _ => boxSlot 0 0) 32 0 (packAt 0 0 10)
    (by decide) (by decide) (by decide) (by decide) (by decide) (by decide)
  have e2 := construct_binary32 (fun _ => boxSlot 1020 10) 87 3 (packAt 0 0 10)
    (by decide) (by decide) (by decide) (by decide) (by decide) (by decide)
  have r0 : round32 0 = 0 := by simp [round32]
  have r1 : round32 1024 = 1024 := by
    have := round32_nat 1024 (by norm_num)
    simpa using this
  have r2 : round32 67108866 = 67108864 := by
    have := round32_down 67108866 26 8388608 (by norm_num) (by norm_num) (by norm_num)
      (by norm_num)
    rw [this]
    norm_num
  have r3 : round32 65536 = 65536 := by
    have := round32_nat 65536 (by norm_num)
    simpa using this
  have hs : (RE_ConstructGlyphInfo binary32Ops (packAt 0 0 10) (some (fun _ => boxSlot 67108864 10)) 87
      false 1).1.s = 0 := by
    norm_num [RE_ConstructGlyphInfo, R_RenderGlyph, R_GetGlyphInfo, boxSlot, packAt,
      binary32Ops, _FLOOR, _CEIL, _TRUNC, CANVAS_SIZE, zeroGlyph, r0, r1]
  have hs2 : (RE_ConstructGlyphInfo binary32Ops (packAt 0 0 10) (some (fun _ => boxSlot 67108864 10)) 87
      false 1).1.s2 = 65536 := by
    norm_num [RE_ConstructGlyphInfo, R_RenderGlyph, R_GetGlyphInfo, boxSlot, packAt,
      binary32Ops, _FLOOR, _CEIL, _TRUNC, CANVAS_SIZE, zeroGlyph, r0, r1, r2, r3]
  have hiw : (RE_ConstructGlyphInfo binary32Ops (packAt 0 0 10) (some (fun _ => boxSlot 67108864 10)) 87
      false 1).1.imageWidth = 67108866 := by decide
  refine ⟨⟨rfl, by decide, ?_, ?_⟩, ⟨rfl, by decide, ?_⟩, rfl, by decide, hiw, hs, hs2, ?_⟩
  · rw [e1]
    norm_num [RE_ConstructGlyphInfo, R_RenderGlyph, R_GetGlyphInfo, boxSlot, packAt, exactOps,
      _FLOOR, _CEIL, _TRUNC, CANVAS_SIZE, zeroGlyph]
  · rw [e1]
    norm_num [RE_ConstructGlyphInfo, R_RenderGlyph, R_GetGlyphInfo, boxSlot, packAt, exactOps,
      _FLOOR, _CEIL, _TRUNC, CANVAS_SIZE, zeroGlyph]
  · rw [e2]
    norm_num [RE_ConstructGlyphInfo, R_RenderGlyph, R_GetGlyphInfo, boxSlot, packAt, exactOps,
      _FLOOR, _CEIL, _TRUNC, CANVAS_SIZE, zeroGlyph]
  · rw [hs, hs2, hiw]
    norm_num [CANVAS_SIZE]

/-! ## The rebuild path does not depend on the content of other files -/

/-- One iteration of a page-building loop reads no file: with other files, the
iteration differs in its files only. -/
theorem pageStep_files {F : Type} (w : World F) (L : Layout) (cfg : PageCfg F) (face : Face)
    (s : LoopState F) (f : Files) :
    ∃ g, pageStep w L cfg face { s with files := f }
      = { pageStep w L cfg face s with files := g } := by
  simp only [pageStep, finalizePage]
  split_ifs <;> exact ⟨_, rfl⟩

theorem pageLoop_files {F : Type} (w : World F) (L : Layout) (cfg : PageCfg F) (face : Face)
    (fuel : Nat) (s : LoopState F) (f : Files) :
    ∃ g, pageLoop w L cfg face fuel { s with files := f }
      = (pageLoop w L cfg face fuel s).map (fun r => { r with files := g }) := by
  induction fuel generalizing s f with
  | zero =>
    simp only [pageLoop]
    split_ifs
    · exact ⟨f, rfl⟩
    · exact ⟨f, rfl⟩
  | succ n ih =>
    simp only [pageLoop]
    by_cases h : s.i ≤ L.GLYPH_END + 1
    · simp only [h, if_true]
      obtain ⟨g1, hg1⟩ := pageStep_files w L cfg face s f
      rw [hg1]
      exact ih _ g1
    · simp only [h, if_false]
      exact ⟨f, rfl⟩

theorem shadowLoops_files {F : Type} (w : World F) (L : Layout) (fuel : Nat) (face : Face)
    (simpleName : List Nat) (pointSize : Int) (n l : Nat) (b : BuildState F) (f : Files) :
    ∃ g, shadowLoops w L fuel face simpleName pointSize n l { b with files := f }
      = (shadowLoops w L fuel face simpleName pointSize n l b).map
          (fun r => { r with files := g }) := by
  induction n generalizing l b f with
  | zero => exact ⟨f, rfl⟩
  | succ n ih =>
    simp only [shadowLoops]
    obtain ⟨g1, hg1⟩ := pageLoop_files w L
      { margin := (shadowBlur w.ops pointSize l).1,
        pageName := shadowPageName simpleName pointSize l,
        blur := some (shadowBlur w.ops pointSize l) } face fuel
      (loopStart L b.imageOut b.maxHeight
        (b.font.shadows.getD l (zeroShadow w.ops L)).glyphs b.files b.trace) f
    have hls : loopStart L b.imageOut b.maxHeight
        (b.font.shadows.getD l (zeroShadow w.ops L)).glyphs f b.trace
        = { loopStart L b.imageOut b.maxHeight
              (b.font.shadows.getD l (zeroShadow w.ops L)).glyphs b.files b.trace
            with files := f } := rfl
    rw [hls, hg1]
    cases pageLoop w L
      { margin := (shadowBlur w.ops pointSize l).1,
        pageName := shadowPageName simpleName pointSize l,
        blur := some (shadowBlur w.ops pointSize l) } face fuel
      (loopStart L b.imageOut b.maxHeight
        (b.font.shadows.getD l (zeroShadow w.ops L)).glyphs b.files b.trace) with
    | none => exact ⟨f, rfl⟩
    | some s =>
      simp only [Option.map_some']
      exact ih (l + 1)
        (⟨(⟨b.font.glyphs, b.font.glyphScale, b.font.name, b.font.shadows.set l
            (⟨s.glyphs, (shadowBlur w.ops pointSize l).1, true⟩ : shadowInfo_t F)⟩ :
            newFontInfo_t F),
          s.pack.imageOut, s.pack.maxHeight, s.files, s.trace⟩ : BuildState F) g1

theorem buildFont_files {F : Type} (w : World F) (L : Layout) (fuel : Nat) (st : State F)
    (face : Face) (pointSize : Int) (font : fontInfo_t F) (f : Files) :
    ∃ g, buildFont w L fuel { st with files := f } face pointSize font
      = (buildFont w L fuel st face pointSize font).map (fun r => ({ r.1 with files := g }, r.2)) := by
  simp only [buildFont]
  obtain ⟨g1, hg1⟩ := pageLoop_files w L
    { margin := 0, pageName := legacyPageName pointSize, blur := none } face fuel
    (loopStart L
      (dryRun w.ops face (glyphRange L)
        { imageOut := zeroCanvas, xOut := 0, yOut := 0, maxHeight := 0 }).imageOut
      (dryRun w.ops face (glyphRange L)
        { imageOut := zeroCanvas, xOut := 0, yOut := 0, maxHeight := 0 }).maxHeight
      font.glyphs st.files (st.trace ++ dryRunTrace L)) f
  have hls : loopStart L
      (dryRun w.ops face (glyphRange L)
        { imageOut := zeroCanvas, xOut := 0, yOut := 0, maxHeight := 0 }).imageOut
      (dryRun w.ops face (glyphRange L)
        { imageOut := zeroCanvas, xOut := 0, yOut := 0, maxHeight := 0 }).maxHeight
      font.glyphs f (st.trace ++ dryRunTrace L)
      = { loopStart L
            (dryRun w.ops face (glyphRange L)
              { imageOut := zeroCanvas, xOut := 0, yOut := 0, maxHeight := 0 }).imageOut
            (dryRun w.ops face (glyphRange L)
              { imageOut := zeroCanvas, xOut := 0, yOut := 0, maxHeight := 0 }).maxHeight
            font.glyphs st.files (st.trace ++ dryRunTrace L)
          with files := f } := rfl
  rw [hls, hg1]
  cases pageLoop w L
    { margin := 0, pageName := legacyPageName pointSize, blur := none } face fuel
    (loopStart L
      (dryRun w.ops face (glyphRange L)
        { imageOut := zeroCanvas, xOut := 0, yOut := 0, maxHeight := 0 }).imageOut
      (dryRun w.ops face (glyphRange L)
        { imageOut := zeroCanvas, xOut := 0, yOut := 0, maxHeight := 0 }).maxHeight
      font.glyphs st.files (st.trace ++ dryRunTrace L)) with
  | none => exact ⟨f, rfl⟩
  | some s => exact ⟨_, rfl⟩

theorem buildNewFont_files {F : Type} (w : World F) (L : Layout) (fuel : Nat) (st : State F)
    (face : Face) (simpleName : List Nat) (pointSize : Int) (font : newFontInfo_t F) (f : Files) :
    ∃ g, buildNewFont w L fuel { st with files := f } face simpleName pointSize font
      = (buildNewFont w L fuel st face simpleName pointSize font).map
          (fun r => ({ r.1 with files := g }, r.2)) := by
  simp only [buildNewFont]
  obtain ⟨g1, hg1⟩ := pageLoop_files w L
    { margin := 0, pageName := basePageName simpleName pointSize, blur := none } face fuel
    (loopStart L
      (dryRun w.ops face (glyphRange L)
        { imageOut := zeroCanvas, xOut := 0, yOut := 0, maxHeight := 0 }).imageOut
      (dryRun w.ops face (glyphRange L)
        { imageOut := zeroCanvas, xOut := 0, yOut := 0, maxHeight := 0 }).maxHeight
      font.glyphs st.files (st.trace ++ dryRunTrace L)) f
  have hls : loopStart L
      (dryRun w.ops face (glyphRange L)
        { imageOut := zeroCanvas, xOut := 0, yOut := 0, maxHeight := 0 }).imageOut
      (dryRun w.ops face (glyphRange L)
        { imageOut := zeroCanvas, xOut := 0, yOut := 0, maxHeight := 0 }).maxHeight
      font.glyphs f (st.trace ++ dryRunTrace L)
      = { loopStart L
            (dryRun w.ops face (glyphRange L)
              { imageOut := zeroCanvas, xOut := 0, yOut := 0, maxHeight := 0 }).imageOut
            (dryRun w.ops face (glyphRange L)
              { imageOut := zeroCanvas, xOut := 0, yOut := 0, maxHeight := 0 }).maxHeight
            font.glyphs st.files (st.trace ++ dryRunTrace L)
          with files := f } := rfl
  rw [hls, hg1]
  cases pageLoop w L
    { margin := 0, pageName := basePageName simpleName pointSize, blur := none } face fuel
    (loopStart L
      (dryRun w.ops face (glyphRange L)
        { imageOut := zeroCanvas, xOut := 0, yOut := 0, maxHeight := 0 }).imageOut
      (dryRun w.ops face (glyphRange L)
        { imageOut := zeroCanvas, xOut := 0, yOut := 0, maxHeight := 0 }).maxHeight
      font.glyphs st.files (st.trace ++ dryRunTrace L)) with
  | none => exact ⟨f, rfl⟩
  | some s =>
    simp only [Option.map_some']
    obtain ⟨g2, hg2⟩ := shadowLoops_files w L fuel face simpleName pointSize L.FONT_MAXSHADOW 0
      (⟨{ font with glyphs := s.glyphs }, s.pack.imageOut, s.pack.maxHeight, s.files, s.trace⟩ :
        BuildState F) g1
    rw [show shadowLoops w L fuel face simpleName pointSize L.FONT_MAXSHADOW 0
        (⟨{ font with glyphs := s.glyphs }, s.pack.imageOut, s.pack.maxHeight, g1, s.trace⟩ :
          BuildState F)
      = (shadowLoops w L fuel face simpleName pointSize L.FONT_MAXSHADOW 0
        (⟨{ font with glyphs := s.glyphs }, s.pack.imageOut, s.pack.maxHeight, s.files, s.trace⟩ :
          BuildState F)).map (fun r => { r with files := g2 }) from hg2]
    cases shadowLoops w L fuel face simpleName pointSize L.FONT_MAXSHADOW 0
      { font := { font with glyphs := s.glyphs }, imageOut := s.pack.imageOut,
        maxHeight := s.pack.maxHeight, files := s.files, trace := s.trace } with
    | none => exact ⟨f, rfl⟩
    | some b => exact ⟨_, rfl⟩

/-- The rebuild path of `RE_RegisterFont` reads the font file and no other:
over files that hold the same font file, its outcome differs in the files
only. -/
theorem rebuildFont_files {F : Type} (w : World F) (L : Layout) (fuel : Nat) (st : State F)
    (fontName : List Nat) (pointSize : Int) (font : fontInfo_t F) (f : Files)
    (hf : f fontName = st.files fontName) :
    ∃ g, rebuildFont w L fuel { st with files := f } fontName pointSize font
      = (rebuildFont w L fuel st fontName pointSize font).map
          (fun r => ({ r.1 with files := g }, r.2)) := by
  simp only [rebuildFont, State.log, hf]
  split_ifs
  · exact ⟨f, rfl⟩
  · exact ⟨f, rfl⟩
  · cases st.files fontName with
    | none => exact ⟨f, rfl⟩
    | some d =>
      cases d with
      | nil => exact ⟨f, rfl⟩
      | cons b bs =>
        simp only []
        cases w.FT_New_Memory_Face (b :: bs) with
        | none => exact ⟨f, rfl⟩
        | some sized =>
          simp only []
          cases sized (pointSize * 64) with
          | none => exact ⟨f, rfl⟩
          | some face =>
            exact buildFont_files w L fuel
              { st with trace := st.trace ++ [Event.fsRead fontName] } face pointSize font f

theorem rebuildNewFont_files {F : Type} (w : World F) (L : Layout) (fuel : Nat) (st : State F)
    (fontName simpleName : List Nat) (pointSize : Int) (font : newFontInfo_t F) (f : Files)
    (hf : f fontName = st.files fontName) :
    ∃ g, rebuildNewFont w L fuel { st with files := f } fontName simpleName pointSize font
      = (rebuildNewFont w L fuel st fontName simpleName pointSize font).map
          (fun r => ({ r.1 with files := g }, r.2)) := by
  simp only [rebuildNewFont, State.log, hf]
  split_ifs
  · exact ⟨f, rfl⟩
  · exact ⟨f, rfl⟩
  · cases st.files fontName with
    | none => exact ⟨f, rfl⟩
    | some d =>
      cases d with
      | nil => exact ⟨f, rfl⟩
      | cons b bs =>
        simp only []
        cases w.FT_New_Memory_Face (b :: bs) with
        | none => exact ⟨f, rfl⟩
        | some sized =>
          simp only []
          cases sized (pointSize * 64) with
          | none => exact ⟨f, rfl⟩
          | some face =>
            exact buildNewFont_files w L fuel
              { st with trace := st.trace ++ [Event.fsRead fontName] } face simpleName pointSize
              font f

/-! ## The files the rebuild path reads -/

/-- One iteration of a page-building loop adds no file read to the trace. -/
theorem pageStep_reads {F : Type} (w : World F) (L : Layout) (cfg : PageCfg F) (face : Face)
    (s : LoopState F) :
    ∃ ev, (pageStep w L cfg face s).trace = s.trace ++ ev ∧ ∀ n, Event.fsRead n ∉ ev := by
  simp only [pageStep, finalizePage]
  cases w.r_saveFontData
  all_goals split_ifs
  all_goals simp only [List.append_assoc, Bool.false_eq_true, if_false, if_true]
  all_goals exact ⟨_, rfl, by simp⟩

theorem pageLoop_reads {F : Type} (w : World F) (L : Layout) (cfg : PageCfg F) (face : Face)
    (fuel : Nat) (s s' : LoopState F) (h : pageLoop w L cfg face fuel s = some s') :
    ∃ ev, s'.trace = s.trace ++ ev ∧ ∀ n, Event.fsRead n ∉ ev := by
  induction fuel generalizing s with
  | zero =>
    simp only [pageLoop] at h
    split_ifs at h
    simp only [Option.some.injEq] at h
    subst h
    exact ⟨[], by simp, by simp⟩
  | succ n ih =>
    simp only [pageLoop] at h
    split_ifs at h
    · obtain ⟨ev1, e1, n1⟩ := pageStep_reads w L cfg face s
      obtain ⟨ev2, e2, n2⟩ := ih _ h
      refine ⟨ev1 ++ ev2, ?_, ?_⟩
      · rw [e2, e1, List.append_assoc]
      · intro n hn
        rcases List.mem_append.1 hn with hn | hn
        · exact n1 n hn
        · exact n2 n hn
    · simp only [Option.some.injEq] at h
      subst h
      exact ⟨[], by simp, by simp⟩

theorem shadowLoops_reads {F : Type} (w : World F) (L : Layout) (fuel : Nat) (face : Face)
    (simpleName : List Nat) (pointSize : Int) (n l : Nat) (b b' : BuildState F)
    (h : shadowLoops w L fuel face simpleName pointSize n l b = some b') :
    ∃ ev, b'.trace = b.trace ++ ev ∧ ∀ n, Event.fsRead n ∉ ev := by
  induction n generalizing l b with
  | zero =>
    simp only [shadowLoops, Option.some.injEq] at h
    subst h
    exact ⟨[], by simp, by simp⟩
  | succ n ih =>
    simp only [shadowLoops] at h
    cases hp : pageLoop w L
      { margin := (shadowBlur w.ops pointSize l).1,
        pageName := shadowPageName simpleName pointSize l,
        blur := some (shadowBlur w.ops pointSize l) } face fuel
      (loopStart L b.imageOut b.maxHeight
        (b.font.shadows.getD l (zeroShadow w.ops L)).glyphs b.files b.trace) with
    | none => rw [hp] at h; exact absurd h (by simp)
    | some s =>
      rw [hp] at h
      obtain ⟨ev1, e1, n1⟩ := pageLoop_reads w L _ face fuel _ s hp
      obtain ⟨ev2, e2, n2⟩ := ih _ _ h
      refine ⟨ev1 ++ ev2, ?_, ?_⟩
      · rw [e2]
        simp only []
        rw [e1, List.append_assoc]
        rfl
      · intro n hn
        rcases List.mem_append.1 hn with hn | hn
        · exact n1 n hn
        · exact n2 n hn

theorem dryRunTrace_reads (L : Layout) (n : List Nat) : Event.fsRead n ∉ dryRunTrace L := by
  intro h
  obtain ⟨i, _, hi⟩ := List.mem_map.1 h
  exact Event.noConfusion hi

theorem buildFont_reads {F : Type} (w : World F) (L : Layout) (fuel : Nat) (st : State F)
    (face : Face) (pointSize : Int) (font : fontInfo_t F) (r : State F × fontInfo_t F)
    (h : buildFont w L fuel st face pointSize font = some r) :
    ∃ ev, r.1.trace = st.trace ++ ev ∧ ∀ n, Event.fsRead n ∉ ev := by
  simp only [buildFont] at h
  cases hp : pageLoop w L
    { margin := 0, pageName := legacyPageName pointSize, blur := none } face fuel
    (loopStart L
      (dryRun w.ops face (glyphRange L)
        { imageOut := zeroCanvas, xOut := 0, yOut := 0, maxHeight := 0 }).imageOut
      (dryRun w.ops face (glyphRange L)
        { imageOut := zeroCanvas, xOut := 0, yOut := 0, maxHeight := 0 }).maxHeight
      font.glyphs st.files (st.trace ++ dryRunTrace L)) with
  | none => rw [hp] at h; exact absurd h (by simp)
  | some s =>
    rw [hp] at h
    obtain ⟨ev1, e1, n1⟩ := pageLoop_reads w L _ face fuel _ s hp
    simp only [Option.some.injEq] at h
    subst h
    refine ⟨dryRunTrace L ++ ev1 ++ (if w.r_saveFontData then
      [Event.fsWrite (str "fonts/fontImage_" ++ fmtInt pointSize ++ str ".dat")] else []), ?_, ?_⟩
    · simp only []
      rw [e1]
      simp only [loopStart, List.append_assoc]
    · intro n hn
      simp only [List.mem_append] at hn
      rcases hn with (hn | hn) | hn
      · exact dryRunTrace_reads L n hn
      · exact n1 n hn
      · split_ifs at hn <;> simp at hn

theorem buildNewFont_reads {F : Type} (w : World F) (L : Layout) (fuel : Nat) (st : State F)
    (face : Face) (simpleName : List Nat) (pointSize : Int) (font : newFontInfo_t F)
    (r : State F × newFontInfo_t F)
    (h : buildNewFont w L fuel st face simpleName pointSize font = some r) :
    ∃ ev, r.1.trace = st.trace ++ ev ∧ ∀ n, Event.fsRead n ∉ ev := by
  simp only [buildNewFont] at h
  cases hp : pageLoop w L
    { margin := 0, pageName := basePageName simpleName pointSize, blur := none } face fuel
    (loopStart L
      (dryRun w.ops face (glyphRange L)
        { imageOut := zeroCanvas, xOut := 0, yOut := 0, maxHeight := 0 }).imageOut
      (dryRun w.ops face (glyphRange L)
        { imageOut := zeroCanvas, xOut := 0, yOut := 0, maxHeight := 0 }).maxHeight
      font.glyphs st.files (st.trace ++ dryRunTrace L)) with
  | none => rw [hp] at h; exact absurd h (by simp)
  | some s =>
    rw [hp] at h
    simp only [] at h
    obtain ⟨ev1, e1, n1⟩ := pageLoop_reads w L _ face fuel _ s hp
    cases hs : shadowLoops w L fuel face simpleName pointSize L.FONT_MAXSHADOW 0
      (⟨{ font with glyphs := s.glyphs }, s.pack.imageOut, s.pack.maxHeight, s.files, s.trace⟩ :
        BuildState F) with
    | none => rw [hs] at h; exact absurd h (by simp)
    | some b =>
      rw [hs] at h
      obtain ⟨ev2, e2, n2⟩ := shadowLoops_reads w L fuel face simpleName pointSize _ _ _ b hs
      simp only [Option.some.injEq] at h
      subst h
      refine ⟨dryRunTrace L ++ ev1 ++ ev2 ++ (if w.r_saveFontData then
        [Event.fsWrite (str "fonts/" ++ simpleName ++ str "_" ++ fmtInt pointSize ++ str ".dat")]
        else []), ?_, ?_⟩
      · simp only []
        rw [e2]
        simp only []
        rw [e1]
        simp only [loopStart, List.append_assoc]
      · intro n hn
        simp only [List.mem_append] at hn
        rcases hn with ((hn | hn) | hn) | hn
        · exact dryRunTrace_reads L n hn
        · exact n1 n hn
        · exact n2 n hn
        · split_ifs at hn <;> simp at hn

/-- The rebuild path of `RE_RegisterFont` reads no file but the font file. -/
theorem rebuildFont_reads {F : Type} (w : World F) (L : Layout) (fuel : Nat) (st : State F)
    (fontName : List Nat) (pointSize : Int) (font : fontInfo_t F) (r : State F × fontInfo_t F)
    (h : rebuildFont w L fuel st fontName pointSize font = some r) :
    ∃ ev, r.1.trace = st.trace ++ ev ∧ ∀ n, Event.fsRead n ∈ ev → n = fontName := by
  simp only [rebuildFont, State.log] at h
  split_ifs at h
  · simp only [Option.some.injEq] at h
    subst h
    exact ⟨_, rfl, by simp⟩
  · simp only [Option.some.injEq] at h
    subst h
    exact ⟨_, rfl, by simp⟩
  · cases hfile : st.files fontName with
    | none =>
      rw [hfile] at h
      simp only [Option.some.injEq] at h
      subst h
      exact ⟨_, by simp only [List.append_assoc]; exact rfl, by simp⟩
    | some d =>
      rw [hfile] at h
      cases d with
      | nil =>
        simp only [Option.some.injEq] at h
        subst h
        exact ⟨_, by simp only [List.append_assoc]; exact rfl, by simp⟩
      | cons b bs =>
        simp only [] at h
        cases hface : w.FT_New_Memory_Face (b :: bs) with
        | none =>
          rw [hface] at h
          simp only [Option.some.injEq] at h
          subst h
          exact ⟨_, by simp only [List.append_assoc]; exact rfl, by simp⟩
        | some sized =>
          rw [hface] at h
          simp only [] at h
          cases hsized : sized (pointSize * 64) with
          | none =>
            rw [hsized] at h
            simp only [Option.some.injEq] at h
            subst h
            exact ⟨_, by simp only [List.append_assoc]; exact rfl, by simp⟩
          | some face =>
            rw [hsized] at h
            obtain ⟨ev, e, n1⟩ := buildFont_reads w L fuel _ face pointSize font r h
            refine ⟨[Event.fsRead fontName] ++ ev, ?_, ?_⟩
            · rw [e, List.append_assoc]
            · intro n hn
              rcases List.mem_append.1 hn with hn | hn
              · simpa using hn
              · exact absurd hn (n1 n)

theorem rebuildNewFont_reads {F : Type} (w : World F) (L : Layout) (fuel : Nat) (st : State F)
    (fontName simpleName : List Nat) (pointSize : Int) (font : newFontInfo_t F)
    (r : State F × newFontInfo_t F)
    (h : rebuildNewFont w L fuel st fontName simpleName pointSize font = some r) :
    ∃ ev, r.1.trace = st.trace ++ ev ∧ ∀ n, Event.fsRead n ∈ ev → n = fontName := by
  simp only [rebuildNewFont, State.log] at h
  split_ifs at h
  · simp only [Option.some.injEq] at h
    subst h
    exact ⟨_, rfl, by simp⟩
  · simp only [Option.some.injEq] at h
    subst h
    exact ⟨_, rfl, by simp⟩
  · cases hfile : st.files fontName with
    | none =>
      rw [hfile] at h
      simp only [Option.some.injEq] at h
      subst h
      exact ⟨_, by simp only [List.append_assoc]; exact rfl, by simp⟩
    | some d =>
      rw [hfile] at h
      cases d with
      | nil =>
        simp only [Option.some.injEq] at h
        subst h
        exact ⟨_, by simp only [List.append_assoc]; exact rfl, by simp⟩
      | cons b bs =>
        simp only [] at h
        cases hface : w.FT_New_Memory_Face (b :: bs) with
        | none =>
          rw [hface] at h
          simp only [Option.some.injEq] at h
          subst h
          exact ⟨_, by simp only [List.append_assoc]; exact rfl, by simp⟩
        | some sized =>
          rw [hface] at h
          simp only [] at h
          cases hsized : sized (pointSize * 64) with
          | none =>
            rw [hsized] at h
            simp only [Option.some.injEq] at h
            subst h
            exact ⟨_, by simp only [List.append_assoc]; exact rfl, by simp⟩
          | some face =>
            rw [hsized] at h
            obtain ⟨ev, e, n1⟩ := buildNewFont_reads w L fuel _ face simpleName pointSize font r h
            refine ⟨[Event.fsRead fontName] ++ ev, ?_, ?_⟩
            · rw [e, List.append_assoc]
            · intro n hn
              rcases List.mem_append.1 hn with hn | hn
              · simpa using hn
              · exact absurd hn (n1 n)

/-! ## Cache acceptance -/

/-- The pattern `0x41414141` and its value `12665153 / 2^20` correspond to
each other under `ieeeRepr`. -/
theorem ieeeRepr_example :
    ieeeRepr.ofBits 1094795585 = 12665153 / 1048576
      ∧ ieeeRepr.toBits (12665153 / 1048576) = 1094795585 := by
  have hlog : Int.log 2 |(12665153 / 1048576 : ℚ)| = 3 := by
    rw [abs_of_pos (by norm_num)]
    exact log_eq_of_bounds _ 3 (by norm_num) (by norm_num)
  refine ⟨?_, ?_⟩
  · show ieeeValue 1094795585 = _
    norm_num [ieeeValue]
  · show ieeeBits (12665153 / 1048576) = _
    unfold ieeeBits
    rw [if_neg (by norm_num)]
    simp only [hlog]
    norm_num
    have habs : |(12665153 / 1048576 : ℚ)| * 1048576 = ((12665153 : Int) : ℚ) := by
      rw [abs_of_pos (by norm_num)]
      norm_num
    rw [habs, Int.floor_intCast]
    decide

/-- What the cache decoder of `RE_RegisterFont` makes of a file: glyph `i` is
the one laid out at offset `i * glyphSize` (its handle replaced by the
registered shader for the rendered range), `glyphScale` is the `float` that
follows the glyphs, and the name is the cache key. -/
theorem decodeFont_fields {F : Type} (ops : FloatRepr F) (L : Layout) (noMip : List Nat → Int)
    (name fdFile : List Nat) :
    (decodeFont ops L noMip name fdFile).glyphs.length = L.GLYPHS_PER_FONT
      ∧ (∀ i, i < L.GLYPHS_PER_FONT →
          (decodeFont ops L noMip name fdFile).glyphs[i]?
            = some (withHandle L noMip true i (glyphAt ops L fdFile (i * glyphSize L))))
      ∧ (decodeFont ops L noMip name fdFile).glyphScale
          = (readFloat ops fdFile (L.GLYPHS_PER_FONT * glyphSize L)).1
      ∧ (decodeFont ops L noMip name fdFile).name = Q_strncpyz name L.MAX_QPATH := by
  obtain ⟨g1, g2, g3⟩ := readGlyphs_layout ops L fdFile L.GLYPHS_PER_FONT 0
  rw [Nat.zero_add] at g1
  have hdec : decodeFont ops L noMip name fdFile
      = { glyphs := registerGlyphShaders L noMip (readGlyphs ops L fdFile L.GLYPHS_PER_FONT 0).1,
          glyphScale := (readFloat ops fdFile (L.GLYPHS_PER_FONT * glyphSize L)).1,
          name := Q_strncpyz name L.MAX_QPATH } := by
    simp only [decodeFont, readFloat, g1]
  refine ⟨?_, ?_, ?_, ?_⟩
  · rw [hdec]
    simp only [registerGlyphShaders, updateRange_length, g2]
  · intro i hi
    rw [hdec]
    have h := g3 i hi
    rw [Nat.zero_add] at h
    exact registerGlyphShaders_getElem? L noMip _ i _ h
  · rw [hdec]
  · rw [hdec]

/-- What the cache decoder of `RE_RegisterNewFont` makes of a file: the base
record as for `RE_RegisterFont`, and shadow level `l` from offset
`sizeof(fontInfo_t) + l * shadowSize`: its glyphs, then `margin`, then the
availability flag. -/
theorem decodeNewFont_fields {F : Type} (ops : FloatRepr F) (L : Layout)
    (noMip : List Nat → Int) (name fdFile : List Nat) :
    (decodeNewFont ops L noMip name fdFile).glyphs.length = L.GLYPHS_PER_FONT
      ∧ (∀ i, i < L.GLYPHS_PER_FONT →
          (decodeNewFont ops L noMip name fdFile).glyphs[i]?
            = some (withHandle L noMip true i (glyphAt ops L fdFile (i * glyphSize L))))
      ∧ (decodeNewFont ops L noMip name fdFile).glyphScale
          = (readFloat ops fdFile (L.GLYPHS_PER_FONT * glyphSize L)).1
      ∧ (decodeNewFont ops L noMip name fdFile).name = Q_strncpyz name L.MAX_QPATH
      ∧ (decodeNewFont ops L noMip name fdFile).shadows.length = L.FONT_MAXSHADOW
      ∧ (∀ l, l < L.FONT_MAXSHADOW →
          ∃ sh, (decodeNewFont ops L noMip name fdFile).shadows[l]? = some sh
            ∧ sh.margin = (readInt fdFile
                (fontInfoSize L + l * shadowSize L + L.GLYPHS_PER_FONT * glyphSize L)).1
            ∧ sh.available = decide ((readInt fdFile
                (fontInfoSize L + l * shadowSize L + L.GLYPHS_PER_FONT * glyphSize L + 4)).1 = 1)
            ∧ sh.glyphs.length = L.GLYPHS_PER_FONT
            ∧ ∀ j, j < L.GLYPHS_PER_FONT →
                sh.glyphs[j]? = some (withHandle L noMip sh.available j
                  (glyphAt ops L fdFile (fontInfoSize L + l * shadowSize L + j * glyphSize L)))) := by
  obtain ⟨g1, g2, g3⟩ := readGlyphs_layout ops L fdFile L.GLYPHS_PER_FONT 0
  rw [Nat.zero_add] at g1
  obtain ⟨s1, s2, s3⟩ := readShadows_layout ops L fdFile L.FONT_MAXSHADOW (fontInfoSize L)
  have hfsize : fontInfoSize L = L.GLYPHS_PER_FONT * glyphSize L + 4 + L.MAX_QPATH := rfl
  have hdec : decodeNewFont ops L noMip name fdFile
      = { glyphs := registerGlyphShaders L noMip (readGlyphs ops L fdFile L.GLYPHS_PER_FONT 0).1,
          glyphScale := (readFloat ops fdFile (L.GLYPHS_PER_FONT * glyphSize L)).1,
          name := Q_strncpyz name L.MAX_QPATH,
          shadows := (readShadows ops L fdFile L.FONT_MAXSHADOW (fontInfoSize L)).1.map (fun sh =>
            if sh.available then { sh with glyphs := registerGlyphShaders L noMip sh.glyphs }
            else sh) } := by
    simp only [decodeNewFont, readFloat, g1, ← hfsize]
  refine ⟨?_, ?_, ?_, ?_, ?_, ?_⟩
  · rw [hdec]
    simp only [registerGlyphShaders, updateRange_length, g2]
  · intro i hi
    rw [hdec]
    have h := g3 i hi
    rw [Nat.zero_add] at h
    exact registerGlyphShaders_getElem? L noMip _ i _ h
  · rw [hdec]
  · rw [hdec]
  · rw [hdec]
    simp only [List.length_map, s2]
  · intro l hl
    obtain ⟨_, m1, m2, m3, m4⟩ := readShadow_layout ops L fdFile (fontInfoSize L + l * shadowSize L)
    have hsl := s3 l hl
    generalize (readShadow ops L fdFile (fontInfoSize L + l * shadowSize L)).1 = sh0
      at m1 m2 m3 m4 hsl
    by_cases hav : sh0.available = true
    · refine ⟨{ sh0 with glyphs := registerGlyphShaders L noMip sh0.glyphs }, ?_, m1, m2, ?_, ?_⟩
      · rw [hdec]
        simp only [List.getElem?_map, hsl, Option.map_some', hav, if_true]
      · simp only [registerGlyphShaders, updateRange_length, m3]
      · intro j hj
        simp only []
        rw [registerGlyphShaders_getElem? L noMip _ j _ (m4 j hj), hav]
    · refine ⟨sh0, ?_, m1, m2, m3, ?_⟩
      · rw [hdec]
        simp only [List.getElem?_map, hsl, Option.map_some', if_neg hav]
      · intro j hj
        rw [m4 j hj, withHandle, if_neg (fun h => hav h.1)]

/-- An accepted length test names the file that is decoded. -/
theorem lengthIs_file (fs : Files) (name : List Nat) (size : Nat)
    (h : lengthIs fs name size = true) :
    ∃ fdFile, fs name = some fdFile ∧ fdFile.length = size := by
  unfold lengthIs at h
  cases hf : fs name with
  | none => rw [hf] at h; exact absurd h (by simp)
  | some d =>
    rw [hf] at h
    exact ⟨d, rfl, by simpa using h⟩

theorem lengthIs_write (fs : Files) (name data : List Nat) (size : Nat)
    (h : data.length ≠ size) : lengthIs (fs.write name data) name size = false := by
  simp [lengthIs, Files.write, h]

/-- A call of `RE_RegisterFont` whose cache file is not accepted: what it does
not depend on and what it reads. -/
theorem registerFont_rebuild {F : Type} (w : World F) (L : Layout) (fuel : Nat) (st : State F)
    (ch : Nat) (rest : List Nat) (pointSize : Int) (font : fontInfo_t F)
    (hcap : st.registeredFontCount < MAX_FONTS)
    (hmiss : findRegistered st (legacyKey (if pointSize ≤ 0 then 12 else pointSize)) = none)
    (hlen : lengthIs st.files (legacyKey (if pointSize ≤ 0 then 12 else pointSize))
      (fontInfoSize L) = false) :
    RE_RegisterFont w L fuel st (some (ch :: rest)) pointSize font
        = rebuildFont w L fuel
            (st.log (Event.fsLength (legacyKey (if pointSize ≤ 0 then 12 else pointSize))))
            (ch :: rest) (if pointSize ≤ 0 then 12 else pointSize) (zeroFont w.ops L)
      ∧ (∀ r, RE_RegisterFont w L fuel st (some (ch :: rest)) pointSize font = some r →
          ∃ ev, r.1.trace = st.trace ++ ev ∧ ∀ n, Event.fsRead n ∈ ev → n = ch :: rest)
      ∧ (∀ data, data.length ≠ fontInfoSize L →
          legacyKey (if pointSize ≤ 0 then 12 else pointSize) ≠ ch :: rest →
          ∃ g, RE_RegisterFont w L fuel
                { st with files := st.files.write (legacyKey (if pointSize ≤ 0 then 12 else pointSize)) data }
                (some (ch :: rest)) pointSize font
              = (RE_RegisterFont w L fuel st (some (ch :: rest)) pointSize font).map
                  (fun r => ({ r.1 with files := g }, r.2))) := by
  have hnot : ¬ st.registeredFontCount ≥ MAX_FONTS := by omega
  have heq : RE_RegisterFont w L fuel st (some (ch :: rest)) pointSize font
      = rebuildFont w L fuel
          (st.log (Event.fsLength (legacyKey (if pointSize ≤ 0 then 12 else pointSize))))
          (ch :: rest) (if pointSize ≤ 0 then 12 else pointSize) (zeroFont w.ops L) := by
    simp only [RE_RegisterFont, hmiss, hnot, if_false, State.log, hlen, Bool.false_eq_true]
  refine ⟨heq, ?_, ?_⟩
  · intro r hr
    rw [heq] at hr
    obtain ⟨ev, e, n1⟩ := rebuildFont_reads w L fuel _ _ _ _ r hr
    refine ⟨[Event.fsLength (legacyKey (if pointSize ≤ 0 then 12 else pointSize))] ++ ev, ?_, ?_⟩
    · rw [e]
      simp only [State.log, List.append_assoc]
    · intro n hn
      rcases List.mem_append.1 hn with hn | hn
      · simp at hn
      · exact n1 n hn
  · intro data hdata hne
    have hmiss2 : findRegistered
        { st with files := st.files.write (legacyKey (if pointSize ≤ 0 then 12 else pointSize)) data }
        (legacyKey (if pointSize ≤ 0 then 12 else pointSize)) = none := hmiss
    have hlen2 := lengthIs_write st.files
      (legacyKey (if pointSize ≤ 0 then 12 else pointSize)) data (fontInfoSize L) hdata
    have heq2 : RE_RegisterFont w L fuel
        { st with files := st.files.write (legacyKey (if pointSize ≤ 0 then 12 else pointSize)) data }
        (some (ch :: rest)) pointSize font
        = rebuildFont w L fuel
          { (st.log (Event.fsLength (legacyKey (if pointSize ≤ 0 then 12 else pointSize)))) with
            files := st.files.write (legacyKey (if pointSize ≤ 0 then 12 else pointSize)) data }
          (ch :: rest) (if pointSize ≤ 0 then 12 else pointSize) (zeroFont w.ops L) := by
      simp only [RE_RegisterFont, hmiss2, hnot, if_false, State.log, hlen2, Bool.false_eq_true]
    rw [heq2, heq]
    apply rebuildFont_files
    simp only [Files.write, State.log]
    rw [if_neg (fun h => hne h.symm)]

/-- The same for `RE_RegisterNewFont`. -/
theorem registerNewFont_rebuild {F : Type} (w : World F) (L : Layout) (fuel : Nat) (st : State F)
    (ch : Nat) (rest : List Nat) (simpleName : List Nat) (pointSize : Int)
    (font : newFontInfo_t F) (hcap : st.registeredFontCount < MAX_FONTS)
    (hmiss : findRegistered st (newKey simpleName (if pointSize ≤ 0 then 12 else pointSize))
      = none)
    (hlen : lengthIs st.files (newKey simpleName (if pointSize ≤ 0 then 12 else pointSize))
      (newFontInfoSize L) = false) :
    RE_RegisterNewFont w L fuel st (some (ch :: rest)) simpleName pointSize font
        = rebuildNewFont w L fuel
            (st.log (Event.fsLength (newKey simpleName (if pointSize ≤ 0 then 12 else pointSize))))
            (ch :: rest) simpleName (if pointSize ≤ 0 then 12 else pointSize)
            (zeroNewFont w.ops L)
      ∧ (∀ r, RE_RegisterNewFont w L fuel st (some (ch :: rest)) simpleName pointSize font
            = some r →
          ∃ ev, r.1.trace = st.trace ++ ev ∧ ∀ n, Event.fsRead n ∈ ev → n = ch :: rest)
      ∧ (∀ data, data.length ≠ newFontInfoSize L →
          newKey simpleName (if pointSize ≤ 0 then 12 else pointSize) ≠ ch :: rest →
          ∃ g, RE_RegisterNewFont w L fuel
                { st with files := st.files.write (newKey simpleName (if pointSize ≤ 0 then 12 else pointSize)) data }
                (some (ch :: rest)) simpleName pointSize font
              = (RE_RegisterNewFont w L fuel st (some (ch :: rest)) simpleName pointSize font).map
                  (fun r => ({ r.1 with files := g }, r.2))) := by
  have hnot : ¬ st.registeredFontCount ≥ MAX_FONTS := by omega
  have heq : RE_RegisterNewFont w L fuel st (some (ch :: rest)) simpleName pointSize font
      = rebuildNewFont w L fuel
          (st.log (Event.fsLength (newKey simpleName (if pointSize ≤ 0 then 12 else pointSize))))
          (ch :: rest) simpleName (if pointSize ≤ 0 then 12 else pointSize)
          (zeroNewFont w.ops L) := by
    simp only [RE_RegisterNewFont, hmiss, hnot, if_false, State.log, hlen, Bool.false_eq_true]
  refine ⟨heq, ?_, ?_⟩
  · intro r hr
    rw [heq] at hr
    obtain ⟨ev, e, n1⟩ := rebuildNewFont_reads w L fuel _ _ _ _ _ r hr
    refine ⟨[Event.fsLength (newKey simpleName (if pointSize ≤ 0 then 12 else pointSize))] ++ ev,
      ?_, ?_⟩
    · rw [e]
      simp only [State.log, List.append_assoc]
    · intro n hn
      rcases List.mem_append.1 hn with hn | hn
      · simp at hn
      · exact n1 n hn
  · intro data hdata hne
    have hmiss2 : findRegistered
        { st with files := st.files.write (newKey simpleName (if pointSize ≤ 0 then 12 else pointSize)) data }
        (newKey simpleName (if pointSize ≤ 0 then 12 else pointSize)) = none := hmiss
    have hlen2 := lengthIs_write st.files
      (newKey simpleName (if pointSize ≤ 0 then 12 else pointSize)) data (newFontInfoSize L) hdata
    have heq2 : RE_RegisterNewFont w L fuel
        { st with files := st.files.write (newKey simpleName (if pointSize ≤ 0 then 12 else pointSize)) data }
        (some (ch :: rest)) simpleName pointSize font
        = rebuildNewFont w L fuel
          { (st.log (Event.fsLength (newKey simpleName (if pointSize ≤ 0 then 12 else pointSize)))) with
              files := st.files.write (newKey simpleName (if pointSize ≤ 0 then 12 else pointSize)) data }
          (ch :: rest) simpleName (if pointSize ≤ 0 then 12 else pointSize)
          (zeroNewFont w.ops L) := by
      simp only [RE_RegisterNewFont, hmiss2, hnot, if_false, State.log, hlen2, Bool.false_eq_true]
    rw [heq2, heq]
    apply rebuildNewFont_files
    simp only [Files.write, State.log]
    rw [if_neg (fun h => hne h.symm)]

/-- C8. Cache acceptance: on a registry miss with free capacity (and a
non-empty font name), for each entry point. When the length of the cache file
equals the fixed record size (`sizeof(fontInfo_t)` for `RE_RegisterFont`,
`sizeof(newFontInfo_t)` for `RE_RegisterNewFont`), that file is read and
decoded: glyph `i` of the returned record holds the fields that stand in the
file at offset `i * glyphSize` (with the registered shader handle for the
rendered range), `glyphScale` the `float` that follows the glyphs, the name is
the cache key, for `RE_RegisterNewFont` shadow level `l` holds the glyphs,
`margin` and flag that stand from offset `sizeof(fontInfo_t) + l * shadowSize`;
the record is stored at index `registeredFontCount`, the count grows by one, and
the trace of the call holds the read of the cache file and no rasterizer call.
When the length differs (or the file is missing) the call is the full rebuild
(`rebuildFont`, `rebuildNewFont`, entered with the cleared record); it reads no
file but the font file, and its outcome is the same, up to the files, whatever
other content of a length that is not accepted the cache file has: no field is
decoded from it. -/
theorem cache_acceptance {F : Type} (w : World F) (L : Layout) (fuel : Nat) (st : State F)
    (ch : Nat) (rest : List Nat) (simpleName : List Nat) (pointSize : Int)
    (font : fontInfo_t F) (newFont : newFontInfo_t F)
    (hcap : st.registeredFontCount < MAX_FONTS) :
    (findRegistered st (legacyKey (if pointSize ≤ 0 then 12 else pointSize)) = none →
      (lengthIs st.files (legacyKey (if pointSize ≤ 0 then 12 else pointSize)) (fontInfoSize L)
          = true →
        ∃ fdFile st' ev rec,
          st.files (legacyKey (if pointSize ≤ 0 then 12 else pointSize)) = some fdFile
          ∧ fdFile.length = fontInfoSize L
          ∧ RE_RegisterFont w L fuel st (some (ch :: rest)) pointSize font = some (st', rec)
          ∧ rec.glyphs.length = L.GLYPHS_PER_FONT
          ∧ (∀ i, i < L.GLYPHS_PER_FONT →
              rec.glyphs[i]? = some (withHandle L w.RE_RegisterShaderNoMip true i
                (glyphAt w.repr L fdFile (i * glyphSize L))))
          ∧ rec.glyphScale = (readFloat w.repr fdFile (L.GLYPHS_PER_FONT * glyphSize L)).1
          ∧ rec.name
              = Q_strncpyz (legacyKey (if pointSize ≤ 0 then 12 else pointSize)) L.MAX_QPATH
          ∧ st'.registeredFontCount = st.registeredFontCount + 1
          ∧ st'.registeredFont
              = st.registeredFont.set st.registeredFontCount ((zeroNewFont w.ops L).overlay rec)
          ∧ st'.files = st.files
          ∧ st'.trace = st.trace ++ ev
          ∧ Event.fsRead (legacyKey (if pointSize ≤ 0 then 12 else pointSize)) ∈ ev
          ∧ ∀ c b, Event.loadGlyph c b ∉ ev)
      ∧ (lengthIs st.files (legacyKey (if pointSize ≤ 0 then 12 else pointSize)) (fontInfoSize L)
            = false →
          RE_RegisterFont w L fuel st (some (ch :: rest)) pointSize font
              = rebuildFont w L fuel
                  (st.log (Event.fsLength (legacyKey (if pointSize ≤ 0 then 12 else pointSize))))
                  (ch :: rest) (if pointSize ≤ 0 then 12 else pointSize) (zeroFont w.ops L)
            ∧ (∀ r, RE_RegisterFont w L fuel st (some (ch :: rest)) pointSize font = some r →
                ∃ ev, r.1.trace = st.trace ++ ev ∧ ∀ n, Event.fsRead n ∈ ev → n = ch :: rest)
            ∧ (∀ data, data.length ≠ fontInfoSize L →
                legacyKey (if pointSize ≤ 0 then 12 else pointSize) ≠ ch :: rest →
                ∃ g, RE_RegisterFont w L fuel
                      { st with files := st.files.write (legacyKey (if pointSize ≤ 0 then 12 else pointSize)) data }
                      (some (ch :: rest)) pointSize font
                    = (RE_RegisterFont w L fuel st (some (ch :: rest)) pointSize font).map
                        (fun r => ({ r.1 with files := g }, r.2)))))
      ∧ (findRegistered st (newKey simpleName (if pointSize ≤ 0 then 12 else pointSize)) = none →
        (lengthIs st.files (newKey simpleName (if pointSize ≤ 0 then 12 else pointSize))
            (newFontInfoSize L) = true →
          ∃ fdFile st' ev rec,
            st.files (newKey simpleName (if pointSize ≤ 0 then 12 else pointSize)) = some fdFile
            ∧ fdFile.length = newFontInfoSize L
            ∧ RE_RegisterNewFont w L fuel st (some (ch :: rest)) simpleName pointSize newFont
                = some (st', rec)
            ∧ rec.glyphs.length = L.GLYPHS_PER_FONT
            ∧ (∀ i, i < L.GLYPHS_PER_FONT →
                rec.glyphs[i]? = some (withHandle L w.RE_RegisterShaderNoMip true i
                  (glyphAt w.repr L fdFile (i * glyphSize L))))
            ∧ rec.glyphScale = (readFloat w.repr fdFile (L.GLYPHS_PER_FONT * glyphSize L)).1
            ∧ rec.name
                = Q_strncpyz (newKey simpleName (if pointSize ≤ 0 then 12 else pointSize))
                    L.MAX_QPATH
            ∧ rec.shadows.length = L.FONT_MAXSHADOW
            ∧ (∀ l, l < L.FONT_MAXSHADOW →
                ∃ sh, rec.shadows[l]? = some sh
                  ∧ sh.margin = (readInt fdFile
                      (fontInfoSize L + l * shadowSize L + L.GLYPHS_PER_FONT * glyphSize L)).1
                  ∧ sh.available = decide ((readInt fdFile
                      (fontInfoSize L + l * shadowSize L + L.GLYPHS_PER_FONT * glyphSize L + 4)).1
                        = 1)
                  ∧ sh.glyphs.length = L.GLYPHS_PER_FONT
                  ∧ ∀ j, j < L.GLYPHS_PER_FONT →
                      sh.glyphs[j]? = some (withHandle L w.RE_RegisterShaderNoMip sh.available j
                        (glyphAt w.repr L fdFile
                          (fontInfoSize L + l * shadowSize L + j * glyphSize L))))
            ∧ st'.registeredFontCount = st.registeredFontCount + 1
            ∧ st'.registeredFont = st.registeredFont.set st.registeredFontCount rec
            ∧ st'.files = st.files
            ∧ st'.trace = st.trace ++ ev
            ∧ Event.fsRead (newKey simpleName (if pointSize ≤ 0 then 12 else pointSize)) ∈ ev
            ∧ ∀ c b, Event.loadGlyph c b ∉ ev)
        ∧ (lengthIs st.files (newKey simpleName (if pointSize ≤ 0 then 12 else pointSize))
              (newFontInfoSize L) = false →
            RE_RegisterNewFont w L fuel st (some (ch :: rest)) simpleName pointSize newFont
                = rebuildNewFont w L fuel
                    (st.log (Event.fsLength
                      (newKey simpleName (if pointSize ≤ 0 then 12 else pointSize))))
                    (ch :: rest) simpleName (if pointSize ≤ 0 then 12 else pointSize)
                    (zeroNewFont w.ops L)
              ∧ (∀ r, RE_RegisterNewFont w L fuel st (some (ch :: rest)) simpleName pointSize
                    newFont = some r →
                  ∃ ev, r.1.trace = st.trace ++ ev ∧ ∀ n, Event.fsRead n ∈ ev → n = ch :: rest)
              ∧ (∀ data, data.length ≠ newFontInfoSize L →
                  newKey simpleName (if pointSize ≤ 0 then 12 else pointSize) ≠ ch :: rest →
                  ∃ g, RE_RegisterNewFont w L fuel
                        { st with files := st.files.write (newKey simpleName (if pointSize ≤ 0 then 12 else pointSize)) data }
                        (some (ch :: rest)) simpleName pointSize newFont
                      = (RE_RegisterNewFont w L fuel st (some (ch :: rest)) simpleName pointSize
                          newFont).map (fun r => ({ r.1 with files := g }, r.2))))) := by
  have hnot : ¬ st.registeredFontCount ≥ MAX_FONTS := by omega
  refine ⟨fun hmiss => ⟨?_, ?_⟩, fun hmiss => ⟨?_, ?_⟩⟩
  · intro hlen
    obtain ⟨fdFile, hfile, hsize⟩ := lengthIs_file _ _ _ hlen
    obtain ⟨d1, d2, d3, d4⟩ := decodeFont_fields w.repr L w.RE_RegisterShaderNoMip
      (legacyKey (if pointSize ≤ 0 then 12 else pointSize)) fdFile
    refine ⟨fdFile, { st with
        registeredFontCount := st.registeredFontCount + 1
        registeredFont := st.registeredFont.set st.registeredFontCount
          ((zeroNewFont w.ops L).overlay (decodeFont w.repr L w.RE_RegisterShaderNoMip
            (legacyKey (if pointSize ≤ 0 then 12 else pointSize)) fdFile))
        trace := st.trace ++ ([Event.fsLength (legacyKey (if pointSize ≤ 0 then 12 else pointSize)),
          Event.fsRead (legacyKey (if pointSize ≤ 0 then 12 else pointSize))]
          ++ (((decodeFont w.repr L w.RE_RegisterShaderNoMip
            (legacyKey (if pointSize ≤ 0 then 12 else pointSize)) fdFile).glyphs.drop
              L.GLYPH_START).take (L.GLYPH_END + 1 - L.GLYPH_START)).map
                (fun g => Event.shaderNoMip g.shaderName)) },
      _, decodeFont w.repr L w.RE_RegisterShaderNoMip
            (legacyKey (if pointSize ≤ 0 then 12 else pointSize)) fdFile,
      hfile, hsize, ?_, d1, d2, d3, d4, rfl, rfl, rfl, rfl, ?_, ?_⟩
    · simp only [RE_RegisterFont, hmiss, hnot, if_false, State.log, hlen, if_true, hfile,
        Option.getD_some, List.append_assoc, List.cons_append, List.nil_append,
        List.singleton_append]
    · simp
    · intro c b hmem
      simp only [List.mem_append, List.mem_cons, List.mem_singleton, List.not_mem_nil, or_false,
        reduceCtorEq, false_or] at hmem
      exact loadGlyph_not_mem_shaders _ c b hmem
  · intro hlen
    exact registerFont_rebuild w L fuel st ch rest pointSize font hcap hmiss hlen
  · intro hlen
    obtain ⟨fdFile, hfile, hsize⟩ := lengthIs_file _ _ _ hlen
    obtain ⟨d1, d2, d3, d4, d5, d6⟩ := decodeNewFont_fields w.repr L w.RE_RegisterShaderNoMip
      (newKey simpleName (if pointSize ≤ 0 then 12 else pointSize)) fdFile
    refine ⟨fdFile, { st with
        registeredFontCount := st.registeredFontCount + 1
        registeredFont := st.registeredFont.set st.registeredFontCount
          (decodeNewFont w.repr L w.RE_RegisterShaderNoMip
            (newKey simpleName (if pointSize ≤ 0 then 12 else pointSize)) fdFile)
        trace := st.trace ++ ([Event.fsLength (newKey simpleName (if pointSize ≤ 0 then 12 else pointSize)),
          Event.fsRead (newKey simpleName (if pointSize ≤ 0 then 12 else pointSize))]
          ++ noMipTrace L (decodeNewFont w.repr L w.RE_RegisterShaderNoMip
            (newKey simpleName (if pointSize ≤ 0 then 12 else pointSize)) fdFile)) },
      _, decodeNewFont w.repr L w.RE_RegisterShaderNoMip
            (newKey simpleName (if pointSize ≤ 0 then 12 else pointSize)) fdFile,
      hfile, hsize, ?_, d1, d2, d3, d4, d5, d6, rfl, rfl, rfl, rfl, ?_, ?_⟩
    · simp only [RE_RegisterNewFont, hmiss, hnot, if_false, State.log, hlen, if_true, hfile,
        Option.getD_some, List.append_assoc, List.cons_append, List.nil_append,
        List.singleton_append]
    · simp
    · intro c b hmem
      simp only [List.mem_append, List.mem_cons, List.mem_singleton, List.not_mem_nil, or_false,
        reduceCtorEq, false_or] at hmem
      exact loadGlyph_not_mem_noMipTrace L _ c b hmem
  · intro hlen
    exact registerNewFont_rebuild w L fuel st ch rest simpleName pointSize newFont hcap hmiss hlen

set_option maxRecDepth 100000 in
/-- C8 at concrete inputs, with the object representation of a `float` taken as
IEEE 754 binary32. Over `cacheState` the legacy cache file for point size 12
has exactly `sizeof(fontInfo_t)` = 308 bytes, each `0x41`: it is decoded, every
`int` field is `0x41414141`, every `float` field the value `12665153 / 2^20`
of that pattern, the shader names are 31 bytes `0x41`, and the glyphs of the
rendered range carry the registered handle 3. Over `newCacheState` the cache
file of `RE_RegisterNewFont` has `sizeof(newFontInfo_t)` = 556 bytes and is
decoded with its shadow level. Over `demoState` there is no cache file: both
entry points rebuild, read the font file only and call the rasterizer, and
they do the same when a cache file of 100 bytes is there. -/
theorem cache_acceptance_witness :
    (cacheState.registeredFontCount < MAX_FONTS
      ∧ findRegistered cacheState (legacyKey 12) = none
      ∧ lengthIs cacheState.files (legacyKey 12) (fontInfoSize tinyLayout) = true
      ∧ cacheState.files (legacyKey 12) = some (List.replicate 308 65)
      ∧ (∃ st' ev rec,
          RE_RegisterFont (demoWorld false) tinyLayout 10 cacheState (some (str "fonts/a.ttf")) 12
              (zeroFont exactOps tinyLayout) = some (st', rec)
          ∧ (∀ i, i < 3 → rec.glyphs[i]? = some (withHandle tinyLayout (fun _ => 3) true i
              (glyphAt ieeeRepr tinyLayout (List.replicate 308 65) (i * 80))))
          ∧ rec.glyphScale = 12665153 / 1048576
          ∧ rec.name = str "fonts/fontImage_12.dat"
          ∧ st'.registeredFontCount = 1
          ∧ st'.trace = cacheState.trace ++ ev
          ∧ Event.fsRead (legacyKey 12) ∈ ev
          ∧ ∀ c b, Event.loadGlyph c b ∉ ev)
      ∧ (glyphAt ieeeRepr tinyLayout (List.replicate 308 65) 80).s = 12665153 / 1048576
      ∧ (RE_RegisterFont (demoWorld false) tinyLayout 10 cacheState (some (str "fonts/a.ttf")) 12
            (zeroFont exactOps tinyLayout)).map
          (fun r => (r.1.registeredFontCount, r.2.name,
            r.2.glyphs.map (fun g => [g.height, g.top, g.glyph]),
            r.2.glyphs.map (fun g => g.shaderName)))
          = some (1, str "fonts/fontImage_12.dat",
              [[1094795585, 1094795585, 1094795585], [1094795585, 1094795585, 3],
               [1094795585, 1094795585, 3]],
              List.replicate 3 (List.replicate 31 65)))
    ∧ (newCacheState.registeredFontCount < MAX_FONTS
      ∧ findRegistered newCacheState (newKey (str "a") 12) = none
      ∧ lengthIs newCacheState.files (newKey (str "a") 12) (newFontInfoSize tinyLayout) = true
      ∧ (∃ st' rec,
          RE_RegisterNewFont (demoWorld false) tinyLayout 10 newCacheState
              (some (str "fonts/a.ttf")) (str "a") 12 (zeroNewFont exactOps tinyLayout)
            = some (st', rec)
          ∧ (∀ i, i < 3 → rec.glyphs[i]? = some (withHandle tinyLayout (fun _ => 3) true i
              (glyphAt ieeeRepr tinyLayout layoutFile (i * 80))))
          ∧ st'.registeredFontCount = 1)
      ∧ (RE_RegisterNewFont (demoWorld false) tinyLayout 10 newCacheState
            (some (str "fonts/a.ttf")) (str "a") 12 (zeroNewFont exactOps tinyLayout)).map
          (fun r => (r.1.registeredFontCount, r.2.name,
            r.2.glyphs.map (fun g => [g.height, g.glyph])))
          = some (1, str "fonts/a_12.dat",
              [[50462976, 791555372], [1397903696, 3], [-1549622880, 3]])
      ∧ (RE_RegisterNewFont (demoWorld false) tinyLayout 10 newCacheState
            (some (str "fonts/a.ttf")) (str "a") 12 (zeroNewFont exactOps tinyLayout)).map
          (fun r => (r.2.shadows.map (fun sh => sh.margin),
            r.2.shadows.map (fun sh => sh.available)))
          = some ([825241390], [false])
      ∧ (RE_RegisterNewFont (demoWorld false) tinyLayout 10 newCacheState
            (some (str "fonts/a.ttf")) (str "a") 12 (zeroNewFont exactOps tinyLayout)).map
          (fun r => r.2.shadows.flatMap (fun sh => sh.glyphs.map (fun g => [g.height, g.glyph])))
          = some [[1010514489, 1751606885], [-1937012087, -1195919691], [-589571367, 218893066]])
    ∧ ((demoState false).registeredFontCount < MAX_FONTS
      ∧ findRegistered (demoState false) (legacyKey 12) = none
      ∧ lengthIs (demoState false).files (legacyKey 12) (fontInfoSize tinyLayout) = false
      ∧ RE_RegisterFont (demoWorld false) tinyLayout 10 (demoState false)
            (some (str "fonts/a.ttf")) 12 (zeroFont exactOps tinyLayout)
          = rebuildFont (demoWorld false) tinyLayout 10
              ((demoState false).log (Event.fsLength (legacyKey 12)))
              (str "fonts/a.ttf") 12 (zeroFont exactOps tinyLayout)
      ∧ (∃ g, RE_RegisterFont (demoWorld false) tinyLayout 10
              { demoState false with files := (demoState false).files.write (legacyKey 12) (List.replicate 100 65) }
              (some (str "fonts/a.ttf")) 12 (zeroFont exactOps tinyLayout)
            = (RE_RegisterFont (demoWorld false) tinyLayout 10 (demoState false)
                (some (str "fonts/a.ttf")) 12 (zeroFont exactOps tinyLayout)).map
                  (fun r => ({ r.1 with files := g }, r.2)))
      ∧ (RE_RegisterFont (demoWorld false) tinyLayout 10 (demoState false)
            (some (str "fonts/a.ttf")) 12 (zeroFont exactOps tinyLayout)).map
          (fun r => (r.1.registeredFontCount, r.2.name,
            [decide (Event.fsRead (legacyKey 12) ∈ r.1.trace),
             decide (Event.fsRead (str "fonts/a.ttf") ∈ r.1.trace),
             decide (Event.loadGlyph 2 false ∈ r.1.trace)],
            r.2.glyphs.map (fun g => [g.height, g.pitch, g.glyph])))
          = some (1, [], [false, true, true], [[0, 0, 0], [0, 0, 7], [10, 8, 7]])
      ∧ (RE_RegisterFont (demoWorld false) tinyLayout 10
            { demoState false with files := (demoState false).files.write (legacyKey 12) (List.replicate 100 65) }
            (some (str "fonts/a.ttf")) 12 (zeroFont exactOps tinyLayout)).map
          (fun r => (r.1.registeredFontCount, r.2.name,
            [decide (Event.fsRead (legacyKey 12) ∈ r.1.trace),
             decide (Event.fsRead (str "fonts/a.ttf") ∈ r.1.trace),
             decide (Event.loadGlyph 2 false ∈ r.1.trace)],
            r.2.glyphs.map (fun g => [g.height, g.pitch, g.glyph])))
          = some (1, [], [false, true, true], [[0, 0, 0], [0, 0, 7], [10, 8, 7]]))
    ∧ ((flatState false).registeredFontCount < MAX_FONTS
      ∧ findRegistered (flatState false) (newKey (str "a") 12) = none
      ∧ lengthIs (flatState false).files (newKey (str "a") 12) (newFontInfoSize flatLayout) = false
      ∧ RE_RegisterNewFont (demoWorld false) flatLayout 10 (flatState false)
            (some (str "fonts/a.ttf")) (str "a") 12 (zeroNewFont exactOps flatLayout)
          = rebuildNewFont (demoWorld false) flatLayout 10
              ((flatState false).log (Event.fsLength (newKey (str "a") 12)))
              (str "fonts/a.ttf") (str "a") 12 (zeroNewFont exactOps flatLayout)
      ∧ (∃ g, RE_RegisterNewFont (demoWorld false) flatLayout 10
              { flatState false with files := (flatState false).files.write (newKey (str "a") 12) (List.replicate 100 65) }
              (some (str "fonts/a.ttf")) (str "a") 12 (zeroNewFont exactOps flatLayout)
            = (RE_RegisterNewFont (demoWorld false) flatLayout 10 (flatState false)
                (some (str "fonts/a.ttf")) (str "a") 12 (zeroNewFont exactOps flatLayout)).map
                  (fun r => ({ r.1 with files := g }, r.2)))
      ∧ (RE_RegisterNewFont (demoWorld false) flatLayout 10 (flatState false)
            (some (str "fonts/a.ttf")) (str "a") 12 (zeroNewFont exactOps flatLayout)).map
          (fun r => (r.1.registeredFontCount, r.2.name,
            [decide (Event.fsRead (newKey (str "a") 12) ∈ r.1.trace),
             decide (Event.fsRead (str "fonts/a.ttf") ∈ r.1.trace),
             decide (Event.loadGlyph 2 false ∈ r.1.trace)],
            r.2.glyphs.map (fun g => [g.height, g.pitch, g.glyph])))
          = some (1, [], [false, true, true], [[0, 0, 0], [0, 0, 7], [10, 8, 7]])
      ∧ (RE_RegisterNewFont (demoWorld false) flatLayout 10
            { flatState false with files := (flatState false).files.write (newKey (str "a") 12) (List.replicate 100 65) }
            (some (str "fonts/a.ttf")) (str "a") 12 (zeroNewFont exactOps flatLayout)).map
          (fun r => (r.1.registeredFontCount, r.2.name,
            [decide (Event.fsRead (newKey (str "a") 12) ∈ r.1.trace),
             decide (Event.fsRead (str "fonts/a.ttf") ∈ r.1.trace),
             decide (Event.loadGlyph 2 false ∈ r.1.trace)],
            r.2.glyphs.map (fun g => [g.height, g.pitch, g.glyph])))
          = some (1, [], [false, true, true], [[0, 0, 0], [0, 0, 7], [10, 8, 7]])) := by
  have h := cache_acceptance (demoWorld false) tinyLayout 10 cacheState 102 (str "onts/a.ttf")
    (str "a") 12 (zeroFont exactOps tinyLayout) (zeroNewFont exactOps tinyLayout) (by decide)
  have hn := cache_acceptance (demoWorld false) tinyLayout 10 newCacheState 102 (str "onts/a.ttf")
    (str "a") 12 (zeroFont exactOps tinyLayout) (zeroNewFont exactOps tinyLayout) (by decide)
  have hd := cache_acceptance (demoWorld false) tinyLayout 10 (demoState false) 102
    (str "onts/a.ttf") (str "a") 12 (zeroFont exactOps tinyLayout) (zeroNewFont exactOps tinyLayout)
    (by decide)
  have hf := cache_acceptance (demoWorld false) flatLayout 10 (flatState false) 102
    (str "onts/a.ttf") (str "a") 12 (zeroFont exactOps flatLayout) (zeroNewFont exactOps flatLayout)
    (by decide)
  have hfile : cacheState.files (legacyKey 12) = some (List.replicate 308 65) := by decide
  have hnfile : newCacheState.files (newKey (str "a") 12) = some layoutFile := by decide
  have hval : ieeeValue 1094795585 = 12665153 / 1048576 := by
    norm_num [ieeeValue]
  have hw240 : word32 (List.replicate 308 65) 240 = 1094795585 := by decide
  have hw108 : word32 (List.replicate 308 65) (80 + 28) = 1094795585 := by decide
  have hmissL : findRegistered cacheState (legacyKey 12) = none := by decide
  have hlenL : lengthIs cacheState.files (legacyKey 12) (fontInfoSize tinyLayout) = true := by
    decide
  have hmissN : findRegistered newCacheState (newKey (str "a") 12) = none := by decide
  have hlenN : lengthIs newCacheState.files (newKey (str "a") 12) (newFontInfoSize tinyLayout)
      = true := by decide
  have hmissD : findRegistered (demoState false) (legacyKey 12) = none := by decide
  have hlenD : lengthIs (demoState false).files (legacyKey 12) (fontInfoSize tinyLayout)
      = false := by decide
  have hmissF : findRegistered (flatState false) (newKey (str "a") 12) = none := by decide
  have hlenF : lengthIs (flatState false).files (newKey (str "a") 12) (newFontInfoSize flatLayout)
      = false := by decide
  refine ⟨⟨by decide, hmissL, hlenL, hfile, ?_, ?_, by decide⟩,
    ⟨by decide, hmissN, hlenN, ?_, by decide, by decide, by decide⟩,
    ⟨by decide, hmissD, hlenD, ?_, ?_, by decide, by decide⟩,
    ⟨by decide, hmissF, hlenF, ?_, ?_, by decide, by decide⟩⟩
  · obtain ⟨fdFile, st', ev, rec, f1, _, f3, _, f5, f6, f7, f8, _, _, f11, f12, f13⟩ :=
      (h.1 hmissL).1 hlenL
    have hfd : fdFile = List.replicate 308 65 := by
      have e : cacheState.files (legacyKey (if (12 : Int) ≤ 0 then 12 else 12))
          = some (List.replicate 308 65) := hfile
      rw [e] at f1
      exact (Option.some.inj f1).symm
    subst hfd
    refine ⟨st', ev, rec, f3, f5, ?_, ?_, f8, f11, f12, f13⟩
    · rw [f6]
      show ieeeValue (word32 (List.replicate 308 65) 240) = 12665153 / 1048576
      rw [hw240, hval]
    · rw [f7]
      decide
  · show ieeeValue (word32 (List.replicate 308 65) (80 + 28)) = 12665153 / 1048576
    rw [hw108, hval]
  · obtain ⟨fdFile, st', ev, rec, f1, _, f3, _, f5, _, _, _, _, f8, _⟩ :=
      (hn.2 hmissN).1 hlenN
    have hfd : fdFile = layoutFile := by
      have e : newCacheState.files (newKey (str "a") (if (12 : Int) ≤ 0 then 12 else 12))
          = some layoutFile := hnfile
      rw [e] at f1
      exact (Option.some.inj f1).symm
    subst hfd
    exact ⟨st', rec, f3, f5, f8⟩
  · exact ((hd.1 hmissD).2 hlenD).1
  · exact ((hd.1 hmissD).2 hlenD).2.2 (List.replicate 100 65) (by decide) (by decide)
  · exact ((hf.2 hmissF).2 hlenF).1
  · exact ((hf.2 hmissF).2 hlenF).2.2 (List.replicate 100 65) (by decide) (by decide)

end TrFont
